import Mathlib

set_option linter.unusedSectionVars false
set_option linter.unusedVariables false

/-! # GIMLi local-to-global assembly: element matrices and element matrix maps

A shallow embedding of `core/src/elementmatrix.{h,cpp}`, `elementmatrixmap.cpp`,
`matrix.h` and `sparsematrix.h`.

Conventions of the embedding.

* `double` is an arbitrary field `R` (exact arithmetic); rounding is not modelled.
* `Index` (an unsigned machine word) is `ℕ`; sizes and ids stay far below the
  word size, wrap-around is not modelled.
* A `DenseMatrix` is what the class stores: `_rows`, `_cols` and the row-major
  buffer `_data`, entry `(i, j)` at `_cols * i + j`.  The buffer is a total
  function, so that a `resize` which keeps the old buffer keeps its content.
* `std::vector`, `IndexArray` and `RVector` are lists; a borrowed pointer
  (`_ent`, `_w`, `_x`) is an `Option` of the value it points to.
* Code that throws (`throwLengthError`, `log(Critical, ..)`, `THROW_TO_IMPL`,
  `std::vector::at`) or indexes outside a container returns `Except.error`.
* The mesh entity with its shape functions and the quadrature tables are
  external collaborators; they enter as the records `MeshEntity` and
  `IntegrationRules`.
-/

namespace GIMLI

/-- Failure kinds of the embedded code. -/
inductive Error where
  /-- Raised by `throwLengthError` (matrix.h). -/
  | lengthError
  /-- Raised by `log(Critical, ..)`. -/
  | critical
  /-- Raised by `log(Error, ..)`. -/
  | logError
  /-- Raised by `THROW_TO_IMPL`. -/
  | toImpl
  /-- An index outside a container, or a null pointer that is dereferenced. -/
  | outOfRange
  deriving DecidableEq

/-- Row-ordered dense matrix on one memory block (`DenseMatrix`, matrix.h):
the fields `_rows`, `_cols` and `_data`. -/
structure DenseMatrix (R : Type) where
  /-- Number of rows, `_rows`. -/
  rows : ℕ
  /-- Number of columns, `_cols`. -/
  cols : ℕ
  /-- Row-major buffer, `_data`. -/
  data : ℕ → R

namespace DenseMatrix

variable {R : Type} [Field R]

/-- The method `length()`: `_rows * _cols`. -/
def length (m : DenseMatrix R) : ℕ := m.rows * m.cols

/-- The default constructor `DenseMatrix()`: `resize(0, 0)` on no data. -/
def empty : DenseMatrix R := ⟨0, 0, fun _ => 0⟩

/-- The method `allocate_(rows, cols)`: a fresh zeroed block only when the new
length exceeds the current one, otherwise the old block is kept. -/
def allocate_ (m : DenseMatrix R) (rows cols : ℕ) : DenseMatrix R :=
  if rows * cols > m.rows * m.cols then ⟨rows, cols, fun _ => 0⟩
  else ⟨rows, cols, m.data⟩

/-- The method `resize(rows, cols)`. -/
def resize (m : DenseMatrix R) (rows cols : ℕ) : DenseMatrix R :=
  m.allocate_ rows cols

/-- The constructor `DenseMatrix(rows, cols)`. -/
def ofSize (rows cols : ℕ) : DenseMatrix R :=
  (empty : DenseMatrix R).resize rows cols

/-- Unchecked read `_data[_cols * i + j]`. -/
def val (m : DenseMatrix R) (i j : ℕ) : R := m.data (m.cols * i + j)

/-- Checked read `operator()(i, j) const`. -/
def get (m : DenseMatrix R) (i j : ℕ) : Except Error R :=
  if i ≥ m.rows ∨ j ≥ m.cols then .error .lengthError else .ok (m.val i j)

/-- Checked write `operator()(i, j) = v`, also `setVal(i, j, v)`. -/
def setVal (m : DenseMatrix R) (i j : ℕ) (v : R) : Except Error (DenseMatrix R) :=
  if i ≥ m.rows ∨ j ≥ m.cols then .error .lengthError
  else .ok { m with data := Function.update m.data (m.cols * i + j) v }

/-- The method `clean()` (`setZero()`): `memset` of `_rows * _cols` entries. -/
def clean (m : DenseMatrix R) : DenseMatrix R :=
  { m with data := fun k => if k < m.rows * m.cols then 0 else m.data k }

/-- The method `setZero()` of `MatrixBase`. -/
def setZero (m : DenseMatrix R) : DenseMatrix R := m.clean

/-- The method `copy_(mat)`: `resize` then `memcpy` of `length()` entries. -/
def copy_ (m src : DenseMatrix R) : DenseMatrix R :=
  let a := m.resize src.rows src.cols
  { a with data := fun k => if k < a.length then src.data k else a.data k }

/-- The assignment `operator=(mat)` for a different object. -/
def assign (m src : DenseMatrix R) : DenseMatrix R := m.copy_ src

/-- The copy constructor `DenseMatrix(mat)`. -/
def copy (src : DenseMatrix R) : DenseMatrix R := (empty : DenseMatrix R).copy_ src

/-- In-place `operator OP= (val)` with a scalar: loop over `length()` entries. -/
def opAssignScalar (op : R → R → R) (m : DenseMatrix R) (v : R) : DenseMatrix R :=
  { m with data := fun k => if k < m.length then op (m.data k) v else m.data k }

/-- Binary `operator * (A, v)`: `tmp(A); return tmp *= v`. -/
def mulScalar (A : DenseMatrix R) (v : R) : DenseMatrix R :=
  opAssignScalar (· * ·) (copy A) v

/-- In-place `operator OP= (A)` with a matrix (`DEFINE_UNARY_MOD_OPERATOR__`):
equal shapes work entry by entry; a one-row or one-column operand is
broadcast; a one-row or one-column `this` is widened to the shape of `A` with
`A[i] OP tmp`; any other pair of shapes throws. -/
def opAssign (op : R → R → R) (m A : DenseMatrix R) : Except Error (DenseMatrix R) :=
  if A.rows = m.rows ∧ A.cols = m.cols then
    .ok { m with data := fun k => if k < m.length then op (m.data k) (A.data k) else m.data k }
  else if A.rows = 1 ∧ A.cols = m.cols then
    .ok { m with data := fun k =>
            if k < m.length then op (m.data k) (A.data (k % m.cols)) else m.data k }
  else if A.cols = 1 ∧ A.rows = m.rows then
    .ok { m with data := fun k =>
            if k < m.length then op (m.data k) (A.data (k / m.cols)) else m.data k }
  else if m.rows = 1 ∧ m.cols = A.cols then
    let a := m.resize A.rows m.cols
    .ok { a with data := fun k =>
            if k < a.length then op (A.data k) (m.data (k % m.cols)) else a.data k }
  else if m.cols = 1 ∧ m.rows = A.rows then
    let a := m.resize m.rows A.cols
    .ok { a with data := fun k =>
            if k < a.length then op (A.data k) (m.data (k / A.cols)) else a.data k }
  else .error .lengthError

/-- In-place `operator += (A)`. -/
def addAssign (m A : DenseMatrix R) : Except Error (DenseMatrix R) :=
  opAssign (· + ·) m A

/-- The row view `row(i)` (`operator[]`): the `_cols` entries from `_cols * i`;
`ASSERT_THIS_SIZE(i)` rejects a row index outside the matrix. -/
def row (m : DenseMatrix R) (i : ℕ) : Except Error (ℕ → R) :=
  if i < m.rows then .ok (fun j => m.data (m.cols * i + j)) else .error .lengthError

/-- Write through the row view: `row(i) = v` (`setRow`), all `_cols` entries. -/
def setRow (m : DenseMatrix R) (i : ℕ) (v : ℕ → R) : Except Error (DenseMatrix R) :=
  if i < m.rows then
    .ok { m with data := fun k =>
            if m.cols * i ≤ k ∧ k < m.cols * i + m.cols then v (k - m.cols * i) else m.data k }
  else .error .lengthError

/-- Modelled from the spec: `Vector::setVal(vals, start, end)` on a row view
(vector.h is not part of the sources at hand); matrix.h documents the call as
`SET_MAT_ROW_SLICE(A, row, RVec, b, start, end)`, the assignment of `RVec * b`
to the columns `start .. end - 1` of the row.  A slice that leaves the row is
reported as an error. -/
def setRowSlice (m : DenseMatrix R) (i : ℕ) (v : ℕ → R) (start stop : ℕ) :
    Except Error (DenseMatrix R) :=
  if i < m.rows ∧ start ≤ stop ∧ stop ≤ m.cols then
    .ok { m with data := fun k =>
            if m.cols * i + start ≤ k ∧ k < m.cols * i + stop
            then v (k - (m.cols * i + start)) else m.data k }
  else .error .lengthError

/-- Modelled from the spec: `transAdd(a)`, documented in matrix.h as
`A += a.T` (its body is in matrix.cpp, not part of the sources at hand).
The sum is defined when `a.T` has the shape of `A`. -/
def transAdd (m a : DenseMatrix R) : Except Error (DenseMatrix R) :=
  if a.cols = m.rows ∧ a.rows = m.cols then
    .ok { m with data := fun k =>
            if k < m.length then m.data k + a.val (k % m.cols) (k / m.cols) else m.data k }
  else .error .lengthError

/-- Modelled from the spec: `A.transMult(B, C, alpha, beta)`, documented in
matrix.h as `C = alpha * (A.T*B) + beta * C` (its body is in matrix.cpp, not
part of the sources at hand).  The product is defined when `A` and `B` have
the same number of rows; `C` takes the shape of `A.T*B`. -/
def transMult (A B C : DenseMatrix R) (alpha beta : R) : Except Error (DenseMatrix R) :=
  if A.rows = B.rows then
    .ok { rows := A.cols, cols := B.cols,
          data := fun k =>
            if k < A.cols * B.cols then
              alpha * (∑ t in Finset.range A.rows, A.val t (k / B.cols) * B.val t (k % B.cols))
                + beta * C.data k
            else C.data k }
  else .error .lengthError

end DenseMatrix

/-- The counting loop `for (Index i = 0; i < n; i++) body`, the body being a
state transformer that may throw: the first `k` rounds, then round `k`. -/
def forLoop {σ : Type} (n : ℕ) (body : ℕ → σ → Except Error σ) (s : σ) : Except Error σ :=
  match n with
  | 0 => .ok s
  | k + 1 => (forLoop k body s).bind (body k)

/-- The call `resize(n, 0)` of `std::vector` / `IndexArray`: the first `n`
entries are kept, new entries are `0`. -/
def resizeIds (l : List ℕ) (n : ℕ) : List ℕ :=
  l.take n ++ List.replicate (n - l.length) 0

/-- The call `resize(n)` of `std::vector < RSmallMatrix >`: the first `n`
matrices are kept, new ones are default constructed. -/
def resizeMats {R : Type} [Field R] (l : List (DenseMatrix R)) (n : ℕ) :
    List (DenseMatrix R) :=
  l.take n ++ List.replicate (n - l.length) DenseMatrix.empty

/-- Modelled from the spec: `IndexArray::setVal(vals, start, end)` (vector.h is
not part of the sources at hand), the assignment of `vals` to the positions
`start .. end - 1`, as in `SET_MAT_ROW_SLICE` of matrix.h.  A slice that
leaves the array, or that `vals` cannot fill, is reported as an error. -/
def setIdSlice (l vals : List ℕ) (start stop : ℕ) : Except Error (List ℕ) :=
  if start ≤ stop ∧ stop ≤ l.length ∧ stop - start ≤ vals.length then
    .ok (l.take start ++ vals.take (stop - start) ++ l.drop stop)
  else .error .lengthError

/-- The type tags `MESH_*_RTTI` that the dispatchers switch on (their values
are declared outside the sources at hand; the case labels of one `switch` are
pairwise distinct). -/
inductive Rtti where
  | boundaryNode | edge | edgeCell | edge3 | edge3Cell
  | triangle | triangleFace | triangle6 | triangleFace6
  | quadrangle | quadrangleFace | quadrangle8 | quadrangleFace8
  | tetrahedron | tetrahedron10 | hexahedron | hexahedron20
  | triPrism | triPrism15
  /-- Any tag none of the dispatchers names. -/
  | other
  deriving DecidableEq

/-- What the code asks of a mesh entity and of its shape (external
collaborator, spec section 6).  `P` is the type of reference points. -/
structure MeshEntity (R P : Type) where
  /-- The address of the object; `_ent == &ent` compares addresses. -/
  addr : ℕ
  /-- The type tag `rtti()`. -/
  rtti : Rtti
  /-- The spatial dimension `dim()`. -/
  dim : ℕ
  /-- The node ids `ids()`, `node(i).id()`; `nodeCount()` is the length. -/
  ids : List ℕ
  /-- The coordinate `node(i).x()`. -/
  nodeX : ℕ → R
  /-- The coordinate `node(i).y()`. -/
  nodeY : ℕ → R
  /-- The measure `size()`. -/
  size : R
  /-- The measure `shape().domainSize()`. -/
  domainSize : R
  /-- The shape functions `N(point)`, one value per node. -/
  N : P → ℕ → R
  /-- The reference gradients `dNdL(point, axis)`, one value per node. -/
  dNdL : P → ℕ → ℕ → R
  /-- The entries `shape().drstdxyz(refAxis, physAxis)` of the inverse Jacobian. -/
  drstdxyz : ℕ → ℕ → R

/-- The method `nodeCount()`. -/
def MeshEntity.nodeCount {R P : Type} (ent : MeshEntity R P) : ℕ := ent.ids.length

/-- The quadrature tables `IntegrationRules::instance()` (external
collaborator): weights and abscissa for the shape of an entity and an order,
and the per-shape tables the legacy dispatchers use. -/
structure IntegrationRules (R P : Type) where
  /-- The table `weights(ent.shape(), order)`. -/
  weights : MeshEntity R P → ℕ → List R
  /-- The table `abscissa(ent.shape(), order)`. -/
  abscissa : MeshEntity R P → ℕ → List P
  /-- The table `edgWeights(order)`. -/
  edgWeights : ℕ → List R
  /-- The table `edgAbscissa(order)`. -/
  edgAbscissa : ℕ → List P
  /-- The table `triWeights(order)`. -/
  triWeights : ℕ → List R
  /-- The table `triAbscissa(order)`. -/
  triAbscissa : ℕ → List P
  /-- The table `quaWeights(order)`. -/
  quaWeights : ℕ → List R
  /-- The table `quaAbscissa(order)`. -/
  quaAbscissa : ℕ → List P
  /-- The table `tetWeights(order)`. -/
  tetWeights : ℕ → List R
  /-- The table `tetAbscissa(order)`. -/
  tetAbscissa : ℕ → List P
  /-- The table `hexWeights(order)`. -/
  hexWeights : ℕ → List R
  /-- The table `hexAbscissa(order)`. -/
  hexAbscissa : ℕ → List P
  /-- The table `priWeights(order)`. -/
  priWeights : ℕ → List R
  /-- The table `priAbscissa(order)`. -/
  priAbscissa : ℕ → List P

/-- The class `ElementMatrix < double >`: its data members (elementmatrix.h). -/
structure ElementMatrix (R P : Type) where
  /-- The integrated matrix `mat_`. -/
  mat_ : DenseMatrix R
  /-- The legacy ids `_ids`. -/
  _ids : List ℕ
  /-- The column ids `_idsC`. -/
  _idsC : List ℕ
  /-- The row ids `_idsR`. -/
  _idsR : List ℕ
  /-- The legacy cache `u2Cache_`, a map from `rtti()` to a matrix. -/
  u2Cache_ : List (Rtti × DenseMatrix R)
  /-- The legacy field size `_nDof`. -/
  _nDof : ℕ
  /-- The cached reference gradients `dNdr_`. -/
  dNdr_ : DenseMatrix R
  /-- The cached reference gradients `dNds_`. -/
  dNds_ : DenseMatrix R
  /-- The cached reference gradients `dNdt_`. -/
  dNdt_ : DenseMatrix R
  /-- The physical gradients `dNdx_`. -/
  dNdx_ : DenseMatrix R
  /-- The physical gradients `dNdy_`. -/
  dNdy_ : DenseMatrix R
  /-- The physical gradients `dNdz_`. -/
  dNdz_ : DenseMatrix R
  /-- The quadrature order `_order`. -/
  _order : ℕ
  /-- The number of field components `_nCoeff`. -/
  _nCoeff : ℕ
  /-- The stride `_dofPerCoeff`. -/
  _dofPerCoeff : ℕ
  /-- The shift `_dofOffset`. -/
  _dofOffset : ℕ
  /-- The borrowed entity `_ent`. -/
  _ent : Option (MeshEntity R P)
  /-- The borrowed weights `_w`. -/
  _w : Option (List R)
  /-- The borrowed quadrature points `_x`. -/
  _x : Option (List P)
  /-- The matrices per quadrature point `_matX` (basis images). -/
  _matX : List (DenseMatrix R)
  /-- The flag `_newStyle`. -/
  _newStyle : Bool
  /-- The flag `_div`. -/
  _div : Bool
  /-- The flag `_valid`. -/
  _valid : Bool
  /-- The flag `_elastic`. -/
  _elastic : Bool
  /-- The flag `_integrated`. -/
  _integrated : Bool

namespace ElementMatrix

variable {R P : Type} [Field R]

/-- The state of the data members before a constructor body runs: empty
containers and matrices, null pointers. -/
def blank : ElementMatrix R P :=
  { mat_ := DenseMatrix.empty, _ids := [], _idsC := [], _idsR := [], u2Cache_ := [],
    _nDof := 0, dNdr_ := DenseMatrix.empty, dNds_ := DenseMatrix.empty,
    dNdt_ := DenseMatrix.empty, dNdx_ := DenseMatrix.empty, dNdy_ := DenseMatrix.empty,
    dNdz_ := DenseMatrix.empty, _order := 0, _nCoeff := 0, _dofPerCoeff := 0,
    _dofOffset := 0, _ent := none, _w := none, _x := none, _matX := [],
    _newStyle := false, _div := false, _valid := false, _elastic := false,
    _integrated := false }

/-- The method `init(nCoeff, dofPerCoeff, dofOffset)`. -/
def init (E : ElementMatrix R P) (nCoeff dofPerCoeff dofOffset : ℕ) :
    Except Error (ElementMatrix R P) :=
  if nCoeff > 1 ∧ dofPerCoeff = 0 then .error .logError
  else .ok { E with _newStyle := true, _order := 0, _nCoeff := nCoeff,
                    _dofPerCoeff := dofPerCoeff, _dofOffset := dofOffset,
                    _ent := none, _w := none, _x := none, _div := false,
                    _integrated := false, _elastic := false, _valid := false }

/-- The old interface constructor `ElementMatrix(Index dof = 0)`. -/
def ofDof (dof : ℕ) : Except Error (ElementMatrix R P) :=
  (blank.init 0 0 0).map fun E => { E with _nDof := dof, _newStyle := false }

/-- The constructor `ElementMatrix(nCoeff, dofPerCoeff, dofOffset)`. -/
def ofCoeff (nCoeff dofPerCoeff dofOffset : ℕ) : Except Error (ElementMatrix R P) :=
  blank.init nCoeff dofPerCoeff dofOffset

/-- The q-th basis image `matX()[q]`, the empty matrix outside the vector. -/
def matXq (E : ElementMatrix R P) (q : ℕ) : DenseMatrix R :=
  E._matX.getD q DenseMatrix.empty

/-- The method `setIds(idsR, idsC)`. -/
def setIds (E : ElementMatrix R P) (idsR idsC : List ℕ) : ElementMatrix R P :=
  { E with _idsR := idsR, _idsC := idsC, _ids := idsR }

/-- The method `copyFrom(E, withMat)`. -/
def copyFrom (T E : ElementMatrix R P) (withMat : Bool) : ElementMatrix R P :=
  let T1 := { T with _newStyle := true, _order := E._order, _nCoeff := E._nCoeff,
                     _dofPerCoeff := E._dofPerCoeff, _dofOffset := E._dofOffset,
                     _ent := E._ent, _w := E._w, _x := E._x, _matX := E._matX,
                     _idsC := E._idsC, _idsR := E._idsR, _div := E._div,
                     _elastic := E._elastic }
  let T2 := if withMat = true then
      { T1 with _integrated := E._integrated, mat_ := T1.mat_.assign E.mat_ }
    else
      { T1 with _integrated := false, mat_ := T1.mat_.resize E.mat_.rows E.mat_.cols }
  { T2 with _valid := E._valid }

/-- The method `resize(rows, cols, setIds)`. -/
def resize (E : ElementMatrix R P) (rows cols : ℕ) (setIds : Bool) :
    Except Error (ElementMatrix R P) :=
  let cols := if cols = 0 then rows else cols
  let E1 := { E with _idsR := resizeIds E._idsR rows, _idsC := resizeIds E._idsC cols,
                     _ids := resizeIds E._ids rows, mat_ := E.mat_.resize rows cols }
  match E1._ent with
  | some ent =>
    if setIds = true then
      let nVerts := ent.nodeCount
      (forLoop E1._nCoeff (fun i idsR =>
          setIdSlice idsR (ent.ids.map (· + i * E1._dofPerCoeff + E1._dofOffset))
            (i * nVerts) ((i + 1) * nVerts)) E1._idsR).map
        fun idsR => { E1 with _idsR := idsR }
    else .ok E1
  | none => .ok E1

/-- One round of the loop of `integrate()`:
`mat_.transAdd(_matX[i] * (w[i] * _ent->size()))`. -/
def integrateStep (E : ElementMatrix R P) (w : List R) (i : ℕ) (M : DenseMatrix R) :
    Except Error (DenseMatrix R) :=
  match E._matX[i]?, w[i]?, E._ent with
  | some X, some wi, some ent => M.transAdd (X.mulScalar (wi * ent.size))
  | _, _, _ => .error .outOfRange

/-- The method `integrate()`. -/
def integrate (E : ElementMatrix R P) : Except Error (ElementMatrix R P) :=
  if E._newStyle = true ∧ E._integrated = false ∧ E._valid = true then
    match E._w with
    | none => .error .outOfRange
    | some w =>
      (forLoop w.length (integrateStep E w) E.mat_.setZero).map
        fun M => { E with mat_ := M, _integrated := true }
  else .ok E

/-- The pointer test `this->_ent == &ent`. -/
def entIs (E : ElementMatrix R P) (ent : MeshEntity R P) : Bool :=
  match E._ent with
  | some e => decide (e.addr = ent.addr)
  | none => false

/-- The method `fillEntityAndOrder_(ent, order)`. -/
def fillEntityAndOrder_ (rules : IntegrationRules R P) (E : ElementMatrix R P)
    (ent : MeshEntity R P) (order : ℕ) : ElementMatrix R P :=
  { E with _order := order, _ent := some ent, _integrated := false,
           _x := some (rules.abscissa ent order), _w := some (rules.weights ent order) }

/-- The method `resizeMatX_U_()`. -/
def resizeMatX_U_ (E : ElementMatrix R P) : Except Error (ElementMatrix R P) :=
  match E._x, E._ent with
  | some x, some ent =>
    let nRules := x.length
    let nVerts := ent.nodeCount
    let nCoeff := E._nCoeff
    let nCols := nCoeff
    if nCols = 0 then .error .critical
    else
      (E.resize (nVerts * nCoeff) nCols true).map fun E1 =>
        { E1 with _matX := (resizeMats E1._matX nRules).map
                    fun m => (m.resize nCoeff (nVerts * nCoeff)).setZero }
  | _, _ => .error .outOfRange

/-- The inner loop of `fillMatX_U_` at the quadrature point `xi`:
`_matX[i][n].setVal(N[i], n*nVerts, (n+1)*nVerts)` for every component `n`,
with `N[i] = _ent->N(x[i])`. -/
def fillMatX_U_Rows (ent : MeshEntity R P) (xi : P) (nCoeff : ℕ) (Mi : DenseMatrix R) :
    Except Error (DenseMatrix R) :=
  forLoop nCoeff (fun n M =>
    M.setRowSlice n (ent.N xi) (n * ent.nodeCount) ((n + 1) * ent.nodeCount)) Mi

/-- One round of the outer loop of `fillMatX_U_`. -/
def fillMatX_U_Step (ent : MeshEntity R P) (x : List P) (nCoeff : ℕ) (i : ℕ)
    (mats : List (DenseMatrix R)) : Except Error (List (DenseMatrix R)) :=
  match x[i]?, mats[i]? with
  | some xi, some Mi =>
    (fillMatX_U_Rows ent xi nCoeff Mi).map fun Mi1 => mats.set i Mi1
  | _, _ => .error .outOfRange

/-- The method `fillMatX_U_(sum)`. -/
def fillMatX_U_ (E : ElementMatrix R P) (sum : Bool) : Except Error (ElementMatrix R P) :=
  match E._x, E._ent with
  | some x, some ent =>
    (forLoop x.length (fillMatX_U_Step ent x E._nCoeff) E._matX).bind fun mats =>
      let E1 := { E with _matX := mats, _valid := true }
      if sum = true then E1.integrate else .ok E1
  | _, _ => .error .outOfRange

/-- The method `pot(ent, order, sum)`. -/
def potBase (rules : IntegrationRules R P) (E : ElementMatrix R P)
    (ent : MeshEntity R P) (order : ℕ) (sum : Bool) : Except Error (ElementMatrix R P) :=
  if E._valid = true ∧ E._order = order ∧ E.entIs ent = true then .ok E
  else
    ((E.fillEntityAndOrder_ rules ent order).resizeMatX_U_).bind fun E2 =>
      E2.fillMatX_U_ sum

/-- The method `pot(ent, order, sum, nCoeff, dofPerCoeff, dofOffset)`;
`dbg` is the global switch `disableCacheForDBG()`. -/
def pot (rules : IntegrationRules R P) (dbg : Bool) (E : ElementMatrix R P)
    (ent : MeshEntity R P) (order : ℕ) (sum : Bool) (nCoeff dofPerCoeff dofOffset : ℕ) :
    Except Error (ElementMatrix R P) :=
  (if dbg = true ∨ E._valid = false ∨ E._order ≠ order ∨ E.entIs ent = false
        ∨ E._nCoeff ≠ nCoeff then
      (E.init nCoeff dofPerCoeff dofOffset).bind fun E1 => E1.potBase rules ent order sum
    else .ok E).bind fun E2 =>
  if sum = true then E2.integrate else .ok E2

/-- The block of `grad` behind `if (dNdr_.rows() != nRules)`: the reference
gradients `dNdr_`, `dNds_`, `dNdt_` are resized and refilled row by row from
`ent.dNdL(x[i], axis)`, then `dNdx_`, `dNdy_`, `dNdz_` are resized. -/
def gradCache (E : ElementMatrix R P) (ent : MeshEntity R P) (x : List P) :
    Except Error (ElementMatrix R P) :=
  let nRules := x.length
  let nVerts := ent.nodeCount
  if E.dNdr_.rows ≠ nRules then
    let E1 := { E with
      dNdr_ := if ent.dim > 0 then E.dNdr_.resize nRules nVerts else E.dNdr_,
      dNds_ := if ent.dim > 1 then E.dNds_.resize nRules nVerts else E.dNds_,
      dNdt_ := if ent.dim > 2 then E.dNdt_.resize nRules nVerts else E.dNdt_ }
    (forLoop nRules (fun i (E2 : ElementMatrix R P) =>
      match x[i]? with
      | none => .error .outOfRange
      | some xi =>
        (if ent.dim > 0 then E2.dNdr_.setRow i (ent.dNdL xi 0) else .ok E2.dNdr_).bind fun r =>
        (if ent.dim > 1 then E2.dNds_.setRow i (ent.dNdL xi 1) else .ok E2.dNds_).bind fun s =>
        (if ent.dim > 2 then E2.dNdt_.setRow i (ent.dNdL xi 2) else .ok E2.dNdt_).map fun t =>
        { E2 with dNdr_ := r, dNds_ := s, dNdt_ := t }) E1).map fun E3 =>
    { E3 with
      dNdx_ := if ent.dim > 0 then E3.dNdx_.resize nRules nVerts else E3.dNdx_,
      dNdy_ := if ent.dim > 1 then E3.dNdy_.resize nRules nVerts else E3.dNdy_,
      dNdz_ := if ent.dim > 2 then E3.dNdz_.resize nRules nVerts else E3.dNdz_ }
  else .ok E

/-- One round of the second loop of `grad`: the physical gradients
`dNdx_[i]`, `dNdy_[i]`, `dNdz_[i]` from the reference gradients and the
entries `drstdxyz` of the inverse Jacobian, by dimension. -/
def gradPhysStep (ent : MeshEntity R P) (i : ℕ) (E : ElementMatrix R P) :
    Except Error (ElementMatrix R P) :=
  let drdx := ent.drstdxyz 0 0
  let drdy := ent.drstdxyz 0 1
  let drdz := ent.drstdxyz 0 2
  let dsdx := ent.drstdxyz 1 0
  let dsdy := ent.drstdxyz 1 1
  let dsdz := ent.drstdxyz 1 2
  let dtdx := ent.drstdxyz 2 0
  let dtdy := ent.drstdxyz 2 1
  let dtdz := ent.drstdxyz 2 2
  if ent.dim = 1 then
    (E.dNdr_.row i).bind fun r =>
    (E.dNdx_.setRow i (fun j => r j * drdx)).map fun dx => { E with dNdx_ := dx }
  else if ent.dim = 2 then
    (E.dNdr_.row i).bind fun r => (E.dNds_.row i).bind fun s =>
    (E.dNdx_.setRow i (fun j => r j * drdx + s j * dsdx)).bind fun dx =>
    (E.dNdy_.setRow i (fun j => r j * drdy + s j * dsdy)).map fun dy =>
    { E with dNdx_ := dx, dNdy_ := dy }
  else if ent.dim = 3 then
    (E.dNdr_.row i).bind fun r => (E.dNds_.row i).bind fun s =>
    (E.dNdt_.row i).bind fun t =>
    (E.dNdx_.setRow i (fun j => r j * drdx + s j * dsdx + t j * dtdx)).bind fun dx =>
    (E.dNdy_.setRow i (fun j => r j * drdy + s j * dsdy + t j * dtdy)).bind fun dy =>
    (E.dNdz_.setRow i (fun j => r j * drdz + s j * dsdz + t j * dtdz)).map fun dz =>
    { E with dNdx_ := dx, dNdy_ := dy, dNdz_ := dz }
  else .ok E

/-- A sequence of row-slice writes `M[row].setVal(vals, start, end)`. -/
def setRowSlices (M : DenseMatrix R) :
    List (ℕ × (ℕ → R) × ℕ × ℕ) → Except Error (DenseMatrix R)
  | [] => .ok M
  | (i, v, start, stop) :: rest =>
    (M.setRowSlice i v start stop).bind fun M1 => setRowSlices M1 rest

/-- The body of the third loop of `grad` for the quadrature point `i`: the
rows of `_matX[i]` by field kind, dimension and `elastic`; `a` is the shear
scale. -/
def gradFill (ent : MeshEntity R P) (nCoeff : ℕ) (elastic : Bool) (a : R)
    (dNdx dNdy dNdz : DenseMatrix R) (i : ℕ) (M : DenseMatrix R) :
    Except Error (DenseMatrix R) :=
  let nVerts := ent.nodeCount
  if nCoeff = 1 then
    (if ent.dim > 0 then (dNdx.row i).bind fun dx => M.setRowSlice 0 dx 0 nVerts
      else .ok M).bind fun M1 =>
    (if ent.dim > 1 then (dNdy.row i).bind fun dy => M1.setRowSlice 1 dy 0 nVerts
      else .ok M1).bind fun M2 =>
    (if ent.dim > 2 then (dNdz.row i).bind fun dz => M2.setRowSlice 2 dz 0 nVerts
      else .ok M2)
  else if ent.dim = 1 then
    (dNdx.row i).bind fun dx => M.setRowSlice 0 dx 0 nVerts
  else if ent.dim = 2 then
    (dNdx.row i).bind fun dx => (dNdy.row i).bind fun dy =>
    if elastic = true then
      setRowSlices M
        [(0, dx, 0 * nVerts, 1 * nVerts), (1, dy, 1 * nVerts, 2 * nVerts),
         (2, fun j => dy j * a, 0 * nVerts, 1 * nVerts),
         (2, fun j => dx j * a, 1 * nVerts, 2 * nVerts)]
    else
      setRowSlices M
        [(0, dx, 0 * nVerts, 1 * nVerts), (1, dy, 0 * nVerts, 1 * nVerts),
         (2, dx, 1 * nVerts, 2 * nVerts), (3, dy, 1 * nVerts, 2 * nVerts)]
  else if ent.dim = 3 then
    (dNdx.row i).bind fun dx => (dNdy.row i).bind fun dy => (dNdz.row i).bind fun dz =>
    if elastic = true then
      setRowSlices M
        [(0, dx, 0 * nVerts, 1 * nVerts), (1, dy, 1 * nVerts, 2 * nVerts),
         (2, dz, 2 * nVerts, 3 * nVerts),
         (3, fun j => dy j * a, 0 * nVerts, 1 * nVerts),
         (3, fun j => dx j * a, 1 * nVerts, 2 * nVerts),
         (4, fun j => dz j * a, 1 * nVerts, 2 * nVerts),
         (4, fun j => dy j * a, 2 * nVerts, 3 * nVerts),
         (5, fun j => dz j * a, 0 * nVerts, 1 * nVerts),
         (5, fun j => dx j * a, 2 * nVerts, 3 * nVerts)]
    else
      setRowSlices M
        [(0, dx, 0 * nVerts, 1 * nVerts), (1, dy, 0 * nVerts, 1 * nVerts),
         (2, dz, 0 * nVerts, 1 * nVerts), (3, dx, 1 * nVerts, 2 * nVerts),
         (4, dy, 1 * nVerts, 2 * nVerts), (5, dz, 1 * nVerts, 2 * nVerts),
         (6, dx, 2 * nVerts, 3 * nVerts), (7, dy, 2 * nVerts, 3 * nVerts),
         (8, dz, 2 * nVerts, 3 * nVerts)]
  else .ok M

/-- The head of `grad`: order, entity, flags and quadrature tables are set. -/
def gradHead (rules : IntegrationRules R P) (E : ElementMatrix R P)
    (ent : MeshEntity R P) (order : ℕ) (elastic div : Bool) : ElementMatrix R P :=
  { E with _order := order, _ent := some ent, _div := div, _integrated := false,
           _elastic := elastic, _w := some (rules.weights ent order),
           _x := some (rules.abscissa ent order) }

/-- The layout sizing of `grad`: the row count `nCols` of the basis images
(`dim * nCoeff`, or the reduced strain layout when `elastic`), the check
`nCols == 0`, `resize(nVerts*nCoeff, nCols)` and the zeroed `_matX`. -/
def gradLayout (E1 : ElementMatrix R P) (ent : MeshEntity R P) (nRules : ℕ)
    (elastic : Bool) : Except Error (ElementMatrix R P) :=
  let nVerts := ent.nodeCount
  let nCoeff := E1._nCoeff
  if ent.dim * nCoeff = 0 then .error .critical
  else
    let nCols := if elastic = true then
        (if ent.dim = 2 then ent.dim + 1 else if ent.dim = 3 then ent.dim + 3 else ent.dim)
      else ent.dim * nCoeff
    (E1.resize (nVerts * nCoeff) nCols true).map fun E2 =>
      { E2 with _matX := (resizeMats E2._matX nRules).map
                  fun m => (m.resize nCols (nVerts * nCoeff)).setZero }

/-- The third loop of `grad` and `setValid(true)`. -/
def gradFillAll (E5 : ElementMatrix R P) (ent : MeshEntity R P) (nRules : ℕ)
    (elastic : Bool) (a : R) : Except Error (ElementMatrix R P) :=
  (forLoop nRules (fun i mats =>
      match mats[i]? with
      | none => .error .outOfRange
      | some Mi =>
        (gradFill ent E5._nCoeff elastic a E5.dNdx_ E5.dNdy_ E5.dNdz_ i Mi).map
          fun Mi1 => mats.set i Mi1) E5._matX).map fun mats =>
    { E5 with _matX := mats, _valid := true }

/-- The method `grad(ent, order, elastic, sum, div, kelvin)`; `rsqrt2` is the
value of `1./std::sqrt(2.)`. -/
def gradBase (rules : IntegrationRules R P) (rsqrt2 : R) (E : ElementMatrix R P)
    (ent : MeshEntity R P) (order : ℕ) (elastic sum div kelvin : Bool) :
    Except Error (ElementMatrix R P) :=
  if E._valid = true ∧ E._order = order ∧ E.entIs ent = true ∧ E._elastic = elastic then .ok E
  else
    let x := rules.abscissa ent order
    let a : R := if elastic = true ∧ kelvin = true then rsqrt2 else 1
    ((gradHead rules E ent order elastic div).gradLayout ent x.length elastic).bind fun E3 =>
    (E3.gradCache ent x).bind fun E4 =>
    (forLoop x.length (gradPhysStep ent) E4).bind fun E5 =>
    (E5.gradFillAll ent x.length elastic a).bind fun E6 =>
    if sum = true then E6.integrate else .ok E6

/-- The method `grad(ent, order, elastic, sum, div, nCoeff, dof, dofOffset,
kelvin)`. -/
def grad (rules : IntegrationRules R P) (rsqrt2 : R) (E : ElementMatrix R P)
    (ent : MeshEntity R P) (order : ℕ) (elastic sum div : Bool)
    (nCoeff dof dofOffset : ℕ) (kelvin : Bool) : Except Error (ElementMatrix R P) :=
  (if E._valid = false ∨ E._order ≠ order ∨ E._elastic ≠ elastic ∨ E.entIs ent = false
        ∨ E._nCoeff ≠ nCoeff then
      (E.init nCoeff dof dofOffset).bind fun E1 =>
        E1.gradBase rules rsqrt2 ent order elastic sum div kelvin
    else .ok E).bind fun E2 =>
  if sum = true then E2.integrate else .ok E2

end ElementMatrix

variable {R P : Type} [Field R]

/-- The function `_prepDot(A, B, C)`. -/
def _prepDot (A B C : ElementMatrix R P) : Except Error (ElementMatrix R P) :=
  ((C.copyFrom A false).resize A._idsR.length B._idsR.length true).bind fun C2 =>
    let C3 := C2.setIds A._idsR B._idsR
    if A._order ≠ B._order then .error .critical else .ok C3

/-- The index set that `dot` collapses for a divergence-marked operand: `{0}`,
`{0,3}` or `{0,4,8}` by dimension, empty for any other dimension. -/
def divIds (dim : ℕ) : List ℕ :=
  if dim = 1 then [0] else if dim = 2 then [0, 3] else if dim = 3 then [0, 4, 8] else []

/-- The row collapse of `dot`: `Aii(1, Ai.cols()); Aii.row(0) = Ai.row(0);`
then `Aii.row(0) += Ai.row(ids[i])` for `i = 1 .. ids.size() - 1`. -/
def collapseRows (Ai : DenseMatrix R) (ids : List ℕ) : Except Error (DenseMatrix R) :=
  (Ai.row 0).bind fun r0 =>
  ((DenseMatrix.ofSize 1 Ai.cols).setRow 0 r0).bind fun Aii0 =>
  forLoop (ids.length - 1) (fun i Aii =>
    match ids[i + 1]? with
    | some k =>
      (Ai.row k).bind fun rk =>
      (Aii.row 0).bind fun cur => Aii.setRow 0 (fun j => cur j + rk j)
    | none => .error .outOfRange) Aii0

/-- One round `r` of the quadrature loop of `dot(A, B, b, C)`. -/
def dotStep (A B : ElementMatrix R P) (b : R) (w : List R) (r : ℕ)
    (C : ElementMatrix R P) : Except Error (ElementMatrix R P) :=
  match A._matX[r]?, B._matX[r]?, C._matX[r]?, w[r]?, A._ent with
  | some Ai, some Bi, some Ci, some wr, some entA =>
    let wS := wr * entA.size
    (if A._div = true ∨ (Ai.rows > 1 ∧ Bi.rows = 1) then
        (collapseRows Ai (if A._div = true then divIds entA.dim
                          else List.range Ai.rows)).bind fun Aii =>
          Aii.transMult Bi Ci b 0
      else if B._div = true ∨ (Bi.rows > 1 ∧ Ai.rows = 1) then
        match B._ent, B._div with
        | none, true => .error .outOfRange
        | some entB, true =>
          (collapseRows Bi (divIds entB.dim)).bind fun Bii => Ai.transMult Bii Ci b 0
        | _, false =>
          (collapseRows Bi (List.range Bi.rows)).bind fun Bii => Ai.transMult Bii Ci b 0
      else Ai.transMult Bi Ci b 0).bind fun Ci1 =>
    (if r > 0 then C.mat_.addAssign (Ci1.mulScalar wS)
      else .ok (C.mat_.assign (Ci1.mulScalar wS))).map fun M =>
    { C with _matX := C._matX.set r Ci1, mat_ := M }
  | _, _, _, _, _ => .error .outOfRange

/-- The function `dot(A, B, b, C)` with a scalar `b`. -/
def dot (A B : ElementMatrix R P) (b : R) (C : ElementMatrix R P) :
    Except Error (ElementMatrix R P) :=
  (_prepDot A B C).bind fun C1 =>
  match A._w with
  | none => .error .outOfRange
  | some w =>
    (forLoop w.length (dotStep A B b w) C1).map fun C2 =>
      { C2 with _valid := true, _integrated := true }

/-- The function `dot(A, B, c)` returning its result:
`ElementMatrix < double > C; dot(A, B, c, C); return C`. -/
def dotRet (A B : ElementMatrix R P) (c : R) : Except Error (ElementMatrix R P) :=
  (ElementMatrix.ofDof 0).bind fun C => dot A B c C

/-! ## The legacy interface -/

namespace DenseMatrix

variable {R : Type} [Field R]

/-- The method `setCol(j, r)`: `ASSERT_LOWER(j, _cols)`, then
`_data[i * _cols + j] = r[i]` for every row `i`. -/
def setCol (m : DenseMatrix R) (j : ℕ) (r : ℕ → R) : Except Error (DenseMatrix R) :=
  if j < m.cols then
    .ok { m with data := fun k =>
            if k < m.rows * m.cols ∧ k % m.cols = j then r (k / m.cols) else m.data k }
  else .error .lengthError

end DenseMatrix

/-- The unchecked write `ids[k] = v` on an index array; a position outside the
array is reported as an error. -/
def setId (l : List ℕ) (k v : ℕ) : Except Error (List ℕ) :=
  if k < l.length then .ok (l.set k v) else .error .outOfRange

/-- Modelled from the spec: the call `sum(expr)` of vector.h (not part of the
sources at hand) on an element-wise expression over the weights `w` and row
views of the sizes `sizes`, whose `k`-th entry is `v k`.  The element-wise
operations are defined for equal sizes; any other size is reported as an
error. -/
def vecSum {R : Type} [Field R] (w : List R) (sizes : List ℕ) (v : ℕ → R) : Except Error R :=
  if ∀ n ∈ sizes, n = w.length then .ok (∑ k in Finset.range w.length, v k)
  else .error .lengthError

/-- The closing double loop of the legacy integrators:
`mat_(i,j) = entry(i,j); mat_(j,i) = mat_(i,j)` for `i < nVerts` and
`j = i .. nVerts - 1`. -/
def fillSym {R : Type} [Field R] (nVerts : ℕ) (entry : ℕ → ℕ → Except Error R)
    (M : DenseMatrix R) : Except Error (DenseMatrix R) :=
  forLoop nVerts (fun i M1 =>
    forLoop (nVerts - i) (fun jj M2 =>
      (entry i (i + jj)).bind fun t =>
      (M2.setVal i (i + jj) t).bind fun M3 =>
      (M3.get i (i + jj)).bind fun v => M3.setVal (i + jj) i v) M1) M

namespace ElementMatrix

variable {R P : Type} [Field R]

/-- The method `size()`: `mat_.rows()`. -/
def size (E : ElementMatrix R P) : ℕ := E.mat_.rows

/-- In-place `operator *= (val)` of the element matrix
(`DEFINE_ELEMENTMATRIX_UNARY_MOD_OPERATOR__`). -/
def mulAssign (E : ElementMatrix R P) (val : R) : ElementMatrix R P :=
  if E._newStyle = true then
    { E with
      mat_ := if E._integrated = true then E.mat_.opAssignScalar (· * ·) val else E.mat_,
      _matX := E._matX.map fun m => m.opAssignScalar (· * ·) val }
  else
    { E with
      mat_ := E.mat_.opAssignScalar (· * ·) val }

/-- The method `fillIds(ent, nC)`. -/
def fillIds (E : ElementMatrix R P) (ent : MeshEntity R P) (nC : ℕ) :
    Except Error (ElementMatrix R P) :=
  let nNodes := ent.nodeCount
  (if E._nDof > 0 then
    let nDims := ent.dim
    (if E.size ≠ nNodes * nDims then E.resize (nNodes * nDims) 0 true else .ok E).bind
      fun E1 =>
    forLoop nDims (fun dim E2 =>
      forLoop nNodes (fun i (E3 : ElementMatrix R P) =>
        (setId E3._ids (dim * nNodes + i) (dim * E3._nDof + ent.ids.getD i 0)).bind fun ids =>
        match ids[i + dim * nNodes]? with
        | none => .error .outOfRange
        | some v =>
          (setId E3._idsC (dim * nNodes + i) v).bind fun idsC =>
          (setId E3._idsR (dim * nNodes + i) v).map fun idsR =>
          { E3 with
            _ids := ids, _idsC := idsC, _idsR := idsR }) E2) E1
  else
    (E.resize (nNodes * nC) nNodes true).bind fun E1 =>
    forLoop 1 (fun dim E2 =>
      forLoop nNodes (fun i (E3 : ElementMatrix R P) =>
        (setId E3._ids (dim * nNodes + i) (ent.ids.getD i 0)).bind fun ids =>
        match ids[dim * nNodes + i]? with
        | none => .error .outOfRange
        | some v =>
          (setId E3._idsC (dim * nNodes + i) v).bind fun idsC =>
          (setId E3._idsR i v).map fun idsR =>
          { E3 with
            _ids := ids, _idsC := idsC, _idsR := idsR }) E2) E1).map
    fun E4 => E4.mulAssign 0

/-- The legacy method `ux2(ent, w, x)`. -/
def ux2 (E : ElementMatrix R P) (ent : MeshEntity R P) (w : List R) (x : List P) :
    Except Error (ElementMatrix R P) :=
  let nVerts := ent.nodeCount
  let nRules := w.length
  (if E.dNdr_.rows ≠ nVerts then
      (forLoop nRules (fun i (r : DenseMatrix R) =>
          match x[i]? with
          | none => .error .outOfRange
          | some xi => r.setCol i (ent.dNdL xi 0)) (E.dNdr_.resize nVerts nRules)).map
        fun r =>
          { E with
            dNdr_ := r, dNdx_ := E.dNdx_.resize nVerts nRules }
    else .ok E).bind fun E1 =>
  let drdx := ent.drstdxyz 0 0
  let A := ent.domainSize
  (forLoop nVerts (fun i (dx : DenseMatrix R) =>
      (E1.dNdr_.row i).bind fun r => dx.setRow i (fun k => drdx * r k)) E1.dNdx_).bind
    fun dx =>
  (fillSym nVerts (fun i j =>
      (dx.row i).bind fun xi => (dx.row j).bind fun xj =>
      (vecSum w [dx.cols] (fun k => w.getD k 0 * (xi k * xj k))).map fun t => A * t)
      E1.mat_).map
    fun M =>
      { E1 with
        dNdx_ := dx, mat_ := M }

/-- The legacy method `ux2uy2(ent, w, x)`. -/
def ux2uy2 (E : ElementMatrix R P) (ent : MeshEntity R P) (w : List R) (x : List P) :
    Except Error (ElementMatrix R P) :=
  let nVerts := ent.nodeCount
  let nRules := w.length
  (if E.dNdr_.rows ≠ nVerts then
      (forLoop nRules (fun i (rs : DenseMatrix R × DenseMatrix R) =>
          match x[i]? with
          | none => .error .outOfRange
          | some xi =>
            (rs.1.setCol i (ent.dNdL xi 0)).bind fun r =>
            (rs.2.setCol i (ent.dNdL xi 1)).map fun s => (r, s))
          (E.dNdr_.resize nVerts nRules, E.dNds_.resize nVerts nRules)).map
        fun rs =>
          { E with
            dNdr_ := rs.1, dNds_ := rs.2,
            dNdx_ := E.dNdx_.resize nVerts nRules, dNdy_ := E.dNdy_.resize nVerts nRules }
    else .ok E).bind fun E1 =>
  let drdx := ent.drstdxyz 0 0
  let drdy := ent.drstdxyz 0 1
  let dsdx := ent.drstdxyz 1 0
  let dsdy := ent.drstdxyz 1 1
  let A := ent.domainSize
  (forLoop nVerts (fun i (d : DenseMatrix R × DenseMatrix R) =>
      (E1.dNdr_.row i).bind fun r => (E1.dNds_.row i).bind fun s =>
      (d.1.setRow i (fun k => drdx * r k + dsdx * s k)).bind fun dx =>
      (d.2.setRow i (fun k => drdy * r k + dsdy * s k)).map fun dy => (dx, dy))
      (E1.dNdx_, E1.dNdy_)).bind fun d =>
  (fillSym nVerts (fun i j =>
      (d.1.row i).bind fun xi => (d.1.row j).bind fun xj =>
      (d.2.row i).bind fun yi => (d.2.row j).bind fun yj =>
      (vecSum w [d.1.cols, d.2.cols]
        (fun k => w.getD k 0 * (xi k * xj k + yi k * yj k))).map
        fun t => A * t) E1.mat_).map
    fun M =>
      { E1 with
        dNdx_ := d.1, dNdy_ := d.2, mat_ := M }

/-- The legacy method `ux2uy2uz2(ent, w, x)`. -/
def ux2uy2uz2 (E : ElementMatrix R P) (ent : MeshEntity R P) (w : List R) (x : List P) :
    Except Error (ElementMatrix R P) :=
  let nVerts := ent.nodeCount
  let nRules := w.length
  (if E.dNdr_.rows ≠ nVerts then
      (forLoop nRules (fun i (rst : DenseMatrix R × DenseMatrix R × DenseMatrix R) =>
          match x[i]? with
          | none => .error .outOfRange
          | some xi =>
            (rst.1.setCol i (ent.dNdL xi 0)).bind fun r =>
            (rst.2.1.setCol i (ent.dNdL xi 1)).bind fun s =>
            (rst.2.2.setCol i (ent.dNdL xi 2)).map fun t => (r, s, t))
          (E.dNdr_.resize nVerts nRules, E.dNds_.resize nVerts nRules,
            E.dNdt_.resize nVerts nRules)).map
        fun rst =>
          { E with
            dNdr_ := rst.1, dNds_ := rst.2.1, dNdt_ := rst.2.2,
            dNdx_ := E.dNdx_.resize nVerts nRules, dNdy_ := E.dNdy_.resize nVerts nRules,
            dNdz_ := E.dNdz_.resize nVerts nRules }
    else .ok E).bind fun E1 =>
  let drdx := ent.drstdxyz 0 0
  let drdy := ent.drstdxyz 0 1
  let drdz := ent.drstdxyz 0 2
  let dsdx := ent.drstdxyz 1 0
  let dsdy := ent.drstdxyz 1 1
  let dsdz := ent.drstdxyz 1 2
  let dtdx := ent.drstdxyz 2 0
  let dtdy := ent.drstdxyz 2 1
  let dtdz := ent.drstdxyz 2 2
  let A := ent.domainSize
  (forLoop nVerts (fun i (d : DenseMatrix R × DenseMatrix R × DenseMatrix R) =>
      (E1.dNdr_.row i).bind fun r => (E1.dNds_.row i).bind fun s =>
      (E1.dNdt_.row i).bind fun t =>
      (d.1.setRow i (fun k => drdx * r k + dsdx * s k + dtdx * t k)).bind fun dx =>
      (d.2.1.setRow i (fun k => drdy * r k + dsdy * s k + dtdy * t k)).bind fun dy =>
      (d.2.2.setRow i (fun k => drdz * r k + dsdz * s k + dtdz * t k)).map
        fun dz => (dx, dy, dz))
      (E1.dNdx_, E1.dNdy_, E1.dNdz_)).bind fun d =>
  (fillSym nVerts (fun i j =>
      (d.1.row i).bind fun xi => (d.1.row j).bind fun xj =>
      (d.2.1.row i).bind fun yi => (d.2.1.row j).bind fun yj =>
      (d.2.2.row i).bind fun zi => (d.2.2.row j).bind fun zj =>
      (vecSum w [d.1.cols, d.2.1.cols, d.2.2.cols]
        (fun k => w.getD k 0 * (xi k * xj k + yi k * yj k + zi k * zj k))).map
        fun t => A * t) E1.mat_).map
    fun M =>
      { E1 with
        dNdx_ := d.1, dNdy_ := d.2.1, dNdz_ := d.2.2, mat_ := M }

/-- The legacy method `u2(ent, w, x)`: the matrix of the weighted sums
`sum(w * N[j] * N[i])` is looked up in `u2Cache_` under `ent.rtti()`, computed
and stored when absent; `mat_(i, j)` becomes `domainSize` times its entry. -/
def u2 (E : ElementMatrix R P) (ent : MeshEntity R P) (w : List R) (x : List P) :
    Except Error (ElementMatrix R P) :=
  let nVerts := ent.nodeCount
  ((match E.u2Cache_.lookup ent.rtti with
    | some C => .ok (E, C)
    | none =>
      let nRules := w.length
      (forLoop nRules (fun i (N : DenseMatrix R) =>
          match x[i]? with
          | none => .error .outOfRange
          | some xi => N.setCol i (ent.N xi)) (DenseMatrix.ofSize nVerts nRules)).bind
        fun N =>
      (forLoop nVerts (fun i U1 =>
        forLoop (nVerts - i) (fun jj (U2 : DenseMatrix R) =>
          (N.row (i + jj)).bind fun nj => (N.row i).bind fun ni =>
          (vecSum w [N.cols] (fun k => w.getD k 0 * nj k * ni k)).bind fun t =>
          (U2.setVal i (i + jj) t).bind fun U3 => U3.setVal (i + jj) i t) U1)
        (DenseMatrix.ofSize nVerts nVerts)).map
        fun U =>
          ({ E with
             u2Cache_ := (ent.rtti, U) :: E.u2Cache_ }, U)) :
      Except Error (ElementMatrix R P × DenseMatrix R)).bind fun EC =>
  let A := ent.domainSize
  (forLoop nVerts (fun i M1 =>
    forLoop nVerts (fun j (M2 : DenseMatrix R) =>
      (EC.2.get i j).bind fun c => M2.setVal i j (A * c)) M1) EC.1.mat_).map
    fun M =>
      { EC.1 with
        mat_ := M }

/-- The closed-form branch `case MESH_TRIANGLE_RTTI` of `ux2uy2uz2(cell)`:
the nine writes to `mat_`. -/
def triangleStiffness (cell : MeshEntity R P) (M : DenseMatrix R) :
    Except Error (DenseMatrix R) :=
  let J := cell.size * 2
  let x1 := cell.nodeX 0
  let x2 := cell.nodeX 1
  let x3 := cell.nodeX 2
  let y1 := cell.nodeY 0
  let y2 := cell.nodeY 1
  let y3 := cell.nodeY 2
  let a := ((x3 - x1) * (x3 - x1) + (y3 - y1) * (y3 - y1)) / J
  let b := -((x3 - x1) * (x2 - x1) + (y3 - y1) * (y2 - y1)) / J
  let c := ((x2 - x1) * (x2 - x1) + (y2 - y1) * (y2 - y1)) / J
  (M.setVal 0 0 (a * (1 / 2) + b + c * (1 / 2))).bind fun M1 =>
  (M1.setVal 1 0 (a * -(1 / 2) + b * -(1 / 2))).bind fun M2 =>
  (M2.setVal 2 0 (b * -(1 / 2) + c * -(1 / 2))).bind fun M3 =>
  (M3.setVal 1 1 (a * (1 / 2))).bind fun M4 =>
  (M4.setVal 2 1 (b * (1 / 2))).bind fun M5 =>
  (M5.setVal 2 2 (c * (1 / 2))).bind fun M6 =>
  (M6.get 1 0).bind fun v10 => (M6.setVal 0 1 v10).bind fun M7 =>
  (M7.get 2 0).bind fun v20 => (M7.setVal 0 2 v20).bind fun M8 =>
  (M8.get 2 1).bind fun v21 => M8.setVal 1 2 v21

/-- The legacy method `ux2uy2uz2(cell, useCache)`: `fillIds(cell)`, then the
dispatch on `cell.rtti()`. -/
def ux2uy2uz2Cell (rules : IntegrationRules R P) (E : ElementMatrix R P)
    (cell : MeshEntity R P) : Except Error (ElementMatrix R P) :=
  (E.fillIds cell 1).bind fun E1 =>
  match cell.rtti with
  | .edgeCell | .edge3Cell => E1.ux2 cell (rules.edgWeights 2) (rules.edgAbscissa 2)
  | .triangle =>
    (triangleStiffness cell E1.mat_).map fun M =>
      { E1 with
        mat_ := M }
  | .triangle6 => E1.ux2uy2 cell (rules.triWeights 2) (rules.triAbscissa 2)
  | .quadrangle => E1.ux2uy2 cell (rules.quaWeights 2) (rules.quaAbscissa 2)
  | .quadrangle8 => E1.ux2uy2 cell (rules.quaWeights 3) (rules.quaAbscissa 3)
  | .tetrahedron => E1.ux2uy2uz2 cell (rules.tetWeights 1) (rules.tetAbscissa 1)
  | .tetrahedron10 => E1.ux2uy2uz2 cell (rules.tetWeights 2) (rules.tetAbscissa 2)
  | .hexahedron => E1.ux2uy2uz2 cell (rules.hexWeights 2) (rules.hexAbscissa 2)
  | .hexahedron20 => E1.ux2uy2uz2 cell (rules.hexWeights 4) (rules.hexAbscissa 4)
  | .triPrism => E1.ux2uy2uz2 cell (rules.priWeights 2) (rules.priAbscissa 2)
  | .triPrism15 => E1.ux2uy2uz2 cell (rules.priWeights 4) (rules.priAbscissa 4)
  | _ => .error .toImpl

end ElementMatrix

/-! ## The element matrix map and its sparsity pattern -/

/-- Modelled from the spec: the class `ElementMatrixMap` as far as
`fillSparsityPattern` reads it (elementmatrixmap.h is not part of the sources
at hand): the ordered operators `mats()` and the aggregate dof extents that
the accessors `dof()` and `dofB()` return. -/
structure ElementMatrixMap (R P : Type) where
  /-- The operators `mats()`, one per entity. -/
  mats : List (ElementMatrix R P)
  /-- The row extent `dof()`. -/
  dof : ℕ
  /-- The column extent `dofB()`. -/
  dofB : ℕ

/-- Modelled from the spec: `std::set< Index >::insert(c)`; the set is kept as
its sorted, duplicate-free sequence of elements, and an element already in the
set is not inserted again. -/
def setInsert (c : ℕ) (s : List ℕ) : List ℕ :=
  if c ∈ s then s else s.orderedInsert (· ≤ ·) c

/-- The statement `idxMap.at(r).insert(c)`; `std::vector::at` throws for a row
outside the vector. -/
def insertAt (idxMap : List (List ℕ)) (r c : ℕ) : Except Error (List (List ℕ)) :=
  match idxMap[r]? with
  | none => .error .outOfRange
  | some s => .ok (idxMap.set r (setInsert c s))

/-- The double loop over the ids `a` and `b` of one operator pair:
`idxMap.at(a[k]).insert(b[l])` for every `k` and `l`. -/
def fillPairs (a b : List ℕ) (idxMap : List (List ℕ)) : Except Error (List (List ℕ)) :=
  forLoop a.length (fun k m1 =>
    forLoop b.length (fun l m2 => insertAt m2 (a.getD k 0) (b.getD l 0)) m1) idxMap

/-- The loop over the operators shared by both overloads of
`fillSparsityPattern`: `idxMap(dof)` starts with `dof` empty sets, and every
operator contributes its id lists `a` and `b`. -/
def fillIdxMap (pairs : List (List ℕ × List ℕ)) (dof : ℕ) : Except Error (List (List ℕ)) :=
  forLoop pairs.length (fun i idxMap =>
    match pairs[i]? with
    | none => .error .outOfRange
    | some ab => fillPairs ab.1 ab.2 idxMap) (List.replicate dof [])

/-- What `fillSparsityPattern` does with the sparse matrix `R`: nothing, or
one of the calls `R.addSparsityPattern(idxMap)`, `R.buildSparsityPattern(idxMap)`
(both outside the sources at hand). -/
inductive PatternCall where
  /-- The early `return`: `R` is taken to hold a valid pattern. -/
  | unchanged
  /-- The call `R.addSparsityPattern(idxMap)`. -/
  | add (idxMap : List (List ℕ))
  /-- The call `R.buildSparsityPattern(idxMap)`. -/
  | build (idxMap : List (List ℕ))
  deriving DecidableEq

namespace ElementMatrixMap

variable {R P : Type} [Field R]

/-- Modelled from the spec: the method `size()`, the number of operators. -/
def size (A : ElementMatrixMap R P) : ℕ := A.mats.length

/-- The test `A.size() == 1 && A.mats()[0].order() == 0` for a constant space. -/
def isConstSpace (A : ElementMatrixMap R P) : Bool :=
  decide (A.size = 1 ∧ A.mats[0]?.map (fun m => m._order) = some 0)

/-- The method `fillSparsityPattern(R)`; `Rrows`, `Rcols` are `R.rows()` and
`R.cols()`. -/
def fillSparsityPattern (A : ElementMatrixMap R P) (Rrows Rcols : ℕ) :
    Except Error PatternCall :=
  if Rrows = A.dof ∧ Rcols = A.dofB then .ok .unchanged
  else
    (fillIdxMap (A.mats.map fun m => (m._idsR, m._idsC)) A.dof).map fun idxMap =>
      if Rrows > 0 ∧ Rcols > 0 then .add idxMap else .build idxMap

/-- The method `fillSparsityPattern(R, B)`; after `ASSERT_EQUAL_SIZE` the loop
pairs `A.mats()[i]` with `B.mats()[i]`. -/
def fillSparsityPatternB (A B : ElementMatrixMap R P) (Rrows Rcols : ℕ) :
    Except Error PatternCall :=
  if Rrows = A.dof ∧ Rcols = B.dof then .ok .unchanged
  else if A.isConstSpace = true then .error .toImpl
  else if B.isConstSpace = true then .error .toImpl
  else if A.mats.length ≠ B.mats.length then .error .lengthError
  else
    (fillIdxMap ((A.mats.zip B.mats).map fun mm => (mm.1._idsR, mm.2._idsR)) A.dof).map
      fun idxMap => if Rrows > 0 ∧ Rcols > 0 then .add idxMap else .build idxMap

end ElementMatrixMap

/-! ## The operator algebra: mult, sym, trace -/

namespace DenseMatrix

variable {R : Type} [Field R]

/-- The statement `row(k) *= c` with a scalar `c`, written through the row
view; `ASSERT_THIS_SIZE(k)` rejects a row outside the matrix. -/
def scaleRow (m : DenseMatrix R) (k : ℕ) (c : R) : Except Error (DenseMatrix R) :=
  if k < m.rows then
    .ok { m with data := fun t =>
            if m.cols * k ≤ t ∧ t < m.cols * k + m.cols then m.data t * c else m.data t }
  else .error .lengthError

/-- In-place `operator *= (val)` with a vector: `row(i) *= val` for every row,
the element-wise product of vector.h (not part of the sources at hand),
defined for a vector of the size of a row. -/
def mulAssignVec (m : DenseMatrix R) (size : ℕ) (v : ℕ → R) : Except Error (DenseMatrix R) :=
  if size = m.cols then
    .ok { m with data := fun t => if t < m.length then m.data t * v (t % m.cols) else m.data t }
  else .error .lengthError

/-- Modelled from the spec: `A.mult(B, C, alpha, beta)`, documented in matrix.h
as `C = alpha * (A*B) + beta * C` (its body is in matrix.cpp, not part of the
sources at hand).  The product is defined when `A` has as many columns as `B`
has rows; `C` takes the shape of `A*B`. -/
def mult (A B C : DenseMatrix R) (alpha beta : R) : Except Error (DenseMatrix R) :=
  if A.cols = B.rows then
    .ok { rows := A.rows, cols := B.cols,
          data := fun k =>
            if k < A.rows * B.cols then
              alpha * (∑ t in Finset.range A.cols, A.val (k / B.cols) t * B.val t (k % B.cols))
                + beta * C.data k
            else C.data k }
  else .error .lengthError

end DenseMatrix

/-- The range-based loop `for (auto &m : v) body(m)` over a vector of matrices:
the body rewrites the element in place and may throw. -/
def forEach {α : Type} (body : α → Except Error α) : List α → Except Error (List α)
  | [] => .ok []
  | a :: l => (body a).bind fun a1 => (forEach body l).map fun l1 => a1 :: l1

/-- The inner loop of the `mult` overloads on one basis image:
`iC.row(k) *= f(k)` for `k < iC.rows()`, where reading the factor may fail. -/
def scaleRows {R : Type} [Field R] (iC : DenseMatrix R) (f : ℕ → Except Error R) :
    Except Error (DenseMatrix R) :=
  forLoop iC.rows (fun k m => (f k).bind fun c => m.scaleRow k c) iC

/-- The loop `for (r = 0; r < nRules; r++)` of the `mult` overloads over the
basis images `(*C.pMatX())[r]`, with the row factors `f r k`. -/
def scaleImages {R : Type} [Field R] (nRules : ℕ) (f : ℕ → ℕ → Except Error R)
    (mats : List (DenseMatrix R)) : Except Error (List (DenseMatrix R)) :=
  forLoop nRules (fun r ms =>
    match ms[r]? with
    | none => .error .outOfRange
    | some iC => (scaleRows iC (f r)).map fun m => ms.set r m) mats

/-- The function `mult(A, f, C)` with a scalar `f`. -/
def mult (A : ElementMatrix R P) (f : R) (C : ElementMatrix R P) :
    Except Error (ElementMatrix R P) :=
  let C1 := C.copyFrom A false
  match A._w with
  | none => .error .outOfRange
  | some w =>
    (scaleImages w.length (fun _ _ => .ok f) C1._matX).bind fun mats =>
      ElementMatrix.integrate
        { C1 with
          _matX := mats, _valid := true }

/-- The function `mult_d_q(A, b, C)`: one scalar per quadrature point. -/
def mult_d_q (A : ElementMatrix R P) (b : List R) (C : ElementMatrix R P) :
    Except Error (ElementMatrix R P) :=
  let C1 := C.copyFrom A false
  match C1._w with
  | none => .error .outOfRange
  | some w =>
    if b.length ≠ w.length then .error .lengthError
    else if C1._matX.length ≠ w.length then .error .lengthError
    else
      (scaleImages w.length (fun r _ =>
          match b[r]? with
          | none => .error .outOfRange
          | some br => .ok br) C1._matX).bind fun mats =>
        ElementMatrix.integrate
          { C1 with
            _matX := mats, _valid := true }

/-- The function `mult(A, b, C)` with a vector `b`: a vector of the size
`A.cols()` scales the rows of every basis image, any other vector goes to
`mult_d_q`. -/
def multVec (A : ElementMatrix R P) (b : List R) (C : ElementMatrix R P) :
    Except Error (ElementMatrix R P) :=
  if b.length = A.mat_.cols then
    let C1 := C.copyFrom A false
    match C1._w with
    | none => .error .outOfRange
    | some w =>
      (scaleImages w.length (fun _ k =>
          match b[k]? with
          | none => .error .outOfRange
          | some bk => .ok bk) C1._matX).bind fun mats =>
        ElementMatrix.integrate
          { C1 with
            _matX := mats }
  else mult_d_q A b C

/-- The branch `RVector per quadrature` of `mult(A, b, C)` with a matrix `b`:
`Ci = Ai; Ci *= b[i]` for every quadrature point. -/
def multMatPerPoint (A : ElementMatrix R P) (b : DenseMatrix R) (nRules : ℕ)
    (mats : List (DenseMatrix R)) : Except Error (List (DenseMatrix R)) :=
  forLoop nRules (fun i ms =>
    match ms[i]?, A._matX[i]? with
    | some Ci, some Ai =>
      (b.row i).bind fun bi =>
      ((Ci.assign Ai).mulAssignVec b.cols bi).map fun m => ms.set i m
    | _, _ => .error .outOfRange) mats

/-- The loop of the constant-matrix branch of `mult(A, b, C)`:
`Ci *= 0.0; b.mult(Ai, Ci, 1.0, beta)` with `beta = 0` in the first round and
`1` afterwards. -/
def multMatConst (A : ElementMatrix R P) (b : DenseMatrix R) (nRules : ℕ)
    (mats : List (DenseMatrix R)) : Except Error (List (DenseMatrix R)) :=
  forLoop nRules (fun i ms =>
    match ms[i]?, A._matX[i]? with
    | some Ci, some Ai =>
      (b.mult Ai (Ci.opAssignScalar (· * ·) 0) 1 (if i > 0 then 1 else 0)).map
        fun m => ms.set i m
    | _, _ => .error .outOfRange) mats

/-- The function `mult(A, b, C)` with a constant matrix `b`. -/
def multMat (A : ElementMatrix R P) (b : DenseMatrix R) (C : ElementMatrix R P) :
    Except Error (ElementMatrix R P) :=
  if b.rows * b.cols = A.mat_.cols then .error .toImpl
  else
    let C1 := C.copyFrom A false
    match A._x with
    | none => .error .outOfRange
    | some x =>
      let constBranch : Except Error (ElementMatrix R P) :=
        match A._matX[0]? with
        | none => .error .outOfRange
        | some A0 =>
          if b.rows ≠ A0.rows then .error .logError
          else
            (multMatConst A b x.length C1._matX).bind fun mats =>
              ElementMatrix.integrate
                { C1 with
                  _matX := mats, _valid := true }
      if b.rows = A._matX.length then
        (b.row 0).bind fun _ =>
        match A._matX[0]? with
        | none => .error .outOfRange
        | some A0 =>
          if b.cols = A0.cols then
            (multMatPerPoint A b x.length C1._matX).bind fun mats =>
              ElementMatrix.integrate
                { C1 with
                  _matX := mats }
          else constBranch
      else constBranch

/-- The two statements `m.row(i) = 0.5 * m.row(i) + 0.5 * m.row(k);
m.row(k) = m.row(i);` of `sym`. -/
def avgRows (m : DenseMatrix R) (i k : ℕ) : Except Error (DenseMatrix R) :=
  (m.row i).bind fun a => (m.row k).bind fun b =>
  (m.setRow i (fun j => 1 / 2 * a j + 1 / 2 * b j)).bind fun m1 =>
  (m1.row i).bind fun c => m1.setRow k c

/-- The body of `sym` on one basis image: nothing for one row, the average of
the rows 1 and 2 for four rows, of the row pairs (1,3), (2,6), (5,7) for nine
rows; any other row count is `log(Critical, ..)`. -/
def symImage (m : DenseMatrix R) : Except Error (DenseMatrix R) :=
  if m.rows = 1 then .ok m
  else if m.rows = 4 then avgRows m 1 2
  else if m.rows = 9 then
    (avgRows m 1 3).bind fun m2 => (avgRows m2 2 6).bind fun m4 => avgRows m4 5 7
  else .error .critical

/-- The function `sym(A, B)`. -/
def sym (A B : ElementMatrix R P) : Except Error (ElementMatrix R P) :=
  let B1 := B.copyFrom A false
  (forEach symImage B1._matX).map fun mats =>
    { B1 with
      _matX := mats, _valid := true, _integrated := false }

/-- The function `sym(A)` returning its result:
`ElementMatrix < double > B; sym(A, B); return B`. -/
def symRet (A : ElementMatrix R P) : Except Error (ElementMatrix R P) :=
  (ElementMatrix.ofDof 0).bind fun B => sym A B

/-- The body of `trace` on one basis image: nothing for one row; for four rows
the sum of the rows 0 and 3 is written to both after `m *= 0.0`; for nine rows
the sum of the rows 0, 4 and 8; any other row count is `log(Critical, ..)`. -/
def traceImage (m : DenseMatrix R) : Except Error (DenseMatrix R) :=
  if m.rows = 1 then .ok m
  else if m.rows = 4 then
    (m.row 0).bind fun a => (m.row 3).bind fun b =>
    ((m.opAssignScalar (· * ·) 0).setRow 0 (fun j => a j + b j)).bind fun m1 =>
    m1.setRow 3 (fun j => a j + b j)
  else if m.rows = 9 then
    (m.row 0).bind fun a => (m.row 4).bind fun b => (m.row 8).bind fun c =>
    ((m.opAssignScalar (· * ·) 0).setRow 0 (fun j => a j + b j + c j)).bind fun m1 =>
    (m1.setRow 4 (fun j => a j + b j + c j)).bind fun m2 =>
    m2.setRow 8 (fun j => a j + b j + c j)
  else .error .critical

/-- The function `trace(A, B)`. -/
def trace (A B : ElementMatrix R P) : Except Error (ElementMatrix R P) :=
  let B1 := B.copyFrom A false
  (forEach traceImage B1._matX).map fun mats =>
    { B1 with
      _matX := mats, _valid := true, _integrated := false }

/-! ## Assembly into a sparse matrix -/

/-- The class `SparseMatrix < double >` (sparsematrix.h): the compressed row
storage `colPtr_`, `rowIdx_`, `vals_`, the flags `valid_` and `stype_`, and the
extents `_rows`, `_cols` of `MatrixBase`. -/
structure SparseMatrix (R : Type) where
  /-- The start of every row in `rowIdx_` and `vals_`, one entry more than
  there are rows: `colPtr_`. -/
  colPtr_ : List ℕ
  /-- The column of every stored value: `rowIdx_`. -/
  rowIdx_ : List ℕ
  /-- The stored values `vals_`. -/
  vals_ : List R
  /-- The flag `valid_`. -/
  valid_ : Bool
  /-- The storage type `stype_`: 0 for the full matrix, below or above 0 for
  one triangle of a symmetric matrix. -/
  stype_ : ℤ
  /-- The extent `_rows`. -/
  _rows : ℕ
  /-- The extent `_cols`. -/
  _cols : ℕ

namespace SparseMatrix

variable {R P : Type} [Field R]

/-- The method `size()` of `MatrixBase`: `rows()`. -/
def size (S : SparseMatrix R) : ℕ := S._rows

/-- The method `resize(rows, cols)`. -/
def resize (S : SparseMatrix R) (rows cols : ℕ) : SparseMatrix R :=
  if S._rows ≠ rows ∨ S._cols ≠ cols then
    { S with
      colPtr_ := if S._rows ≠ rows then resizeIds S.colPtr_ (S._rows + 1) else S.colPtr_,
      _rows := rows, _cols := cols }
  else S

/-- The loop `for (k = lo; k < hi; k++)` of `addVal`, `n` rounds from `k` on:
the first slot with `rowIdx_[k] == j` takes `vals_[k] += val` and ends the
call; when no slot holds the column the position is reported on `std::cerr` and
the matrix stays as it is. -/
def addValScan (S : SparseMatrix R) (j : ℕ) (val : R) : ℕ → ℕ → Except Error (SparseMatrix R)
  | _, 0 => .ok S
  | k, n + 1 =>
    match S.rowIdx_[k]? with
    | none => .error .outOfRange
    | some c =>
      if c = j then
        match S.vals_[k]? with
        | none => .error .outOfRange
        | some v => .ok { S with vals_ := S.vals_.set k (v + val) }
      else addValScan S j val (k + 1) n

/-- The method `addVal(i, j, val)`. -/
def addVal (S : SparseMatrix R) (i j : ℕ) (val : R) : Except Error (SparseMatrix R) :=
  if S.colPtr_.length = 0 then .error .lengthError
  else if (S.stype_ < 0 ∧ i > j) ∨ (S.stype_ > 0 ∧ i < j) then .ok S
  else
    match S.colPtr_[i]?, S.colPtr_[i + 1]? with
    | some lo, some hi => addValScan S j val lo (hi - lo)
    | _, _ => .error .outOfRange

/-- The method `addS(A, f, scale)`: `A.integrate()`, then `addVal` for every
entry of the integrated matrix; the integrated operator is returned with the
matrix. -/
def addS (S : SparseMatrix R) (A : ElementMatrix R P) (f scale : R) :
    Except Error (SparseMatrix R × ElementMatrix R P) :=
  let b := f * scale
  A.integrate.bind fun A1 =>
  (forLoop A1.mat_.rows (fun i S1 =>
    forLoop A1.mat_.cols (fun j S2 =>
      match A1._idsR[i]?, A1._idsC[j]? with
      | some r, some c => (A1.mat_.get i j).bind fun v => addVal S2 r c (b * v)
      | _, _ => .error .outOfRange) S1) S).map fun S1 => (S1, A1)

/-- Modelled from the spec: the virtual method `add(A, f, scale)` with a scalar
`f`, whose body is in sparsematrix.cpp (not part of the sources at hand); the
specification describes it as integrate, then scatter-add of
`f * scale * integratedMatrix[i][j]`, which is the method `addS` of
sparsematrix.h. -/
def add (S : SparseMatrix R) (A : ElementMatrix R P) (f scale : R) :
    Except Error (SparseMatrix R × ElementMatrix R P) :=
  S.addS A f scale

/-- The position scan of `addVal` as a search: the first slot among the `n`
slots from `k` on whose column is `j`. -/
def findSlot (rowIdx : List ℕ) (j : ℕ) : ℕ → ℕ → Option ℕ
  | _, 0 => none
  | k, n + 1 =>
    match rowIdx[k]? with
    | none => none
    | some c => if c = j then some k else findSlot rowIdx j (k + 1) n

/-- The slot of the position `(i, j)` in the pattern: the first slot of row
`i` that holds the column `j`. -/
def slot (S : SparseMatrix R) (i j : ℕ) : Option ℕ :=
  match S.colPtr_[i]?, S.colPtr_[i + 1]? with
  | some lo, some hi => findSlot S.rowIdx_ j lo (hi - lo)
  | _, _ => none

/-- The entry of the matrix at the position `(i, j)`: the value stored in the
slot of the position, 0 outside the pattern. -/
def entry (S : SparseMatrix R) (i j : ℕ) : R :=
  match S.slot i j with
  | some k => S.vals_.getD k 0
  | none => 0

end SparseMatrix

namespace ElementMatrixMap

variable {R P : Type} [Field R]

/-- The effect of `fillSparsityPattern(R)` on `R`: the calls
`R.buildSparsityPattern(idxMap)` and `R.addSparsityPattern(idxMap)` have their
bodies in sparsematrix.cpp (not part of the sources at hand) and are taken as
the parameters `build` and `addP`. -/
def applyPattern (build addP : List (List ℕ) → SparseMatrix R → Except Error (SparseMatrix R))
    (call : PatternCall) (S : SparseMatrix R) : Except Error (SparseMatrix R) :=
  match call with
  | .unchanged => .ok S
  | .add idxMap => addP idxMap S
  | .build idxMap => build idxMap S

/-- The function `_T_assembleFConst(self, f, R, scale)` for a scalar `f` and a
sparse matrix: `R.add(m, f, scale)` for every operator `m` of the map; the
operators are integrated on the way. -/
def _T_assembleFConst (A : ElementMatrixMap R P) (f : R) (S : SparseMatrix R) (scale : R) :
    Except Error (SparseMatrix R × ElementMatrixMap R P) :=
  let S1 := if S.size = 0 then S.resize A.dof 0 else S
  if S1.size = 0 then .error .lengthError
  else
    (forLoop A.mats.length (fun q (st : SparseMatrix R × List (ElementMatrix R P)) =>
      match st.2[q]? with
      | none => .error .outOfRange
      | some m => (st.1.add m f scale).map fun r => (r.1, st.2.set q r.2)) (S1, A.mats)).map
      fun st => (st.1, { A with mats := st.2 })

/-- The method `assemble(f, R, scale)` with a scalar `f` and a sparse matrix of
the compressed row type `R`: `fillSparsityPattern(R)`, then
`_T_assembleFConst`. -/
def assemble (build addP : List (List ℕ) → SparseMatrix R → Except Error (SparseMatrix R))
    (A : ElementMatrixMap R P) (f : R) (S : SparseMatrix R) (scale : R) :
    Except Error (SparseMatrix R × ElementMatrixMap R P) :=
  (A.fillSparsityPattern S._rows S._cols).bind fun call =>
  (applyPattern build addP call S).bind fun S0 =>
  A._T_assembleFConst f S0 scale

end ElementMatrixMap

/-! ## The operators identity and add -/

namespace DenseMatrix

variable {R : Type} [Field R]

/-- Modelled from the spec: `Vector::fill(val)` on the row view `row(i)`
(vector.h is not part of the sources at hand): every entry of the view, the
`_cols` entries of row `i`, is set to `val`.  `ASSERT_THIS_SIZE(i)` of `row`
rejects a row index outside the matrix. -/
def fillRow (m : DenseMatrix R) (i : ℕ) (v : R) : Except Error (DenseMatrix R) :=
  m.setRow i (fun _ => v)

/-- Modelled from the spec: `row(i) += v` on the row view, `Vector::operator+=`
with a vector `v` of `n` entries (vector.h is not part of the sources at
hand): the entry by entry sum.  Vectors of different lengths are reported as
an error. -/
def addToRow (m : DenseMatrix R) (i : ℕ) (v : ℕ → R) (n : ℕ) : Except Error (DenseMatrix R) :=
  if n = m.cols then (m.row i).bind fun cur => m.setRow i (fun j => cur j + v j)
  else .error .lengthError

end DenseMatrix

namespace ElementMatrix

variable {R P : Type} [Field R]

/-- The body of the loop of `identity` for one basis image:
`resize(nCols, nVerts*nCoeff)`, `setZero()`, then the rows 0 and 3 (dimension
2) or 0, 4 and 8 (dimension 3) are filled with 1 when `_nCoeff` is the
dimension; `THROW_TO_IMPL` otherwise.  `nCoeffField` is the member `_nCoeff`,
`nCoeff` the argument. -/
def identityImage (ent : MeshEntity R P) (nCoeffField nCoeff nCols : ℕ) (Mi : DenseMatrix R) :
    Except Error (DenseMatrix R) :=
  let Z := (Mi.resize nCols (ent.nodeCount * nCoeff)).setZero
  if nCoeffField = ent.dim then
    if ent.dim = 2 then
      (Z.fillRow 0 1).bind fun M1 => M1.fillRow 3 1
    else if ent.dim = 3 then
      (Z.fillRow 0 1).bind fun M1 => (M1.fillRow 4 1).bind fun M2 => M2.fillRow 8 1
    else .error .toImpl
  else .error .toImpl

/-- The method `identity` behind its call of `init`: entity, order and
quadrature tables are set, `resize(nVerts*nCoeff, dim*_nCoeff)`, one basis
image per weight, `setValid(true)`. -/
def identityTail (rules : IntegrationRules R P) (E1 : ElementMatrix R P)
    (ent : MeshEntity R P) (order nCoeff : ℕ) : Except Error (ElementMatrix R P) :=
  let E2 := { E1 with
    _ent := some ent, _order := order, _w := some (rules.weights ent order),
    _x := some (rules.abscissa ent order) }
  let nVerts := ent.nodeCount
  let nRules := (rules.weights ent order).length
  let nCols := ent.dim * E2._nCoeff
  (E2.resize (nVerts * nCoeff) nCols true).bind fun E3 =>
  (forLoop nRules (fun i mats =>
      match mats[i]? with
      | none => .error .outOfRange
      | some Mi =>
        (identityImage ent E3._nCoeff nCoeff nCols Mi).map fun M => mats.set i M)
    (resizeMats E3._matX nRules)).map fun mats =>
  { E3 with _matX := mats, _valid := true }

/-- The method `identity(ent, order, nCoeff, dofPerCoeff, dofOffset)`. -/
def identity (rules : IntegrationRules R P) (E : ElementMatrix R P) (ent : MeshEntity R P)
    (order nCoeff dofPerCoeff dofOffset : ℕ) : Except Error (ElementMatrix R P) :=
  (E.init nCoeff dofPerCoeff dofOffset).bind fun E1 => E1.identityTail rules ent order nCoeff

/-- The operator `+= (E)` of `ElementMatrix`: after `ASSERT_EQUAL_SIZE` on the
basis images every image takes `+=` with its partner of the same shape, then
`mat_ += E.mat()` for equal shapes; `THROW_TO_IMPL` for unequal shapes. -/
def addAssign (A E : ElementMatrix R P) : Except Error (ElementMatrix R P) :=
  if A._matX.length ≠ E._matX.length then .error .lengthError
  else
    (forLoop A._matX.length (fun i mats =>
        match mats[i]?, E._matX[i]? with
        | some Ai, some Ei =>
          if Ai.rows = Ei.rows ∧ Ai.cols = Ei.cols then
            (Ai.addAssign Ei).map fun M => mats.set i M
          else .error .toImpl
        | _, _ => .error .outOfRange) A._matX).bind fun mats =>
    if A.mat_.rows = E.mat_.rows ∧ A.mat_.cols = E.mat_.cols then
      (A.mat_.addAssign E.mat_).map fun M => { A with _matX := mats, mat_ := M }
    else .error .toImpl

/-- The body of the loop of `add` for `dim == 1` on the images `Ar`, `Br`:
`Ar[0] += Br[i]` for every row of `Br`, `Ar[0] += Ar[i]` for the rows
`1 .. Ar.size() - 1` of `Ar`, then `Ar.resize(1, Ar.cols())`. -/
def addCollapse (Ar Br : DenseMatrix R) : Except Error (DenseMatrix R) :=
  (forLoop Br.rows (fun i A => (Br.row i).bind fun bi => A.addToRow 0 bi Br.cols) Ar).bind
    fun A1 =>
  (forLoop (A1.rows - 1) (fun i A =>
      (A.row (i + 1)).bind fun ai => A.addToRow 0 ai A.cols) A1).map fun A2 =>
  A2.resize 1 A2.cols

/-- The method `add(B, dim, b)`; the factor `b` is not read. -/
def add (A B : ElementMatrix R P) (dim : ℕ) (b : R) : Except Error (ElementMatrix R P) :=
  let A0 := { A with _integrated := false }
  if A0.mat_.rows = B.mat_.rows ∧ A0.mat_.cols = B.mat_.cols then A0.addAssign B
  else if dim = 1 then
    (A0.resize A0.mat_.rows dim true).bind fun A1 =>
    (forLoop A1._matX.length (fun r mats =>
        match mats[r]?, B._matX[r]? with
        | some Ar, some Br => (addCollapse Ar Br).map fun M => mats.set r M
        | _, _ => .error .outOfRange) A1._matX).map fun mats =>
    { A1 with _matX := mats }
  else
    (A0.resize A0.mat_.rows (max A0.mat_.cols B.mat_.cols) true).bind fun A1 =>
    (forLoop A1._matX.length (fun r mats =>
        match mats[r]?, B._matX[r]? with
        | some Ar, some Br => (Ar.addAssign Br).map fun M => mats.set r M
        | _, _ => .error .outOfRange) A1._matX).map fun mats =>
    { A1 with _matX := mats }

end ElementMatrix

/-! ## Legacy products and position arrays -/

/-- Modelled from the spec: the class `Pos` (pos.h is not part of the sources
at hand), a position that stores its three components `[0]`, `[1]`, `[2]` side
by side. -/
structure Pos (R : Type) where
  /-- The component `[0]`. -/
  x : R
  /-- The component `[1]`. -/
  y : R
  /-- The component `[2]`. -/
  z : R

/-- The storage of a position: its three components in a row. -/
def Pos.comps {R : Type} (p : Pos R) : List R := [p.x, p.y, p.z]

/-- The unchecked write `v[k] = val` on a vector; a position outside the
vector is reported as an error. -/
def setEntry {R : Type} (v : List R) (k : ℕ) (val : R) : Except Error (List R) :=
  if k < v.length then .ok (v.set k val) else .error .outOfRange

/-- The call `std::copy(&src[first], &src[last], &dst[out])`: the entries of
the half-open range `first .. last - 1` of `src` are written to `dst` from the
position `out` on. -/
def stdCopy {R : Type} (src : List R) (first last : ℕ) (dst : List R) (out : ℕ) :
    Except Error (List R) :=
  forLoop (last - first) (fun k d =>
    match src[first + k]? with
    | none => .error .outOfRange
    | some v => setEntry d (out + k) v) dst

/-- The function `toArray(vec)` of pos.cpp. -/
def toArray {R : Type} [Field R] (vec : List (Pos R)) : Except Error (List R) :=
  forLoop vec.length (fun i ret =>
    match vec[i]? with
    | none => .error .outOfRange
    | some p =>
      (setEntry ret (i * 3) p.x).bind fun r1 =>
      (setEntry r1 (i * 3 + 1) p.y).bind fun r2 =>
      setEntry r2 (i * 3 + 2) p.z) (List.replicate (vec.length * 3) 0)

/-- The constructor `Matrix(rows, cols)` of `RMatrix` (matrix.h): `rows` row
vectors of `cols` entries, the content of the matrix is zero. -/
def RMatrix.ofSize {R : Type} [Field R] (rows cols : ℕ) : List (List R) :=
  List.replicate rows (List.replicate cols 0)

/-- The function `toMatrix(vec)` of pos.cpp:
`std::copy(&vec[i][0], &vec[i][2], &ret[i][0])` for every position. -/
def toMatrix {R : Type} [Field R] (vec : List (Pos R)) : Except Error (List (List R)) :=
  forLoop vec.length (fun i ret =>
    match vec[i]?, ret[i]? with
    | some p, some row => (stdCopy p.comps 0 2 row 0).map fun row1 => ret.set i row1
    | _, _ => .error .outOfRange) (RMatrix.ofSize vec.length 3)

/-- Modelled from the spec: the difference `a - b` of two vectors (vector.h is
not part of the sources at hand), entry by entry; vectors of different sizes
are reported as an error. -/
def vecSub {R : Type} [Field R] (a b : List R) : Except Error (List R) :=
  if a.length = b.length then .ok (List.zipWith (· - ·) a b) else .error .lengthError

namespace ElementMatrix

/-- The unchecked read `a[_ids[j]]`; an index outside `_ids` or outside the
vector is reported as an error. -/
def idEntry (E : ElementMatrix R P) (a : List R) (j : ℕ) : Except Error R :=
  match E._ids[j]? with
  | none => .error .outOfRange
  | some k =>
    match a[k]? with
    | none => .error .outOfRange
    | some v => .ok v

/-- The legacy method `mult(a, b)`, documented as `(S * a) * b`. -/
def multAB (E : ElementMatrix R P) (a b : List R) : Except Error R :=
  forLoop E.size (fun i ret =>
    (forLoop E.size (fun j t =>
      (E.mat_.get i j).bind fun s => (E.idEntry a j).map fun aj => t + s * aj) 0).bind fun t =>
    (E.idEntry b i).map fun bi => ret + t * bi) 0

/-- The legacy method `mult_(a, b, m, n)`, documented as
`(S * (a-b)) * (m-n)`. -/
def mult_ (E : ElementMatrix R P) (a b m n : List R) : Except Error R :=
  forLoop E.size (fun i ret =>
    (forLoop E.size (fun j t =>
      (E.mat_.get i j).bind fun s => (E.idEntry a j).bind fun aj =>
      (E.idEntry b j).map fun bj => t + s * (aj - bj)) 0).bind fun t =>
    (E.idEntry m i).bind fun mi => (E.idEntry n i).map fun ni => ret + t * (mi - ni)) 0

/-- The legacy method `mult(a, b, m, n)`: `return mult_(a, b, m, n)`. -/
def multABMN (E : ElementMatrix R P) (a b m n : List R) : Except Error R :=
  E.mult_ a b m n

end ElementMatrix

/-! ## Bilinear forms with a constant space -/

/-- The virtual method `addVal(row, col, val)` of `SparseMatrixBase`
(matrix.h), whose body is `THROW_TO_IMPL`.  The class `SparseMatrix` does not
override it: the `addVal(int, int, ValueType)` of sparsematrix.h has another
parameter list and is not virtual, it stands for the method only in calls on
the class itself.  A call through a reference to `SparseMatrixBase` on the
compressed row matrix `S` ends in the body of the base class. -/
def SparseMatrixBase.addVal (_S : SparseMatrix R) (_row _col : ℕ) (_val : R) :
    Except Error (SparseMatrix R) :=
  .error .toImpl

/-- The loop of a constant-space branch of `_T_integrateBLConst` over the
operators `mats`: an operator that is not integrated is `log(Error, ..)`, one
without components is `THROW_TO_IMPL`; then `R.addVal(.., scale*m.getVal(i,0))`
for every row `i`, at the position `pos (m.rowIDs()[i])`; `R` is a reference to
`SparseMatrixBase`, so the call is the virtual one. -/
def scatterFirstCol (mats : List (ElementMatrix R P)) (pos : ℕ → ℕ × ℕ) (scale : R)
    (S : SparseMatrix R) : Except Error (SparseMatrix R) :=
  forLoop mats.length (fun q S1 =>
    match mats[q]? with
    | none => .error .outOfRange
    | some m =>
      if m._integrated = false then .error .logError
      else if m._nCoeff = 0 then .error .toImpl
      else
        forLoop m.mat_.rows (fun i S2 =>
          match m._idsR[i]? with
          | none => .error .outOfRange
          | some id =>
            (m.mat_.get i 0).bind fun v =>
              SparseMatrixBase.addVal S2 (pos id).1 (pos id).2 (scale * v)) S1) S

/-- Modelled from the spec: `range(start, stop)` (vector.h is not part of the
sources at hand), the index array `start, start + 1, .., stop - 1`. -/
def range (start stop : ℕ) : List ℕ := List.range' start (stop - start)

/-- The transposed copy in `ElementMatrixMap::dot` with a constant space:
`E.setVal(k, j, m(j, k))` for every row `j` and column `k` of `m`. -/
def transCopy (m E : ElementMatrix R P) : Except Error (ElementMatrix R P) :=
  forLoop m.mat_.rows (fun j E1 =>
    forLoop m.mat_.cols (fun k (E2 : ElementMatrix R P) =>
      (m.mat_.get j k).bind fun v =>
      (E2.mat_.setVal k j v).map fun M =>
        { E2 with
          mat_ := M }) E1) E

/-- The body of the loop of `ElementMatrixMap::dot` in the branch
`const Space * B` for the operator `m` of `B` and the target `T`; `A0` is the
operator of the constant space. -/
def dotConstLeft (A0 m T : ElementMatrix R P) : Except Error (ElementMatrix R P) :=
  if m._integrated = false then .error .logError
  else if m._nCoeff = 0 then .error .toImpl
  else
    ((T.copyFrom m false).resize m.mat_.cols m.mat_.rows false).bind fun T2 =>
    (transCopy m
      (T2.setIds (range A0._dofOffset (A0._dofOffset + A0._nCoeff)) m._idsR)).map fun T4 =>
      { T4 with
        _integrated := true }

/-- The body of the loop of `ElementMatrixMap::dot` in the branch
`A * const Space` for the operator `m` of `A` and the target `T`; `B0` is the
operator of the constant space. -/
def dotConstRight (B0 m T : ElementMatrix R P) : Except Error (ElementMatrix R P) :=
  if m._integrated = false then .error .logError
  else if m._nCoeff = 0 then .error .toImpl
  else
    let T1 := (T.copyFrom m false).setIds m._idsR
      (range B0._dofOffset (B0._dofOffset + B0._nCoeff))
    .ok { T1 with
          mat_ := T1.mat_.assign m.mat_, _integrated := true }

namespace ElementMatrixMap

/-- The method `resize(size)`: `mats_.resize(size)` keeps the first `size`
operators and default constructs new ones (the constructor
`ElementMatrix(Index dof = 0)` leaves the state `blank`); the mirror `rows_` of
the size is not modelled. -/
def resize (A : ElementMatrixMap R P) (n : ℕ) : ElementMatrixMap R P :=
  { A with
    mats := A.mats.take n ++ List.replicate (n - A.mats.length) ElementMatrix.blank }

/-- Modelled from the spec: the method `setDof(a, b)` (elementmatrixmap.h is
not part of the sources at hand) sets the aggregate dof extents. -/
def setDof (A : ElementMatrixMap R P) (a b : ℕ) : ElementMatrixMap R P :=
  { A with
    dof := a, dofB := b }

/-- The loop `for (auto &m : src) { body(i, m, *ret.pMat(i)); i++; }` of the
map algebra: the `i`-th operator of `ret` is rewritten from the `i`-th operator
of `src`. -/
def zipLoop (src : List (ElementMatrix R P))
    (body : ℕ → ElementMatrix R P → ElementMatrix R P → Except Error (ElementMatrix R P))
    (ret : ElementMatrixMap R P) : Except Error (ElementMatrixMap R P) :=
  (forLoop src.length (fun i mats =>
    match src[i]?, mats[i]? with
    | some m, some T => (body i m T).map fun T1 => mats.set i T1
    | _, _ => .error .outOfRange) ret.mats).map fun mats =>
    { ret with
      mats := mats }

/-- The method `dot(B, ret)`. -/
def dot (A B ret : ElementMatrixMap R P) : Except Error (ElementMatrixMap R P) :=
  if A.isConstSpace = true then
    match A.mats[0]? with
    | none => .error .outOfRange
    | some A0 =>
      zipLoop B.mats (fun _ m T => dotConstLeft A0 m T)
        ((ret.resize B.size).setDof (A0._nCoeff + A0._dofOffset) B.dof)
  else if B.isConstSpace = true then
    match B.mats[0]? with
    | none => .error .outOfRange
    | some B0 =>
      zipLoop A.mats (fun _ m T => dotConstRight B0 m T)
        ((ret.resize A.size).setDof A.dof (B0._nCoeff + B0._dofOffset))
  else if A.size ≠ B.size then .error .lengthError
  else
    zipLoop A.mats (fun i m T =>
        match B.mats[i]? with
        | none => .error .outOfRange
        | some mb => GIMLI.dot m mb 1 T)
      ((ret.resize B.size).setDof A.dof B.dof)

end ElementMatrixMap

/-- Modelled from the spec: the braced argument `{0}` for a parameter of the
type `const IndexArray &` (vector.h is not part of the sources at hand): the
list converts through the size constructor `Vector(Index n)`, the one of
`Vector < ValueType >(0)` in matrix.h, to the index array with `n` entries, so
`{0}` is the array without an entry; the array with the one entry 0 is written
`IndexArray(std::vector < Index >({0}))` in the sources. -/
def IndexArray.ofSize (n : ℕ) : List ℕ := List.replicate n 0

/-- What `pot` leaves behind on a cache miss: the operator `A` is the value
operator of `ent` at `order` with `nCoeff` components.  Its basis image at the
quadrature point `xq` is the result of the row fill `fillMatX_U_Rows` on a
zeroed `nCoeff x (nVerts * nCoeff)` matrix. -/
def IsValueOp {R P : Type} [Field R] (rules : IntegrationRules R P) (ent : MeshEntity R P)
    (order nCoeff : ℕ) (A : ElementMatrix R P) : Prop :=
  A._w = some (rules.weights ent order) ∧ A._x = some (rules.abscissa ent order) ∧
  A._ent = some ent ∧ A._div = false ∧ A._order = order ∧ A._nCoeff = nCoeff ∧
  A._valid = true ∧ A._newStyle = true ∧
  A._idsR.length = ent.nodeCount * nCoeff ∧
  A.mat_.rows = ent.nodeCount * nCoeff ∧ A.mat_.cols = nCoeff ∧
  A._matX.length = (rules.abscissa ent order).length ∧
  ∀ q xq, (rules.abscissa ent order)[q]? = some xq →
    ∃ Z : DenseMatrix R, Z.rows = nCoeff ∧ Z.cols = ent.nodeCount * nCoeff ∧
      (∀ t, t < nCoeff * (ent.nodeCount * nCoeff) → Z.data t = 0) ∧
      ElementMatrix.fillMatX_U_Rows ent xq nCoeff Z = .ok (A.matXq q)

/-- The value `g (x[i])` at the i-th quadrature point, `0` outside the table. -/
def atPoint {R P : Type} [Field R] (x : List P) (i : ℕ) (g : P → R) : R :=
  match x[i]? with
  | some xi => g xi
  | none => 0

/-- The physical-space derivative of shape function `j` along axis `s` at the
reference point `p`: the reference gradients `dNdL(p, r)` transformed with the
entries `drstdxyz(r, s)` of the inverse Jacobian, `r` below the dimension. -/
def physGrad {R P : Type} [Field R] (ent : MeshEntity R P) (p : P) (s j : ℕ) : R :=
  ∑ r in Finset.range ent.dim, ent.dNdL p r j * ent.drstdxyz r s

/-- What `grad` leaves behind for a scalar field without `elastic`: the
operator `A` is the gradient operator of `ent` at `order`; its basis image at
the quadrature point `xq` has one row per spatial axis, row `s` holding the
physical derivatives along axis `s` of the shape functions. -/
def IsGradScalarOp {R P : Type} [Field R] (rules : IntegrationRules R P)
    (ent : MeshEntity R P) (order : ℕ) (div : Bool) (A : ElementMatrix R P) : Prop :=
  A._w = some (rules.weights ent order) ∧ A._ent = some ent ∧ A._div = div ∧
  A._order = order ∧ A._nCoeff = 1 ∧ A._idsR.length = ent.nodeCount ∧
  A._matX.length = (rules.abscissa ent order).length ∧
  ∀ q xq, (rules.abscissa ent order)[q]? = some xq →
    (A.matXq q).rows = ent.dim ∧ (A.matXq q).cols = ent.nodeCount ∧
    ∀ s j, s < ent.dim → j < ent.nodeCount → (A.matXq q).val s j = physGrad ent xq s j

/-- The matrix `M` has shape `nr x nc` and its first `k` rows hold `f`. -/
def RowsAre {R : Type} [Field R] (M : DenseMatrix R) (nr nc k : ℕ) (f : ℕ → ℕ → R) : Prop :=
  M.rows = nr ∧ M.cols = nc ∧ ∀ i, i < k → ∀ j, j < nc → M.val i j = f i j

/-- The quadrature rule `(w, x)` on the reference triangle, with weights
normalised to sum 1, integrates the monomials `1, r, s, r², rs, s²` exactly:
the weighted sums are the integrals over the reference triangle divided by
its area, `1, 1/3, 1/3, 1/6, 1/12, 1/6`.  By linearity such a rule is exact for
every product of two linear functions. -/
def IsExactDeg2 {K : Type} [Field K] (w : List K) (x : List (K × K)) : Prop :=
  ∑ q in Finset.range w.length, w.getD q 0 = 1 ∧
  ∑ q in Finset.range w.length, w.getD q 0 * (x.getD q (0, 0)).1 = 1 / 3 ∧
  ∑ q in Finset.range w.length, w.getD q 0 * (x.getD q (0, 0)).2 = 1 / 3 ∧
  ∑ q in Finset.range w.length,
    w.getD q 0 * ((x.getD q (0, 0)).1 * (x.getD q (0, 0)).1) = 1 / 6 ∧
  ∑ q in Finset.range w.length,
    w.getD q 0 * ((x.getD q (0, 0)).1 * (x.getD q (0, 0)).2) = 1 / 12 ∧
  ∑ q in Finset.range w.length,
    w.getD q 0 * ((x.getD q (0, 0)).2 * (x.getD q (0, 0)).2) = 1 / 6

/-- The shape functions of `ent` are those of the linear triangle on the
reference point `(r, s)`: `1 - r - s`, `r`, `s`. -/
def IsLinearTriangle {K : Type} [Field K] (ent : MeshEntity K (K × K)) : Prop :=
  ent.nodeCount = 3 ∧
  ∀ p : K × K, ent.N p 0 = 1 - p.1 - p.2 ∧ ent.N p 1 = p.1 ∧ ent.N p 2 = p.2

/-- The index map `M` has `n` rows, every row is free of duplicates, and row
`r` holds exactly the columns `c` with `S r c`. -/
def IsPattern (M : List (List ℕ)) (n : ℕ) (S : ℕ → ℕ → Prop) : Prop :=
  M.length = n ∧ (∀ r, (M.getD r []).Nodup) ∧ ∀ r c, c ∈ M.getD r [] ↔ S r c

/-- The matrix `b` is the `r x r` identity matrix. -/
def IsIdentity {R : Type} [Field R] (b : DenseMatrix R) (r : ℕ) : Prop :=
  b.rows = r ∧ b.cols = r ∧ ∀ i j, i < r → j < r → b.val i j = if i = j then 1 else 0

/-- The image `M` is the symmetrised image `m`: the same shape; a one-row
image is unchanged; in a four-row image the rows 1 and 2 both hold
`(row1 + row2) / 2`; in a nine-row image each of the row pairs (1,3), (2,6),
(5,7) holds the average of the pair; the other rows are those of `m`. -/
def SymOf {R : Type} [Field R] (m M : DenseMatrix R) : Prop :=
  M.rows = m.rows ∧ M.cols = m.cols ∧
  (m.rows = 1 → M = m) ∧
  (m.rows = 4 → ∀ j, j < m.cols →
    M.val 0 j = m.val 0 j ∧ M.val 1 j = (m.val 1 j + m.val 2 j) / 2 ∧
    M.val 2 j = (m.val 1 j + m.val 2 j) / 2 ∧ M.val 3 j = m.val 3 j) ∧
  (m.rows = 9 → ∀ j, j < m.cols →
    M.val 0 j = m.val 0 j ∧ M.val 1 j = (m.val 1 j + m.val 3 j) / 2 ∧
    M.val 2 j = (m.val 2 j + m.val 6 j) / 2 ∧ M.val 3 j = (m.val 1 j + m.val 3 j) / 2 ∧
    M.val 4 j = m.val 4 j ∧ M.val 5 j = (m.val 5 j + m.val 7 j) / 2 ∧
    M.val 6 j = (m.val 2 j + m.val 6 j) / 2 ∧ M.val 7 j = (m.val 5 j + m.val 7 j) / 2 ∧
    M.val 8 j = m.val 8 j)

/-- The image `M` is the trace image of `m`: the same shape; in a four-row
image the rows 0 and 3 both hold `row0 + row3` of `m` and the rows 1 and 2 are
zero; in a nine-row image the rows 0, 4 and 8 all hold `row0 + row4 + row8`
of `m` and every other row is zero. -/
def TraceOf {R : Type} [Field R] (m M : DenseMatrix R) : Prop :=
  M.rows = m.rows ∧ M.cols = m.cols ∧
  (m.rows = 4 → ∀ j, j < m.cols →
    M.val 0 j = m.val 0 j + m.val 3 j ∧ M.val 1 j = 0 ∧ M.val 2 j = 0 ∧
    M.val 3 j = m.val 0 j + m.val 3 j) ∧
  (m.rows = 9 → ∀ j, j < m.cols →
    M.val 0 j = m.val 0 j + m.val 4 j + m.val 8 j ∧ M.val 1 j = 0 ∧ M.val 2 j = 0 ∧
    M.val 3 j = 0 ∧ M.val 4 j = m.val 0 j + m.val 4 j + m.val 8 j ∧ M.val 5 j = 0 ∧
    M.val 6 j = 0 ∧ M.val 7 j = 0 ∧ M.val 8 j = m.val 0 j + m.val 4 j + m.val 8 j)

/-- The collapsed diagonal-strain row of the basis image `Ai` on an entity of
dimension `dim`: entry `j` of the sum of the rows of `Ai` at the index set
`{0}`, `{0,3}` or `{0,4,8}`. -/
def divRow {R : Type} [Field R] (Ai : DenseMatrix R) (dim j : ℕ) : R :=
  ((divIds dim).map fun k => Ai.val k j).sum

/-- The pattern of the sparse matrix `S` is well formed and of the general
storage type: `stype_` is 0, `colPtr_` is not empty and ascending, its entries
are positions of `rowIdx_`, and every position of `rowIdx_` has a value. -/
def PatternOk {R : Type} (S : SparseMatrix R) : Prop :=
  S.stype_ = 0 ∧ 0 < S.colPtr_.length ∧
  (∀ a, a < S.colPtr_.length → ∀ b, b < S.colPtr_.length → a ≤ b →
    S.colPtr_.getD a 0 ≤ S.colPtr_.getD b 0) ∧
  (∀ a, a < S.colPtr_.length → S.colPtr_.getD a 0 ≤ S.rowIdx_.length) ∧
  S.rowIdx_.length ≤ S.vals_.length

/-- The sparse matrix `T` has the pattern, the storage type and the extents of
`S`, and as many values. -/
def SamePattern {R : Type} (S T : SparseMatrix R) : Prop :=
  T.colPtr_ = S.colPtr_ ∧ T.rowIdx_ = S.rowIdx_ ∧ T.stype_ = S.stype_ ∧
  T.vals_.length = S.vals_.length ∧ T._rows = S._rows ∧ T._cols = S._cols

/-- The sparse matrix `S` with `val` added to the value in the slot `o`, as it
is when there is no slot. -/
def SparseMatrix.bump {R : Type} [Field R] (S : SparseMatrix R) (o : Option ℕ) (val : R) :
    SparseMatrix R :=
  match o with
  | some t => { S with vals_ := S.vals_.set t (S.vals_.getD t 0 + val) }
  | none => S

/-- The call `integrate()` on the operator `m` has what it reads: when the
operator is new-style, valid and not integrated, it has weights, an entity and
a basis image of the transposed shape of `mat_` for every weight. -/
def Integrable {R P : Type} [Field R] (m : ElementMatrix R P) : Prop :=
  (m._newStyle = true ∧ m._integrated = false ∧ m._valid = true) →
    ∃ (w : List R) (ent : MeshEntity R P), m._w = some w ∧ m._ent = some ent ∧
      w.length ≤ m._matX.length ∧
      ∀ q, q < w.length → (m.matXq q).rows = m.mat_.cols ∧ (m.matXq q).cols = m.mat_.rows

/-- The operator `m` has a row id for every row and a column id for every
column of its integrated matrix, and the pattern of `S` holds every position
`(rowIds[i], colIds[j])`. -/
def Covers {R P : Type} [Field R] (S : SparseMatrix R) (m : ElementMatrix R P) : Prop :=
  m.mat_.rows ≤ m._idsR.length ∧ m.mat_.cols ≤ m._idsC.length ∧
  ∀ i, i < m.mat_.rows → ∀ j, j < m.mat_.cols →
    S.slot (m._idsR.getD i 0) (m._idsC.getD j 0) ≠ none

/-- What the operator `m` with the integrated matrix `M` and the factor `b`
contributes to the position `(r, c)`: the sum of `b * M[i][j]` over the
entries `(i, j)` with `(rowIds[i], colIds[j]) = (r, c)`. -/
def contrib {R P : Type} [Field R] (m : ElementMatrix R P) (b : R) (r c : ℕ) : R :=
  ∑ i in Finset.range m.mat_.rows, ∑ j in Finset.range m.mat_.cols,
    if m._idsR.getD i 0 = r ∧ m._idsC.getD j 0 = c then b * m.mat_.val i j else 0

/-- The row count `nCols` that `grad` gives the basis images: `dim * nCoeff`,
or with `elastic` the reduced strain layout of 3 rows in 2-D and 6 rows in
3-D. -/
def gradRows {R P : Type} (ent : MeshEntity R P) (nCoeff : ℕ) (elastic : Bool) : ℕ :=
  if elastic = true then
    (if ent.dim = 2 then ent.dim + 1 else if ent.dim = 3 then ent.dim + 3 else ent.dim)
  else ent.dim * nCoeff

/-- The row ids `idsR` follow the field layout `(nCoeff, dofPerCoeff,
dofOffset)` on the entity `ent`: there are `nVerts * nCoeff` of them, and
position `i * nVerts + j` holds the id of node `j` plus
`i * dofPerCoeff + dofOffset`. -/
def RowIdsOf {R P : Type} (ent : MeshEntity R P) (nCoeff dofPerCoeff dofOffset : ℕ)
    (idsR : List ℕ) : Prop :=
  idsR.length = ent.nodeCount * nCoeff ∧
  ∀ i j, i < nCoeff → j < ent.nodeCount →
    idsR.getD (i * ent.nodeCount + j) 0 = ent.ids.getD j 0 + i * dofPerCoeff + dofOffset

/-- What `grad` leaves behind on a cache miss: the operator `A` is the gradient
operator of `ent` at `order` for the field layout `(nCoeff, dofPerCoeff,
dofOffset)`, with the flags `elastic` and `div` and the shear scale `a`.  Its
basis image at the quadrature point `xq` is the result of the row fill
`gradFill` on a zeroed `gradRows x (nVerts * nCoeff)` matrix, from gradient
tables whose rows `q` hold the physical derivatives at `xq`. -/
def IsGradOp {R P : Type} [Field R] (rules : IntegrationRules R P) (ent : MeshEntity R P)
    (order nCoeff dofPerCoeff dofOffset : ℕ) (elastic div : Bool) (a : R)
    (A : ElementMatrix R P) : Prop :=
  A._w = some (rules.weights ent order) ∧ A._x = some (rules.abscissa ent order) ∧
  A._ent = some ent ∧ A._div = div ∧ A._elastic = elastic ∧ A._order = order ∧
  A._nCoeff = nCoeff ∧ A._valid = true ∧
  RowIdsOf ent nCoeff dofPerCoeff dofOffset A._idsR ∧
  A.mat_.rows = ent.nodeCount * nCoeff ∧ A.mat_.cols = gradRows ent nCoeff elastic ∧
  A._matX.length = (rules.abscissa ent order).length ∧
  ∀ q xq, (rules.abscissa ent order)[q]? = some xq →
    ∃ Z DX DY DZ : DenseMatrix R,
      Z.rows = gradRows ent nCoeff elastic ∧ Z.cols = ent.nodeCount * nCoeff ∧
      (∀ t, t < gradRows ent nCoeff elastic * (ent.nodeCount * nCoeff) → Z.data t = 0) ∧
      (0 < ent.dim → q < DX.rows ∧
        ∀ j, j < ent.nodeCount → DX.val q j = physGrad ent xq 0 j) ∧
      (1 < ent.dim → q < DY.rows ∧
        ∀ j, j < ent.nodeCount → DY.val q j = physGrad ent xq 1 j) ∧
      (2 < ent.dim → q < DZ.rows ∧
        ∀ j, j < ent.nodeCount → DZ.val q j = physGrad ent xq 2 j) ∧
      ElementMatrix.gradFill ent nCoeff elastic a DX DY DZ q Z = .ok (A.matXq q)

/-- Twice the signed area of the triangle through the first three nodes of
`cell`, the determinant of the Jacobian of its affine map:
`(x2 - x1) (y3 - y1) - (x3 - x1) (y2 - y1)`. -/
def triDet {K P : Type} [Field K] (cell : MeshEntity K P) : K :=
  (cell.nodeX 1 - cell.nodeX 0) * (cell.nodeY 2 - cell.nodeY 0)
    - (cell.nodeX 2 - cell.nodeX 0) * (cell.nodeY 1 - cell.nodeY 0)

/-- The entity `cell` is a non-degenerate linear triangle: three nodes, a
Jacobian determinant that is not zero, `shape.drstdxyz` the inverse Jacobian of
the affine map, the reference gradients those of the linear basis
`(1 - r - s, r, s)`, and the measure `|det J| / 2`, as `size()` and as
`shape().domainSize()`. -/
def IsAffineTriangle {K P : Type} [LinearOrderedField K] (cell : MeshEntity K P) : Prop :=
  cell.rtti = Rtti.triangle ∧ cell.nodeCount = 3 ∧ triDet cell ≠ 0 ∧
  cell.drstdxyz 0 0 = (cell.nodeY 2 - cell.nodeY 0) / triDet cell ∧
  cell.drstdxyz 0 1 = -(cell.nodeX 2 - cell.nodeX 0) / triDet cell ∧
  cell.drstdxyz 1 0 = -(cell.nodeY 1 - cell.nodeY 0) / triDet cell ∧
  cell.drstdxyz 1 1 = (cell.nodeX 1 - cell.nodeX 0) / triDet cell ∧
  (∀ p, cell.dNdL p 0 0 = -1 ∧ cell.dNdL p 0 1 = 1 ∧ cell.dNdL p 0 2 = 0) ∧
  (∀ p, cell.dNdL p 1 0 = -1 ∧ cell.dNdL p 1 1 = 0 ∧ cell.dNdL p 1 2 = 1) ∧
  cell.size = |triDet cell| / 2 ∧ cell.domainSize = |triDet cell| / 2

/-! ## Concrete data used to exercise the definitions -/

namespace Sample

/-- An entity with two nodes and measure 2 whose shape data are all zero. -/
def seg : MeshEntity ℚ Unit :=
  { addr := 7, rtti := Rtti.edge, dim := 1, ids := [4, 5], nodeX := fun _ => 0,
    nodeY := fun _ => 0, size := 2, domainSize := 2, N := fun _ _ => 0,
    dNdL := fun _ _ _ => 0, drstdxyz := fun _ _ => 0 }

/-- The 1 x 2 matrix `[a b]`. -/
def rowMat (a b : ℚ) : DenseMatrix ℚ :=
  { rows := 1, cols := 2, data := fun k => if k = 0 then a else if k = 1 then b else 0 }

/-- A valid, not integrated operator with two quadrature points on `seg`:
basis images `[1 2]` and `[3 4]`, weights `1/2, 1/2`, a 2 x 1 integrated
matrix. -/
def op2 : ElementMatrix ℚ Unit :=
  { (ElementMatrix.blank : ElementMatrix ℚ Unit) with
    mat_ := DenseMatrix.ofSize 2 1, _idsR := [4, 5], _idsC := [0], _ids := [4, 5],
    _nCoeff := 1, _ent := some seg, _w := some [1/2, 1/2], _x := some [(), ()],
    _matX := [rowMat 1 2, rowMat 3 4], _newStyle := true, _valid := true }

/-- A new-style operator on `seg` with one row id and an empty quadrature
rule: no weights, no basis images. -/
def opNoRule : ElementMatrix ℚ Unit :=
  { (ElementMatrix.blank : ElementMatrix ℚ Unit) with
    mat_ := DenseMatrix.ofSize 1 1, _idsR := [4], _idsC := [4], _ids := [4],
    _ent := some seg, _w := some [], _x := some [], _newStyle := true, _valid := true }

/-- A result operator used before: its 1 x 1 integrated matrix holds 7. -/
def opStale : ElementMatrix ℚ Unit :=
  { (ElementMatrix.blank : ElementMatrix ℚ Unit) with
    mat_ := { rows := 1, cols := 1, data := fun _ => 7 }, _newStyle := true }

/-- The linear triangle with nodes (0,0), (1,0), (0,1): node ids 0, 1, 2,
measure 1/2, shape functions `1 - r - s`, `r`, `s` on the reference point
`(r, s)`, their constant reference gradients, and the identity as inverse
Jacobian. -/
def tri : MeshEntity ℚ (ℚ × ℚ) :=
  { addr := 1, rtti := Rtti.triangle, dim := 2, ids := [0, 1, 2],
    nodeX := fun i => if i = 1 then 1 else 0,
    nodeY := fun i => if i = 2 then 1 else 0,
    size := 1 / 2, domainSize := 1 / 2,
    N := fun p j => if j = 0 then 1 - p.1 - p.2 else if j = 1 then p.1
      else if j = 2 then p.2 else 0,
    dNdL := fun _ axis j =>
      if axis = 0 then (if j = 0 then -1 else if j = 1 then 1 else 0)
      else if axis = 1 then (if j = 0 then -1 else if j = 2 then 1 else 0) else 0,
    drstdxyz := fun r c => if r = c then 1 else 0 }

/-- Quadrature tables whose triangle rule is the edge-midpoint rule: weights
`1/3` at `(1/2, 0)`, `(1/2, 1/2)`, `(0, 1/2)`; every other table is empty. -/
def midRules : IntegrationRules ℚ (ℚ × ℚ) :=
  { weights := fun _ _ => [1/3, 1/3, 1/3],
    abscissa := fun _ _ => [(1/2, 0), (1/2, 1/2), (0, 1/2)],
    edgWeights := fun _ => [], edgAbscissa := fun _ => [],
    triWeights := fun _ => [1/3, 1/3, 1/3],
    triAbscissa := fun _ => [(1/2, 0), (1/2, 1/2), (0, 1/2)],
    quaWeights := fun _ => [], quaAbscissa := fun _ => [],
    tetWeights := fun _ => [], tetAbscissa := fun _ => [],
    hexWeights := fun _ => [], hexAbscissa := fun _ => [],
    priWeights := fun _ => [], priAbscissa := fun _ => [] }

/-- The state left by the constructor `ElementMatrix(1, 0, 0)`: a new-style
operator for a scalar field. -/
def scalarOp : ElementMatrix ℚ (ℚ × ℚ) :=
  { (ElementMatrix.blank : ElementMatrix ℚ (ℚ × ℚ)) with _newStyle := true, _nCoeff := 1 }

/-- A legacy operator sized for the triangle: a zeroed 3 x 3 integrated matrix
and the node ids of `tri`, an empty cache `u2Cache_`. -/
def legacyTri : ElementMatrix ℚ (ℚ × ℚ) :=
  { (ElementMatrix.blank : ElementMatrix ℚ (ℚ × ℚ)) with
    mat_ := DenseMatrix.ofSize 3 3, _ids := [0, 1, 2], _idsC := [0, 1, 2],
    _idsR := [0, 1, 2] }

/-- The 2 x 2 matrix with the rows `[a b]` and `[c d]`. -/
def sqMat (a b c d : ℚ) : DenseMatrix ℚ :=
  { rows := 2, cols := 2,
    data := fun k => if k = 0 then a else if k = 1 then b else if k = 2 then c
      else if k = 3 then d else 0 }

/-- A valid, not integrated operator on `seg` with two quadrature points and
two-row basis images `[[1 2] [3 4]]` and `[[5 6] [7 8]]`; its integrated matrix
has two columns, as many as there are quadrature points. -/
def opSq : ElementMatrix ℚ Unit :=
  { (ElementMatrix.blank : ElementMatrix ℚ Unit) with
    mat_ := DenseMatrix.ofSize 2 2, _idsR := [4, 5], _idsC := [0, 0], _ids := [4, 5],
    _nCoeff := 1, _ent := some seg, _w := some [1/2, 1/2], _x := some [(), ()],
    _matX := [sqMat 1 2 3 4, sqMat 5 6 7 8], _newStyle := true, _valid := true }

/-- An operator of order 1 with the row ids `rowIds` and the column ids
`colIds`. -/
def idOp (rowIds colIds : List ℕ) : ElementMatrix ℚ Unit :=
  { (ElementMatrix.blank : ElementMatrix ℚ Unit) with
    _idsR := rowIds, _idsC := colIds, _ids := rowIds, _order := 1, _newStyle := true }

/-- A map of two single-node operators with the ids 0 and 2 on three dofs. -/
def diagMap : ElementMatrixMap ℚ Unit :=
  { mats := [idOp [0] [0], idOp [2] [2]], dof := 3, dofB := 3 }

/-- A map with one operator: row id 0. -/
def mapA : ElementMatrixMap ℚ Unit :=
  { mats := [idOp [0] [0]], dof := 1, dofB := 1 }

/-- A map with one operator, as `pot` leaves it for a scalar field on the node
1: row id 1 and the column id 0. -/
def mapB : ElementMatrixMap ℚ Unit :=
  { mats := [idOp [1] [0]], dof := 2, dofB := 1 }

/-- The `r x r` identity matrix. -/
def idMat (r : ℕ) : DenseMatrix ℚ :=
  { rows := r, cols := r, data := fun k => if k < r * r ∧ k / r = k % r then 1 else 0 }

/-- A 4 x 6 basis image, the layout of the gradient of a vector field with two
components on a triangle: entry `(i, j)` is `6 i + j + 1`. -/
def gradImage : DenseMatrix ℚ :=
  { rows := 4, cols := 6, data := fun k => if k < 24 then (k : ℚ) + 1 else 0 }

/-- A valid, not integrated operator on `tri` for a vector field with two
components: one quadrature point with the four-row basis image `gradImage`, a
6 x 4 integrated matrix, and the divergence mark `div`. -/
def opG (div : Bool) : ElementMatrix ℚ (ℚ × ℚ) :=
  { (ElementMatrix.blank : ElementMatrix ℚ (ℚ × ℚ)) with
    mat_ := DenseMatrix.ofSize 6 4, _idsR := [0, 1, 2, 3, 4, 5], _idsC := [0, 0, 0, 0],
    _ids := [0, 1, 2, 3, 4, 5], _nCoeff := 2, _dofPerCoeff := 3, _ent := some tri,
    _w := some [1], _x := some [(1/3, 1/3)], _matX := [gradImage], _newStyle := true,
    _div := div, _valid := true }

/-- A valid, not integrated value operator of a scalar field on `tri`: one
quadrature point with the one-row basis image `[1/3 1/3 1/3]`, a 3 x 1
integrated matrix. -/
def opV : ElementMatrix ℚ (ℚ × ℚ) :=
  { (ElementMatrix.blank : ElementMatrix ℚ (ℚ × ℚ)) with
    mat_ := DenseMatrix.ofSize 3 1, _idsR := [0, 1, 2], _idsC := [0], _ids := [0, 1, 2],
    _nCoeff := 1, _ent := some tri, _w := some [1], _x := some [(1/3, 1/3)],
    _matX := [{ rows := 1, cols := 3, data := fun k => if k < 3 then 1 / 3 else 0 }],
    _newStyle := true, _valid := true }

/-- A map with the operator `op2` on six row dofs and one column dof. -/
def mapOp2 : ElementMatrixMap ℚ Unit :=
  { mats := [op2], dof := 6, dofB := 1 }

/-- A 6 x 1 sparse matrix of the general storage type whose pattern holds the
positions (4, 0) and (5, 0), with the values 10 and 20. -/
def sp : SparseMatrix ℚ :=
  { colPtr_ := [0, 0, 0, 0, 0, 1, 2], rowIdx_ := [0, 0], vals_ := [10, 20], valid_ := true,
    stype_ := 0, _rows := 6, _cols := 1 }

/-- The linear triangle with nodes (0,0), (1,0), (0,1) over the field `K`:
the entity `tri` with its scalars taken in `K`. -/
def triOver (K : Type) [Field K] : MeshEntity K (K × K) :=
  { addr := 1, rtti := Rtti.triangle, dim := 2, ids := [0, 1, 2],
    nodeX := fun i => if i = 1 then 1 else 0,
    nodeY := fun i => if i = 2 then 1 else 0,
    size := 1 / 2, domainSize := 1 / 2,
    N := fun p j => if j = 0 then 1 - p.1 - p.2 else if j = 1 then p.1
      else if j = 2 then p.2 else 0,
    dNdL := fun _ axis j =>
      if axis = 0 then (if j = 0 then -1 else if j = 1 then 1 else 0)
      else if axis = 1 then (if j = 0 then -1 else if j = 2 then 1 else 0) else 0,
    drstdxyz := fun r c => if r = c then 1 else 0 }

/-- Quadrature tables over the field `K` whose rule is the centroid rule:
weight 1 at `(1/3, 1/3)`; every other table is empty. -/
def centroidRules (K : Type) [Field K] : IntegrationRules K (K × K) :=
  { weights := fun _ _ => [1],
    abscissa := fun _ _ => [(1/3, 1/3)],
    edgWeights := fun _ => [], edgAbscissa := fun _ => [],
    triWeights := fun _ => [1],
    triAbscissa := fun _ => [(1/3, 1/3)],
    quaWeights := fun _ => [], quaAbscissa := fun _ => [],
    tetWeights := fun _ => [], tetAbscissa := fun _ => [],
    hexWeights := fun _ => [], hexAbscissa := fun _ => [],
    priWeights := fun _ => [], priAbscissa := fun _ => [] }

/-- Quadrature tables without a single point: every table is empty. -/
def noRules : IntegrationRules ℚ (ℚ × ℚ) :=
  { weights := fun _ _ => [], abscissa := fun _ _ => [],
    edgWeights := fun _ => [], edgAbscissa := fun _ => [],
    triWeights := fun _ => [], triAbscissa := fun _ => [],
    quaWeights := fun _ => [], quaAbscissa := fun _ => [],
    tetWeights := fun _ => [], tetAbscissa := fun _ => [],
    hexWeights := fun _ => [], hexAbscissa := fun _ => [],
    priWeights := fun _ => [], priAbscissa := fun _ => [] }

/-- A legacy operator with the 2 x 2 matrix `[[1 2] [3 4]]` and the ids 2, 0. -/
def legacySq : ElementMatrix ℚ Unit :=
  { (ElementMatrix.blank : ElementMatrix ℚ Unit) with
    mat_ := sqMat 1 2 3 4, _ids := [2, 0], _idsC := [2, 0], _idsR := [2, 0] }

/-- The value operator `opV` with a second quadrature point: two weights and
two one-row basis images, the quadrature order of `opV`. -/
def opV2 : ElementMatrix ℚ (ℚ × ℚ) :=
  { opV with
    _w := some [1/2, 1/2], _x := some [(1/3, 1/3), (1/2, 1/2)],
    _matX := [{ rows := 1, cols := 3, data := fun k => if k < 3 then 1 / 3 else 0 },
              { rows := 1, cols := 3, data := fun k => if k < 2 then 1 / 2 else 0 }] }

/-- The value operator `opV` with the quadrature order 1. -/
def opVOrder1 : ElementMatrix ℚ (ℚ × ℚ) :=
  { opV with
    _order := 1 }

/-- An integrated operator with the 3 x 1 integrated matrix `[1 2 3]` and the
row ids 0, 1, 2. -/
def opInt : ElementMatrix ℚ Unit :=
  { (ElementMatrix.blank : ElementMatrix ℚ Unit) with
    mat_ := { rows := 3, cols := 1, data := fun k => if k < 3 then (k : ℚ) + 1 else 0 },
    _idsR := [0, 1, 2], _idsC := [0], _ids := [0, 1, 2], _nCoeff := 1, _order := 1,
    _newStyle := true, _valid := true, _integrated := true }

/-- A map with the integrated operator `opInt`. -/
def mapInt : ElementMatrixMap ℚ Unit :=
  { mats := [opInt], dof := 3, dofB := 1 }

/-- A constant space: one operator of order 0 with one component and the dof
offset 1. -/
def constSpace : ElementMatrixMap ℚ Unit :=
  { mats := [{ (ElementMatrix.blank : ElementMatrix ℚ Unit) with
               _nCoeff := 1, _dofOffset := 1, _newStyle := true }],
    dof := 2, dofB := 1 }

/-- An empty map, the target of the map algebra before the call. -/
def mapNone : ElementMatrixMap ℚ Unit :=
  { mats := [], dof := 0, dofB := 0 }

/-- An integrated operator with one component whose integrated matrix has no
row and one column, and no row id. -/
def opNoRows : ElementMatrix ℚ Unit :=
  { (ElementMatrix.blank : ElementMatrix ℚ Unit) with
    mat_ := DenseMatrix.ofSize 0 1, _idsC := [0], _nCoeff := 1, _order := 1,
    _newStyle := true, _valid := true, _integrated := true }

/-- A map with the operator `opNoRows`. -/
def mapNoRows : ElementMatrixMap ℚ Unit :=
  { mats := [opNoRows], dof := 0, dofB := 1 }

/-- The linear triangle with nodes (0,0), (2,0), (1,3): Jacobian determinant
6, measure 3, and the inverse Jacobian `[[1/2, -1/6], [0, 1/3]]`. -/
def triSkew : MeshEntity ℚ (ℚ × ℚ) :=
  { addr := 2, rtti := Rtti.triangle, dim := 2, ids := [0, 1, 2],
    nodeX := fun i => if i = 1 then 2 else if i = 2 then 1 else 0,
    nodeY := fun i => if i = 2 then 3 else 0,
    size := 3, domainSize := 3,
    N := fun p j => if j = 0 then 1 - p.1 - p.2 else if j = 1 then p.1
      else if j = 2 then p.2 else 0,
    dNdL := fun _ axis j =>
      if axis = 0 then (if j = 0 then -1 else if j = 1 then 1 else 0)
      else if axis = 1 then (if j = 0 then -1 else if j = 2 then 1 else 0) else 0,
    drstdxyz := fun r c =>
      if r = 0 ∧ c = 0 then 1 / 2 else if r = 0 ∧ c = 1 then -(1 / 6)
      else if r = 1 ∧ c = 1 then 1 / 3 else 0 }

/-- A 6 x 1 sparse matrix of the general storage type whose pattern holds the
position (4, 0) only, with the value 10. -/
def spHole : SparseMatrix ℚ :=
  { colPtr_ := [0, 0, 0, 0, 0, 1, 1], rowIdx_ := [0], vals_ := [10], valid_ := true,
    stype_ := 0, _rows := 6, _cols := 1 }

/-- The sparse matrix `sp` with the storage type -1, for which `addVal` leaves
out the positions below the diagonal: the pattern holds (4, 0) and (5, 0) with
the values 10 and 20. -/
def spLower : SparseMatrix ℚ :=
  { sp with
    stype_ := -1 }

/-- The sparse matrix left by the default constructor: no pattern and no
extent. -/
def spNone : SparseMatrix ℚ :=
  { colPtr_ := [], rowIdx_ := [], vals_ := [], valid_ := false, stype_ := 0, _rows := 0,
    _cols := 0 }

end Sample

/-! ## Theorems -/

theorem flat_div {c j : ℕ} (i : ℕ) (h : j < c) : (c * i + j) / c = i := by
  have hc : 0 < c := Nat.lt_of_le_of_lt (Nat.zero_le j) h
  rw [Nat.add_comm, Nat.add_mul_div_left _ _ hc, Nat.div_eq_of_lt h, Nat.zero_add]

theorem flat_mod {c j : ℕ} (i : ℕ) (h : j < c) : (c * i + j) % c = j := by
  rw [Nat.add_comm, Nat.add_mul_mod_self_left, Nat.mod_eq_of_lt h]

theorem flat_lt {r c i j : ℕ} (hi : i < r) (hj : j < c) : c * i + j < r * c := by
  calc c * i + j < c * i + c := Nat.add_lt_add_left hj _
    _ = c * (i + 1) := by ring
    _ ≤ c * r := Nat.mul_le_mul_left _ hi
    _ = r * c := Nat.mul_comm _ _

theorem flat_div_lt {r c t : ℕ} (h : t < r * c) : t / c < r := by
  rw [Nat.mul_comm] at h
  exact Nat.div_lt_of_lt_mul h

theorem flat_mod_lt {r c t : ℕ} (h : t < r * c) : t % c < c := by
  apply Nat.mod_lt
  rcases Nat.eq_zero_or_pos c with hc | hc
  · subst hc; simp at h
  · exact hc

theorem getElem?_getD_of_lt {α : Type} (l : List α) (d : α) {i : ℕ} (h : i < l.length) :
    l[i]? = some (l.getD i d) := by
  simp [List.getD_eq_getElem?_getD, List.getElem?_eq_getElem h]

theorem getD_set_self {α : Type} (l : List α) (a d : α) {i : ℕ} (h : i < l.length) :
    (l.set i a).getD i d = a := by
  simp [List.getD_eq_getElem?_getD, List.getElem?_set_self h]

theorem getD_set_ne {α : Type} (l : List α) (a d : α) {i j : ℕ} (h : i ≠ j) :
    (l.set i a).getD j d = l.getD j d := by
  simp [List.getD_eq_getElem?_getD, List.getElem?_set_ne h]

theorem sum3_rotate {K : Type} [AddCommMonoid K] (A B C : Finset ℕ) (f : ℕ → ℕ → ℕ → K) :
    ∑ i in A, ∑ j in B, ∑ q in C, f i j q = ∑ q in C, ∑ i in A, ∑ j in B, f i j q := by
  rw [Finset.sum_congr rfl (fun i _ => Finset.sum_comm)]
  exact Finset.sum_comm

/-- The quadratic form of a weighted sum of Gram matrices is the weighted sum
of the squared row products. -/
theorem quad_form_sum {K : Type} [CommRing K] (n m N : ℕ) (c : ℕ → K)
    (a : ℕ → ℕ → ℕ → K) (v : ℕ → K) :
    ∑ i in Finset.range N, ∑ j in Finset.range N,
        v i * (∑ q in Finset.range n, c q * ∑ s in Finset.range m, a q s i * a q s j) * v j
      = ∑ q in Finset.range n, c q * ∑ s in Finset.range m,
          (∑ i in Finset.range N, a q s i * v i) * (∑ j in Finset.range N, a q s j * v j) := by
  simp only [Finset.mul_sum, Finset.sum_mul, Finset.sum_mul_sum]
  rw [sum3_rotate]
  apply Finset.sum_congr rfl; intro q _
  rw [sum3_rotate]
  apply Finset.sum_congr rfl; intro s _
  apply Finset.sum_congr rfl; intro i _
  apply Finset.sum_congr rfl; intro j _
  ring

theorem sum_getD_range {K : Type} [AddCommMonoid K] (l : List K) :
    ∑ q in Finset.range l.length, l.getD q 0 = l.sum := by
  induction l with
  | nil => simp
  | cons a l ih =>
    rw [List.length_cons, Finset.sum_range_succ', List.sum_cons]
    simp only [List.getD_cons_succ, List.getD_cons_zero]
    rw [ih, add_comm]

theorem bind_ok {α β : Type} (a : α) (f : α → Except Error β) :
    (Except.ok a : Except Error α).bind f = f a := rfl

theorem map_ok {α β : Type} (a : α) (f : α → β) :
    (Except.ok a : Except Error α).map f = .ok (f a) := rfl

theorem forLoop_succ {σ : Type} (n : ℕ) (body : ℕ → σ → Except Error σ) (s : σ) :
    forLoop (n + 1) body s = (forLoop n body s).bind (body n) := rfl

/-- Invariant rule for the counting loop: an invariant that holds at entry and
is carried by every round, each round returning normally, holds at exit, and
the loop returns normally. -/
theorem forLoop_inv {σ : Type} (Inv : ℕ → σ → Prop) (body : ℕ → σ → Except Error σ)
    (n : ℕ) (s : σ) (h0 : Inv 0 s)
    (hstep : ∀ k t, k < n → Inv k t → ∃ t1, body k t = .ok t1 ∧ Inv (k + 1) t1) :
    ∃ t, forLoop n body s = .ok t ∧ Inv n t := by
  have key : ∀ m, m ≤ n → ∃ t, forLoop m body s = .ok t ∧ Inv m t := by
    intro m
    induction m with
    | zero => intro _; exact ⟨s, rfl, h0⟩
    | succ m ih =>
      intro hm
      obtain ⟨t, ht, hinv⟩ := ih (Nat.le_of_succ_le hm)
      obtain ⟨t1, ht1, hinv1⟩ := hstep m t hm hinv
      refine ⟨t1, ?_, hinv1⟩
      rw [forLoop_succ, ht]
      exact ht1
  exact key n le_rfl

theorem flat_row_ne {c i k j : ℕ} (h : k ≠ i) (hj : j < c) :
    ¬ (c * i ≤ c * k + j ∧ c * k + j < c * i + c) := by
  intro ⟨h1, h2⟩
  rcases Nat.lt_or_gt_of_ne h with hlt | hgt
  · have : c * (k + 1) ≤ c * i := Nat.mul_le_mul_left _ hlt
    rw [Nat.mul_succ] at this
    omega
  · have : c * (i + 1) ≤ c * k := Nat.mul_le_mul_left _ hgt
    rw [Nat.mul_succ] at this
    omega

namespace DenseMatrix

variable {R : Type} [Field R]

theorem copy_rows (A : DenseMatrix R) : (copy A).rows = A.rows := by
  simp only [copy, copy_, resize, allocate_]; split <;> rfl

theorem copy_cols (A : DenseMatrix R) : (copy A).cols = A.cols := by
  simp only [copy, copy_, resize, allocate_]; split <;> rfl

theorem copy_data (A : DenseMatrix R) (k : ℕ) (h : k < A.rows * A.cols) :
    (copy A).data k = A.data k := by
  simp only [copy, copy_, resize, allocate_, length]
  split <;> simp [h]

theorem mulScalar_rows (A : DenseMatrix R) (v : R) : (A.mulScalar v).rows = A.rows := by
  simp only [mulScalar, opAssignScalar, copy_rows]

theorem mulScalar_cols (A : DenseMatrix R) (v : R) : (A.mulScalar v).cols = A.cols := by
  simp only [mulScalar, opAssignScalar, copy_cols]

theorem mulScalar_data (A : DenseMatrix R) (v : R) (k : ℕ) (h : k < A.rows * A.cols) :
    (A.mulScalar v).data k = A.data k * v := by
  simp only [mulScalar, opAssignScalar, length, copy_rows, copy_cols, h, if_true,
    copy_data A k h]

theorem mulScalar_val (A : DenseMatrix R) (v : R) {i j : ℕ} (hi : i < A.rows)
    (hj : j < A.cols) : (A.mulScalar v).val i j = A.val i j * v := by
  simp only [val, mulScalar_cols]
  exact mulScalar_data A v _ (flat_lt hi hj)

theorem setRowSlice_ok (m : DenseMatrix R) (i : ℕ) (v : ℕ → R) (start stop : ℕ)
    (h : i < m.rows ∧ start ≤ stop ∧ stop ≤ m.cols) :
    ∃ M, m.setRowSlice i v start stop = .ok M ∧ M.rows = m.rows ∧ M.cols = m.cols ∧
      ∀ t, M.data t = if m.cols * i + start ≤ t ∧ t < m.cols * i + stop
        then v (t - (m.cols * i + start)) else m.data t := by
  refine ⟨{ m with data := fun k =>
              if m.cols * i + start ≤ k ∧ k < m.cols * i + stop
              then v (k - (m.cols * i + start)) else m.data k },
    by rw [setRowSlice, if_pos h], rfl, rfl, fun t => rfl⟩

theorem setRow_ok (m : DenseMatrix R) (i : ℕ) (v : ℕ → R) (hi : i < m.rows) :
    ∃ M, m.setRow i v = .ok M ∧ M.rows = m.rows ∧ M.cols = m.cols ∧
      (∀ j, j < m.cols → M.val i j = v j) ∧
      (∀ k j, k ≠ i → j < m.cols → M.val k j = m.val k j) := by
  refine ⟨{ m with data := fun k =>
              if m.cols * i ≤ k ∧ k < m.cols * i + m.cols then v (k - m.cols * i)
              else m.data k },
    by rw [setRow, if_pos hi], rfl, rfl, ?_, ?_⟩
  · intro j hj
    show (if m.cols * i ≤ m.cols * i + j ∧ m.cols * i + j < m.cols * i + m.cols
      then v (m.cols * i + j - m.cols * i) else _) = _
    rw [if_pos ⟨Nat.le_add_right _ _, Nat.add_lt_add_left hj _⟩, Nat.add_sub_cancel_left]
  · intro k j hk hj
    show (if m.cols * i ≤ m.cols * k + j ∧ m.cols * k + j < m.cols * i + m.cols
      then _ else m.data (m.cols * k + j)) = _
    rw [if_neg (flat_row_ne hk hj)]
    rfl

/-- A slice write over the whole row `i`, columns `0 .. cols - 1`. -/
theorem setRowSlice_full (m : DenseMatrix R) (i : ℕ) (v : ℕ → R) (hi : i < m.rows) :
    ∃ M, m.setRowSlice i v 0 m.cols = .ok M ∧ M.rows = m.rows ∧ M.cols = m.cols ∧
      (∀ j, j < m.cols → M.val i j = v j) ∧
      (∀ k j, k ≠ i → j < m.cols → M.val k j = m.val k j) := by
  refine ⟨{ m with data := fun k =>
              if m.cols * i + 0 ≤ k ∧ k < m.cols * i + m.cols
              then v (k - (m.cols * i + 0)) else m.data k },
    by rw [setRowSlice, if_pos ⟨hi, Nat.zero_le _, le_rfl⟩], rfl, rfl, ?_, ?_⟩
  · intro j hj
    show (if m.cols * i + 0 ≤ m.cols * i + j ∧ m.cols * i + j < m.cols * i + m.cols
      then v (m.cols * i + j - (m.cols * i + 0)) else _) = _
    rw [if_pos ⟨by omega, Nat.add_lt_add_left hj _⟩]
    congr 1
    omega
  · intro k j hk hj
    show (if m.cols * i + 0 ≤ m.cols * k + j ∧ m.cols * k + j < m.cols * i + m.cols
      then _ else m.data (m.cols * k + j)) = _
    rw [Nat.add_zero, if_neg (flat_row_ne hk hj)]
    rfl

theorem row_ok (m : DenseMatrix R) (i : ℕ) (hi : i < m.rows) :
    m.row i = .ok (fun j => m.val i j) := by
  rw [row, if_pos hi]
  rfl

/-- Writing row `k` with `f k` extends a matrix whose first `k` rows hold `f`. -/
theorem rowsAre_setRow {m : DenseMatrix R} {nr nc k : ℕ} {f : ℕ → ℕ → R}
    (h : RowsAre m nr nc k f) (hk : k < nr) (v : ℕ → R) (hv : ∀ j, j < nc → v j = f k j) :
    ∃ M, m.setRow k v = .ok M ∧ RowsAre M nr nc (k + 1) f := by
  obtain ⟨hr, hc, hd⟩ := h
  obtain ⟨M, hM, hMr, hMc, hrow, hoth⟩ := setRow_ok m k v (by rw [hr]; exact hk)
  refine ⟨M, hM, hMr.trans hr, hMc.trans hc, ?_⟩
  intro i hi j hj
  rcases Nat.lt_succ_iff_lt_or_eq.mp hi with hlt | heq
  · rw [hoth i j (Nat.ne_of_lt hlt) (by rw [hc]; exact hj)]
    exact hd i hlt j hj
  · subst heq
    rw [hrow j (by rw [hc]; exact hj)]
    exact hv j hj

theorem rowsAre_resize (m : DenseMatrix R) (nr nc : ℕ) (f : ℕ → ℕ → R) :
    RowsAre (m.resize nr nc) nr nc 0 f :=
  ⟨by simp only [DenseMatrix.resize, allocate_]; split <;> rfl,
    by simp only [DenseMatrix.resize, allocate_]; split <;> rfl,
    fun i hi => absurd hi (Nat.not_lt_zero i)⟩

theorem transAdd_ok (m a : DenseMatrix R) (h1 : a.cols = m.rows) (h2 : a.rows = m.cols) :
    ∃ M, m.transAdd a = .ok M ∧ M.rows = m.rows ∧ M.cols = m.cols ∧
      ∀ t, t < m.rows * m.cols → M.data t = m.data t + a.val (t % m.cols) (t / m.cols) := by
  refine ⟨{ m with data := fun k =>
      if k < m.length then m.data k + a.val (k % m.cols) (k / m.cols) else m.data k },
    ?_, rfl, rfl, ?_⟩
  · rw [transAdd, if_pos ⟨h1, h2⟩]
  · intro t ht
    have : t < m.length := ht
    simp only [this, if_true]

theorem transMult_ok (A B C : DenseMatrix R) (alpha beta : R) (h : A.rows = B.rows) :
    ∃ M, A.transMult B C alpha beta = .ok M ∧ M.rows = A.cols ∧ M.cols = B.cols ∧
      ∀ t, t < A.cols * B.cols → M.data t
        = alpha * (∑ s in Finset.range A.rows, A.val s (t / B.cols) * B.val s (t % B.cols))
          + beta * C.data t := by
  refine ⟨{ rows := A.cols, cols := B.cols,
            data := fun k =>
              if k < A.cols * B.cols then
                alpha * (∑ t in Finset.range A.rows, A.val t (k / B.cols) * B.val t (k % B.cols))
                  + beta * C.data k
              else C.data k }, by rw [transMult, if_pos h], rfl, rfl, ?_⟩
  intro t ht
  simp only [ht, if_true]

theorem copy__rows (m src : DenseMatrix R) : (m.copy_ src).rows = src.rows := by
  simp only [copy_, resize, allocate_]; split <;> rfl

theorem copy__cols (m src : DenseMatrix R) : (m.copy_ src).cols = src.cols := by
  simp only [copy_, resize, allocate_]; split <;> rfl

theorem copy__data (m src : DenseMatrix R) (k : ℕ) (h : k < src.rows * src.cols) :
    (m.copy_ src).data k = src.data k := by
  simp only [copy_, resize, allocate_, length]
  split <;> simp [h]

theorem resize_rows (m : DenseMatrix R) (r c : ℕ) : (m.resize r c).rows = r := by
  simp only [resize, allocate_]; split <;> rfl

theorem resize_cols (m : DenseMatrix R) (r c : ℕ) : (m.resize r c).cols = c := by
  simp only [resize, allocate_]; split <;> rfl

theorem addAssign_same (m A : DenseMatrix R) (hr : A.rows = m.rows) (hc : A.cols = m.cols) :
    ∃ M, m.addAssign A = .ok M ∧ M.rows = m.rows ∧ M.cols = m.cols ∧
      ∀ t, t < m.rows * m.cols → M.data t = m.data t + A.data t := by
  refine ⟨{ m with data := fun k =>
              if k < m.length then m.data k + A.data k else m.data k },
    by rw [addAssign, opAssign, if_pos ⟨hr, hc⟩], rfl, rfl, ?_⟩
  intro t ht
  have : t < m.length := ht
  simp only [this, if_true]

end DenseMatrix

theorem setIdSlice_ok (l vals : List ℕ) (start stop : ℕ) (h1 : start ≤ stop)
    (h2 : stop ≤ l.length) (h3 : stop - start ≤ vals.length) :
    ∃ l1, setIdSlice l vals start stop = .ok l1 ∧ l1.length = l.length := by
  refine ⟨l.take start ++ vals.take (stop - start) ++ l.drop stop,
    by rw [setIdSlice, if_pos ⟨h1, h2, h3⟩], ?_⟩
  simp only [List.length_append, List.length_take, List.length_drop]
  omega

theorem setIds_loop (vals : ℕ → List ℕ) (nVerts : ℕ) (hv : ∀ i, (vals i).length = nVerts)
    (l : List ℕ) (k : ℕ) (hk : k * nVerts ≤ l.length) :
    ∃ l1, forLoop k (fun i idsR => setIdSlice idsR (vals i) (i * nVerts) ((i + 1) * nVerts)) l
        = .ok l1 ∧ l1.length = l.length := by
  induction k with
  | zero => exact ⟨l, rfl, rfl⟩
  | succ k ih =>
    have hle : k * nVerts ≤ (k + 1) * nVerts := Nat.mul_le_mul_right _ (Nat.le_succ k)
    obtain ⟨l1, h1, hlen⟩ := ih (le_trans hle hk)
    have hsub : (k + 1) * nVerts - k * nVerts ≤ (vals k).length := by
      rw [hv k, Nat.succ_mul]; omega
    obtain ⟨l2, h2, hlen2⟩ := setIdSlice_ok l1 (vals k) (k * nVerts) ((k + 1) * nVerts)
      hle (by rw [hlen]; exact hk) hsub
    refine ⟨l2, ?_, hlen2.trans hlen⟩
    rw [forLoop_succ, h1]
    exact h2

namespace ElementMatrix

variable {R P : Type} [Field R]

/-- Success of `resize(rows, cols, true)`: the id loop stays inside `_idsR`
when `_nCoeff * nodeCount ≤ rows`; only `mat_` and the id arrays change. -/
theorem resize_ok (E : ElementMatrix R P) (rows cols : ℕ)
    (h : ∀ ent, E._ent = some ent → E._nCoeff * ent.nodeCount ≤ rows) :
    ∃ idsR, E.resize rows cols true = .ok
        { E with _idsR := idsR, _idsC := resizeIds E._idsC (if cols = 0 then rows else cols),
                 _ids := resizeIds E._ids rows,
                 mat_ := E.mat_.resize rows (if cols = 0 then rows else cols) } ∧
      idsR.length = rows := by
  have hlen : (resizeIds E._idsR rows).length = rows := by
    simp only [resizeIds, List.length_append, List.length_take, List.length_replicate]
    omega
  cases hent : E._ent with
  | none =>
    refine ⟨resizeIds E._idsR rows, ?_, hlen⟩
    simp only [resize, hent]
  | some ent =>
    obtain ⟨l1, h1, hl1⟩ := setIds_loop
      (fun i => ent.ids.map (· + i * E._dofPerCoeff + E._dofOffset)) ent.nodeCount
      (fun i => by simp [MeshEntity.nodeCount]) (resizeIds E._idsR rows) E._nCoeff
      (by rw [hlen]; exact h ent hent)
    refine ⟨l1, ?_, hl1.trans hlen⟩
    simp only [resize, hent, if_true, h1]
    rfl

theorem init_ok (E : ElementMatrix R P) (nCoeff dofPerCoeff dofOffset : ℕ)
    (h : ¬ (nCoeff > 1 ∧ dofPerCoeff = 0)) :
    E.init nCoeff dofPerCoeff dofOffset = .ok
      { E with _newStyle := true, _order := 0, _nCoeff := nCoeff,
               _dofPerCoeff := dofPerCoeff, _dofOffset := dofOffset,
               _ent := none, _w := none, _x := none, _div := false,
               _integrated := false, _elastic := false, _valid := false } := by
  rw [init, if_neg h]

theorem resizeMatX_U__ok (E : ElementMatrix R P) (x : List P) (ent : MeshEntity R P)
    (hx : E._x = some x) (hent : E._ent = some ent) (hnc : E._nCoeff ≠ 0) :
    ∃ idsR, E.resizeMatX_U_ = .ok
        { E with _idsR := idsR, _idsC := resizeIds E._idsC E._nCoeff,
                 _ids := resizeIds E._ids (ent.nodeCount * E._nCoeff),
                 mat_ := E.mat_.resize (ent.nodeCount * E._nCoeff) E._nCoeff,
                 _matX := (resizeMats E._matX x.length).map
                    fun m => (m.resize E._nCoeff (ent.nodeCount * E._nCoeff)).setZero } ∧
      idsR.length = ent.nodeCount * E._nCoeff := by
  obtain ⟨idsR, h, hl⟩ := resize_ok E (ent.nodeCount * E._nCoeff) E._nCoeff
    (fun e he => by rw [hent] at he; cases he; exact le_of_eq (Nat.mul_comm _ _))
  refine ⟨idsR, ?_, hl⟩
  simp only [resizeMatX_U_, hx, hent, if_neg hnc, h]
  simp only [Except.map, if_neg hnc]

theorem fillRows_loop_shape (ent : MeshEntity R P) (xi : P) (nC : ℕ) (M : DenseMatrix R)
    (hr : M.rows = nC) (hc : M.cols = ent.nodeCount * nC) (k : ℕ) (hk : k ≤ nC) :
    ∃ M1, forLoop k (fun n M =>
        M.setRowSlice n (ent.N xi) (n * ent.nodeCount) ((n + 1) * ent.nodeCount)) M = .ok M1 ∧
      M1.rows = nC ∧ M1.cols = ent.nodeCount * nC := by
  induction k with
  | zero => exact ⟨M, rfl, hr, hc⟩
  | succ k ih =>
    obtain ⟨M1, h1, hr1, hc1⟩ := ih (Nat.le_of_succ_le hk)
    have hcond : k < M1.rows ∧ k * ent.nodeCount ≤ (k + 1) * ent.nodeCount ∧
        (k + 1) * ent.nodeCount ≤ M1.cols := by
      refine ⟨by rw [hr1]; exact hk, Nat.mul_le_mul_right _ (Nat.le_succ k), ?_⟩
      rw [hc1, Nat.mul_comm]
      exact Nat.mul_le_mul_left _ hk
    obtain ⟨M2, h2, hr2, hc2, -⟩ := DenseMatrix.setRowSlice_ok M1 k (ent.N xi)
      (k * ent.nodeCount) ((k + 1) * ent.nodeCount) hcond
    refine ⟨M2, ?_, hr2.trans hr1, hc2.trans hc1⟩
    rw [forLoop_succ, h1]
    exact h2

theorem fillMatX_U_Rows_shape (ent : MeshEntity R P) (xi : P) (nC : ℕ) (M M1 : DenseMatrix R)
    (hr : M.rows = nC) (hc : M.cols = ent.nodeCount * nC)
    (h : fillMatX_U_Rows ent xi nC M = .ok M1) :
    M1.rows = nC ∧ M1.cols = ent.nodeCount * nC := by
  obtain ⟨M2, h2, hr2, hc2⟩ := fillRows_loop_shape ent xi nC M hr hc nC le_rfl
  rw [fillMatX_U_Rows, h2] at h
  cases h
  exact ⟨hr2, hc2⟩

/-- The outer loop of `fillMatX_U_` after `k` rounds: the first `k` matrices are
the row fills of the matrices found there, the others are untouched. -/
theorem fillMatX_U_loop (ent : MeshEntity R P) (x : List P) (nC : ℕ)
    (mats : List (DenseMatrix R)) (hlen : mats.length = x.length)
    (hshape : ∀ q, q < x.length → (mats.getD q DenseMatrix.empty).rows = nC ∧
      (mats.getD q DenseMatrix.empty).cols = ent.nodeCount * nC)
    (k : ℕ) (hk : k ≤ x.length) :
    ∃ mats1, forLoop k (fillMatX_U_Step ent x nC) mats = .ok mats1 ∧
      mats1.length = x.length ∧
      (∀ q xq, q < k → x[q]? = some xq →
        fillMatX_U_Rows ent xq nC (mats.getD q DenseMatrix.empty)
          = .ok (mats1.getD q DenseMatrix.empty)) ∧
      (∀ q, k ≤ q → mats1.getD q DenseMatrix.empty = mats.getD q DenseMatrix.empty) := by
  induction k with
  | zero => exact ⟨mats, rfl, hlen, fun q xq h => absurd h (Nat.not_lt_zero q), fun _ _ => rfl⟩
  | succ k ih =>
    obtain ⟨mats1, h1, hl1, hdone, hrest⟩ := ih (Nat.le_of_succ_le hk)
    have hkx : k < x.length := hk
    have hx : x[k]? = some x[k] := List.getElem?_eq_getElem hkx
    have hm : mats1[k]? = some (mats1.getD k DenseMatrix.empty) :=
      getElem?_getD_of_lt _ _ (hl1 ▸ hkx)
    obtain ⟨hsr, hsc⟩ := hshape k hkx
    rw [← hrest k le_rfl] at hsr hsc
    obtain ⟨M2, h2, -, -⟩ := fillRows_loop_shape ent x[k] nC _ hsr hsc nC le_rfl
    refine ⟨mats1.set k M2, ?_, by rw [List.length_set]; exact hl1, ?_, ?_⟩
    · rw [forLoop_succ, h1]
      show fillMatX_U_Step ent x nC k mats1 = _
      simp only [fillMatX_U_Step, hx, hm, fillMatX_U_Rows, h2]
      rfl
    · intro q xq hq hxq
      rcases Nat.lt_succ_iff_lt_or_eq.mp hq with hlt | heq
      · rw [getD_set_ne _ _ _ (Nat.ne_of_gt hlt)]
        exact hdone q xq hlt hxq
      · subst heq
        rw [getD_set_self _ _ _ (hl1 ▸ hkx), ← hrest q le_rfl]
        rw [hx] at hxq
        cases hxq
        exact h2
    · intro q hq
      rw [getD_set_ne _ _ _ (by omega), hrest q (by omega)]

theorem resizeMats_length (l : List (DenseMatrix R)) (n : ℕ) :
    (resizeMats l n).length = n := by
  simp only [resizeMats, List.length_append, List.length_take, List.length_replicate]
  omega

theorem zeroed_mats (l : List (DenseMatrix R)) (n r c q : ℕ) (hq : q < n) :
    (((resizeMats l n).map fun m => (m.resize r c).setZero).getD q DenseMatrix.empty).rows = r ∧
    (((resizeMats l n).map fun m => (m.resize r c).setZero).getD q DenseMatrix.empty).cols = c ∧
    ∀ t, t < r * c →
      (((resizeMats l n).map fun m => (m.resize r c).setZero).getD q DenseMatrix.empty).data t
        = 0 := by
  have hlen : q < ((resizeMats l n).map fun m => (m.resize r c).setZero).length := by
    rw [List.length_map, resizeMats_length]; exact hq
  rw [List.getD_eq_getElem _ _ hlen, List.getElem_map]
  refine ⟨DenseMatrix.resize_rows _ _ _, DenseMatrix.resize_cols _ _ _, ?_⟩
  intro t ht
  simp only [DenseMatrix.setZero, DenseMatrix.clean, DenseMatrix.resize_rows,
    DenseMatrix.resize_cols, ht, if_true]

/-- The loop of `integrate()` after `k` rounds: the shape of `mat_` is kept and
entry `t` of the buffer holds the first `k` terms of the transposed sum. -/
theorem integrate_loop (E : ElementMatrix R P) (w : List R) (ent : MeshEntity R P)
    (hent : E._ent = some ent)
    (hshape : ∀ q, q < w.length → (E.matXq q).rows = E.mat_.cols ∧
      (E.matXq q).cols = E.mat_.rows)
    (hX : w.length ≤ E._matX.length) (k : ℕ) (hk : k ≤ w.length) :
    ∃ M, forLoop k (integrateStep E w) E.mat_.setZero = .ok M ∧
      M.rows = E.mat_.rows ∧ M.cols = E.mat_.cols ∧
      ∀ t, t < E.mat_.rows * E.mat_.cols →
        M.data t = ∑ q in Finset.range k,
          (w.getD q 0 * ent.size) * (E.matXq q).val (t % E.mat_.cols) (t / E.mat_.cols) := by
  induction k with
  | zero =>
    refine ⟨E.mat_.setZero, rfl, rfl, rfl, ?_⟩
    intro t ht
    simp [DenseMatrix.setZero, DenseMatrix.clean, ht]
  | succ k ih =>
    obtain ⟨M, hM, hr, hc, hd⟩ := ih (Nat.le_of_succ_le hk)
    have hkw : k < w.length := hk
    have hkX : k < E._matX.length := Nat.lt_of_lt_of_le hkw hX
    obtain ⟨hsr, hsc⟩ := hshape k hkw
    have h1 : E._matX[k]? = some (E.matXq k) := getElem?_getD_of_lt _ _ hkX
    have h2 : w[k]? = some (w.getD k 0) := getElem?_getD_of_lt _ _ hkw
    have hstep : integrateStep E w k M
        = M.transAdd ((E.matXq k).mulScalar (w.getD k 0 * ent.size)) := by
      simp only [integrateStep, h1, h2, hent]
    have hcond : ((E.matXq k).mulScalar (w.getD k 0 * ent.size)).cols = M.rows ∧
        ((E.matXq k).mulScalar (w.getD k 0 * ent.size)).rows = M.cols := by
      rw [DenseMatrix.mulScalar_cols, DenseMatrix.mulScalar_rows, hr, hc]
      exact ⟨hsc, hsr⟩
    obtain ⟨M1, hM1, hr1, hc1, hd1⟩ := DenseMatrix.transAdd_ok M _ hcond.1 hcond.2
    refine ⟨M1, ?_, hr1.trans hr, hc1.trans hc, ?_⟩
    · rw [forLoop_succ, hM]
      show integrateStep E w k M = _
      rw [hstep, hM1]
    · intro t ht
      have htM : t < M.rows * M.cols := by rw [hr, hc]; exact ht
      have hrow : t % E.mat_.cols < (E.matXq k).rows := by
        rw [hsr]; exact flat_mod_lt ht
      have hcol : t / E.mat_.cols < (E.matXq k).cols := by
        rw [hsc]; exact flat_div_lt ht
      rw [hd1 t htM, hc, DenseMatrix.mulScalar_val _ _ hrow hcol, hd t ht,
        Finset.sum_range_succ]
      ring

/-- Success of `integrate()` on a valid, not yet integrated new-style operator
whose basis images have the transposed shape of `mat_`. -/
theorem integrate_ok (E : ElementMatrix R P) (w : List R) (ent : MeshEntity R P)
    (hnew : E._newStyle = true) (hint : E._integrated = false) (hval : E._valid = true)
    (hw : E._w = some w) (hent : E._ent = some ent)
    (hshape : ∀ q, q < w.length → (E.matXq q).rows = E.mat_.cols ∧
      (E.matXq q).cols = E.mat_.rows)
    (hX : w.length ≤ E._matX.length) :
    ∃ M, E.integrate = .ok { E with mat_ := M, _integrated := true } ∧
      M.rows = E.mat_.rows ∧ M.cols = E.mat_.cols ∧
      ∀ t, t < E.mat_.rows * E.mat_.cols →
        M.data t = ∑ q in Finset.range w.length,
          (w.getD q 0 * ent.size) * (E.matXq q).val (t % E.mat_.cols) (t / E.mat_.cols) := by
  obtain ⟨M, hM, hr, hc, hd⟩ := integrate_loop E w ent hent hshape hX w.length le_rfl
  refine ⟨M, ?_, hr, hc, hd⟩
  simp only [integrate, hnew, hint, hval, and_self, if_true, hw, hM]
  rfl

/-- C2: on a valid, not yet integrated new-style operator with `n` weights and
`n` basis images, each of the transposed shape of the integrated matrix,
`integrate()` returns normally, sets entry `(i, j)` of the integrated matrix
to the sum over `q` of `(w_q * entity.size) * X_q(j, i)`, i.e. to the sum of
the scaled transposed basis images, sets `integrated`, and leaves the basis
images and all ids unchanged. -/
theorem integrate_transposed_sum (E : ElementMatrix R P) (w : List R)
    (ent : MeshEntity R P) (n : ℕ)
    (hnew : E._newStyle = true) (hval : E._valid = true) (hint : E._integrated = false)
    (hw : E._w = some w) (hent : E._ent = some ent)
    (hn : w.length = n) (hXn : E._matX.length = n)
    (hshape : ∀ q, q < n → (E.matXq q).rows = E.mat_.cols ∧
      (E.matXq q).cols = E.mat_.rows) :
    ∃ E1, E.integrate = .ok E1 ∧
      E1.mat_.rows = E.mat_.rows ∧ E1.mat_.cols = E.mat_.cols ∧
      (∀ i j, i < E.mat_.rows → j < E.mat_.cols →
        E1.mat_.val i j
          = ∑ q in Finset.range n, (w.getD q 0 * ent.size) * (E.matXq q).val j i) ∧
      E1._integrated = true ∧ E1._matX = E._matX ∧
      E1._idsR = E._idsR ∧ E1._idsC = E._idsC ∧ E1._ids = E._ids := by
  subst hn
  obtain ⟨M, hM, hr, hc, hd⟩ := integrate_ok E w ent hnew hint hval hw hent hshape
    (le_of_eq hXn.symm)
  refine ⟨_, hM, hr, hc, ?_, rfl, rfl, rfl, rfl, rfl⟩
  intro i j hi hj
  show M.data (M.cols * i + j) = _
  rw [hc, hd _ (flat_lt hi hj), flat_mod i hj, flat_div i hj]

/-- Witness for C2 on the sample operator `op2`. -/
theorem integrate_transposed_sum_witness :
    ∃ E1, Sample.op2.integrate = .ok E1 ∧
      E1.mat_.rows = Sample.op2.mat_.rows ∧ E1.mat_.cols = Sample.op2.mat_.cols ∧
      (∀ i j, i < Sample.op2.mat_.rows → j < Sample.op2.mat_.cols →
        E1.mat_.val i j
          = ∑ q in Finset.range 2, (([1/2, 1/2] : List ℚ).getD q 0 * Sample.seg.size)
              * (Sample.op2.matXq q).val j i) ∧
      E1._integrated = true ∧ E1._matX = Sample.op2._matX ∧
      E1._idsR = Sample.op2._idsR ∧ E1._idsC = Sample.op2._idsC ∧
      E1._ids = Sample.op2._ids :=
  integrate_transposed_sum Sample.op2 [1/2, 1/2] Sample.seg 2 rfl rfl rfl rfl rfl rfl rfl
    (by
      intro q hq
      interval_cases q <;> exact ⟨rfl, rfl⟩)

theorem atPoint_eq (x : List P) (i : ℕ) (xi : P) (g : P → R) (h : x[i]? = some xi) :
    atPoint x i g = g xi := by
  simp only [atPoint, h]

/-- The cache block of `grad` on a cache miss: the reference gradients of
every quadrature point are stored row by row. -/
theorem gradCache_ok (E : ElementMatrix R P) (ent : MeshEntity R P) (x : List P)
    (hmiss : E.dNdr_.rows ≠ x.length) :
    ∃ r s t, E.gradCache ent x = .ok
        { E with
          dNdr_ := r, dNds_ := s, dNdt_ := t,
          dNdx_ := if ent.dim > 0 then E.dNdx_.resize x.length ent.nodeCount else E.dNdx_,
          dNdy_ := if ent.dim > 1 then E.dNdy_.resize x.length ent.nodeCount else E.dNdy_,
          dNdz_ := if ent.dim > 2 then E.dNdz_.resize x.length ent.nodeCount else E.dNdz_ } ∧
      (ent.dim > 0 → RowsAre r x.length ent.nodeCount x.length
        (fun i j => atPoint x i (fun p => ent.dNdL p 0 j))) ∧
      (ent.dim > 1 → RowsAre s x.length ent.nodeCount x.length
        (fun i j => atPoint x i (fun p => ent.dNdL p 1 j))) ∧
      (ent.dim > 2 → RowsAre t x.length ent.nodeCount x.length
        (fun i j => atPoint x i (fun p => ent.dNdL p 2 j))) := by
  obtain ⟨E3, hloop, r, s, t, hE3, hr, hs, ht⟩ := forLoop_inv
    (fun k (E2 : ElementMatrix R P) => ∃ r s t,
      E2 = { E with dNdr_ := r, dNds_ := s, dNdt_ := t } ∧
      (ent.dim > 0 → RowsAre r x.length ent.nodeCount k
        (fun i j => atPoint x i (fun p => ent.dNdL p 0 j))) ∧
      (ent.dim > 1 → RowsAre s x.length ent.nodeCount k
        (fun i j => atPoint x i (fun p => ent.dNdL p 1 j))) ∧
      (ent.dim > 2 → RowsAre t x.length ent.nodeCount k
        (fun i j => atPoint x i (fun p => ent.dNdL p 2 j))))
    (fun i (E2 : ElementMatrix R P) =>
      match x[i]? with
      | none => .error .outOfRange
      | some xi =>
        (if ent.dim > 0 then E2.dNdr_.setRow i (ent.dNdL xi 0) else .ok E2.dNdr_).bind fun r =>
        (if ent.dim > 1 then E2.dNds_.setRow i (ent.dNdL xi 1) else .ok E2.dNds_).bind fun s =>
        (if ent.dim > 2 then E2.dNdt_.setRow i (ent.dNdL xi 2) else .ok E2.dNdt_).map fun t =>
        { E2 with dNdr_ := r, dNds_ := s, dNdt_ := t })
    x.length
    { E with
      dNdr_ := if ent.dim > 0 then E.dNdr_.resize x.length ent.nodeCount else E.dNdr_,
      dNds_ := if ent.dim > 1 then E.dNds_.resize x.length ent.nodeCount else E.dNds_,
      dNdt_ := if ent.dim > 2 then E.dNdt_.resize x.length ent.nodeCount else E.dNdt_ }
    ⟨_, _, _, rfl,
      fun h => by rw [if_pos h]; exact DenseMatrix.rowsAre_resize _ _ _ _,
      fun h => by rw [if_pos h]; exact DenseMatrix.rowsAre_resize _ _ _ _,
      fun h => by rw [if_pos h]; exact DenseMatrix.rowsAre_resize _ _ _ _⟩
    (by
      intro k E2 hk ⟨r, s, t, hE2, hr, hs, ht⟩
      have hx : x[k]? = some x[k] := List.getElem?_eq_getElem hk
      have stage : ∀ (a : ℕ) (m : DenseMatrix R),
          (ent.dim > a → RowsAre m x.length ent.nodeCount k
            (fun i j => atPoint x i (fun p => ent.dNdL p a j))) →
          ∃ m1, (if ent.dim > a then m.setRow k (ent.dNdL x[k] a) else .ok m) = .ok m1 ∧
            (ent.dim > a → RowsAre m1 x.length ent.nodeCount (k + 1)
              (fun i j => atPoint x i (fun p => ent.dNdL p a j))) := by
        intro a m hm
        by_cases hd : ent.dim > a
        · obtain ⟨m1, h1, h2⟩ := DenseMatrix.rowsAre_setRow (hm hd) hk (ent.dNdL x[k] a)
            (fun j _ => (atPoint_eq x k x[k] (fun p => ent.dNdL p a j) hx).symm)
          exact ⟨m1, by rw [if_pos hd]; exact h1, fun _ => h2⟩
        · exact ⟨m, by rw [if_neg hd], fun h => absurd h hd⟩
      obtain ⟨r1, hr1, hr1'⟩ := stage 0 r hr
      obtain ⟨s1, hs1, hs1'⟩ := stage 1 s hs
      obtain ⟨t1, ht1, ht1'⟩ := stage 2 t ht
      refine ⟨{ E with dNdr_ := r1, dNds_ := s1, dNdt_ := t1 }, ?_,
        r1, s1, t1, rfl, hr1', hs1', ht1'⟩
      subst hE2
      simp only [hx, hr1, hs1, ht1]
      rfl)
  subst hE3
  refine ⟨r, s, t, ?_, hr, hs, ht⟩
  simp only [gradCache, if_pos hmiss, hloop]
  rfl

/-- The second loop of `grad`: the rows of `dNdx_`, `dNdy_`, `dNdz_` are the
physical gradients at the quadrature points. -/
theorem gradPhys_ok (E : ElementMatrix R P) (ent : MeshEntity R P) (x : List P)
    (hdim : ent.dim = 1 ∨ ent.dim = 2 ∨ ent.dim = 3)
    (hr : ent.dim > 0 → RowsAre E.dNdr_ x.length ent.nodeCount x.length
        (fun i j => atPoint x i (fun p => ent.dNdL p 0 j)))
    (hs : ent.dim > 1 → RowsAre E.dNds_ x.length ent.nodeCount x.length
        (fun i j => atPoint x i (fun p => ent.dNdL p 1 j)))
    (ht : ent.dim > 2 → RowsAre E.dNdt_ x.length ent.nodeCount x.length
        (fun i j => atPoint x i (fun p => ent.dNdL p 2 j)))
    (hx0 : ent.dim > 0 → RowsAre E.dNdx_ x.length ent.nodeCount 0
        (fun i j => atPoint x i (fun p => physGrad ent p 0 j)))
    (hy0 : ent.dim > 1 → RowsAre E.dNdy_ x.length ent.nodeCount 0
        (fun i j => atPoint x i (fun p => physGrad ent p 1 j)))
    (hz0 : ent.dim > 2 → RowsAre E.dNdz_ x.length ent.nodeCount 0
        (fun i j => atPoint x i (fun p => physGrad ent p 2 j))) :
    ∃ dx dy dz, forLoop x.length (gradPhysStep ent) E = .ok
        { E with dNdx_ := dx, dNdy_ := dy, dNdz_ := dz } ∧
      (ent.dim > 0 → RowsAre dx x.length ent.nodeCount x.length
        (fun i j => atPoint x i (fun p => physGrad ent p 0 j))) ∧
      (ent.dim > 1 → RowsAre dy x.length ent.nodeCount x.length
        (fun i j => atPoint x i (fun p => physGrad ent p 1 j))) ∧
      (ent.dim > 2 → RowsAre dz x.length ent.nodeCount x.length
        (fun i j => atPoint x i (fun p => physGrad ent p 2 j))) := by
  obtain ⟨E5, hloop, dx, dy, dz, hE5, hdx, hdy, hdz⟩ := forLoop_inv
    (fun k (E5 : ElementMatrix R P) => ∃ dx dy dz,
      E5 = { E with dNdx_ := dx, dNdy_ := dy, dNdz_ := dz } ∧
      (ent.dim > 0 → RowsAre dx x.length ent.nodeCount k
        (fun i j => atPoint x i (fun p => physGrad ent p 0 j))) ∧
      (ent.dim > 1 → RowsAre dy x.length ent.nodeCount k
        (fun i j => atPoint x i (fun p => physGrad ent p 1 j))) ∧
      (ent.dim > 2 → RowsAre dz x.length ent.nodeCount k
        (fun i j => atPoint x i (fun p => physGrad ent p 2 j))))
    (gradPhysStep ent) x.length E ⟨_, _, _, rfl, hx0, hy0, hz0⟩
    (by
      intro k E5 hk ⟨dx, dy, dz, hE5, hdx, hdy, hdz⟩
      subst hE5
      have hx : x[k]? = some x[k] := List.getElem?_eq_getElem hk
      rcases hdim with h1 | h2 | h3
      · have hpos : ent.dim > 0 := by omega
        obtain ⟨hrr, hrc, hrd⟩ := hr hpos
        obtain ⟨dx1, hdx1, hdx1'⟩ := DenseMatrix.rowsAre_setRow (hdx hpos) hk
          (fun j => E.dNdr_.val k j * ent.drstdxyz 0 0)
          (fun j hj => by
            dsimp only
            rw [hrd k hk j hj]
            simp only [atPoint_eq x k _ _ hx, physGrad, h1, Finset.sum_range_one])
        refine ⟨{ E with dNdx_ := dx1, dNdy_ := dy, dNdz_ := dz }, ?_, dx1, dy, dz, rfl,
          fun _ => hdx1', fun h => absurd h (by omega), fun h => absurd h (by omega)⟩
        simp only [gradPhysStep, h1, if_true, DenseMatrix.row_ok _ k (hrr ▸ hk), Except.bind,
          hdx1]
        rfl
      · have hpos : ent.dim > 0 := by omega
        have hpos1 : ent.dim > 1 := by omega
        obtain ⟨hrr, hrc, hrd⟩ := hr hpos
        obtain ⟨hsr, hsc, hsd⟩ := hs hpos1
        obtain ⟨dx1, hdx1, hdx1'⟩ := DenseMatrix.rowsAre_setRow (hdx hpos) hk
          (fun j => E.dNdr_.val k j * ent.drstdxyz 0 0 + E.dNds_.val k j * ent.drstdxyz 1 0)
          (fun j hj => by
            dsimp only
            rw [hrd k hk j hj, hsd k hk j hj]
            simp only [atPoint_eq x k _ _ hx, physGrad, h2, Finset.sum_range_succ,
              Finset.sum_range_zero, zero_add])
        obtain ⟨dy1, hdy1, hdy1'⟩ := DenseMatrix.rowsAre_setRow (hdy hpos1) hk
          (fun j => E.dNdr_.val k j * ent.drstdxyz 0 1 + E.dNds_.val k j * ent.drstdxyz 1 1)
          (fun j hj => by
            dsimp only
            rw [hrd k hk j hj, hsd k hk j hj]
            simp only [atPoint_eq x k _ _ hx, physGrad, h2, Finset.sum_range_succ,
              Finset.sum_range_zero, zero_add])
        refine ⟨{ E with dNdx_ := dx1, dNdy_ := dy1, dNdz_ := dz }, ?_, dx1, dy1, dz, rfl,
          fun _ => hdx1', fun _ => hdy1', fun h => absurd h (by omega)⟩
        simp only [gradPhysStep, h2, if_true, DenseMatrix.row_ok _ k (hrr ▸ hk),
          DenseMatrix.row_ok _ k (hsr ▸ hk), Except.bind, hdx1, hdy1]
        rfl
      · have hpos : ent.dim > 0 := by omega
        have hpos1 : ent.dim > 1 := by omega
        have hpos2 : ent.dim > 2 := by omega
        obtain ⟨hrr, hrc, hrd⟩ := hr hpos
        obtain ⟨hsr, hsc, hsd⟩ := hs hpos1
        obtain ⟨htr, htc, htd⟩ := ht hpos2
        obtain ⟨dx1, hdx1, hdx1'⟩ := DenseMatrix.rowsAre_setRow (hdx hpos) hk
          (fun j => E.dNdr_.val k j * ent.drstdxyz 0 0 + E.dNds_.val k j * ent.drstdxyz 1 0
            + E.dNdt_.val k j * ent.drstdxyz 2 0)
          (fun j hj => by
            dsimp only
            rw [hrd k hk j hj, hsd k hk j hj, htd k hk j hj]
            simp only [atPoint_eq x k _ _ hx, physGrad, h3, Finset.sum_range_succ,
              Finset.sum_range_zero, zero_add])
        obtain ⟨dy1, hdy1, hdy1'⟩ := DenseMatrix.rowsAre_setRow (hdy hpos1) hk
          (fun j => E.dNdr_.val k j * ent.drstdxyz 0 1 + E.dNds_.val k j * ent.drstdxyz 1 1
            + E.dNdt_.val k j * ent.drstdxyz 2 1)
          (fun j hj => by
            dsimp only
            rw [hrd k hk j hj, hsd k hk j hj, htd k hk j hj]
            simp only [atPoint_eq x k _ _ hx, physGrad, h3, Finset.sum_range_succ,
              Finset.sum_range_zero, zero_add])
        obtain ⟨dz1, hdz1, hdz1'⟩ := DenseMatrix.rowsAre_setRow (hdz hpos2) hk
          (fun j => E.dNdr_.val k j * ent.drstdxyz 0 2 + E.dNds_.val k j * ent.drstdxyz 1 2
            + E.dNdt_.val k j * ent.drstdxyz 2 2)
          (fun j hj => by
            dsimp only
            rw [hrd k hk j hj, hsd k hk j hj, htd k hk j hj]
            simp only [atPoint_eq x k _ _ hx, physGrad, h3, Finset.sum_range_succ,
              Finset.sum_range_zero, zero_add])
        refine ⟨{ E with dNdx_ := dx1, dNdy_ := dy1, dNdz_ := dz1 }, ?_, dx1, dy1, dz1, rfl,
          fun _ => hdx1', fun _ => hdy1', fun _ => hdz1'⟩
        simp only [gradPhysStep, h3, if_true, DenseMatrix.row_ok _ k (hrr ▸ hk),
          DenseMatrix.row_ok _ k (hsr ▸ hk), DenseMatrix.row_ok _ k (htr ▸ hk), Except.bind,
          hdx1, hdy1, hdz1]
        rfl)
  subst hE5
  exact ⟨dx, dy, dz, hloop, hdx, hdy, hdz⟩

theorem gradCache_frame (E : ElementMatrix R P) (ent : MeshEntity R P) (x : List P)
    (h : E.dNdr_.rows ≠ x.length ∨ x.length = 0) :
    ∃ r s t dx dy dz, E.gradCache ent x = .ok
        { E with dNdr_ := r, dNds_ := s, dNdt_ := t, dNdx_ := dx, dNdy_ := dy, dNdz_ := dz } := by
  by_cases hmiss : E.dNdr_.rows ≠ x.length
  · obtain ⟨r, s, t, h1, -⟩ := gradCache_ok E ent x hmiss
    exact ⟨r, s, t, _, _, _, h1⟩
  · refine ⟨E.dNdr_, E.dNds_, E.dNdt_, E.dNdx_, E.dNdy_, E.dNdz_, ?_⟩
    rw [gradCache, if_neg hmiss]

/-- One conditional row write of the scalar branch of `grad`. -/
theorem gradFill_stage (ent : MeshEntity R P) (s i : ℕ) (D M : DenseMatrix R)
    (hMr : s < ent.dim → s < M.rows) (hMc : M.cols = ent.nodeCount)
    (hD : s < ent.dim → i < D.rows) :
    ∃ M1, (if ent.dim > s then (D.row i).bind fun d => M.setRowSlice s d 0 ent.nodeCount
        else .ok M) = .ok M1 ∧ M1.rows = M.rows ∧ M1.cols = M.cols ∧
      (s < ent.dim → ∀ j, j < ent.nodeCount → M1.val s j = D.val i j) ∧
      (∀ k j, k ≠ s → j < ent.nodeCount → M1.val k j = M.val k j) := by
  by_cases hd : ent.dim > s
  · obtain ⟨M1, h1, hr1, hc1, hrow, hoth⟩ := DenseMatrix.setRowSlice_full M s
      (fun j => D.val i j) (hMr hd)
    refine ⟨M1, ?_, hr1, hc1, fun _ j hj => hrow j (hMc ▸ hj),
      fun k j hk hj => hoth k j hk (hMc ▸ hj)⟩
    rw [if_pos hd, DenseMatrix.row_ok D i (hD hd), ← hMc]
    exact h1
  · exact ⟨M, by rw [if_neg hd], rfl, rfl, fun h => absurd h hd, fun _ _ _ _ => rfl⟩

/-- The body of the third loop of `grad` for a scalar field: rows 0, 1, 2 of
the basis image take the rows `i` of `dNdx_`, `dNdy_`, `dNdz_`, as far as the
dimension reaches. -/
theorem gradFill_scalar (ent : MeshEntity R P) (elastic : Bool) (a : R)
    (dNdx dNdy dNdz M : DenseMatrix R) (i : ℕ)
    (hMr : M.rows = ent.dim) (hMc : M.cols = ent.nodeCount)
    (hx : 0 < ent.dim → i < dNdx.rows) (hy : 1 < ent.dim → i < dNdy.rows)
    (hz : 2 < ent.dim → i < dNdz.rows) :
    ∃ M3, gradFill ent 1 elastic a dNdx dNdy dNdz i M = .ok M3 ∧
      M3.rows = ent.dim ∧ M3.cols = ent.nodeCount ∧
      (0 < ent.dim → ∀ j, j < ent.nodeCount → M3.val 0 j = dNdx.val i j) ∧
      (1 < ent.dim → ∀ j, j < ent.nodeCount → M3.val 1 j = dNdy.val i j) ∧
      (2 < ent.dim → ∀ j, j < ent.nodeCount → M3.val 2 j = dNdz.val i j) := by
  obtain ⟨M1, h1, hr1, hc1, hrow1, -⟩ := gradFill_stage ent 0 i dNdx M
    (fun h => hMr ▸ h) hMc hx
  obtain ⟨M2, h2, hr2, hc2, hrow2, hoth2⟩ := gradFill_stage ent 1 i dNdy M1
    (fun h => by rw [hr1, hMr]; exact h) (hc1.trans hMc) hy
  obtain ⟨M3, h3, hr3, hc3, hrow3, hoth3⟩ := gradFill_stage ent 2 i dNdz M2
    (fun h => by rw [hr2, hr1, hMr]; exact h) (hc2.trans (hc1.trans hMc)) hz
  refine ⟨M3, ?_, by rw [hr3, hr2, hr1, hMr], by rw [hc3, hc2, hc1, hMc], ?_, ?_, hrow3⟩
  · simp only [gradFill, if_true, h1, bind_ok, h2, h3]
  · intro h j hj
    rw [hoth3 0 j (by decide) hj, hoth2 0 j (by decide) hj]
    exact hrow1 h j hj
  · intro h j hj
    rw [hoth3 1 j (by decide) hj]
    exact hrow2 h j hj

/-- The third loop of `grad` for a scalar field. -/
theorem gradFill_loop (ent : MeshEntity R P) (x : List P) (elastic : Bool) (a : R)
    (dNdx dNdy dNdz : DenseMatrix R) (mats : List (DenseMatrix R))
    (hdim : ent.dim = 1 ∨ ent.dim = 2 ∨ ent.dim = 3)
    (hlen : mats.length = x.length)
    (hshape : ∀ q, q < x.length → (mats.getD q DenseMatrix.empty).rows = ent.dim ∧
      (mats.getD q DenseMatrix.empty).cols = ent.nodeCount)
    (hx : 0 < ent.dim → RowsAre dNdx x.length ent.nodeCount x.length
        (fun i j => atPoint x i (fun p => physGrad ent p 0 j)))
    (hy : 1 < ent.dim → RowsAre dNdy x.length ent.nodeCount x.length
        (fun i j => atPoint x i (fun p => physGrad ent p 1 j)))
    (hz : 2 < ent.dim → RowsAre dNdz x.length ent.nodeCount x.length
        (fun i j => atPoint x i (fun p => physGrad ent p 2 j))) :
    ∃ mats1, forLoop x.length (fun i mats =>
        match mats[i]? with
        | none => .error .outOfRange
        | some Mi =>
          (gradFill ent 1 elastic a dNdx dNdy dNdz i Mi).map
            fun Mi1 => mats.set i Mi1) mats = .ok mats1 ∧
      mats1.length = x.length ∧
      ∀ q xq, x[q]? = some xq →
        (mats1.getD q DenseMatrix.empty).rows = ent.dim ∧
        (mats1.getD q DenseMatrix.empty).cols = ent.nodeCount ∧
        ∀ s j, s < ent.dim → j < ent.nodeCount →
          (mats1.getD q DenseMatrix.empty).val s j = physGrad ent xq s j := by
  obtain ⟨mats1, hloop, hl1, hsh1, hd1⟩ := forLoop_inv
    (fun k (ms : List (DenseMatrix R)) => ms.length = x.length ∧
      (∀ q, q < x.length → (ms.getD q DenseMatrix.empty).rows = ent.dim ∧
        (ms.getD q DenseMatrix.empty).cols = ent.nodeCount) ∧
      ∀ q xq, q < k → x[q]? = some xq → ∀ s j, s < ent.dim → j < ent.nodeCount →
        (ms.getD q DenseMatrix.empty).val s j = physGrad ent xq s j)
    (fun i mats =>
        match mats[i]? with
        | none => .error .outOfRange
        | some Mi =>
          (gradFill ent 1 elastic a dNdx dNdy dNdz i Mi).map
            fun Mi1 => mats.set i Mi1)
    x.length mats ⟨hlen, hshape, fun q xq h => absurd h (Nat.not_lt_zero q)⟩
    (by
      intro k ms hk ⟨hl, hsh, hd⟩
      have hm : ms[k]? = some (ms.getD k DenseMatrix.empty) :=
        getElem?_getD_of_lt _ _ (hl ▸ hk)
      have hxk : x[k]? = some x[k] := List.getElem?_eq_getElem hk
      obtain ⟨M3, h3, hr3, hc3, e0, e1, e2⟩ := gradFill_scalar ent elastic a dNdx dNdy dNdz
        (ms.getD k DenseMatrix.empty) k (hsh k hk).1 (hsh k hk).2
        (fun h => by rw [(hx h).1]; exact hk) (fun h => by rw [(hy h).1]; exact hk)
        (fun h => by rw [(hz h).1]; exact hk)
      refine ⟨ms.set k M3, ?_, by rw [List.length_set]; exact hl, ?_, ?_⟩
      · simp only [hm, h3]
        rfl
      · intro q hq
        by_cases hqk : k = q
        · subst hqk
          rw [getD_set_self _ _ _ (hl ▸ hk)]
          exact ⟨hr3, hc3⟩
        · rw [getD_set_ne _ _ _ hqk]
          exact hsh q hq
      · intro q xq hq hxq s j hs hj
        rcases Nat.lt_succ_iff_lt_or_eq.mp hq with hlt | heq
        · rw [getD_set_ne _ _ _ (Nat.ne_of_gt hlt)]
          exact hd q xq hlt hxq s j hs hj
        · subst heq
          rw [getD_set_self _ _ _ (hl ▸ hk)]
          rw [hxk] at hxq
          have hxe : x[q] = xq := Option.some.inj hxq
          have hs3 : s = 0 ∨ s = 1 ∨ s = 2 := by omega
          rcases hs3 with h | h | h
          · subst h
            rw [e0 hs j hj, (hx hs).2.2 q hk j hj]
            dsimp only
            rw [atPoint_eq x q _ _ hxk, hxe]
          · subst h
            rw [e1 hs j hj, (hy hs).2.2 q hk j hj]
            dsimp only
            rw [atPoint_eq x q _ _ hxk, hxe]
          · subst h
            rw [e2 hs j hj, (hz hs).2.2 q hk j hj]
            dsimp only
            rw [atPoint_eq x q _ _ hxk, hxe])
  refine ⟨mats1, hloop, hl1, ?_⟩
  intro q xq hxq
  have hq : q < x.length := by
    rcases Nat.lt_or_ge q x.length with h | h
    · exact h
    · rw [List.getElem?_eq_none h] at hxq; cases hxq
  exact ⟨(hsh1 q hq).1, (hsh1 q hq).2, hd1 q xq hq hxq⟩

theorem gradLayout_scalar_ok (E1 : ElementMatrix R P) (ent : MeshEntity R P) (n : ℕ)
    (hent : E1._ent = some ent) (hnc : E1._nCoeff = 1) (hdim : 0 < ent.dim) :
    ∃ idsR idsC ids mat, E1.gradLayout ent n false = .ok
        { E1 with
          _idsR := idsR, _idsC := idsC, _ids := ids, mat_ := mat,
          _matX := (resizeMats E1._matX n).map
            fun m => (m.resize (ent.dim * E1._nCoeff) (ent.nodeCount * E1._nCoeff)).setZero } ∧
      idsR.length = ent.nodeCount * E1._nCoeff := by
  have hnz : ¬ (ent.dim * E1._nCoeff = 0) := by
    rw [hnc]; omega
  obtain ⟨idsR, hres, hidl⟩ := resize_ok E1 (ent.nodeCount * E1._nCoeff)
    (ent.dim * E1._nCoeff)
    (fun e he => by rw [hent] at he; cases he; exact le_of_eq (Nat.mul_comm _ _))
  refine ⟨idsR,
    resizeIds E1._idsC (if ent.dim * E1._nCoeff = 0 then ent.nodeCount * E1._nCoeff
      else ent.dim * E1._nCoeff),
    resizeIds E1._ids (ent.nodeCount * E1._nCoeff),
    E1.mat_.resize (ent.nodeCount * E1._nCoeff)
      (if ent.dim * E1._nCoeff = 0 then ent.nodeCount * E1._nCoeff else ent.dim * E1._nCoeff),
    ?_, hidl⟩
  simp only [gradLayout, if_neg hnz, Bool.false_eq_true, if_false, hres, map_ok]

/-- The third loop of `grad` and `setValid(true)` for a scalar field. -/
theorem gradFillAll_scalar_ok (E5 : ElementMatrix R P) (ent : MeshEntity R P) (x : List P)
    (a : R) (hnc : E5._nCoeff = 1)
    (hdim : ent.dim = 1 ∨ ent.dim = 2 ∨ ent.dim = 3)
    (hlen : E5._matX.length = x.length)
    (hshape : ∀ q, q < x.length → (E5._matX.getD q DenseMatrix.empty).rows = ent.dim ∧
      (E5._matX.getD q DenseMatrix.empty).cols = ent.nodeCount)
    (hx : 0 < ent.dim → RowsAre E5.dNdx_ x.length ent.nodeCount x.length
        (fun i j => atPoint x i (fun p => physGrad ent p 0 j)))
    (hy : 1 < ent.dim → RowsAre E5.dNdy_ x.length ent.nodeCount x.length
        (fun i j => atPoint x i (fun p => physGrad ent p 1 j)))
    (hz : 2 < ent.dim → RowsAre E5.dNdz_ x.length ent.nodeCount x.length
        (fun i j => atPoint x i (fun p => physGrad ent p 2 j))) :
    ∃ mats1, E5.gradFillAll ent x.length false a
        = .ok { E5 with _matX := mats1, _valid := true } ∧
      mats1.length = x.length ∧
      ∀ q xq, x[q]? = some xq →
        (mats1.getD q DenseMatrix.empty).rows = ent.dim ∧
        (mats1.getD q DenseMatrix.empty).cols = ent.nodeCount ∧
        ∀ s j, s < ent.dim → j < ent.nodeCount →
          (mats1.getD q DenseMatrix.empty).val s j = physGrad ent xq s j := by
  obtain ⟨mats1, hloop, hl1, hd1⟩ := gradFill_loop ent x false a E5.dNdx_ E5.dNdy_ E5.dNdz_
    E5._matX hdim hlen hshape hx hy hz
  refine ⟨mats1, ?_, hl1, hd1⟩
  simp only [gradFillAll, hnc, hloop, map_ok]

/-- Success of `grad(ent, order, false, false, div, kelvin)` on a scalar-field
operator that is not valid and whose gradient cache is not sized to the rule. -/
theorem gradBase_scalar_ok (rules : IntegrationRules R P) (rsqrt2 : R)
    (E : ElementMatrix R P) (ent : MeshEntity R P) (order : ℕ) (div kelvin : Bool)
    (hval : E._valid = false) (hnc : E._nCoeff = 1)
    (hcache : E.dNdr_.rows ≠ (rules.abscissa ent order).length
      ∨ (rules.abscissa ent order).length = 0)
    (hdim : ent.dim = 1 ∨ ent.dim = 2 ∨ ent.dim = 3) :
    ∃ A, E.gradBase rules rsqrt2 ent order false false div kelvin = .ok A ∧
      IsGradScalarOp rules ent order div A := by
  have hchk : ¬ (E._valid = true ∧ E._order = order ∧ E.entIs ent = true
      ∧ E._elastic = false) := by
    rw [hval]; simp
  have hpos : 0 < ent.dim := by omega
  obtain ⟨idsR, idsC, ids, mat, hlay0, hidl⟩ := gradLayout_scalar_ok
    (gradHead rules E ent order false div) ent (rules.abscissa ent order).length rfl hnc hpos
  obtain ⟨E3, hE3, hlay⟩ : ∃ E3 : ElementMatrix R P,
      E3 = { (gradHead rules E ent order false div) with
        _idsR := idsR, _idsC := idsC, _ids := ids, mat_ := mat,
        _matX := (resizeMats E._matX (rules.abscissa ent order).length).map
          fun m => (m.resize (ent.dim * E._nCoeff) (ent.nodeCount * E._nCoeff)).setZero } ∧
      (gradHead rules E ent order false div).gradLayout ent
        (rules.abscissa ent order).length false = .ok E3 := ⟨_, rfl, hlay0⟩
  have hz := zeroed_mats E._matX (rules.abscissa ent order).length (ent.dim * E._nCoeff)
    (ent.nodeCount * E._nCoeff)
  have h3X : E3._matX = (resizeMats E._matX (rules.abscissa ent order).length).map
      fun m => (m.resize (ent.dim * E._nCoeff) (ent.nodeCount * E._nCoeff)).setZero := by
    rw [hE3]
  have h3len : E3._matX.length = (rules.abscissa ent order).length := by
    rw [h3X, List.length_map, resizeMats_length]
  have h3shape : ∀ q, q < (rules.abscissa ent order).length →
      (E3._matX.getD q DenseMatrix.empty).rows = ent.dim ∧
      (E3._matX.getD q DenseMatrix.empty).cols = ent.nodeCount := by
    intro q hq
    rw [h3X]
    obtain ⟨h1, h2, -⟩ := hz q hq
    simp only [hnc, Nat.mul_one] at h1 h2 ⊢
    exact ⟨h1, h2⟩
  have h3nc : E3._nCoeff = 1 := by rw [hE3]; exact hnc
  have h3idl : E3._idsR.length = ent.nodeCount := by
    rw [hE3]
    show idsR.length = _
    rw [hidl]
    show ent.nodeCount * E._nCoeff = _
    rw [hnc, Nat.mul_one]
  have h3w : E3._w = some (rules.weights ent order) := by rw [hE3]; rfl
  have h3ent : E3._ent = some ent := by rw [hE3]; rfl
  have h3div : E3._div = div := by rw [hE3]; rfl
  have h3ord : E3._order = order := by rw [hE3]; rfl
  have h3r : E3.dNdr_ = E.dNdr_ := by rw [hE3]; rfl
  rcases Nat.eq_zero_or_pos (rules.abscissa ent order).length with h0 | hn
  · obtain ⟨r, s, t, dx, dy, dz, hc⟩ := gradCache_frame E3 ent (rules.abscissa ent order)
      (Or.inr h0)
    refine ⟨{ E3 with
        dNdr_ := r, dNds_ := s, dNdt_ := t, dNdx_ := dx, dNdy_ := dy, dNdz_ := dz,
        _valid := true }, ?_, h3w, h3ent, h3div, h3ord, h3nc, h3idl, h3len, ?_⟩
    · rw [gradBase, if_neg hchk]
      simp only [hlay, bind_ok, hc]
      simp only [h0, forLoop, bind_ok, gradFillAll, map_ok, Bool.false_eq_true, if_false]
    · intro q xq hq
      have : q < (rules.abscissa ent order).length := by
        rcases Nat.lt_or_ge q (rules.abscissa ent order).length with h | h
        · exact h
        · rw [List.getElem?_eq_none h] at hq; cases hq
      omega
  · obtain ⟨r, s, t, hc0, hr, hs, ht⟩ := gradCache_ok E3 ent (rules.abscissa ent order)
      (by
        rw [h3r]
        rcases hcache with h | h
        · exact h
        · omega)
    obtain ⟨E4, hE4, hc⟩ : ∃ E4 : ElementMatrix R P,
        E4 = { E3 with
          dNdr_ := r, dNds_ := s, dNdt_ := t,
          dNdx_ := if ent.dim > 0 then
              E3.dNdx_.resize (rules.abscissa ent order).length ent.nodeCount else E3.dNdx_,
          dNdy_ := if ent.dim > 1 then
              E3.dNdy_.resize (rules.abscissa ent order).length ent.nodeCount else E3.dNdy_,
          dNdz_ := if ent.dim > 2 then
              E3.dNdz_.resize (rules.abscissa ent order).length ent.nodeCount else E3.dNdz_ } ∧
        E3.gradCache ent (rules.abscissa ent order) = .ok E4 := ⟨_, rfl, hc0⟩
    obtain ⟨dx, dy, dz, hphys0, hdx, hdy, hdz⟩ := gradPhys_ok E4 ent
      (rules.abscissa ent order) hdim
      (fun h => by rw [hE4]; exact hr h) (fun h => by rw [hE4]; exact hs h)
      (fun h => by rw [hE4]; exact ht h)
      (fun h => by
        rw [hE4]
        show RowsAre (if ent.dim > 0 then _ else _) _ _ _ _
        rw [if_pos h]; exact DenseMatrix.rowsAre_resize _ _ _ _)
      (fun h => by
        rw [hE4]
        show RowsAre (if ent.dim > 1 then _ else _) _ _ _ _
        rw [if_pos h]; exact DenseMatrix.rowsAre_resize _ _ _ _)
      (fun h => by
        rw [hE4]
        show RowsAre (if ent.dim > 2 then _ else _) _ _ _ _
        rw [if_pos h]; exact DenseMatrix.rowsAre_resize _ _ _ _)
    obtain ⟨E5, hE5, hphys⟩ : ∃ E5 : ElementMatrix R P,
        E5 = { E4 with dNdx_ := dx, dNdy_ := dy, dNdz_ := dz } ∧
        forLoop (rules.abscissa ent order).length (gradPhysStep ent) E4 = .ok E5 :=
      ⟨_, rfl, hphys0⟩
    have h5X : E5._matX = E3._matX := by rw [hE5, hE4]
    obtain ⟨mats1, hfill, hl1, hd1⟩ := gradFillAll_scalar_ok E5 ent
      (rules.abscissa ent order)
      (if false = true ∧ kelvin = true then rsqrt2 else 1)
      (by rw [hE5, hE4]; exact h3nc) hdim (by rw [h5X]; exact h3len)
      (by rw [h5X]; exact h3shape)
      (fun h => by rw [hE5]; exact hdx h) (fun h => by rw [hE5]; exact hdy h)
      (fun h => by rw [hE5]; exact hdz h)
    refine ⟨{ E5 with _matX := mats1, _valid := true }, ?_,
      by rw [hE5, hE4]; exact h3w, by rw [hE5, hE4]; exact h3ent,
      by rw [hE5, hE4]; exact h3div, by rw [hE5, hE4]; exact h3ord,
      by rw [hE5, hE4]; exact h3nc, by rw [hE5, hE4]; exact h3idl, hl1, hd1⟩
    rw [gradBase, if_neg hchk]
    simp only [hlay, bind_ok, hc, hphys]
    rw [hfill]
    simp only [bind_ok, Bool.false_eq_true, if_false]

/-- Success of `pot(ent, order, sum)` on a new-style operator that is not valid
(no cache hit) and has `nCoeff ≥ 1` components. -/
theorem potBase_ok (rules : IntegrationRules R P) (E : ElementMatrix R P)
    (ent : MeshEntity R P) (order : ℕ) (sum : Bool)
    (hval : E._valid = false) (hnew : E._newStyle = true) (hdiv : E._div = false)
    (hnc : E._nCoeff ≠ 0)
    (hlen : sum = true →
      (rules.weights ent order).length ≤ (rules.abscissa ent order).length) :
    ∃ A, E.potBase rules ent order sum = .ok A ∧ IsValueOp rules ent order E._nCoeff A ∧
      A._integrated = sum := by
  obtain ⟨idsR, hres, hidl⟩ := resizeMatX_U__ok (E.fillEntityAndOrder_ rules ent order)
    (rules.abscissa ent order) ent rfl rfl hnc
  have hz := zeroed_mats E._matX (rules.abscissa ent order).length E._nCoeff
    (ent.nodeCount * E._nCoeff)
  obtain ⟨mats1, hloop, hl1, hdone, -⟩ := fillMatX_U_loop ent (rules.abscissa ent order)
    E._nCoeff
    ((resizeMats E._matX (rules.abscissa ent order).length).map
      fun m => (m.resize E._nCoeff (ent.nodeCount * E._nCoeff)).setZero)
    (by rw [List.length_map, resizeMats_length])
    (fun q hq => ⟨(hz q hq).1, (hz q hq).2.1⟩) _ le_rfl
  have hshape1 : ∀ q, q < (rules.abscissa ent order).length →
      (mats1.getD q DenseMatrix.empty).rows = E._nCoeff ∧
      (mats1.getD q DenseMatrix.empty).cols = ent.nodeCount * E._nCoeff := by
    intro q hq
    exact fillMatX_U_Rows_shape ent _ _ _ _ (hz q hq).1 (hz q hq).2.1
      (hdone q _ hq (List.getElem?_eq_getElem hq))
  have hrows : ∀ q xq, (rules.abscissa ent order)[q]? = some xq →
      ∃ Z : DenseMatrix R, Z.rows = E._nCoeff ∧ Z.cols = ent.nodeCount * E._nCoeff ∧
        (∀ t, t < E._nCoeff * (ent.nodeCount * E._nCoeff) → Z.data t = 0) ∧
        fillMatX_U_Rows ent xq E._nCoeff Z = .ok (mats1.getD q DenseMatrix.empty) := by
    intro q xq hxq
    have hq : q < (rules.abscissa ent order).length := by
      rcases Nat.lt_or_ge q (rules.abscissa ent order).length with h | h
      · exact h
      · rw [List.getElem?_eq_none h] at hxq; cases hxq
    exact ⟨_, (hz q hq).1, (hz q hq).2.1, (hz q hq).2.2, hdone q xq hq hxq⟩
  have hcache : ¬ (E._valid = true ∧ E._order = order ∧ E.entIs ent = true) := by
    rw [hval]; simp
  cases sum with
  | false =>
    refine ⟨{ (E.fillEntityAndOrder_ rules ent order) with
        _idsR := idsR, _idsC := resizeIds E._idsC E._nCoeff,
        _ids := resizeIds E._ids (ent.nodeCount * E._nCoeff),
        mat_ := E.mat_.resize (ent.nodeCount * E._nCoeff) E._nCoeff,
        _matX := mats1, _valid := true },
      ?_, ⟨rfl, rfl, rfl, hdiv, rfl, rfl, rfl, hnew, hidl,
      DenseMatrix.resize_rows _ _ _, DenseMatrix.resize_cols _ _ _, hl1, hrows⟩, rfl⟩
    rw [potBase, if_neg hcache, hres]
    simp only [Except.bind, fillMatX_U_, fillEntityAndOrder_, hloop]
    rfl
  | true =>
    obtain ⟨M, hI, hMr, hMc, -⟩ := integrate_ok
      { (E.fillEntityAndOrder_ rules ent order) with
        _idsR := idsR, _idsC := resizeIds E._idsC E._nCoeff,
        _ids := resizeIds E._ids (ent.nodeCount * E._nCoeff),
        mat_ := E.mat_.resize (ent.nodeCount * E._nCoeff) E._nCoeff,
        _matX := mats1, _valid := true }
      (rules.weights ent order) ent hnew rfl rfl rfl rfl
      (fun q hq => by
        obtain ⟨h1, h2⟩ := hshape1 q (Nat.lt_of_lt_of_le hq (hlen rfl))
        exact ⟨h1.trans (DenseMatrix.resize_cols _ _ _).symm,
          h2.trans (DenseMatrix.resize_rows _ _ _).symm⟩)
      (by rw [show mats1.length = _ from hl1]; exact hlen rfl)
    refine ⟨{ (E.fillEntityAndOrder_ rules ent order) with
        _idsR := idsR, _idsC := resizeIds E._idsC E._nCoeff,
        _ids := resizeIds E._ids (ent.nodeCount * E._nCoeff),
        _matX := mats1, _valid := true, mat_ := M, _integrated := true },
      ?_, ⟨rfl, rfl, rfl, hdiv, rfl, rfl, rfl, hnew, hidl,
      hMr.trans (DenseMatrix.resize_rows _ _ _), hMc.trans (DenseMatrix.resize_cols _ _ _),
      hl1, hrows⟩, rfl⟩
    rw [potBase, if_neg hcache, hres]
    simp only [Except.bind, fillMatX_U_, fillEntityAndOrder_, hloop, if_true]
    exact hI

/-- Success of `pot(ent, order, sum, nCoeff, dofPerCoeff, dofOffset)` on a cache
miss: the result is the value operator of `ent`. -/
theorem pot_ok (rules : IntegrationRules R P) (dbg : Bool) (E : ElementMatrix R P)
    (ent : MeshEntity R P) (order : ℕ) (sum : Bool) (nCoeff dofPerCoeff dofOffset : ℕ)
    (hmiss : dbg = true ∨ E._valid = false) (hnc : nCoeff ≠ 0)
    (hdpc : ¬ (nCoeff > 1 ∧ dofPerCoeff = 0))
    (hlen : sum = true →
      (rules.weights ent order).length ≤ (rules.abscissa ent order).length) :
    ∃ A, E.pot rules dbg ent order sum nCoeff dofPerCoeff dofOffset = .ok A ∧
      IsValueOp rules ent order nCoeff A := by
  obtain ⟨A, hA, hop, hint⟩ := potBase_ok rules
    { E with _newStyle := true, _order := 0, _nCoeff := nCoeff,
             _dofPerCoeff := dofPerCoeff, _dofOffset := dofOffset,
             _ent := none, _w := none, _x := none, _div := false,
             _integrated := false, _elastic := false, _valid := false }
    ent order sum rfl rfl rfl hnc hlen
  have hcond : dbg = true ∨ E._valid = false ∨ E._order ≠ order ∨ E.entIs ent = false
      ∨ E._nCoeff ≠ nCoeff := by
    rcases hmiss with h | h
    · exact Or.inl h
    · exact Or.inr (Or.inl h)
  refine ⟨A, ?_, hop⟩
  rw [pot, if_pos hcond, init_ok E nCoeff dofPerCoeff dofOffset hdpc]
  show (Except.bind (potBase rules _ ent order sum) _) = _
  rw [hA]
  show (if sum = true then A.integrate else .ok A) = _
  cases sum with
  | false => rfl
  | true =>
    have h2 : A._integrated = true := hint
    simp only [integrate, h2, if_true]
    simp

end ElementMatrix

variable {R P : Type} [Field R]

/-- Success of `_prepDot(A, B, C)` for equal orders: `C` is a structural copy
of `A` with row ids of `A`, column ids `B.rowIDs()` and a resized `mat_`. -/
theorem prepDot_ok (A B C : ElementMatrix R P) (hord : A._order = B._order)
    (hids : ∀ ent, A._ent = some ent → A._nCoeff * ent.nodeCount ≤ A._idsR.length) :
    _prepDot A B C = .ok
      { (C.copyFrom A false) with
        _idsR := A._idsR, _idsC := B._idsR, _ids := A._idsR,
        mat_ := (C.mat_.resize A.mat_.rows A.mat_.cols).resize A._idsR.length
                  (if B._idsR.length = 0 then A._idsR.length else B._idsR.length) } := by
  obtain ⟨idsR, h, -⟩ := ElementMatrix.resize_ok (C.copyFrom A false) A._idsR.length
    B._idsR.length (fun ent he => hids ent he)
  rw [_prepDot, h]
  show (if A._order ≠ B._order then _ else _) = _
  rw [if_neg (not_not.mpr hord)]
  rfl

/-- The quadrature loop of `dot` on the plain branch after `k` rounds. -/
theorem dot_plain_loop (A B : ElementMatrix R P) (b : R) (w : List R)
    (ent : MeshEntity R P) (ra ca cb : ℕ) (hent : A._ent = some ent)
    (hA : A._matX.length = w.length) (hB : B._matX.length = w.length)
    (hdA : A._div = false) (hdB : B._div = false)
    (hsA : ∀ q, q < w.length → (A.matXq q).rows = ra ∧ (A.matXq q).cols = ca)
    (hsB : ∀ q, q < w.length → (B.matXq q).rows = ra ∧ (B.matXq q).cols = cb)
    (C1 : ElementMatrix R P) (hC1 : C1._matX.length = w.length) (k : ℕ)
    (hk : k ≤ w.length) :
    ∃ X M, forLoop k (dotStep A B b w) C1 = .ok { C1 with _matX := X, mat_ := M } ∧
      X.length = w.length ∧ (k = 0 → M = C1.mat_) ∧
      (0 < k → M.rows = ca ∧ M.cols = cb ∧ ∀ t, t < ca * cb →
        M.data t = ∑ q in Finset.range k,
          (b * ∑ s in Finset.range ra,
            (A.matXq q).val s (t / cb) * (B.matXq q).val s (t % cb))
          * (w.getD q 0 * ent.size)) := by
  induction k with
  | zero => exact ⟨C1._matX, C1.mat_, rfl, hC1, fun _ => rfl, fun h => absurd h (lt_irrefl 0)⟩
  | succ k ih =>
    obtain ⟨X, M, hloop, hXlen, -, hM⟩ := ih (Nat.le_of_succ_le hk)
    have hkw : k < w.length := hk
    obtain ⟨hAr, hAc⟩ := hsA k hkw
    obtain ⟨hBr, hBc⟩ := hsB k hkw
    have h1 : A._matX[k]? = some (A.matXq k) := getElem?_getD_of_lt _ _ (hA ▸ hkw)
    have h2 : B._matX[k]? = some (B.matXq k) := getElem?_getD_of_lt _ _ (hB ▸ hkw)
    have h3 : X[k]? = some (X.getD k DenseMatrix.empty) :=
      getElem?_getD_of_lt _ _ (hXlen ▸ hkw)
    have h4 : w[k]? = some (w.getD k 0) := getElem?_getD_of_lt _ _ hkw
    obtain ⟨Ci1, hT, hTr, hTc, hTd⟩ := DenseMatrix.transMult_ok (A.matXq k) (B.matXq k)
      (X.getD k DenseMatrix.empty) b 0 (hAr.trans hBr.symm)
    have hnA : ¬ (A._div = true ∨ ((A.matXq k).rows > 1 ∧ (B.matXq k).rows = 1)) := by
      rw [hdA, hAr, hBr]; simp; omega
    have hnB : ¬ (B._div = true ∨ ((B.matXq k).rows > 1 ∧ (A.matXq k).rows = 1)) := by
      rw [hdB, hAr, hBr]; simp; omega
    have hSr : (Ci1.mulScalar (w.getD k 0 * ent.size)).rows = ca := by
      rw [DenseMatrix.mulScalar_rows, hTr, hAc]
    have hSc : (Ci1.mulScalar (w.getD k 0 * ent.size)).cols = cb := by
      rw [DenseMatrix.mulScalar_cols, hTc, hBc]
    have hSd : ∀ t, t < ca * cb → (Ci1.mulScalar (w.getD k 0 * ent.size)).data t
        = (b * ∑ s in Finset.range ra,
            (A.matXq k).val s (t / cb) * (B.matXq k).val s (t % cb))
          * (w.getD k 0 * ent.size) := by
      intro t ht
      rw [DenseMatrix.mulScalar_data _ _ _ (by rw [hTr, hTc, hAc, hBc]; exact ht),
        hTd t (by rw [hAc, hBc]; exact ht), hAr, hBc]
      ring
    have hstep : ∀ M1 : DenseMatrix R,
        (if k > 0 then M.addAssign (Ci1.mulScalar (w.getD k 0 * ent.size))
          else .ok (M.assign (Ci1.mulScalar (w.getD k 0 * ent.size)))) = .ok M1 →
        forLoop (k + 1) (dotStep A B b w) C1
          = .ok { C1 with _matX := X.set k Ci1, mat_ := M1 } := by
      intro M1 hM1
      rw [forLoop_succ, hloop]
      show dotStep A B b w k { C1 with _matX := X, mat_ := M } = _
      simp only [dotStep, h1, h2, h3, h4, hent, if_neg hnA, if_neg hnB, hT]
      show Except.map _ (if k > 0 then _ else _) = _
      rw [hM1]
      rfl
    rcases Nat.eq_zero_or_pos k with hk0 | hkpos
    · refine ⟨X.set k Ci1, M.assign (Ci1.mulScalar (w.getD k 0 * ent.size)),
        hstep _ (by rw [if_neg (by omega)]), by rw [List.length_set]; exact hXlen,
        fun h => absurd h (Nat.succ_ne_zero k), fun _ => ⟨?_, ?_, ?_⟩⟩
      · rw [DenseMatrix.assign, DenseMatrix.copy__rows, hSr]
      · rw [DenseMatrix.assign, DenseMatrix.copy__cols, hSc]
      · intro t ht
        subst hk0
        rw [DenseMatrix.assign, DenseMatrix.copy__data _ _ _ (by rw [hSr, hSc]; exact ht),
          hSd t ht, Finset.sum_range_one]
    · obtain ⟨hMr, hMc, hMd⟩ := hM hkpos
      obtain ⟨M1, hadd, hr1, hc1, hd1⟩ := DenseMatrix.addAssign_same M
        (Ci1.mulScalar (w.getD k 0 * ent.size)) (hSr.trans hMr.symm) (hSc.trans hMc.symm)
      refine ⟨X.set k Ci1, M1, hstep _ (by rw [if_pos hkpos]; exact hadd),
        by rw [List.length_set]; exact hXlen, fun h => absurd h (Nat.succ_ne_zero k),
        fun _ => ⟨hr1.trans hMr, hc1.trans hMc, ?_⟩⟩
      intro t ht
      rw [hd1 t (by rw [hMr, hMc]; exact ht), hMd t ht, hSd t ht, Finset.sum_range_succ]

/-- Result of `dot(A, B, b, C)` on the plain branch for at least one quadrature
point: `C` is the structural copy of `A` with the ids of `_prepDot`, and its
integrated matrix is the weighted sum of the products `A_q.T * B_q`. -/
theorem dot_plain_ok (A B C : ElementMatrix R P) (b : R) (w : List R)
    (ent : MeshEntity R P) (ra ca cb : ℕ) (hn : 0 < w.length)
    (hord : A._order = B._order) (hw : A._w = some w) (hent : A._ent = some ent)
    (hA : A._matX.length = w.length) (hB : B._matX.length = w.length)
    (hdA : A._div = false) (hdB : B._div = false)
    (hsA : ∀ q, q < w.length → (A.matXq q).rows = ra ∧ (A.matXq q).cols = ca)
    (hsB : ∀ q, q < w.length → (B.matXq q).rows = ra ∧ (B.matXq q).cols = cb)
    (hids : A._nCoeff * ent.nodeCount ≤ A._idsR.length) :
    ∃ X M, dot A B b C = .ok
        { (C.copyFrom A false) with
          _idsR := A._idsR, _idsC := B._idsR, _ids := A._idsR, _matX := X, mat_ := M,
          _valid := true, _integrated := true } ∧
      M.rows = ca ∧ M.cols = cb ∧
      ∀ i j, i < ca → j < cb → M.val i j
        = ∑ q in Finset.range w.length, (w.getD q 0 * ent.size * b)
            * ∑ s in Finset.range ra, (A.matXq q).val s i * (B.matXq q).val s j := by
  have hprep := prepDot_ok A B C hord
    (fun e he => by rw [hent] at he; cases he; exact hids)
  obtain ⟨X, M, hloop, -, -, hM⟩ := dot_plain_loop A B b w ent ra ca cb hent hA hB hdA hdB
    hsA hsB
    { (C.copyFrom A false) with
      _idsR := A._idsR, _idsC := B._idsR, _ids := A._idsR,
      mat_ := (C.mat_.resize A.mat_.rows A.mat_.cols).resize A._idsR.length
                (if B._idsR.length = 0 then A._idsR.length else B._idsR.length) }
    hA w.length le_rfl
  obtain ⟨hr, hc, hd⟩ := hM hn
  refine ⟨X, M, ?_, hr, hc, ?_⟩
  · rw [dot, hprep]
    show (match A._w with
      | none => Except.error Error.outOfRange
      | some w => _) = _
    rw [hw]
    show Except.map _ (forLoop w.length (dotStep A B b w) _) = _
    rw [hloop]
    rfl
  · intro i j hi hj
    show M.data (M.cols * i + j) = _
    rw [hc, hd _ (flat_lt hi hj), flat_mod i hj, flat_div i hj]
    apply Finset.sum_congr rfl
    intro q _
    ring

/-- C1 (amended): for operators `A`, `B` of equal quadrature order with `n ≥ 1`
weights and `n` basis images each, neither marked divergence-form, the basis
images of `A` all of shape `ra x ca` and those of `B` all of shape `ra x cb`
(equal row count), and `A`'s row ids covering its `nCoeff * nodeCount` dofs,
`dot(A, B, b, C)` returns normally, sets entry `(i, j)` of `C`'s integrated
matrix to the sum over `q < n` of `(w_q * size(A.entity) * b)` times entry
`(i, j)` of `transpose(A_q) * B_q`, sets `C`'s row ids to `A.rowIDs` and its
column ids to `B.rowIDs`, and marks `C` valid and integrated. -/
theorem dot_plain_spec (A B C : ElementMatrix R P) (b : R) (w : List R)
    (ent : MeshEntity R P) (n ra ca cb : ℕ) (hn : 0 < n)
    (hord : A._order = B._order) (hw : A._w = some w) (hwn : w.length = n)
    (hent : A._ent = some ent)
    (hA : A._matX.length = n) (hB : B._matX.length = n)
    (hdA : A._div = false) (hdB : B._div = false)
    (hsA : ∀ q, q < n → (A.matXq q).rows = ra ∧ (A.matXq q).cols = ca)
    (hsB : ∀ q, q < n → (B.matXq q).rows = ra ∧ (B.matXq q).cols = cb)
    (hids : A._nCoeff * ent.nodeCount ≤ A._idsR.length) :
    ∃ C1, dot A B b C = .ok C1 ∧ C1.mat_.rows = ca ∧ C1.mat_.cols = cb ∧
      (∀ i j, i < ca → j < cb → C1.mat_.val i j
        = ∑ q in Finset.range n, (w.getD q 0 * ent.size * b)
            * ∑ s in Finset.range ra, (A.matXq q).val s i * (B.matXq q).val s j) ∧
      C1._idsR = A._idsR ∧ C1._idsC = B._idsR ∧ C1._valid = true ∧
      C1._integrated = true := by
  subst hwn
  obtain ⟨X, M, h, hr, hc, hd⟩ := dot_plain_ok A B C b w ent ra ca cb hn hord hw hent hA hB
    hdA hdB hsA hsB hids
  exact ⟨_, h, hr, hc, hd, rfl, rfl, rfl, rfl⟩

/-- Witness for C1 (amended): `dot(op2, op2, 3, C)` on the sample operator. -/
theorem dot_plain_spec_witness :
    ∃ C1, dot Sample.op2 Sample.op2 (3 : ℚ) ElementMatrix.blank = .ok C1 ∧
      C1.mat_.rows = 2 ∧ C1.mat_.cols = 2 ∧
      (∀ i j, i < 2 → j < 2 → C1.mat_.val i j
        = ∑ q in Finset.range 2, (([1/2, 1/2] : List ℚ).getD q 0 * Sample.seg.size * 3)
            * ∑ s in Finset.range 1,
                (Sample.op2.matXq q).val s i * (Sample.op2.matXq q).val s j) ∧
      C1._idsR = Sample.op2._idsR ∧ C1._idsC = Sample.op2._idsR ∧ C1._valid = true ∧
      C1._integrated = true :=
  dot_plain_spec Sample.op2 Sample.op2 ElementMatrix.blank 3 [1/2, 1/2] Sample.seg 2 1 2 2
    (by decide) rfl rfl rfl rfl rfl rfl rfl rfl
    (by intro q hq; interval_cases q <;> exact ⟨rfl, rfl⟩)
    (by intro q hq; interval_cases q <;> exact ⟨rfl, rfl⟩)
    (by decide)

/-- C1 fails as stated when `n = 0`: `opNoRule` is a new-style operator with no
weights and no basis images, not divergence-form; `dot` returns a result
marked valid and integrated whose 1 x 1 integrated matrix still holds the 7
that `C` held before, while the sum over `q < 0` is 0. -/
theorem dot_plain_counterexample :
    Sample.opNoRule._newStyle = true ∧ Sample.opNoRule._div = false ∧
    Sample.opNoRule._matX.length = 0 ∧ Sample.opNoRule._w = some [] ∧
    ∃ C1, dot Sample.opNoRule Sample.opNoRule (1 : ℚ) Sample.opStale = .ok C1 ∧
      C1._valid = true ∧ C1._integrated = true ∧
      C1.mat_.rows = 1 ∧ C1.mat_.cols = 1 ∧ C1.mat_.val 0 0 = 7 ∧
      C1.mat_.val 0 0 ≠ ∑ q in Finset.range 0,
        (([] : List ℚ).getD q 0 * Sample.seg.size * 1)
          * ∑ s in Finset.range 0,
              (Sample.opNoRule.matXq q).val s 0 * (Sample.opNoRule.matXq q).val s 0 := by
  refine ⟨rfl, rfl, rfl, rfl, ?_⟩
  have hprep := prepDot_ok Sample.opNoRule Sample.opNoRule Sample.opStale rfl
    (fun e he => by
      have : e = Sample.seg := by
        have h2 : Sample.opNoRule._ent = some Sample.seg := rfl
        rw [h2] at he; cases he; rfl
      subst this; decide)
  refine ⟨_, by rw [dot, hprep]; rfl, rfl, rfl, rfl, rfl, ?_, ?_⟩
  · simp [DenseMatrix.val, DenseMatrix.resize, DenseMatrix.allocate_, Sample.opStale,
      Sample.opNoRule, ElementMatrix.blank, DenseMatrix.ofSize, DenseMatrix.empty]
  · simp [DenseMatrix.val, DenseMatrix.resize, DenseMatrix.allocate_, Sample.opStale,
      Sample.opNoRule, ElementMatrix.blank, DenseMatrix.ofSize, DenseMatrix.empty]

theorem resize_zero_data (m : DenseMatrix R) (r c : ℕ) (h : ∀ t, m.data t = 0) (t : ℕ) :
    (m.resize r c).data t = 0 := by
  simp only [DenseMatrix.resize, DenseMatrix.allocate_]
  split
  · rfl
  · exact h t

theorem dotRet_eq (A B : ElementMatrix R P) (c : R) :
    dotRet A B c = dot A B c { (ElementMatrix.blank : ElementMatrix R P) with
      _newStyle := false } := by
  simp only [dotRet, ElementMatrix.ofDof, ElementMatrix.init]
  rfl

/-- With an empty table of weights the quadrature loop of `dot` does not run:
the result carries the resized, otherwise untouched `mat_` of `C`. -/
theorem dot_no_rules (A B C : ElementMatrix R P) (b : R) (hord : A._order = B._order)
    (hw : A._w = some [])
    (hids : ∀ ent, A._ent = some ent → A._nCoeff * ent.nodeCount ≤ A._idsR.length) :
    dot A B b C = .ok
      { (C.copyFrom A false) with
        _idsR := A._idsR, _idsC := B._idsR, _ids := A._idsR,
        mat_ := (C.mat_.resize A.mat_.rows A.mat_.cols).resize A._idsR.length
                  (if B._idsR.length = 0 then A._idsR.length else B._idsR.length),
        _valid := true, _integrated := true } := by
  rw [dot, prepDot_ok A B C hord hids]
  show (match A._w with
    | none => Except.error Error.outOfRange
    | some w => _) = _
  rw [hw]
  rfl

/-- The mass-type product `dot(A, A, b)` of a value operator with itself: the
call returns, the result is square of size `nVerts * nCoeff`, and its entries
are the quadrature sums of the products of the basis images. -/
theorem dotRet_value_ok (rules : IntegrationRules R P) (ent : MeshEntity R P)
    (order nCoeff : ℕ) (A : ElementMatrix R P) (b : R)
    (hA : IsValueOp rules ent order nCoeff A)
    (hlen : (rules.weights ent order).length = (rules.abscissa ent order).length) :
    ∃ C, dotRet A A b = .ok C ∧
      C.mat_.rows = ent.nodeCount * nCoeff ∧ C.mat_.cols = ent.nodeCount * nCoeff ∧
      C._valid = true ∧ C._integrated = true ∧
      ∀ i j, i < ent.nodeCount * nCoeff → j < ent.nodeCount * nCoeff → C.mat_.val i j
        = ∑ q in Finset.range (rules.weights ent order).length,
            ((rules.weights ent order).getD q 0 * ent.size * b)
              * ∑ s in Finset.range nCoeff, (A.matXq q).val s i * (A.matXq q).val s j := by
  obtain ⟨hw, hx, hent, hdiv, hord, hnC, hval, hnew, hidl, hmr, hmc, hXl, hrows⟩ := hA
  have hids : A._nCoeff * ent.nodeCount ≤ A._idsR.length := by
    rw [hidl, hnC, Nat.mul_comm]
  have hshape : ∀ q, q < (rules.weights ent order).length →
      (A.matXq q).rows = nCoeff ∧ (A.matXq q).cols = ent.nodeCount * nCoeff := by
    intro q hq
    rw [hlen] at hq
    obtain ⟨Z, hZr, hZc, -, hfill⟩ := hrows q _ (List.getElem?_eq_getElem hq)
    exact ElementMatrix.fillMatX_U_Rows_shape ent _ _ _ _ hZr hZc hfill
  rw [dotRet_eq]
  rcases Nat.eq_zero_or_pos (rules.weights ent order).length with h0 | hpos
  · have hw0 : A._w = some [] := by rw [hw, List.length_eq_zero.mp h0]
    have hdot := dot_no_rules A A { (ElementMatrix.blank : ElementMatrix R P) with
        _newStyle := false } b rfl hw0
      (fun e he => by rw [hent] at he; cases he; exact hids)
    refine ⟨_, hdot, ?_, ?_, rfl, rfl, ?_⟩
    · show (DenseMatrix.resize _ _ _).rows = _
      rw [DenseMatrix.resize_rows, hidl]
    · show (DenseMatrix.resize _ _ _).cols = _
      rw [DenseMatrix.resize_cols, ite_self, hidl]
    · intro i j _ _
      rw [h0, Finset.sum_range_zero]
      show (DenseMatrix.resize _ _ _).data _ = 0
      exact resize_zero_data _ _ _ (fun t => resize_zero_data _ _ _ (fun _ => rfl) t) _
  · obtain ⟨X, M, hdot, hr, hc, hd⟩ := dot_plain_ok A A
      { (ElementMatrix.blank : ElementMatrix R P) with _newStyle := false } b
      (rules.weights ent order) ent nCoeff (ent.nodeCount * nCoeff) (ent.nodeCount * nCoeff)
      hpos rfl hw hent (by rw [hXl, hlen]) (by rw [hXl, hlen]) hdiv hdiv hshape hshape hids
    exact ⟨_, hdot, hr, hc, rfl, rfl, hd⟩

/-- C5: for the value operator `A` that `pot` builds (on a cache miss, with
`nCoeff ≥ 1` components and a rule with as many weights as points) and every
scalar `b`, `dot(A, A, b)` returns a square integrated matrix `C` with
`C[i][j] = C[j][i]` for all `i, j`. -/
theorem dot_pot_symmetric (rules : IntegrationRules R P) (dbg : Bool)
    (E : ElementMatrix R P) (ent : MeshEntity R P) (order : ℕ) (sum : Bool)
    (nCoeff dofPerCoeff dofOffset : ℕ) (b : R)
    (hmiss : dbg = true ∨ E._valid = false) (hnc : nCoeff ≠ 0)
    (hdpc : ¬ (nCoeff > 1 ∧ dofPerCoeff = 0))
    (hlen : (rules.weights ent order).length = (rules.abscissa ent order).length) :
    ∃ A C, E.pot rules dbg ent order sum nCoeff dofPerCoeff dofOffset = .ok A ∧
      dotRet A A b = .ok C ∧ C.mat_.rows = C.mat_.cols ∧
      ∀ i j, i < C.mat_.rows → j < C.mat_.cols → C.mat_.val i j = C.mat_.val j i := by
  obtain ⟨A, hA, hop⟩ := ElementMatrix.pot_ok rules dbg E ent order sum nCoeff dofPerCoeff
    dofOffset hmiss hnc hdpc (fun _ => le_of_eq hlen)
  obtain ⟨C, hC, hr, hc, -, -, hd⟩ := dotRet_value_ok rules ent order nCoeff A b hop hlen
  refine ⟨A, C, hA, hC, hr.trans hc.symm, ?_⟩
  intro i j hi hj
  rw [hr] at hi
  rw [hc] at hj
  rw [hd i j hi hj, hd j i hj hi]
  apply Finset.sum_congr rfl
  intro q _
  congr 1
  apply Finset.sum_congr rfl
  intro s _
  ring

/-- Witness for C5: the value operator of the sample triangle under the
midpoint rule. -/
theorem dot_pot_symmetric_witness :
    ∃ A C, (ElementMatrix.blank : ElementMatrix ℚ (ℚ × ℚ)).pot Sample.midRules false
        Sample.tri 2 false 1 0 0 = .ok A ∧
      dotRet A A 5 = .ok C ∧ C.mat_.rows = C.mat_.cols ∧
      ∀ i j, i < C.mat_.rows → j < C.mat_.cols → C.mat_.val i j = C.mat_.val j i :=
  dot_pot_symmetric Sample.midRules false ElementMatrix.blank Sample.tri 2 false 1 0 0 5
    (Or.inr rfl) (by decide) (by decide) rfl

/-- Row 0 of the basis images of a scalar value operator holds the shape
functions at the quadrature point. -/
theorem valueOp_entry_scalar (rules : IntegrationRules R P) (ent : MeshEntity R P)
    (order : ℕ) (A : ElementMatrix R P) (hA : IsValueOp rules ent order 1 A)
    (q : ℕ) (xq : P) (hq : (rules.abscissa ent order)[q]? = some xq) (j : ℕ)
    (hj : j < ent.nodeCount) : (A.matXq q).val 0 j = ent.N xq j := by
  obtain ⟨Z, hZr, hZc, -, hfill⟩ := hA.2.2.2.2.2.2.2.2.2.2.2.2 q xq hq
  obtain ⟨M, hM, hMr, hMc, hMd⟩ := DenseMatrix.setRowSlice_ok Z 0 (ent.N xq)
    (0 * ent.nodeCount) ((0 + 1) * ent.nodeCount)
    ⟨by rw [hZr]; exact Nat.one_pos, by omega, by rw [hZc]; omega⟩
  have h1 : ElementMatrix.fillMatX_U_Rows ent xq 1 Z = .ok M := by
    rw [ElementMatrix.fillMatX_U_Rows, forLoop_succ]
    exact hM
  have hMeq : M = A.matXq q := by
    rw [h1] at hfill
    exact Except.ok.inj hfill
  rw [← hMeq]
  show M.data (M.cols * 0 + j) = _
  rw [hMd, if_pos (by constructor <;> omega)]
  congr 1
  omega

/-- C3: for every entity, a scalar field (`nCoeff = 1`) and a quadrature rule
whose weights sum to 1 and at each of whose points the shape functions sum to
1, the mass matrix `M = dot(u, u, 1.0)` of the value operator `u` built by
`pot` satisfies: the sum of all entries `M[i][j]` equals the entity's measure
`size()`. -/
theorem mass_sum_eq_measure (rules : IntegrationRules R P) (dbg : Bool)
    (E : ElementMatrix R P) (ent : MeshEntity R P) (order : ℕ) (sum : Bool)
    (dofPerCoeff dofOffset : ℕ)
    (hmiss : dbg = true ∨ E._valid = false)
    (hlen : (rules.weights ent order).length = (rules.abscissa ent order).length)
    (hw : (rules.weights ent order).sum = 1)
    (hN : ∀ p, p ∈ rules.abscissa ent order →
      ∑ j in Finset.range ent.nodeCount, ent.N p j = 1) :
    ∃ u M, E.pot rules dbg ent order sum 1 dofPerCoeff dofOffset = .ok u ∧
      dotRet u u 1 = .ok M ∧
      ∑ i in Finset.range M.mat_.rows, ∑ j in Finset.range M.mat_.cols, M.mat_.val i j
        = ent.size := by
  obtain ⟨A, hA, hop⟩ := ElementMatrix.pot_ok rules dbg E ent order sum 1 dofPerCoeff
    dofOffset hmiss (by decide) (by omega) (fun _ => le_of_eq hlen)
  obtain ⟨C, hC, hr, hc, -, -, hd⟩ := dotRet_value_ok rules ent order 1 A 1 hop hlen
  refine ⟨A, C, hA, hC, ?_⟩
  rw [hr, hc, Nat.mul_one]
  have h1 : ∀ i, i ∈ Finset.range ent.nodeCount →
      ∑ j in Finset.range ent.nodeCount, C.mat_.val i j
        = ∑ j in Finset.range ent.nodeCount, 1 *
            (∑ q in Finset.range (rules.weights ent order).length,
              ((rules.weights ent order).getD q 0 * ent.size * 1)
                * ∑ s in Finset.range 1, (A.matXq q).val s i * (A.matXq q).val s j) * 1 := by
    intro i hi
    apply Finset.sum_congr rfl
    intro j hj
    rw [hd i j (by rw [Nat.mul_one]; exact Finset.mem_range.mp hi)
      (by rw [Nat.mul_one]; exact Finset.mem_range.mp hj)]
    ring
  rw [Finset.sum_congr rfl h1, quad_form_sum]
  have h2 : ∀ q, q ∈ Finset.range (rules.weights ent order).length →
      ((rules.weights ent order).getD q 0 * ent.size * 1)
        * ∑ s in Finset.range 1,
            (∑ i in Finset.range ent.nodeCount, (A.matXq q).val s i * 1)
              * (∑ j in Finset.range ent.nodeCount, (A.matXq q).val s j * 1)
      = (rules.weights ent order).getD q 0 * ent.size := by
    intro q hq
    have hq1 : q < (rules.abscissa ent order).length := by
      rw [← hlen]; exact Finset.mem_range.mp hq
    have hx := List.getElem?_eq_getElem hq1
    have hs : ∑ i in Finset.range ent.nodeCount, (A.matXq q).val 0 i * 1 = 1 := by
      refine Eq.trans ?_ (hN _ (List.getElem_mem hq1))
      apply Finset.sum_congr rfl
      intro i hi
      rw [valueOp_entry_scalar rules ent order A hop q _ hx i (Finset.mem_range.mp hi),
        mul_one]
    rw [Finset.sum_range_one, hs]
    ring
  rw [Finset.sum_congr rfl h2, ← Finset.sum_mul, sum_getD_range, hw, one_mul]

/-- Witness for C3: the sample triangle under the midpoint rule. -/
theorem mass_sum_eq_measure_witness :
    ∃ u M, (ElementMatrix.blank : ElementMatrix ℚ (ℚ × ℚ)).pot Sample.midRules false
        Sample.tri 2 false 1 0 0 = .ok u ∧
      dotRet u u 1 = .ok M ∧
      ∑ i in Finset.range M.mat_.rows, ∑ j in Finset.range M.mat_.cols, M.mat_.val i j
        = Sample.tri.size :=
  mass_sum_eq_measure Sample.midRules false ElementMatrix.blank Sample.tri 2 false 0 0
    (Or.inr rfl) rfl (by norm_num [Sample.midRules])
    (by
      intro p hp
      simp only [Sample.midRules, List.mem_cons, List.mem_singleton, List.not_mem_nil,
        or_false] at hp
      rcases hp with h | h | h <;> subst h <;>
        norm_num [Sample.tri, MeshEntity.nodeCount, Finset.sum_range_succ])

/-- C6: for the value operator `A` that `pot` builds (on a cache miss, with
`nCoeff ≥ 1` components and a rule with as many weights as points), quadrature
weights all `≥ 0` and entity measure `≥ 0`, the integrated matrix `C` of
`dot(A, A, 1.0)` is positive semi-definite: `transpose(v) * C * v ≥ 0` for
every vector `v`. -/
theorem dot_pot_psd {K P : Type} [LinearOrderedField K] (rules : IntegrationRules K P)
    (dbg : Bool) (E : ElementMatrix K P) (ent : MeshEntity K P) (order : ℕ) (sum : Bool)
    (nCoeff dofPerCoeff dofOffset : ℕ) (v : ℕ → K)
    (hmiss : dbg = true ∨ E._valid = false) (hnc : nCoeff ≠ 0)
    (hdpc : ¬ (nCoeff > 1 ∧ dofPerCoeff = 0))
    (hlen : (rules.weights ent order).length = (rules.abscissa ent order).length)
    (hw : ∀ wq, wq ∈ rules.weights ent order → 0 ≤ wq) (hsize : 0 ≤ ent.size) :
    ∃ A C, E.pot rules dbg ent order sum nCoeff dofPerCoeff dofOffset = .ok A ∧
      dotRet A A 1 = .ok C ∧
      0 ≤ ∑ i in Finset.range C.mat_.rows, ∑ j in Finset.range C.mat_.cols,
            v i * C.mat_.val i j * v j := by
  obtain ⟨A, hA, hop⟩ := ElementMatrix.pot_ok rules dbg E ent order sum nCoeff dofPerCoeff
    dofOffset hmiss hnc hdpc (fun _ => le_of_eq hlen)
  obtain ⟨C, hC, hr, hc, -, -, hd⟩ := dotRet_value_ok rules ent order nCoeff A 1 hop hlen
  refine ⟨A, C, hA, hC, ?_⟩
  rw [hr, hc]
  have h1 : ∀ i, i ∈ Finset.range (ent.nodeCount * nCoeff) →
      ∑ j in Finset.range (ent.nodeCount * nCoeff), v i * C.mat_.val i j * v j
        = ∑ j in Finset.range (ent.nodeCount * nCoeff), v i *
            (∑ q in Finset.range (rules.weights ent order).length,
              ((rules.weights ent order).getD q 0 * ent.size * 1)
                * ∑ s in Finset.range nCoeff, (A.matXq q).val s i * (A.matXq q).val s j)
            * v j := by
    intro i hi
    apply Finset.sum_congr rfl
    intro j hj
    rw [hd i j (Finset.mem_range.mp hi) (Finset.mem_range.mp hj)]
  rw [Finset.sum_congr rfl h1, quad_form_sum]
  apply Finset.sum_nonneg
  intro q hq
  have hq1 : q < (rules.weights ent order).length := Finset.mem_range.mp hq
  have hwq : 0 ≤ (rules.weights ent order).getD q 0 := by
    rw [List.getD_eq_getElem _ _ hq1]
    exact hw _ (List.getElem_mem hq1)
  apply mul_nonneg
  · exact mul_nonneg (mul_nonneg hwq hsize) zero_le_one
  · apply Finset.sum_nonneg
    intro s _
    exact mul_self_nonneg _

/-- Witness for C6: the sample triangle under the midpoint rule. -/
theorem dot_pot_psd_witness :
    ∃ A C, (ElementMatrix.blank : ElementMatrix ℚ (ℚ × ℚ)).pot Sample.midRules false
        Sample.tri 2 false 1 0 0 = .ok A ∧
      dotRet A A 1 = .ok C ∧
      0 ≤ ∑ i in Finset.range C.mat_.rows, ∑ j in Finset.range C.mat_.cols,
            (fun k : ℕ => (k : ℚ) - 1) i * C.mat_.val i j * (fun k : ℕ => (k : ℚ) - 1) j :=
  dot_pot_psd Sample.midRules false ElementMatrix.blank Sample.tri 2 false 1 0 0
    (fun k : ℕ => (k : ℚ) - 1) (Or.inr rfl) (by decide) (by decide) rfl
    (by
      intro wq hwq
      simp only [Sample.midRules, List.mem_cons, List.mem_singleton, List.not_mem_nil,
        or_false] at hwq
      rcases hwq with h | h | h <;> subst h <;> norm_num)
    (by norm_num [Sample.tri])

/-- The stiffness-type product `dot(g, g, b)` of a scalar gradient operator
with itself: the call returns, the result is square of size `nVerts`, and its
entries are the quadrature sums of the products of the physical gradients. -/
theorem dotRet_grad_ok (rules : IntegrationRules R P) (ent : MeshEntity R P)
    (order : ℕ) (A : ElementMatrix R P) (b : R)
    (hA : IsGradScalarOp rules ent order false A)
    (hlen : (rules.weights ent order).length = (rules.abscissa ent order).length) :
    ∃ C, dotRet A A b = .ok C ∧
      C.mat_.rows = ent.nodeCount ∧ C.mat_.cols = ent.nodeCount ∧
      ∀ i j, i < ent.nodeCount → j < ent.nodeCount → C.mat_.val i j
        = ∑ q in Finset.range (rules.weights ent order).length,
            ((rules.weights ent order).getD q 0 * ent.size * b)
              * ∑ s in Finset.range ent.dim, (A.matXq q).val s i * (A.matXq q).val s j := by
  obtain ⟨hw, hent, hdiv, hord, hnC, hidl, hXl, hrows⟩ := hA
  have hids : A._nCoeff * ent.nodeCount ≤ A._idsR.length := by
    rw [hidl, hnC, Nat.one_mul]
  have hshape : ∀ q, q < (rules.weights ent order).length →
      (A.matXq q).rows = ent.dim ∧ (A.matXq q).cols = ent.nodeCount := by
    intro q hq
    rw [hlen] at hq
    obtain ⟨h1, h2, -⟩ := hrows q _ (List.getElem?_eq_getElem hq)
    exact ⟨h1, h2⟩
  rw [dotRet_eq]
  rcases Nat.eq_zero_or_pos (rules.weights ent order).length with h0 | hpos
  · have hw0 : A._w = some [] := by rw [hw, List.length_eq_zero.mp h0]
    have hdot := dot_no_rules A A { (ElementMatrix.blank : ElementMatrix R P) with
        _newStyle := false } b rfl hw0
      (fun e he => by rw [hent] at he; cases he; exact hids)
    refine ⟨_, hdot, ?_, ?_, ?_⟩
    · show (DenseMatrix.resize _ _ _).rows = _
      rw [DenseMatrix.resize_rows, hidl]
    · show (DenseMatrix.resize _ _ _).cols = _
      rw [DenseMatrix.resize_cols, ite_self, hidl]
    · intro i j _ _
      rw [h0, Finset.sum_range_zero]
      show (DenseMatrix.resize _ _ _).data _ = 0
      exact resize_zero_data _ _ _ (fun t => resize_zero_data _ _ _ (fun _ => rfl) t) _
  · obtain ⟨X, M, hdot, hr, hc, hd⟩ := dot_plain_ok A A
      { (ElementMatrix.blank : ElementMatrix R P) with _newStyle := false } b
      (rules.weights ent order) ent ent.dim ent.nodeCount ent.nodeCount
      hpos rfl hw hent (by rw [hXl, hlen]) (by rw [hXl, hlen]) hdiv hdiv hshape hshape hids
    exact ⟨_, hdot, hr, hc, hd⟩

/-- C4: for every entity of dimension 1, 2 or 3, a scalar field (`nCoeff = 1`)
and a quadrature rule with as many weights as points, at each of whose points
the reference gradients `dNdL(p, r)` of the nodal basis functions sum to zero
over the nodes, `grad(entity, order, elastic = false)` on an operator that is
not valid and whose gradient cache is not sized to the rule returns the
gradient operator `g`, `dot(g, g, 1.0)` returns the stiffness matrix `K`, and
every row sum of `K` is 0. -/
theorem stiffness_row_sums_zero (rules : IntegrationRules R P) (rsqrt2 : R)
    (E : ElementMatrix R P) (ent : MeshEntity R P) (order : ℕ) (kelvin : Bool)
    (hval : E._valid = false) (hnc : E._nCoeff = 1)
    (hcache : E.dNdr_.rows ≠ (rules.abscissa ent order).length
      ∨ (rules.abscissa ent order).length = 0)
    (hdim : ent.dim = 1 ∨ ent.dim = 2 ∨ ent.dim = 3)
    (hlen : (rules.weights ent order).length = (rules.abscissa ent order).length)
    (hsum : ∀ p, p ∈ rules.abscissa ent order → ∀ r, r < ent.dim →
      ∑ j in Finset.range ent.nodeCount, ent.dNdL p r j = 0) :
    ∃ g K, E.gradBase rules rsqrt2 ent order false false false kelvin = .ok g ∧
      dotRet g g 1 = .ok K ∧
      ∀ i, i < K.mat_.rows → ∑ j in Finset.range K.mat_.cols, K.mat_.val i j = 0 := by
  obtain ⟨g, hg, hop⟩ := ElementMatrix.gradBase_scalar_ok rules rsqrt2 E ent order false
    kelvin hval hnc hcache hdim
  obtain ⟨K, hK, hr, hc, hd⟩ := dotRet_grad_ok rules ent order g 1 hop hlen
  refine ⟨g, K, hg, hK, ?_⟩
  intro i hi
  rw [hr] at hi
  rw [hc]
  have h1 : ∀ j, j ∈ Finset.range ent.nodeCount → K.mat_.val i j
      = ∑ q in Finset.range (rules.weights ent order).length,
          ((rules.weights ent order).getD q 0 * ent.size * 1)
            * ∑ s in Finset.range ent.dim, (g.matXq q).val s i * (g.matXq q).val s j :=
    fun j hj => hd i j hi (Finset.mem_range.mp hj)
  rw [Finset.sum_congr rfl h1, Finset.sum_comm]
  apply Finset.sum_eq_zero
  intro q hq
  have hq1 : q < (rules.abscissa ent order).length := by
    rw [← hlen]; exact Finset.mem_range.mp hq
  obtain ⟨-, -, hval1⟩ := hop.2.2.2.2.2.2.2 q _ (List.getElem?_eq_getElem hq1)
  rw [← Finset.mul_sum, Finset.sum_comm]
  have h2 : ∀ s, s ∈ Finset.range ent.dim →
      ∑ j in Finset.range ent.nodeCount, (g.matXq q).val s i * (g.matXq q).val s j = 0 := by
    intro s hs
    have hs1 := Finset.mem_range.mp hs
    have h3 : ∑ j in Finset.range ent.nodeCount, (g.matXq q).val s j = 0 := by
      have h4 : ∀ j, j ∈ Finset.range ent.nodeCount → (g.matXq q).val s j
          = ∑ r in Finset.range ent.dim,
              ent.dNdL ((rules.abscissa ent order)[q]) r j * ent.drstdxyz r s :=
        fun j hj => hval1 s j hs1 (Finset.mem_range.mp hj)
      rw [Finset.sum_congr rfl h4, Finset.sum_comm]
      apply Finset.sum_eq_zero
      intro r hr1
      rw [← Finset.sum_mul, hsum _ (List.getElem_mem hq1) r (Finset.mem_range.mp hr1),
        zero_mul]
    rw [← Finset.mul_sum, h3, mul_zero]
  rw [Finset.sum_eq_zero h2, mul_zero]

/-- Witness for C4: the gradient operator of the sample triangle under the
midpoint rule. -/
theorem stiffness_row_sums_zero_witness :
    ∃ g K, Sample.scalarOp.gradBase Sample.midRules 0
        Sample.tri 2 false false false false = .ok g ∧
      dotRet g g 1 = .ok K ∧
      ∀ i, i < K.mat_.rows → ∑ j in Finset.range K.mat_.cols, K.mat_.val i j = 0 :=
  stiffness_row_sums_zero Sample.midRules 0 Sample.scalarOp Sample.tri 2 false rfl rfl
    (Or.inl (by decide)) (Or.inr (Or.inl rfl)) rfl
    (by
      intro p _ r hr
      have hr2 : r < 2 := hr
      interval_cases r <;>
        norm_num [Sample.tri, MeshEntity.nodeCount, Finset.sum_range_succ])

theorem DenseMatrix.setVal_ok (m : DenseMatrix R) (i j : ℕ) (v : R) (hi : i < m.rows)
    (hj : j < m.cols) :
    m.setVal i j v = .ok { m with data := Function.update m.data (m.cols * i + j) v } := by
  rw [DenseMatrix.setVal, if_neg (by omega)]

theorem DenseMatrix.get_ok (m : DenseMatrix R) (i j : ℕ) (hi : i < m.rows)
    (hj : j < m.cols) : m.get i j = .ok (m.val i j) := by
  rw [DenseMatrix.get, if_neg (by omega)]

theorem setId_ok (l : List ℕ) (k v : ℕ) (h : k < l.length) :
    setId l k v = .ok (l.set k v) := by
  rw [setId, if_pos h]

theorem resizeIds_length (l : List ℕ) (n : ℕ) : (resizeIds l n).length = n := by
  simp only [resizeIds, List.length_append, List.length_take, List.length_replicate]
  omega

theorem ElementMatrix.mulAssign_mat_rows (E : ElementMatrix R P) (v : R) :
    (E.mulAssign v).mat_.rows = E.mat_.rows := by
  unfold ElementMatrix.mulAssign
  split
  · show (if E._integrated = true then _ else _ : DenseMatrix R).rows = _
    split <;> rfl
  · rfl

theorem ElementMatrix.mulAssign_mat_cols (E : ElementMatrix R P) (v : R) :
    (E.mulAssign v).mat_.cols = E.mat_.cols := by
  unfold ElementMatrix.mulAssign
  split
  · show (if E._integrated = true then _ else _ : DenseMatrix R).cols = _
    split <;> rfl
  · rfl

/-- Success of `fillIds(ent)` on a legacy operator with `_nDof = 0`: the
integrated matrix is resized to `nodeCount x nodeCount`. -/
theorem ElementMatrix.fillIds_ok (E : ElementMatrix R P) (ent : MeshEntity R P)
    (hdof : E._nDof = 0)
    (hfit : ∀ e, E._ent = some e → E._nCoeff * e.nodeCount ≤ ent.nodeCount) :
    ∃ E1, E.fillIds ent 1 = .ok E1 ∧ E1.mat_.rows = ent.nodeCount ∧
      E1.mat_.cols = ent.nodeCount := by
  obtain ⟨idsR, hres, hidl⟩ := ElementMatrix.resize_ok E (ent.nodeCount * 1) ent.nodeCount
    (fun e he => by rw [Nat.mul_one]; exact hfit e he)
  obtain ⟨E0, hE0, hres1⟩ : ∃ E0 : ElementMatrix R P,
      E0 = { E with
        _idsR := idsR,
        _idsC := resizeIds E._idsC
          (if ent.nodeCount = 0 then ent.nodeCount * 1 else ent.nodeCount),
        _ids := resizeIds E._ids (ent.nodeCount * 1),
        mat_ := E.mat_.resize (ent.nodeCount * 1)
          (if ent.nodeCount = 0 then ent.nodeCount * 1 else ent.nodeCount) } ∧
      E.resize (ent.nodeCount * 1) ent.nodeCount true = .ok E0 := ⟨_, rfl, hres⟩
  have hcols : (if ent.nodeCount = 0 then ent.nodeCount * 1 else ent.nodeCount)
      = ent.nodeCount := by
    split <;> omega
  obtain ⟨E2, hloop, hmat, -⟩ := forLoop_inv
    (fun _ (E3 : ElementMatrix R P) => E3.mat_ = E0.mat_ ∧
      E3._ids.length = ent.nodeCount ∧ E3._idsC.length = ent.nodeCount ∧
      E3._idsR.length = ent.nodeCount)
    (fun i (E3 : ElementMatrix R P) =>
        (setId E3._ids (0 * ent.nodeCount + i) (ent.ids.getD i 0)).bind fun ids =>
        match ids[0 * ent.nodeCount + i]? with
        | none => .error .outOfRange
        | some v =>
          (setId E3._idsC (0 * ent.nodeCount + i) v).bind fun idsC =>
          (setId E3._idsR i v).map fun idsR =>
          { E3 with
            _ids := ids, _idsC := idsC, _idsR := idsR })
    ent.nodeCount E0
    ⟨rfl, by rw [hE0]; show (resizeIds _ _).length = _; rw [resizeIds_length, Nat.mul_one],
      by rw [hE0]; show (resizeIds _ _).length = _; rw [resizeIds_length, hcols],
      by rw [hE0]; show idsR.length = _; rw [hidl, Nat.mul_one]⟩
    (fun k E3 hk hinv => by
      obtain ⟨hm, h1, h2, h3⟩ := hinv
      have hk1 : 0 * ent.nodeCount + k < E3._ids.length := by rw [h1]; omega
      have hk2 : 0 * ent.nodeCount + k < E3._idsC.length := by rw [h2]; omega
      have hk3 : k < E3._idsR.length := by rw [h3]; exact hk
      have hk3' : k < E3._ids.length := by rw [h1]; exact hk
      have hget : (E3._ids.set (0 * ent.nodeCount + k) (ent.ids.getD k 0))[0 * ent.nodeCount
          + k]? = some (ent.ids.getD k 0) := by
        simp only [Nat.zero_mul, Nat.zero_add]
        exact List.getElem?_set_self hk3'
      refine ⟨{ E3 with
          _ids := E3._ids.set (0 * ent.nodeCount + k) (ent.ids.getD k 0),
          _idsC := E3._idsC.set (0 * ent.nodeCount + k) (ent.ids.getD k 0),
          _idsR := E3._idsR.set k (ent.ids.getD k 0) }, ?_, hm, ?_, ?_, ?_⟩
      · simp only [setId_ok _ _ _ hk1, bind_ok, hget, setId_ok _ _ _ hk2, setId_ok _ _ _ hk3,
          map_ok]
      · show (List.set _ _ _).length = _
        rw [List.length_set, h1]
      · show (List.set _ _ _).length = _
        rw [List.length_set, h2]
      · show (List.set _ _ _).length = _
        rw [List.length_set, h3])
  refine ⟨E2.mulAssign 0, ?_, ?_, ?_⟩
  · simp only [ElementMatrix.fillIds, hdof, lt_irrefl, if_false, hres1, bind_ok, forLoop,
      hloop, map_ok]
  · rw [ElementMatrix.mulAssign_mat_rows, hmat, hE0]
    show (DenseMatrix.resize _ _ _).rows = _
    rw [DenseMatrix.resize_rows, Nat.mul_one]
  · rw [ElementMatrix.mulAssign_mat_cols, hmat, hE0]
    show (DenseMatrix.resize _ _ _).cols = _
    rw [DenseMatrix.resize_cols, hcols]

/-- The closed-form triangle branch on a 3 x 3 matrix for the triangle with
nodes (0,0), (1,0), (0,1) and measure 1/2. -/
theorem ElementMatrix.triangleStiffness_unit (cell : MeshEntity R P) (M : DenseMatrix R)
    (h2 : (2 : R) ≠ 0) (hr : M.rows = 3) (hc : M.cols = 3)
    (hx0 : cell.nodeX 0 = 0) (hy0 : cell.nodeY 0 = 0)
    (hx1 : cell.nodeX 1 = 1) (hy1 : cell.nodeY 1 = 0)
    (hx2 : cell.nodeX 2 = 0) (hy2 : cell.nodeY 2 = 1)
    (hsize : cell.size = 1 / 2) :
    ∃ M1, ElementMatrix.triangleStiffness cell M = .ok M1 ∧ M1.rows = 3 ∧ M1.cols = 3 ∧
      M1.val 0 0 = 1 ∧ M1.val 0 1 = -(1 / 2) ∧ M1.val 0 2 = -(1 / 2) ∧
      M1.val 1 0 = -(1 / 2) ∧ M1.val 1 1 = 1 / 2 ∧ M1.val 1 2 = 0 ∧
      M1.val 2 0 = -(1 / 2) ∧ M1.val 2 1 = 0 ∧ M1.val 2 2 = 1 / 2 := by
  have hJ : cell.size * 2 = 1 := by rw [hsize]; field_simp
  simp only [ElementMatrix.triangleStiffness, hx0, hy0, hx1, hy1, hx2, hy2, hJ]
  simp [DenseMatrix.setVal, DenseMatrix.get, DenseMatrix.val, hr, hc, bind_ok, Except.bind,
    Function.update_apply]
  field_simp
  norm_num

/-- C7: for a legacy operator (`_nDof = 0`, as left by `ElementMatrix(0)`) over
a field with `2 ≠ 0`, and the linear triangle cell with nodes (0,0), (1,0),
(0,1) and size 1/2, `ux2uy2uz2(cell)` returns and leaves the 3 x 3 integrated
matrix `[[1, -1/2, -1/2], [-1/2, 1/2, 0], [-1/2, 0, 1/2]]`. -/
theorem ux2uy2uz2_unit_triangle (rules : IntegrationRules R P) (E : ElementMatrix R P)
    (cell : MeshEntity R P) (h2 : (2 : R) ≠ 0) (hdof : E._nDof = 0)
    (hfit : ∀ e, E._ent = some e → E._nCoeff * e.nodeCount ≤ 3)
    (hrtti : cell.rtti = Rtti.triangle) (hn : cell.nodeCount = 3)
    (hx0 : cell.nodeX 0 = 0) (hy0 : cell.nodeY 0 = 0)
    (hx1 : cell.nodeX 1 = 1) (hy1 : cell.nodeY 1 = 0)
    (hx2 : cell.nodeX 2 = 0) (hy2 : cell.nodeY 2 = 1)
    (hsize : cell.size = 1 / 2) :
    ∃ E1, E.ux2uy2uz2Cell rules cell = .ok E1 ∧ E1.mat_.rows = 3 ∧ E1.mat_.cols = 3 ∧
      E1.mat_.val 0 0 = 1 ∧ E1.mat_.val 0 1 = -(1 / 2) ∧ E1.mat_.val 0 2 = -(1 / 2) ∧
      E1.mat_.val 1 0 = -(1 / 2) ∧ E1.mat_.val 1 1 = 1 / 2 ∧ E1.mat_.val 1 2 = 0 ∧
      E1.mat_.val 2 0 = -(1 / 2) ∧ E1.mat_.val 2 1 = 0 ∧ E1.mat_.val 2 2 = 1 / 2 := by
  obtain ⟨E1, hfill, hr, hc⟩ := ElementMatrix.fillIds_ok E cell hdof
    (fun e he => by rw [hn]; exact hfit e he)
  obtain ⟨M1, hM, hrest⟩ := ElementMatrix.triangleStiffness_unit cell E1.mat_ h2
    (hr.trans hn) (hc.trans hn) hx0 hy0 hx1 hy1 hx2 hy2 hsize
  refine ⟨{ E1 with
    mat_ := M1 }, ?_, hrest⟩
  simp only [ElementMatrix.ux2uy2uz2Cell, hfill, bind_ok, hrtti, hM, map_ok]

/-- Witness for C7: the sample triangle and a freshly constructed operator. -/
theorem ux2uy2uz2_unit_triangle_witness :
    ∃ E1, (ElementMatrix.blank : ElementMatrix ℚ (ℚ × ℚ)).ux2uy2uz2Cell Sample.midRules
        Sample.tri = .ok E1 ∧ E1.mat_.rows = 3 ∧ E1.mat_.cols = 3 ∧
      E1.mat_.val 0 0 = 1 ∧ E1.mat_.val 0 1 = -(1 / 2) ∧ E1.mat_.val 0 2 = -(1 / 2) ∧
      E1.mat_.val 1 0 = -(1 / 2) ∧ E1.mat_.val 1 1 = 1 / 2 ∧ E1.mat_.val 1 2 = 0 ∧
      E1.mat_.val 2 0 = -(1 / 2) ∧ E1.mat_.val 2 1 = 0 ∧ E1.mat_.val 2 2 = 1 / 2 :=
  ux2uy2uz2_unit_triangle Sample.midRules ElementMatrix.blank Sample.tri (by norm_num) rfl
    (fun e he => by cases he) rfl rfl (by norm_num [Sample.tri]) (by norm_num [Sample.tri])
    (by norm_num [Sample.tri]) (by norm_num [Sample.tri]) (by norm_num [Sample.tri])
    (by norm_num [Sample.tri]) rfl

/-- A rule exact to degree 2 integrates every quadratic polynomial in the
reference coordinates exactly. -/
theorem exact_quadratic {K : Type} [Field K] (w : List K) (x : List (K × K))
    (hex : IsExactDeg2 w x) (c1 c2 c3 c4 c5 c6 : K) (f : K × K → K)
    (hf : ∀ p : K × K, f p = c1 + c2 * p.1 + c3 * p.2 + c4 * (p.1 * p.1)
      + c5 * (p.1 * p.2) + c6 * (p.2 * p.2)) :
    ∑ q in Finset.range w.length, w.getD q 0 * f (x.getD q (0, 0))
      = c1 + c2 * (1 / 3) + c3 * (1 / 3) + c4 * (1 / 6) + c5 * (1 / 12) + c6 * (1 / 6) := by
  obtain ⟨h1, h2, h3, h4, h5, h6⟩ := hex
  have hsplit : ∀ q, q ∈ Finset.range w.length → w.getD q 0 * f (x.getD q (0, 0))
      = c1 * w.getD q 0 + c2 * (w.getD q 0 * (x.getD q (0, 0)).1)
        + c3 * (w.getD q 0 * (x.getD q (0, 0)).2)
        + c4 * (w.getD q 0 * ((x.getD q (0, 0)).1 * (x.getD q (0, 0)).1))
        + c5 * (w.getD q 0 * ((x.getD q (0, 0)).1 * (x.getD q (0, 0)).2))
        + c6 * (w.getD q 0 * ((x.getD q (0, 0)).2 * (x.getD q (0, 0)).2)) := by
    intro q _
    rw [hf]
    ring
  rw [Finset.sum_congr rfl hsplit]
  simp only [Finset.sum_add_distrib, ← Finset.mul_sum, h1, h2, h3, h4, h5, h6, mul_one]

/-- The weighted sums of the products of two shape functions of the linear
triangle under a rule exact to degree 2: `1/6` on the diagonal, `1/12` off. -/
theorem tri_moments {K : Type} [Field K] [CharZero K] (ent : MeshEntity K (K × K))
    (w : List K) (x : List (K × K)) (hT : IsLinearTriangle ent) (hex : IsExactDeg2 w x)
    (i j : ℕ) (hi : i < 3) (hj : j < 3) :
    ∑ q in Finset.range w.length,
        w.getD q 0 * (ent.N (x.getD q (0, 0)) i * ent.N (x.getD q (0, 0)) j)
      = if i = j then 1 / 6 else 1 / 12 := by
  obtain ⟨-, hN⟩ := hT
  interval_cases i <;> interval_cases j
  · rw [exact_quadratic w x hex 1 (-2) (-2) 1 2 1 (fun p => ent.N p 0 * ent.N p 0)
      (fun p => by simp only [(hN p).1]; ring)]
    norm_num
  · rw [exact_quadratic w x hex 0 1 0 (-1) (-1) 0 (fun p => ent.N p 0 * ent.N p 1)
      (fun p => by simp only [(hN p).1, (hN p).2.1]; ring)]
    norm_num
  · rw [exact_quadratic w x hex 0 0 1 0 (-1) (-1) (fun p => ent.N p 0 * ent.N p 2)
      (fun p => by simp only [(hN p).1, (hN p).2.2]; ring)]
    norm_num
  · rw [exact_quadratic w x hex 0 1 0 (-1) (-1) 0 (fun p => ent.N p 1 * ent.N p 0)
      (fun p => by simp only [(hN p).1, (hN p).2.1]; ring)]
    norm_num
  · rw [exact_quadratic w x hex 0 0 0 1 0 0 (fun p => ent.N p 1 * ent.N p 1)
      (fun p => by simp only [(hN p).2.1]; ring)]
    norm_num
  · rw [exact_quadratic w x hex 0 0 0 0 1 0 (fun p => ent.N p 1 * ent.N p 2)
      (fun p => by simp only [(hN p).2.1, (hN p).2.2]; ring)]
    norm_num
  · rw [exact_quadratic w x hex 0 0 1 0 (-1) (-1) (fun p => ent.N p 2 * ent.N p 0)
      (fun p => by simp only [(hN p).1, (hN p).2.2]; ring)]
    norm_num
  · rw [exact_quadratic w x hex 0 0 0 0 1 0 (fun p => ent.N p 2 * ent.N p 1)
      (fun p => by simp only [(hN p).2.1, (hN p).2.2]; ring)]
    norm_num
  · rw [exact_quadratic w x hex 0 0 0 0 0 1 (fun p => ent.N p 2 * ent.N p 2)
      (fun p => by simp only [(hN p).2.2]; ring)]
    norm_num

/-- The mass matrix `dot(u, u, 1.0)` with `u = pot(cell, order)` on the linear
triangle of measure 1/2 under a rule exact to degree 2: the call returns a
3 x 3 matrix with `1/12` on the diagonal and `1/24` off it. -/
theorem tri_mass_dot {K : Type} [Field K] [CharZero K] (rules : IntegrationRules K (K × K))
    (dbg : Bool) (E : ElementMatrix K (K × K)) (ent : MeshEntity K (K × K)) (order : ℕ)
    (sum : Bool) (dofPerCoeff dofOffset : ℕ)
    (hmiss : dbg = true ∨ E._valid = false) (hT : IsLinearTriangle ent)
    (hsize : ent.size = 1 / 2)
    (hlen : (rules.weights ent order).length = (rules.abscissa ent order).length)
    (hex : IsExactDeg2 (rules.weights ent order) (rules.abscissa ent order)) :
    ∃ u M, E.pot rules dbg ent order sum 1 dofPerCoeff dofOffset = .ok u ∧
      dotRet u u 1 = .ok M ∧ M.mat_.rows = 3 ∧ M.mat_.cols = 3 ∧
      ∀ i j, i < 3 → j < 3 → M.mat_.val i j = if i = j then 1 / 12 else 1 / 24 := by
  obtain ⟨A, hA, hop⟩ := ElementMatrix.pot_ok rules dbg E ent order sum 1 dofPerCoeff
    dofOffset hmiss (by decide) (by omega) (fun _ => le_of_eq hlen)
  obtain ⟨C, hC, hr, hc, -, -, hd⟩ := dotRet_value_ok rules ent order 1 A 1 hop hlen
  have hn : ent.nodeCount = 3 := hT.1
  rw [hn] at hr hc hd
  refine ⟨A, C, hA, hC, hr, hc, ?_⟩
  intro i j hi hj
  have hterm : ∀ q, q ∈ Finset.range (rules.weights ent order).length →
      ((rules.weights ent order).getD q 0 * ent.size * 1)
        * ∑ s in Finset.range 1, (A.matXq q).val s i * (A.matXq q).val s j
      = (1 / 2) * ((rules.weights ent order).getD q 0
          * (ent.N ((rules.abscissa ent order).getD q (0, 0)) i
            * ent.N ((rules.abscissa ent order).getD q (0, 0)) j)) := by
    intro q hq
    have hq1 : q < (rules.abscissa ent order).length := by
      rw [← hlen]; exact Finset.mem_range.mp hq
    have hx := getElem?_getD_of_lt (rules.abscissa ent order) ((0, 0) : K × K) hq1
    rw [Finset.sum_range_one,
      valueOp_entry_scalar rules ent order A hop q _ hx i (by rw [hn]; exact hi),
      valueOp_entry_scalar rules ent order A hop q _ hx j (by rw [hn]; exact hj), hsize]
    ring
  rw [hd i j (by omega) (by omega), Finset.sum_congr rfl hterm, ← Finset.mul_sum,
    tri_moments ent _ _ hT hex i j hi hj]
  split <;> norm_num

theorem DenseMatrix.setCol_ok (m : DenseMatrix R) (j : ℕ) (r : ℕ → R) (hj : j < m.cols) :
    ∃ m1, m.setCol j r = .ok m1 ∧ m1.rows = m.rows ∧ m1.cols = m.cols ∧
      ∀ i c, i < m.rows → c < m.cols → m1.val i c = if c = j then r i else m.val i c := by
  refine ⟨{ m with data := fun k =>
      if k < m.rows * m.cols ∧ k % m.cols = j then r (k / m.cols) else m.data k },
    by rw [DenseMatrix.setCol, if_pos hj], rfl, rfl, ?_⟩
  intro i c hi hc
  show (if m.cols * i + c < m.rows * m.cols ∧ (m.cols * i + c) % m.cols = j
    then r ((m.cols * i + c) / m.cols) else m.data (m.cols * i + c)) = _
  rw [flat_mod i hc, flat_div i hc]
  by_cases hcj : c = j
  · rw [if_pos ⟨flat_lt hi hc, hcj⟩, if_pos hcj]
  · rw [if_neg (fun h => hcj h.2), if_neg hcj]
    rfl

/-- The first loop of the legacy `u2`: column `q` of `N` holds the shape
functions at the quadrature point `x[q]`. -/
theorem u2_cols_loop (ent : MeshEntity R P) (x : List P) (d : P)
    (n nV : ℕ) (hn : n ≤ x.length) (N0 : DenseMatrix R) (hr : N0.rows = nV)
    (hc : N0.cols = n) :
    ∃ N, forLoop n (fun i (N : DenseMatrix R) =>
          match x[i]? with
          | none => .error .outOfRange
          | some xi => N.setCol i (ent.N xi)) N0 = .ok N ∧
      N.rows = nV ∧ N.cols = n ∧
      ∀ i q, i < nV → q < n → N.val i q = ent.N (x.getD q d) i := by
  obtain ⟨N, hloop, h1, h2, h3⟩ := forLoop_inv
    (fun k (N : DenseMatrix R) => N.rows = nV ∧ N.cols = n ∧
      ∀ i q, i < nV → q < k → N.val i q = ent.N (x.getD q d) i)
    (fun i (N : DenseMatrix R) =>
          match x[i]? with
          | none => .error .outOfRange
          | some xi => N.setCol i (ent.N xi))
    n N0 ⟨hr, hc, fun i q _ hq => absurd hq (Nat.not_lt_zero q)⟩
    (fun k N hk hinv => by
      obtain ⟨h1, h2, h3⟩ := hinv
      have hx := getElem?_getD_of_lt x d (lt_of_lt_of_le hk hn)
      obtain ⟨N1, hset, hr1, hc1, hv1⟩ := DenseMatrix.setCol_ok N k
        (ent.N (x.getD k d)) (by rw [h2]; exact hk)
      refine ⟨N1, ?_, hr1.trans h1, hc1.trans h2, ?_⟩
      · simp only [hx]
        exact hset
      · intro i q hi hq
        rw [hv1 i q (by rw [h1]; exact hi) (by rw [h2]; omega)]
        by_cases hqk : q = k
        · rw [if_pos hqk, hqk]
        · rw [if_neg hqk]
          exact h3 i q hi (by omega))
  exact ⟨N, hloop, h1, h2, h3⟩

/-- The second loop of the legacy `u2` for three nodes: entry `(i, j)` of the
cached matrix is the weighted sum of the products of rows `i` and `j` of `N`. -/
theorem u2_fill3 (w : List R) (N U0 : DenseMatrix R) (hNr : N.rows = 3)
    (hNc : N.cols = w.length) (hUr : U0.rows = 3) (hUc : U0.cols = 3) :
    ∃ U, forLoop 3 (fun i U1 =>
        forLoop (3 - i) (fun jj (U2 : DenseMatrix R) =>
          (N.row (i + jj)).bind fun nj => (N.row i).bind fun ni =>
          (vecSum w [N.cols] (fun k => w.getD k 0 * nj k * ni k)).bind fun t =>
          (U2.setVal i (i + jj) t).bind fun U3 => U3.setVal (i + jj) i t) U1) U0 = .ok U ∧
      U.rows = 3 ∧ U.cols = 3 ∧
      ∀ i j, i < 3 → j < 3 → U.val i j
        = ∑ k in Finset.range w.length, w.getD k 0 * (N.val i k * N.val j k) := by
  simp [forLoop, DenseMatrix.row, vecSum, DenseMatrix.setVal, DenseMatrix.val, hNr, hNc,
    hUr, hUc, bind_ok, Except.bind, Function.update_apply]
  intro i j hi hj
  interval_cases i <;> interval_cases j <;> simp <;>
    exact Finset.sum_congr rfl (fun k _ => by ring)

/-- The closing loop of the legacy `u2` for three nodes:
`mat_(i, j) = A * C(i, j)`. -/
theorem u2_copy3 (C M0 : DenseMatrix R) (A : R) (hCr : C.rows = 3) (hCc : C.cols = 3)
    (hMr : M0.rows = 3) (hMc : M0.cols = 3) :
    ∃ M, forLoop 3 (fun i M1 =>
        forLoop 3 (fun j (M2 : DenseMatrix R) =>
          (C.get i j).bind fun c => M2.setVal i j (A * c)) M1) M0 = .ok M ∧
      M.rows = 3 ∧ M.cols = 3 ∧ ∀ i j, i < 3 → j < 3 → M.val i j = A * C.val i j := by
  simp [forLoop, DenseMatrix.get, DenseMatrix.setVal, DenseMatrix.val, hCr, hCc, hMr, hMc,
    bind_ok, Except.bind, Function.update_apply]
  intro i j hi hj
  interval_cases i <;> interval_cases j <;> simp

/-- The legacy `u2(cell, w, x)` on the linear triangle with `domainSize` 1/2
under a rule exact to degree 2, on a 3 x 3 `mat_` and no cached matrix for the
cell type: the call returns with `1/12` on the diagonal and `1/24` off it. -/
theorem tri_mass_u2 {K : Type} [Field K] [CharZero K] (E0 : ElementMatrix K (K × K))
    (ent : MeshEntity K (K × K)) (w : List K) (x : List (K × K))
    (hT : IsLinearTriangle ent) (hdom : ent.domainSize = 1 / 2)
    (hlen : w.length = x.length) (hex : IsExactDeg2 w x)
    (hcache : E0.u2Cache_.lookup ent.rtti = none)
    (hr0 : E0.mat_.rows = 3) (hc0 : E0.mat_.cols = 3) :
    ∃ L, E0.u2 ent w x = .ok L ∧ L.mat_.rows = 3 ∧ L.mat_.cols = 3 ∧
      ∀ i j, i < 3 → j < 3 → L.mat_.val i j = if i = j then 1 / 12 else 1 / 24 := by
  have hn : ent.nodeCount = 3 := hT.1
  obtain ⟨N, hN, hNr, hNc, hNv⟩ := u2_cols_loop ent x (0, 0) w.length 3 (le_of_eq hlen)
    (DenseMatrix.ofSize 3 w.length) (DenseMatrix.resize_rows _ _ _)
    (DenseMatrix.resize_cols _ _ _)
  obtain ⟨U, hU, hUr, hUc, hUv⟩ := u2_fill3 w N (DenseMatrix.ofSize 3 3) hNr hNc
    (DenseMatrix.resize_rows _ _ _) (DenseMatrix.resize_cols _ _ _)
  obtain ⟨M, hM, hMr, hMc, hMv⟩ := u2_copy3 U E0.mat_ ent.domainSize hUr hUc hr0 hc0
  refine ⟨{ E0 with
    u2Cache_ := (ent.rtti, U) :: E0.u2Cache_, mat_ := M }, ?_, hMr, hMc, ?_⟩
  · simp only [ElementMatrix.u2, hcache, hn, hN, bind_ok, hU, map_ok, hM]
  · intro i j hi hj
    show M.val i j = _
    rw [hMv i j hi hj, hUv i j hi hj, hdom]
    have hterm : ∀ k, k ∈ Finset.range w.length → w.getD k 0 * (N.val i k * N.val j k)
        = w.getD k 0 * (ent.N (x.getD k (0, 0)) i * ent.N (x.getD k (0, 0)) j) := by
      intro k hk
      rw [hNv i k hi (Finset.mem_range.mp hk), hNv j k hj (Finset.mem_range.mp hk)]
    rw [Finset.sum_congr rfl hterm, tri_moments ent w x hT hex i j hi hj]
    split <;> norm_num

theorem Sample.tri_linear : IsLinearTriangle Sample.tri :=
  ⟨rfl, fun p => ⟨by simp [Sample.tri], by simp [Sample.tri], by simp [Sample.tri]⟩⟩

theorem Sample.midRules_exact :
    IsExactDeg2 (Sample.midRules.weights Sample.tri 2)
      (Sample.midRules.abscissa Sample.tri 2) := by
  simp only [IsExactDeg2, Sample.midRules, List.length_cons, List.length_nil,
    Finset.sum_range_succ, Finset.sum_range_zero]
  norm_num

/-- C8 (amended): for the linear triangle with nodes (0,0), (1,0), (0,1)
(shape functions `1 - r - s`, `r`, `s`, measure 1/2), a scalar field and a
quadrature rule with weights summing to 1 and as many weights as points that
is exact to degree 2 on the reference triangle, the mass matrix computed by
`dot(u, u, 1.0)` with `u = pot(cell, order)` on a cache miss, and the one
computed by the legacy `u2(cell, w, x)` on an operator with a 3 x 3 `mat_` and
no cached matrix for the cell type, both equal
`[[1/12,1/24,1/24],[1/24,1/12,1/24],[1/24,1/24,1/12]]`, that is the matrix
`[[1/6,1/12,1/12],[1/12,1/6,1/12],[1/12,1/12,1/6]]` scaled by the area 1/2. -/
theorem tri_mass_matrix {K : Type} [Field K] [CharZero K]
    (rules : IntegrationRules K (K × K)) (dbg : Bool) (E E0 : ElementMatrix K (K × K))
    (ent : MeshEntity K (K × K)) (order : ℕ) (sum : Bool) (dofPerCoeff dofOffset : ℕ)
    (hmiss : dbg = true ∨ E._valid = false) (hT : IsLinearTriangle ent)
    (hx0 : ent.nodeX 0 = 0) (hy0 : ent.nodeY 0 = 0)
    (hx1 : ent.nodeX 1 = 1) (hy1 : ent.nodeY 1 = 0)
    (hx2 : ent.nodeX 2 = 0) (hy2 : ent.nodeY 2 = 1)
    (hsize : ent.size = 1 / 2) (hdom : ent.domainSize = 1 / 2)
    (hlen : (rules.weights ent order).length = (rules.abscissa ent order).length)
    (hex : IsExactDeg2 (rules.weights ent order) (rules.abscissa ent order))
    (hcache : E0.u2Cache_.lookup ent.rtti = none)
    (hr0 : E0.mat_.rows = 3) (hc0 : E0.mat_.cols = 3) :
    (∃ u M, E.pot rules dbg ent order sum 1 dofPerCoeff dofOffset = .ok u ∧
      dotRet u u 1 = .ok M ∧ M.mat_.rows = 3 ∧ M.mat_.cols = 3 ∧
      ∀ i j, i < 3 → j < 3 → M.mat_.val i j = if i = j then 1 / 12 else 1 / 24) ∧
    (∃ L, E0.u2 ent (rules.weights ent order) (rules.abscissa ent order) = .ok L ∧
      L.mat_.rows = 3 ∧ L.mat_.cols = 3 ∧
      ∀ i j, i < 3 → j < 3 → L.mat_.val i j = if i = j then 1 / 12 else 1 / 24) :=
  ⟨tri_mass_dot rules dbg E ent order sum dofPerCoeff dofOffset hmiss hT hsize hlen hex,
    tri_mass_u2 E0 ent _ _ hT hdom hlen hex hcache hr0 hc0⟩

/-- Witness for C8 (amended): the sample triangle under the midpoint rule. -/
theorem tri_mass_matrix_witness :
    (∃ u M, (ElementMatrix.blank : ElementMatrix ℚ (ℚ × ℚ)).pot Sample.midRules false
        Sample.tri 2 false 1 0 0 = .ok u ∧
      dotRet u u 1 = .ok M ∧ M.mat_.rows = 3 ∧ M.mat_.cols = 3 ∧
      ∀ i j, i < 3 → j < 3 → M.mat_.val i j = if i = j then 1 / 12 else 1 / 24) ∧
    (∃ L, Sample.legacyTri.u2 Sample.tri (Sample.midRules.weights Sample.tri 2)
        (Sample.midRules.abscissa Sample.tri 2) = .ok L ∧
      L.mat_.rows = 3 ∧ L.mat_.cols = 3 ∧
      ∀ i j, i < 3 → j < 3 → L.mat_.val i j = if i = j then 1 / 12 else 1 / 24) :=
  tri_mass_matrix Sample.midRules false ElementMatrix.blank Sample.legacyTri Sample.tri 2
    false 0 0 (Or.inr rfl) Sample.tri_linear (by norm_num [Sample.tri])
    (by norm_num [Sample.tri]) (by norm_num [Sample.tri]) (by norm_num [Sample.tri])
    (by norm_num [Sample.tri]) (by norm_num [Sample.tri]) rfl rfl rfl
    Sample.midRules_exact rfl (DenseMatrix.resize_rows _ _ _) (DenseMatrix.resize_cols _ _ _)

/-- C8 fails as stated: on the triangle with nodes (0,0), (1,0), (0,1) and
measure 1/2, under the edge-midpoint rule (weights summing to 1, exact to
degree 2), entry `(0, 0)` of `dot(u, u, 1.0)` with `u = pot(cell, 2)` and of
the legacy `u2(cell, w, x)` is `1/12`, not `1/12` scaled by the area 1/2. -/
theorem tri_mass_counterexample :
    IsLinearTriangle Sample.tri ∧ Sample.tri.size = 1 / 2 ∧
    Sample.tri.nodeX 0 = 0 ∧ Sample.tri.nodeY 0 = 0 ∧
    Sample.tri.nodeX 1 = 1 ∧ Sample.tri.nodeY 1 = 0 ∧
    Sample.tri.nodeX 2 = 0 ∧ Sample.tri.nodeY 2 = 1 ∧
    (Sample.midRules.weights Sample.tri 2).sum = 1 ∧
    IsExactDeg2 (Sample.midRules.weights Sample.tri 2)
      (Sample.midRules.abscissa Sample.tri 2) ∧
    (∃ u M, (ElementMatrix.blank : ElementMatrix ℚ (ℚ × ℚ)).pot Sample.midRules false
        Sample.tri 2 false 1 0 0 = .ok u ∧
      dotRet u u 1 = .ok M ∧ M.mat_.val 0 0 = 1 / 12 ∧
      M.mat_.val 0 0 ≠ 1 / 2 * (1 / 12)) ∧
    (∃ L, Sample.legacyTri.u2 Sample.tri (Sample.midRules.weights Sample.tri 2)
        (Sample.midRules.abscissa Sample.tri 2) = .ok L ∧
      L.mat_.val 0 0 = 1 / 12 ∧ L.mat_.val 0 0 ≠ 1 / 2 * (1 / 12)) := by
  refine ⟨Sample.tri_linear, rfl, by norm_num [Sample.tri], by norm_num [Sample.tri],
    by norm_num [Sample.tri], by norm_num [Sample.tri], by norm_num [Sample.tri],
    by norm_num [Sample.tri], by norm_num [Sample.midRules], Sample.midRules_exact, ?_, ?_⟩
  · obtain ⟨u, M, hu, hM, -, -, hv⟩ := tri_mass_dot Sample.midRules false
      (ElementMatrix.blank : ElementMatrix ℚ (ℚ × ℚ)) Sample.tri 2 false 0 0 (Or.inr rfl)
      Sample.tri_linear rfl rfl Sample.midRules_exact
    have h00 : M.mat_.val 0 0 = 1 / 12 := by
      rw [hv 0 0 (by decide) (by decide), if_pos rfl]
    exact ⟨u, M, hu, hM, h00, by rw [h00]; norm_num⟩
  · obtain ⟨L, hL, -, -, hv⟩ := tri_mass_u2 Sample.legacyTri Sample.tri
      (Sample.midRules.weights Sample.tri 2) (Sample.midRules.abscissa Sample.tri 2)
      Sample.tri_linear rfl rfl Sample.midRules_exact rfl (DenseMatrix.resize_rows _ _ _)
      (DenseMatrix.resize_cols _ _ _)
    have h00 : L.mat_.val 0 0 = 1 / 12 := by
      rw [hv 0 0 (by decide) (by decide), if_pos rfl]
    exact ⟨L, hL, h00, by rw [h00]; norm_num⟩

theorem setInsert_mem (c x : ℕ) (s : List ℕ) : x ∈ setInsert c s ↔ x = c ∨ x ∈ s := by
  unfold setInsert
  split
  · constructor
    · exact Or.inr
    · rintro (h | h)
      · rw [h]; assumption
      · exact h
  · exact List.mem_orderedInsert _

theorem setInsert_nodup (c : ℕ) (s : List ℕ) (h : s.Nodup) : (setInsert c s).Nodup := by
  unfold setInsert
  split
  · exact h
  · rename_i hc
    exact ((List.perm_orderedInsert (· ≤ ·) c s).nodup_iff).mpr (List.nodup_cons.mpr ⟨hc, h⟩)

theorem IsPattern.congr {M : List (List ℕ)} {n : ℕ} {S T : ℕ → ℕ → Prop}
    (h : IsPattern M n S) (hST : ∀ r c, S r c ↔ T r c) : IsPattern M n T :=
  ⟨h.1, h.2.1, fun r c => (h.2.2 r c).trans (hST r c)⟩

/-- One insertion `idxMap.at(r).insert(c)` into a pattern. -/
theorem insertAt_pattern (M : List (List ℕ)) (n : ℕ) (S : ℕ → ℕ → Prop) (r c : ℕ)
    (h : IsPattern M n S) (hr : r < n) :
    ∃ M1, insertAt M r c = .ok M1 ∧ IsPattern M1 n (fun r1 c1 => S r1 c1 ∨ (r1 = r ∧ c1 = c)) := by
  obtain ⟨hl, hnd, hS⟩ := h
  have hrl : r < M.length := by rw [hl]; exact hr
  refine ⟨M.set r (setInsert c (M.getD r [])), ?_, by rw [List.length_set]; exact hl, ?_, ?_⟩
  · simp only [insertAt, getElem?_getD_of_lt M [] hrl]
  · intro r1
    by_cases h1 : r = r1
    · rw [← h1, getD_set_self _ _ _ hrl]
      exact setInsert_nodup _ _ (hnd r)
    · rw [getD_set_ne _ _ _ h1]
      exact hnd r1
  · intro r1 c1
    by_cases h1 : r = r1
    · rw [← h1, getD_set_self _ _ _ hrl, setInsert_mem, hS]
      constructor
      · rintro (h | h)
        · exact Or.inr ⟨rfl, h⟩
        · exact Or.inl h
      · rintro (h | ⟨-, h⟩)
        · exact Or.inr h
        · exact Or.inl h
    · rw [getD_set_ne _ _ _ h1, hS]
      constructor
      · exact Or.inl
      · rintro (h | ⟨h, -⟩)
        · exact h
        · exact absurd h.symm h1

theorem mem_iff_getD (a : List ℕ) (r : ℕ) : r ∈ a ↔ ∃ k, k < a.length ∧ a.getD k 0 = r := by
  constructor
  · intro h
    obtain ⟨k, hk, hkr⟩ := List.mem_iff_getElem.mp h
    exact ⟨k, hk, by rw [List.getD_eq_getElem _ _ hk]; exact hkr⟩
  · rintro ⟨k, hk, hkr⟩
    rw [← hkr, List.getD_eq_getElem _ _ hk]
    exact List.getElem_mem hk

/-- The double loop over the ids of one operator pair adds the product
`a x b` to the pattern. -/
theorem fillPairs_pattern (a b : List ℕ) (M : List (List ℕ)) (n : ℕ) (S : ℕ → ℕ → Prop)
    (h : IsPattern M n S) (ha : ∀ r, r ∈ a → r < n) :
    ∃ M1, fillPairs a b M = .ok M1 ∧
      IsPattern M1 n (fun r c => S r c ∨ (r ∈ a ∧ c ∈ b)) := by
  obtain ⟨M1, hloop, hinv⟩ := forLoop_inv
    (fun k (m : List (List ℕ)) => IsPattern m n (fun r c => S r c ∨
      ∃ k1, k1 < k ∧ a.getD k1 0 = r ∧ c ∈ b))
    (fun k m1 => forLoop b.length (fun l m2 => insertAt m2 (a.getD k 0) (b.getD l 0)) m1)
    a.length M
    (h.congr fun r c => ⟨Or.inl, fun h1 => h1.elim id
      (fun ⟨k1, hk1, _⟩ => absurd hk1 (Nat.not_lt_zero k1))⟩)
    (fun k m hk hm => by
      obtain ⟨m1, hl1, hinv1⟩ := forLoop_inv
        (fun l (m2 : List (List ℕ)) => IsPattern m2 n (fun r c => (S r c ∨
          ∃ k1, k1 < k ∧ a.getD k1 0 = r ∧ c ∈ b) ∨
          (r = a.getD k 0 ∧ ∃ l1, l1 < l ∧ b.getD l1 0 = c)))
        (fun l m2 => insertAt m2 (a.getD k 0) (b.getD l 0)) b.length m
        (hm.congr fun r c => ⟨Or.inl, fun h1 => h1.elim id
          (fun ⟨_, l1, hl1, _⟩ => absurd hl1 (Nat.not_lt_zero l1))⟩)
        (fun l m2 hl hm2 => by
          obtain ⟨m3, h3, hp3⟩ := insertAt_pattern m2 n _ (a.getD k 0) (b.getD l 0) hm2
            (ha _ ((mem_iff_getD a _).mpr ⟨k, hk, rfl⟩))
          refine ⟨m3, h3, hp3.congr fun r c => ?_⟩
          constructor
          · rintro ((h1 | ⟨h1, l1, hl1, h2⟩) | ⟨h1, h2⟩)
            · exact Or.inl h1
            · exact Or.inr ⟨h1, l1, Nat.lt_succ_of_lt hl1, h2⟩
            · exact Or.inr ⟨h1, l, Nat.lt_succ_self l, h2.symm⟩
          · rintro (h1 | ⟨h1, l1, hl1, h2⟩)
            · exact Or.inl (Or.inl h1)
            · rcases Nat.lt_succ_iff_lt_or_eq.mp hl1 with h4 | h4
              · exact Or.inl (Or.inr ⟨h1, l1, h4, h2⟩)
              · rw [h4] at h2
                exact Or.inr ⟨h1, h2.symm⟩)
      refine ⟨m1, hl1, hinv1.congr fun r c => ?_⟩
      constructor
      · rintro ((h1 | ⟨k1, hk1, h2, h3⟩) | ⟨h1, l1, hl1, h2⟩)
        · exact Or.inl h1
        · exact Or.inr ⟨k1, Nat.lt_succ_of_lt hk1, h2, h3⟩
        · exact Or.inr ⟨k, Nat.lt_succ_self k, h1.symm, (mem_iff_getD b c).mpr ⟨l1, hl1, h2⟩⟩
      · rintro (h1 | ⟨k1, hk1, h2, h3⟩)
        · exact Or.inl (Or.inl h1)
        · rcases Nat.lt_succ_iff_lt_or_eq.mp hk1 with h4 | h4
          · exact Or.inl (Or.inr ⟨k1, h4, h2, h3⟩)
          · rw [h4] at h2
            exact Or.inr ⟨h2.symm, (mem_iff_getD b c).mp h3⟩)
  refine ⟨M1, hloop, hinv.congr fun r c => ?_⟩
  constructor
  · rintro (h1 | ⟨k1, hk1, h2, h3⟩)
    · exact Or.inl h1
    · exact Or.inr ⟨(mem_iff_getD a r).mpr ⟨k1, hk1, h2⟩, h3⟩
  · rintro (h1 | ⟨h2, h3⟩)
    · exact Or.inl h1
    · obtain ⟨k1, hk1, h4⟩ := (mem_iff_getD a r).mp h2
      exact Or.inr ⟨k1, hk1, h4, h3⟩

theorem getD_replicate_nil (n r : ℕ) : (List.replicate n ([] : List ℕ)).getD r [] = [] := by
  simp only [List.getD_eq_getElem?_getD, List.getElem?_replicate]
  split <;> rfl

/-- The loop over the operators: the index map holds exactly the products of
the id lists of the pairs, every row free of duplicates. -/
theorem fillIdxMap_pattern (pairs : List (List ℕ × List ℕ)) (dof : ℕ)
    (hids : ∀ ab, ab ∈ pairs → ∀ r, r ∈ ab.1 → r < dof) :
    ∃ M, fillIdxMap pairs dof = .ok M ∧
      IsPattern M dof (fun r c => ∃ ab, ab ∈ pairs ∧ r ∈ ab.1 ∧ c ∈ ab.2) := by
  obtain ⟨M, hloop, hinv⟩ := forLoop_inv
    (fun i (m : List (List ℕ)) => IsPattern m dof (fun r c =>
      ∃ i1, i1 < i ∧ ∃ ab, pairs[i1]? = some ab ∧ r ∈ ab.1 ∧ c ∈ ab.2))
    (fun i idxMap =>
      match pairs[i]? with
      | none => .error .outOfRange
      | some ab => fillPairs ab.1 ab.2 idxMap)
    pairs.length (List.replicate dof [])
    ⟨List.length_replicate _ _, fun r => by rw [getD_replicate_nil]; exact List.nodup_nil,
      fun r c => by
        rw [getD_replicate_nil]
        constructor
        · intro h; cases h
        · rintro ⟨i1, hi1, -⟩
          exact absurd hi1 (Nat.not_lt_zero i1)⟩
    (fun i m hi hm => by
      have hget : pairs[i]? = some pairs[i] := List.getElem?_eq_getElem hi
      obtain ⟨m1, h1, hp1⟩ := fillPairs_pattern pairs[i].1 pairs[i].2 m dof _ hm
        (hids _ (List.getElem_mem hi))
      refine ⟨m1, ?_, hp1.congr fun r c => ?_⟩
      · simp only [hget]
        exact h1
      · constructor
        · rintro (⟨i1, hi1, ab, h2, h3⟩ | ⟨h2, h3⟩)
          · exact ⟨i1, Nat.lt_succ_of_lt hi1, ab, h2, h3⟩
          · exact ⟨i, Nat.lt_succ_self i, _, hget, h2, h3⟩
        · rintro ⟨i1, hi1, ab, h2, h3⟩
          rcases Nat.lt_succ_iff_lt_or_eq.mp hi1 with h4 | h4
          · exact Or.inl ⟨i1, h4, ab, h2, h3⟩
          · rw [h4, hget] at h2
            cases h2
            exact Or.inr h3)
  refine ⟨M, hloop, hinv.congr fun r c => ?_⟩
  constructor
  · rintro ⟨i1, -, ab, h2, h3⟩
    exact ⟨ab, List.mem_iff_getElem?.mpr ⟨i1, h2⟩, h3⟩
  · rintro ⟨ab, h1, h3⟩
    obtain ⟨i1, h2⟩ := List.mem_iff_getElem?.mp h1
    have hi1 : i1 < pairs.length := by
      rcases Nat.lt_or_ge i1 pairs.length with h | h
      · exact h
      · rw [List.getElem?_eq_none h] at h2; cases h2
    exact ⟨i1, hi1, ab, h2, h3⟩

/-- C9 (amended): for maps `A` and `B` of equal size, neither a constant
space, with all row ids of `A` below `A.dof()`, and a sparse matrix `R` whose
dimensions are not already `(A.dof(), B.dof())`, `fillSparsityPattern(R, B)`
returns and passes to the sparse matrix (`addSparsityPattern` when `R` has
rows and columns, `buildSparsityPattern` otherwise) an index map with
`A.dof()` rows, each free of duplicates, whose row `r` holds exactly the
columns `c` for which some `i` has `r` among the row ids of `A[i]` and `c`
among the row ids of `B[i]`. -/
theorem fillSparsityPatternB_pairs (A B : ElementMatrixMap R P) (Rrows Rcols : ℕ)
    (hsize : A.mats.length = B.mats.length)
    (hA : A.isConstSpace = false) (hB : B.isConstSpace = false)
    (hids : ∀ m, m ∈ A.mats → ∀ r, r ∈ m._idsR → r < A.dof)
    (hR : ¬ (Rrows = A.dof ∧ Rcols = B.dof)) :
    ∃ idxMap, A.fillSparsityPatternB B Rrows Rcols
        = .ok (if Rrows > 0 ∧ Rcols > 0 then PatternCall.add idxMap
                else PatternCall.build idxMap) ∧
      idxMap.length = A.dof ∧
      (∀ r c, c ∈ idxMap.getD r [] ↔
        ∃ (i : ℕ) (mA mB : ElementMatrix R P), A.mats[i]? = some mA ∧ B.mats[i]? = some mB ∧
          r ∈ mA._idsR ∧ c ∈ mB._idsR) ∧
      ∀ r, (idxMap.getD r []).Nodup := by
  obtain ⟨M, hM, hlen, hnd, hmem⟩ := fillIdxMap_pattern
    ((A.mats.zip B.mats).map fun mm => (mm.1._idsR, mm.2._idsR)) A.dof
    (fun ab hab r hr => by
      obtain ⟨mm, hmm, rfl⟩ := List.mem_map.mp hab
      exact hids mm.1 (List.of_mem_zip hmm).1 r hr)
  refine ⟨M, ?_, hlen, ?_, hnd⟩
  · simp only [ElementMatrixMap.fillSparsityPatternB, if_neg hR, hA, hB, Bool.false_eq_true,
      if_false, hsize, ne_eq, not_true_eq_false, hM, map_ok]
  · intro r c
    rw [hmem]
    constructor
    · rintro ⟨ab, hab, hr, hc⟩
      obtain ⟨mm, hmm, rfl⟩ := List.mem_map.mp hab
      obtain ⟨i, hi⟩ := List.mem_iff_getElem?.mp hmm
      obtain ⟨h1, h2⟩ := List.getElem?_zip_eq_some.mp hi
      exact ⟨i, mm.1, mm.2, h1, h2, hr, hc⟩
    · rintro ⟨i, mA, mB, h1, h2, hr, hc⟩
      exact ⟨(mA._idsR, mB._idsR),
        List.mem_map.mpr ⟨(mA, mB),
          List.mem_iff_getElem?.mpr ⟨i, List.getElem?_zip_eq_some.mpr ⟨h1, h2⟩⟩, rfl⟩,
        hr, hc⟩

/-- Witness for C9 (amended): the sample maps `mapA` and `mapB` and an empty
sparse matrix. -/
theorem fillSparsityPatternB_pairs_witness :
    ∃ idxMap, Sample.mapA.fillSparsityPatternB Sample.mapB 0 0
        = .ok (if 0 > 0 ∧ 0 > 0 then PatternCall.add idxMap
                else PatternCall.build idxMap) ∧
      idxMap.length = Sample.mapA.dof ∧
      (∀ r c, c ∈ idxMap.getD r [] ↔
        ∃ (i : ℕ) (mA mB : ElementMatrix ℚ Unit), Sample.mapA.mats[i]? = some mA ∧ Sample.mapB.mats[i]? = some mB ∧
          r ∈ mA._idsR ∧ c ∈ mB._idsR) ∧
      ∀ r, (idxMap.getD r []).Nodup :=
  fillSparsityPatternB_pairs Sample.mapA Sample.mapB 0 0 rfl rfl rfl
    (by
      intro m hm r hr
      simp only [Sample.mapA, List.mem_singleton] at hm
      subst hm
      simp only [Sample.idOp, List.mem_singleton] at hr
      subst hr
      decide)
    (by decide)

/-- C9 fails as stated: `mapA` and `mapB` hold one operator each, neither is a
constant space, the row id 0 of `mapA` is below `mapA.dof() = 1`, and the empty
sparse matrix is not of dimension `(1, 2)`.  The operator of `mapB` has the row
id 1 and the column id 0.  `fillSparsityPattern(R, mapB)` hands over the index
map `[[1]]`: row 0 holds the row id 1 of `mapB`'s operator, and not its column
id 0. -/
theorem fillSparsityPatternB_counterexample :
    Sample.mapA.mats.length = Sample.mapB.mats.length ∧
    Sample.mapA.isConstSpace = false ∧ Sample.mapB.isConstSpace = false ∧
    (∀ m, m ∈ Sample.mapA.mats → ∀ r, r ∈ m._idsR → r < Sample.mapA.dof) ∧
    ¬ ((0 : ℕ) = Sample.mapA.dof ∧ (0 : ℕ) = Sample.mapB.dof) ∧
    Sample.mapA.fillSparsityPatternB Sample.mapB 0 0 = .ok (PatternCall.build [[1]]) ∧
    ¬ (∀ r c, c ∈ ([[1]] : List (List ℕ)).getD r [] ↔
        ∃ (i : ℕ) (mA mB : ElementMatrix ℚ Unit), Sample.mapA.mats[i]? = some mA ∧ Sample.mapB.mats[i]? = some mB ∧
          r ∈ mA._idsR ∧ c ∈ mB._idsC) := by
  refine ⟨rfl, rfl, rfl, ?_, by decide, rfl, ?_⟩
  · intro m hm r hr
    simp only [Sample.mapA, List.mem_singleton] at hm
    subst hm
    simp only [Sample.idOp, List.mem_singleton] at hr
    subst hr
    decide
  · intro h
    have h1 := (h 0 0).mpr ⟨0, Sample.idOp [0] [0], Sample.idOp [1] [0], rfl, rfl,
      List.mem_singleton.mpr rfl, List.mem_singleton.mpr rfl⟩
    simp at h1

/-- The number of entries of a pattern whose row `r` is `{r}` for the rows in
the duplicate-free list `ids` and empty otherwise is the length of `ids`. -/
theorem diagonal_pattern_count (M : List (List ℕ)) (n : ℕ) (ids : List ℕ)
    (hM : IsPattern M n (fun r c => r ∈ ids ∧ c = r)) (hnd : ids.Nodup)
    (hlt : ∀ k, k ∈ ids → k < n) : (M.map List.length).sum = ids.length := by
  obtain ⟨hlen, hrow, hmem⟩ := hM
  have hrowlen : ∀ r, (M.getD r []).length = if r ∈ ids then 1 else 0 := by
    intro r
    by_cases hr : r ∈ ids
    · rw [if_pos hr, ← List.toFinset_card_of_nodup (hrow r)]
      have : (M.getD r []).toFinset = {r} := by
        ext c
        rw [List.mem_toFinset, hmem, Finset.mem_singleton]
        exact ⟨fun h => h.2, fun h => ⟨hr, h⟩⟩
      rw [this, Finset.card_singleton]
    · rw [if_neg hr, List.length_eq_zero, List.eq_nil_iff_forall_not_mem]
      intro c hc
      exact hr ((hmem r c).mp hc).1
  have hsum : (M.map List.length).sum
      = ∑ r in Finset.range n, (M.getD r []).length := by
    rw [← sum_getD_range, List.length_map, hlen]
    apply Finset.sum_congr rfl
    intro r hr
    have hr1 : r < M.length := by rw [hlen]; exact Finset.mem_range.mp hr
    rw [List.getD_eq_getElem _ _ (by rw [List.length_map]; exact hr1), List.getElem_map,
      List.getD_eq_getElem _ _ hr1]
  rw [hsum, Finset.sum_congr rfl (fun r _ => hrowlen r), Finset.sum_boole,
    ← List.toFinset_card_of_nodup hnd]
  simp only [Nat.cast_id]
  congr 1
  ext k
  rw [Finset.mem_filter, Finset.mem_range, List.mem_toFinset]
  exact ⟨fun h => h.2, fun h => ⟨hlt k h, h⟩⟩

/-- C10: for every map `A` whose row ids are all below `A.dof()` and a sparse
matrix `R` whose dimensions are not already `(A.dof(), A.dofB())`,
`fillSparsityPattern(R)` returns and passes to the sparse matrix an index map
with `A.dof()` rows; row `r` contains `c` if and only if some operator of `A`
has `r` among its row ids and `c` among its column ids, and no row holds an
entry twice.  For operators with pairwise distinct single ids (row id = column
id) the index map has exactly as many entries as there are operators, all on
the diagonal. -/
theorem fillSparsityPattern_pairs (A : ElementMatrixMap R P) (Rrows Rcols : ℕ)
    (hids : ∀ m, m ∈ A.mats → ∀ r, r ∈ m._idsR → r < A.dof)
    (hR : ¬ (Rrows = A.dof ∧ Rcols = A.dofB)) :
    ∃ idxMap, A.fillSparsityPattern Rrows Rcols
        = .ok (if Rrows > 0 ∧ Rcols > 0 then PatternCall.add idxMap
                else PatternCall.build idxMap) ∧
      idxMap.length = A.dof ∧
      (∀ r c, c ∈ idxMap.getD r [] ↔
        ∃ m : ElementMatrix R P, m ∈ A.mats ∧ r ∈ m._idsR ∧ c ∈ m._idsC) ∧
      (∀ r, (idxMap.getD r []).Nodup) ∧
      ∀ ids : List ℕ, ids.Nodup →
        A.mats.map (fun m => (m._idsR, m._idsC)) = ids.map (fun k => ([k], [k])) →
        (idxMap.map List.length).sum = A.mats.length ∧
        ∀ r c, c ∈ idxMap.getD r [] → c = r := by
  obtain ⟨M, hM, hpat⟩ := fillIdxMap_pattern
    (A.mats.map fun m => (m._idsR, m._idsC)) A.dof
    (fun ab hab r hr => by
      obtain ⟨m, hm, rfl⟩ := List.mem_map.mp hab
      exact hids m hm r hr)
  refine ⟨M, ?_, hpat.1, ?_, hpat.2.1, ?_⟩
  · simp only [ElementMatrixMap.fillSparsityPattern, if_neg hR, hM, map_ok]
  · intro r c
    rw [hpat.2.2]
    constructor
    · rintro ⟨ab, hab, hr, hc⟩
      obtain ⟨m, hm, rfl⟩ := List.mem_map.mp hab
      exact ⟨m, hm, hr, hc⟩
    · rintro ⟨m, hm, hr, hc⟩
      exact ⟨(m._idsR, m._idsC), List.mem_map.mpr ⟨m, hm, rfl⟩, hr, hc⟩
  · intro ids hnd hsingle
    have hdiag : IsPattern M A.dof (fun r c => r ∈ ids ∧ c = r) := by
      refine hpat.congr fun r c => ?_
      rw [hsingle]
      constructor
      · rintro ⟨ab, hab, hr, hc⟩
        obtain ⟨k, hk, rfl⟩ := List.mem_map.mp hab
        have hrk : r = k := List.mem_singleton.mp hr
        have hck : c = k := List.mem_singleton.mp hc
        exact ⟨hrk ▸ hk, hck.trans hrk.symm⟩
      · rintro ⟨hr, hc⟩
        exact ⟨([r], [r]), List.mem_map.mpr ⟨r, hr, rfl⟩, List.mem_singleton.mpr rfl,
          List.mem_singleton.mpr hc⟩
    have hlt : ∀ k, k ∈ ids → k < A.dof := by
      intro k hk
      have hmem : (([k], [k]) : List ℕ × List ℕ) ∈
          A.mats.map (fun m => (m._idsR, m._idsC)) := by
        rw [hsingle]
        exact List.mem_map.mpr ⟨k, hk, rfl⟩
      obtain ⟨m, hm, hmk⟩ := List.mem_map.mp hmem
      have h1 : m._idsR = [k] := congrArg Prod.fst hmk
      exact hids m hm k (by rw [h1]; exact List.mem_singleton.mpr rfl)
    have hcount := diagonal_pattern_count M A.dof ids hdiag hnd hlt
    have hN : ids.length = A.mats.length := by
      have := congrArg List.length hsingle
      rw [List.length_map, List.length_map] at this
      exact this.symm
    exact ⟨hcount.trans hN, fun r c hc => ((hdiag.2.2 r c).mp hc).2⟩

/-- Witness for C10: the sample map of two single-node operators with the ids
0 and 2 and an empty sparse matrix; the index map has three rows and two
entries, both on the diagonal. -/
theorem fillSparsityPattern_pairs_witness :
    ∃ idxMap, Sample.diagMap.fillSparsityPattern 0 0 = .ok (PatternCall.build idxMap) ∧
      idxMap.length = 3 ∧
      (∀ r c, c ∈ idxMap.getD r [] ↔
        ∃ m : ElementMatrix ℚ Unit, m ∈ Sample.diagMap.mats ∧ r ∈ m._idsR ∧ c ∈ m._idsC) ∧
      (∀ r, (idxMap.getD r []).Nodup) ∧
      (idxMap.map List.length).sum = 2 ∧
      ∀ r c, c ∈ idxMap.getD r [] → c = r := by
  obtain ⟨idxMap, h1, h2, h3, h4, h5⟩ := fillSparsityPattern_pairs Sample.diagMap 0 0
    (by
      intro m hm r hr
      simp only [Sample.diagMap, List.mem_cons, List.mem_singleton, List.not_mem_nil,
        or_false] at hm
      rcases hm with hm | hm <;> subst hm <;>
        simp only [Sample.idOp, List.mem_singleton] at hr <;> subst hr <;> decide)
    (by decide)
  obtain ⟨h6, h7⟩ := h5 [0, 2] (by decide) rfl
  exact ⟨idxMap, h1, h2, h3, h4, h6, h7⟩

/-- The row fill of `fillMatX_U_` on a zeroed matrix after `k` components: row
`n < k` holds the shape functions in the columns `n*nVerts .. (n+1)*nVerts - 1`,
every other entry is zero. -/
theorem fillRows_entries (ent : MeshEntity R P) (xi : P) (nC : ℕ) (Z : DenseMatrix R)
    (hr : Z.rows = nC) (hc : Z.cols = ent.nodeCount * nC)
    (hz : ∀ t, t < nC * (ent.nodeCount * nC) → Z.data t = 0) (k : ℕ) (hk : k ≤ nC) :
    ∃ M1, forLoop k (fun n M =>
        M.setRowSlice n (ent.N xi) (n * ent.nodeCount) ((n + 1) * ent.nodeCount)) Z = .ok M1 ∧
      M1.rows = nC ∧ M1.cols = ent.nodeCount * nC ∧
      ∀ n j, n < nC → j < ent.nodeCount * nC → M1.val n j
        = if n < k ∧ n * ent.nodeCount ≤ j ∧ j < (n + 1) * ent.nodeCount
          then ent.N xi (j - n * ent.nodeCount) else 0 := by
  induction k with
  | zero =>
    refine ⟨Z, rfl, hr, hc, ?_⟩
    intro n j hn hj
    rw [if_neg (fun h => absurd h.1 (Nat.not_lt_zero n))]
    show Z.data (Z.cols * n + j) = 0
    apply hz
    rw [hc]
    exact flat_lt hn hj
  | succ k ih =>
    obtain ⟨M1, h1, hr1, hc1, hv1⟩ := ih (Nat.le_of_succ_le hk)
    have hstop : (k + 1) * ent.nodeCount ≤ ent.nodeCount * nC := by
      rw [Nat.mul_comm]
      exact Nat.mul_le_mul_left _ hk
    obtain ⟨M2, h2, hr2, hc2, hd2⟩ := DenseMatrix.setRowSlice_ok M1 k (ent.N xi)
      (k * ent.nodeCount) ((k + 1) * ent.nodeCount)
      ⟨by rw [hr1]; exact hk, Nat.mul_le_mul_right _ (Nat.le_succ k), by rw [hc1]; exact hstop⟩
    refine ⟨M2, by rw [forLoop_succ, h1]; exact h2, hr2.trans hr1, hc2.trans hc1, ?_⟩
    intro n j hn hj
    show M2.data (M2.cols * n + j) = _
    rw [hd2, hc2, hc1]
    by_cases hnk : n = k
    · subst hnk
      by_cases hj2 : n * ent.nodeCount ≤ j ∧ j < (n + 1) * ent.nodeCount
      · rw [if_pos ⟨by omega, by omega⟩, if_pos ⟨Nat.lt_succ_self n, hj2⟩]
        congr 1
        omega
      · rw [if_neg (by omega), if_neg (fun h => hj2 h.2)]
        have := hv1 n j hn hj
        rw [if_neg (fun h => absurd h.1 (lt_irrefl n))] at this
        rw [← this]
        show M1.data _ = M1.data _
        rw [hc1]
    · have hno : ¬ (ent.nodeCount * nC * k + k * ent.nodeCount ≤ ent.nodeCount * nC * n + j ∧
          ent.nodeCount * nC * n + j < ent.nodeCount * nC * k + (k + 1) * ent.nodeCount) := by
        intro ⟨h3, h4⟩
        exact flat_row_ne hnk hj ⟨by omega, by omega⟩
      rw [if_neg hno]
      have := hv1 n j hn hj
      have hiff : (n < k + 1 ∧ n * ent.nodeCount ≤ j ∧ j < (n + 1) * ent.nodeCount)
          ↔ (n < k ∧ n * ent.nodeCount ≤ j ∧ j < (n + 1) * ent.nodeCount) := by
        constructor
        · rintro ⟨h3, h4⟩
          exact ⟨by omega, h4⟩
        · rintro ⟨h3, h4⟩
          exact ⟨by omega, h4⟩
      rw [if_congr hiff rfl rfl, ← this]
      show M1.data _ = M1.data _
      rw [hc1]

/-- Success of `pot(ent, order, sum, nCoeff, dofPerCoeff, dofOffset)` on a cache
miss, with the flag `integrated` of the result. -/
theorem pot_ok_integrated (rules : IntegrationRules R P) (dbg : Bool)
    (E : ElementMatrix R P) (ent : MeshEntity R P) (order : ℕ) (sum : Bool)
    (nCoeff dofPerCoeff dofOffset : ℕ)
    (hmiss : dbg = true ∨ E._valid = false) (hnc : nCoeff ≠ 0)
    (hdpc : ¬ (nCoeff > 1 ∧ dofPerCoeff = 0))
    (hlen : sum = true →
      (rules.weights ent order).length ≤ (rules.abscissa ent order).length) :
    ∃ A, E.pot rules dbg ent order sum nCoeff dofPerCoeff dofOffset = .ok A ∧
      IsValueOp rules ent order nCoeff A ∧ A._integrated = sum := by
  obtain ⟨A, hA, hop, hint⟩ := ElementMatrix.potBase_ok rules
    { E with _newStyle := true, _order := 0, _nCoeff := nCoeff,
             _dofPerCoeff := dofPerCoeff, _dofOffset := dofOffset,
             _ent := none, _w := none, _x := none, _div := false,
             _integrated := false, _elastic := false, _valid := false }
    ent order sum rfl rfl rfl hnc hlen
  have hcond : dbg = true ∨ E._valid = false ∨ E._order ≠ order ∨ E.entIs ent = false
      ∨ E._nCoeff ≠ nCoeff := by
    rcases hmiss with h | h
    · exact Or.inl h
    · exact Or.inr (Or.inl h)
  refine ⟨A, ?_, hop, hint⟩
  rw [ElementMatrix.pot, if_pos hcond, ElementMatrix.init_ok E nCoeff dofPerCoeff dofOffset hdpc]
  show (Except.bind (ElementMatrix.potBase rules _ ent order sum) _) = _
  rw [hA]
  show (if sum = true then A.integrate else .ok A) = _
  cases sum with
  | false => rfl
  | true =>
    have h2 : A._integrated = true := hint
    simp only [ElementMatrix.integrate, h2, if_true]
    simp

/-- C20: after `pot(ent, order, sum, nCoeff, dofPerCoeff, dofOffset)` on an
operator that is not valid (as a freshly initialised one), with `nCoeff ≥ 1`
components, a stride `dofPerCoeff` that `init` accepts and, when `sum` is set,
a rule with no more weights than points, there is one basis image per
quadrature point, each with `nCoeff` rows and `nVerts*nCoeff` columns, in
which entry `(n, n*nVerts + j)` equals `N_j(x_q)` for every component
`n < nCoeff` and node `j < nVerts` and every other entry is 0; and when `sum`
is true the operator is integrated on return. -/
theorem pot_basis_images (rules : IntegrationRules R P) (dbg : Bool)
    (E : ElementMatrix R P) (ent : MeshEntity R P) (order : ℕ) (sum : Bool)
    (nCoeff dofPerCoeff dofOffset : ℕ)
    (hmiss : dbg = true ∨ E._valid = false) (hnc : nCoeff ≠ 0)
    (hdpc : ¬ (nCoeff > 1 ∧ dofPerCoeff = 0))
    (hlen : sum = true →
      (rules.weights ent order).length ≤ (rules.abscissa ent order).length) :
    ∃ A, E.pot rules dbg ent order sum nCoeff dofPerCoeff dofOffset = .ok A ∧
      A._matX.length = (rules.abscissa ent order).length ∧
      (∀ q xq, (rules.abscissa ent order)[q]? = some xq →
        (A.matXq q).rows = nCoeff ∧ (A.matXq q).cols = ent.nodeCount * nCoeff ∧
        ∀ n t, n < nCoeff → t < ent.nodeCount * nCoeff → (A.matXq q).val n t
          = if n * ent.nodeCount ≤ t ∧ t < (n + 1) * ent.nodeCount
            then ent.N xq (t - n * ent.nodeCount) else 0) ∧
      (sum = true → A._integrated = true) := by
  obtain ⟨A, hA, hop, hint⟩ := pot_ok_integrated rules dbg E ent order sum nCoeff
    dofPerCoeff dofOffset hmiss hnc hdpc hlen
  refine ⟨A, hA, hop.2.2.2.2.2.2.2.2.2.2.2.1, ?_, fun h => hint.trans h⟩
  intro q xq hq
  obtain ⟨Z, hZr, hZc, hZ0, hfill⟩ := hop.2.2.2.2.2.2.2.2.2.2.2.2 q xq hq
  obtain ⟨M1, hM1, hr1, hc1, hv1⟩ := fillRows_entries ent xq nCoeff Z hZr hZc hZ0 nCoeff
    le_rfl
  have hMeq : M1 = A.matXq q := by
    have h1 : ElementMatrix.fillMatX_U_Rows ent xq nCoeff Z = .ok M1 := hM1
    rw [h1] at hfill
    exact Except.ok.inj hfill
  rw [← hMeq]
  refine ⟨hr1, hc1, ?_⟩
  intro n t hn ht
  rw [hv1 n t hn ht]
  by_cases h : n * ent.nodeCount ≤ t ∧ t < (n + 1) * ent.nodeCount
  · rw [if_pos ⟨hn, h⟩, if_pos h]
  · rw [if_neg (fun h1 => h h1.2), if_neg h]

/-- Witness for C20: `pot` with two components on the sample triangle under
the midpoint rule, with eager integration. -/
theorem pot_basis_images_witness :
    ∃ A, (ElementMatrix.blank : ElementMatrix ℚ (ℚ × ℚ)).pot Sample.midRules false
        Sample.tri 2 true 2 3 0 = .ok A ∧
      A._matX.length = (Sample.midRules.abscissa Sample.tri 2).length ∧
      (∀ q xq, (Sample.midRules.abscissa Sample.tri 2)[q]? = some xq →
        (A.matXq q).rows = 2 ∧ (A.matXq q).cols = Sample.tri.nodeCount * 2 ∧
        ∀ n t, n < 2 → t < Sample.tri.nodeCount * 2 → (A.matXq q).val n t
          = if n * Sample.tri.nodeCount ≤ t ∧ t < (n + 1) * Sample.tri.nodeCount
            then Sample.tri.N xq (t - n * Sample.tri.nodeCount) else 0) ∧
      (true = true → A._integrated = true) :=
  pot_basis_images Sample.midRules false ElementMatrix.blank Sample.tri 2 true 2 3 0
    (Or.inr rfl) (by decide) (by decide) (fun _ => le_rfl)

theorem DenseMatrix.ext_data {a b : DenseMatrix R} (hr : a.rows = b.rows)
    (hc : a.cols = b.cols) (hd : ∀ t, a.data t = b.data t) : a = b := by
  cases a
  cases b
  simp only [DenseMatrix.mk.injEq]
  exact ⟨hr, hc, funext hd⟩

/-- The row loop of the `mult` overloads on one basis image with the factors
`g k`: the rows are scaled, the shape is kept. -/
theorem scaleRows_ok (iC : DenseMatrix R) (f : ℕ → Except Error R) (g : ℕ → R)
    (hf : ∀ k, k < iC.rows → f k = .ok (g k)) :
    ∃ M, scaleRows iC f = .ok M ∧ M.rows = iC.rows ∧ M.cols = iC.cols ∧
      ∀ t, M.data t = if t < iC.cols * iC.rows then iC.data t * g (t / iC.cols)
        else iC.data t := by
  have key : ∀ k, k ≤ iC.rows →
      ∃ M, forLoop k (fun k m => (f k).bind fun c => m.scaleRow k c) iC = .ok M ∧
        M.rows = iC.rows ∧ M.cols = iC.cols ∧
        ∀ t, M.data t = if t < iC.cols * k then iC.data t * g (t / iC.cols)
          else iC.data t := by
    intro k
    induction k with
    | zero =>
      intro _
      exact ⟨iC, rfl, rfl, rfl, fun t => by rw [if_neg (by omega)]⟩
    | succ k ih =>
      intro hk
      obtain ⟨M, hM, hr, hc, hd⟩ := ih (Nat.le_of_succ_le hk)
      refine ⟨{ M with data := fun t =>
          if M.cols * k ≤ t ∧ t < M.cols * k + M.cols then M.data t * g k else M.data t },
        ?_, hr, hc, ?_⟩
      · rw [forLoop_succ, hM]
        show ((f k).bind fun c => M.scaleRow k c) = _
        rw [hf k hk, bind_ok, DenseMatrix.scaleRow, if_pos (by rw [hr]; exact hk)]
      · intro t
        show (if M.cols * k ≤ t ∧ t < M.cols * k + M.cols then M.data t * g k
          else M.data t) = _
        rw [hc, hd t, Nat.mul_succ]
        by_cases h1 : t < iC.cols * k
        · rw [if_neg (by omega), if_pos h1, if_pos (by omega)]
        · by_cases h2 : t < iC.cols * k + iC.cols
          · rw [if_pos ⟨by omega, h2⟩, if_neg h1, if_pos h2]
            have ht : t = iC.cols * k + (t - iC.cols * k) := by omega
            have hdiv : t / iC.cols = k :=
              (congrArg (fun u => u / iC.cols) ht).trans (flat_div k (by omega))
            rw [hdiv]
          · rw [if_neg (by omega), if_neg h1, if_neg h2]
  exact key iC.rows le_rfl

/-- The loop of the `mult` overloads over the basis images: the first `nRules`
images have their rows scaled with the factors `g r k`, the others are
untouched. -/
theorem scaleImages_ok (nRules : ℕ) (f : ℕ → ℕ → Except Error R) (g : ℕ → ℕ → R)
    (mats : List (DenseMatrix R)) (hlen : nRules ≤ mats.length)
    (hf : ∀ r k, r < nRules → k < (mats.getD r DenseMatrix.empty).rows →
      f r k = .ok (g r k)) :
    ∃ mats1, scaleImages nRules f mats = .ok mats1 ∧ mats1.length = mats.length ∧
      (∀ r, r < nRules →
        (mats1.getD r DenseMatrix.empty).rows = (mats.getD r DenseMatrix.empty).rows ∧
        (mats1.getD r DenseMatrix.empty).cols = (mats.getD r DenseMatrix.empty).cols ∧
        ∀ t, (mats1.getD r DenseMatrix.empty).data t
          = if t < (mats.getD r DenseMatrix.empty).cols * (mats.getD r DenseMatrix.empty).rows
            then (mats.getD r DenseMatrix.empty).data t
              * g r (t / (mats.getD r DenseMatrix.empty).cols)
            else (mats.getD r DenseMatrix.empty).data t) ∧
      (∀ r, nRules ≤ r → mats1.getD r DenseMatrix.empty = mats.getD r DenseMatrix.empty) := by
  have key : ∀ n, n ≤ nRules →
      ∃ mats1, forLoop n (fun r ms =>
          match ms[r]? with
          | none => .error .outOfRange
          | some iC => (scaleRows iC (f r)).map fun m => ms.set r m) mats = .ok mats1 ∧
        mats1.length = mats.length ∧
        (∀ r, r < n →
          (mats1.getD r DenseMatrix.empty).rows = (mats.getD r DenseMatrix.empty).rows ∧
          (mats1.getD r DenseMatrix.empty).cols = (mats.getD r DenseMatrix.empty).cols ∧
          ∀ t, (mats1.getD r DenseMatrix.empty).data t
            = if t < (mats.getD r DenseMatrix.empty).cols
                  * (mats.getD r DenseMatrix.empty).rows
              then (mats.getD r DenseMatrix.empty).data t
                * g r (t / (mats.getD r DenseMatrix.empty).cols)
              else (mats.getD r DenseMatrix.empty).data t) ∧
        (∀ r, n ≤ r → mats1.getD r DenseMatrix.empty = mats.getD r DenseMatrix.empty) := by
    intro n
    induction n with
    | zero =>
      intro _
      exact ⟨mats, rfl, rfl, fun r h => absurd h (Nat.not_lt_zero r), fun _ _ => rfl⟩
    | succ n ih =>
      intro hn
      obtain ⟨mats1, h1, hl1, hdone, hrest⟩ := ih (Nat.le_of_succ_le hn)
      have hn1 : n < mats1.length := by rw [hl1]; omega
      have hm : mats1[n]? = some (mats1.getD n DenseMatrix.empty) :=
        getElem?_getD_of_lt _ _ hn1
      have heq := hrest n le_rfl
      obtain ⟨M, hM, hr, hc, hd⟩ := scaleRows_ok (mats1.getD n DenseMatrix.empty) (f n) (g n)
        (fun k hk => hf n k hn (by rw [← heq]; exact hk))
      refine ⟨mats1.set n M, ?_, by rw [List.length_set]; exact hl1, ?_, ?_⟩
      · rw [forLoop_succ, h1]
        show (match mats1[n]? with
          | none => Except.error Error.outOfRange
          | some iC => (scaleRows iC (f n)).map fun m => mats1.set n m) = _
        rw [hm]
        show ((scaleRows (mats1.getD n DenseMatrix.empty) (f n)).map _) = _
        rw [hM]
        rfl
      · intro r hr1
        rcases Nat.lt_succ_iff_lt_or_eq.mp hr1 with hlt | heq1
        · rw [getD_set_ne _ _ _ (Nat.ne_of_gt hlt)]
          exact hdone r hlt
        · subst heq1
          rw [getD_set_self _ _ _ hn1, ← heq]
          exact ⟨hr, hc, hd⟩
      · intro r hr1
        rw [getD_set_ne _ _ _ (by omega), hrest r (by omega)]
  exact key nRules le_rfl

theorem list_eq_of_getD {α : Type} (d : α) (l1 l2 : List α) (hl : l1.length = l2.length)
    (h : ∀ i, i < l1.length → l1.getD i d = l2.getD i d) : l1 = l2 := by
  apply List.ext_getElem hl
  intro i h1 h2
  have := h i h1
  rw [List.getD_eq_getElem _ _ h1, List.getD_eq_getElem _ _ h2] at this
  exact this

/-- The scalar overload `mult(A, f, C)`: the result is the structural copy of
`A` with every row of the first `n` basis images scaled by `f`, valid and
integrated; its integrated matrix is the quadrature sum of the transposed
scaled images. -/
theorem mult_scalar_ok (A C : ElementMatrix R P) (f : R) (w : List R) (ent : MeshEntity R P)
    (hw : A._w = some w) (hent : A._ent = some ent) (hX : w.length ≤ A._matX.length)
    (hshape : ∀ q, q < w.length → (A.matXq q).rows = A.mat_.cols ∧
      (A.matXq q).cols = A.mat_.rows) :
    ∃ B, mult A f C = .ok B ∧ B._matX.length = A._matX.length ∧
      (∀ q, q < w.length → (B.matXq q).rows = (A.matXq q).rows ∧
        (B.matXq q).cols = (A.matXq q).cols ∧
        ∀ t, (B.matXq q).data t = if t < (A.matXq q).cols * (A.matXq q).rows
          then (A.matXq q).data t * f else (A.matXq q).data t) ∧
      (∀ q, w.length ≤ q → B.matXq q = A.matXq q) ∧
      B._idsR = A._idsR ∧ B._idsC = A._idsC ∧ B._valid = true ∧ B._integrated = true ∧
      B.mat_.rows = A.mat_.rows ∧ B.mat_.cols = A.mat_.cols ∧
      ∀ i j, i < A.mat_.rows → j < A.mat_.cols → B.mat_.val i j
        = ∑ q in Finset.range w.length, (w.getD q 0 * ent.size) * (B.matXq q).val j i := by
  obtain ⟨mats1, hloop, hl1, hdone, hrest⟩ := scaleImages_ok w.length (fun _ _ => .ok f)
    (fun _ _ => f) A._matX hX (fun _ _ _ _ => rfl)
  obtain ⟨E1, hE1⟩ : ∃ E1 : ElementMatrix R P, E1 = { (C.copyFrom A false) with
      _matX := mats1, _valid := true } := ⟨_, rfl⟩
  have hmat : E1.mat_ = C.mat_.resize A.mat_.rows A.mat_.cols := by rw [hE1]; rfl
  have hmr : E1.mat_.rows = A.mat_.rows := by rw [hmat, DenseMatrix.resize_rows]
  have hmc : E1.mat_.cols = A.mat_.cols := by rw [hmat, DenseMatrix.resize_cols]
  have hEX : E1._matX = mats1 := by rw [hE1]
  obtain ⟨M, hint, hMr, hMc, hMd⟩ := ElementMatrix.integrate_ok E1 w ent
    (by rw [hE1]; rfl) (by rw [hE1]; rfl) (by rw [hE1])
    (by rw [hE1]; exact hw) (by rw [hE1]; exact hent)
    (fun q hq => by
      show ((E1._matX).getD q DenseMatrix.empty).rows = _ ∧
        ((E1._matX).getD q DenseMatrix.empty).cols = _
      rw [hEX, (hdone q hq).1, (hdone q hq).2.1, hmr, hmc]
      exact hshape q hq)
    (by rw [hEX, hl1]; exact hX)
  refine ⟨{ E1 with mat_ := M, _integrated := true }, ?_, hEX ▸ hl1, ?_, ?_,
    by rw [hE1]; rfl, by rw [hE1]; rfl, by rw [hE1], rfl, hMr.trans hmr,
    hMc.trans hmc, ?_⟩
  · show (match A._w with
      | none => Except.error Error.outOfRange
      | some w => _) = _
    rw [hw]
    show ((scaleImages w.length (fun _ _ => .ok f) A._matX).bind _) = _
    rw [hloop, bind_ok, ← hE1]
    exact hint
  · intro q hq
    show ((E1._matX).getD q DenseMatrix.empty).rows = _ ∧ _
    rw [hEX]
    exact hdone q hq
  · intro q hq
    show (E1._matX).getD q DenseMatrix.empty = _
    rw [hEX]
    exact hrest q hq
  · intro i j hi hj
    show M.data (M.cols * i + j) = _
    rw [hMc, hMd _ (by rw [hmr, hmc]; exact flat_lt hi hj), hmc, flat_mod i hj,
      flat_div i hj]
    rfl

/-- With the factor 1 the scalar overload `mult(A, 1, C)` copies the basis
images of `A`. -/
theorem mult_one_images (A C : ElementMatrix R P) (w : List R) (ent : MeshEntity R P)
    (hw : A._w = some w) (hent : A._ent = some ent) (hX : w.length ≤ A._matX.length)
    (hshape : ∀ q, q < w.length → (A.matXq q).rows = A.mat_.cols ∧
      (A.matXq q).cols = A.mat_.rows) :
    ∃ B, mult A 1 C = .ok B ∧ B._matX = A._matX ∧
      B._idsR = A._idsR ∧ B._idsC = A._idsC ∧ B._valid = true ∧ B._integrated = true ∧
      B.mat_.rows = A.mat_.rows ∧ B.mat_.cols = A.mat_.cols ∧
      ∀ i j, i < A.mat_.rows → j < A.mat_.cols → B.mat_.val i j
        = ∑ q in Finset.range w.length, (w.getD q 0 * ent.size) * (A.matXq q).val j i := by
  obtain ⟨B, hB, hlen, hdone, hrest, h1, h2, h3, h4, h5, h6, h7⟩ :=
    mult_scalar_ok A C 1 w ent hw hent hX hshape
  have hq : ∀ q, B.matXq q = A.matXq q := by
    intro q
    rcases Nat.lt_or_ge q w.length with h | h
    · obtain ⟨hr, hc, hd⟩ := hdone q h
      refine DenseMatrix.ext_data hr hc (fun t => ?_)
      rw [hd t, mul_one, ite_self]
    · exact hrest q h
  have hX1 : B._matX = A._matX :=
    list_eq_of_getD DenseMatrix.empty _ _ hlen (fun i _ => hq i)
  refine ⟨B, hB, hX1, h1, h2, h3, h4, h5, h6, ?_⟩
  intro i j hi hj
  rw [h7 i j hi hj]
  apply Finset.sum_congr rfl
  intro q _
  rw [hq q]

/-- C12 (amended): for every valid operator `A` with `n` weights, at least `n`
basis images of the transposed shape of its integrated matrix and an entity,
`mult(A, 1.0, B)` returns; `B` has the same basis images and the same row and
column ids as `A`, is valid and is integrated, and its integrated matrix has
the shape of `A`'s and holds the quadrature sum of the transposed basis
images, entry `(i, j)` being the sum over `q` of `w_q * size * A_q(j, i)`. -/
theorem mult_one_spec (A C : ElementMatrix R P) (w : List R) (ent : MeshEntity R P)
    (hval : A._valid = true)
    (hw : A._w = some w) (hent : A._ent = some ent) (hX : w.length ≤ A._matX.length)
    (hshape : ∀ q, q < w.length → (A.matXq q).rows = A.mat_.cols ∧
      (A.matXq q).cols = A.mat_.rows) :
    ∃ B, mult A 1 C = .ok B ∧ B._matX = A._matX ∧
      B._idsR = A._idsR ∧ B._idsC = A._idsC ∧ B._valid = true ∧ B._integrated = true ∧
      B.mat_.rows = A.mat_.rows ∧ B.mat_.cols = A.mat_.cols ∧
      ∀ i j, i < A.mat_.rows → j < A.mat_.cols → B.mat_.val i j
        = ∑ q in Finset.range w.length, (w.getD q 0 * ent.size) * (A.matXq q).val j i :=
  mult_one_images A C w ent hw hent hX hshape

/-- Witness for C12 (amended): the sample operator `op2`. -/
theorem mult_one_spec_witness :
    ∃ B, mult Sample.op2 1 ElementMatrix.blank = .ok B ∧ B._matX = Sample.op2._matX ∧
      B._idsR = Sample.op2._idsR ∧ B._idsC = Sample.op2._idsC ∧ B._valid = true ∧
      B._integrated = true ∧
      B.mat_.rows = Sample.op2.mat_.rows ∧ B.mat_.cols = Sample.op2.mat_.cols ∧
      ∀ i j, i < Sample.op2.mat_.rows → j < Sample.op2.mat_.cols → B.mat_.val i j
        = ∑ q in Finset.range ([1/2, 1/2] : List ℚ).length,
            (([1/2, 1/2] : List ℚ).getD q 0 * Sample.seg.size)
              * (Sample.op2.matXq q).val j i :=
  mult_one_spec Sample.op2 ElementMatrix.blank [1/2, 1/2] Sample.seg rfl rfl rfl
    (by decide) (by
      intro q hq
      have hq2 : q < 2 := hq
      interval_cases q <;> exact ⟨rfl, rfl⟩)

/-- C12 fails as stated: `op2` is valid and not integrated, its integrated
matrix is the zeroed 2 x 1 matrix.  After `mult(op2, 1.0, B)` the operator `B`
is integrated and entry `(0, 0)` of its integrated matrix is 4: neither the
flag nor the matrix is that of `op2`. -/
theorem mult_one_counterexample :
    Sample.op2._valid = true ∧ Sample.op2._integrated = false ∧
    Sample.op2.mat_.val 0 0 = 0 ∧
    ∃ B, mult Sample.op2 1 ElementMatrix.blank = .ok B ∧ B._integrated = true ∧
      B.mat_.val 0 0 = 4 ∧ B._integrated ≠ Sample.op2._integrated ∧
      B.mat_.val 0 0 ≠ Sample.op2.mat_.val 0 0 := by
  have h0 : Sample.op2.mat_.val 0 0 = 0 := rfl
  obtain ⟨B, hB, -, -, -, -, hint, -, -, hv⟩ := mult_one_images Sample.op2
    ElementMatrix.blank [1/2, 1/2] Sample.seg rfl rfl (by decide)
    (by
      intro q hq
      have hq2 : q < 2 := hq
      interval_cases q <;> exact ⟨rfl, rfl⟩)
  have h4 : B.mat_.val 0 0 = 4 := by
    rw [hv 0 0 (by decide) (by decide)]
    norm_num [Finset.sum_range_succ, Sample.seg, Sample.op2, Sample.rowMat,
      ElementMatrix.matXq, DenseMatrix.val]
  refine ⟨rfl, rfl, h0, B, hB, hint, h4, ?_, ?_⟩
  · rw [hint]
    decide
  · rw [h4, h0]
    norm_num

/-- C14: for every operator `A` (with `n` weights, an entity, and at least `n`
basis images of the transposed shape of its integrated matrix) and every
coefficient vector `b` with `b.size() == A.cols()`, `mult(A, b, C)` returns and
multiplies row `k` of each of the `n` basis images by `b[k]`: entry `(k, j)` of
image `q` becomes `A_q(k, j) * b[k]`, whatever the number `n` of quadrature
points is, also when it equals `b.size()`. -/
theorem multVec_row_scale (A C : ElementMatrix R P) (b : List R) (w : List R)
    (ent : MeshEntity R P) (hb : b.length = A.mat_.cols)
    (hw : A._w = some w) (hent : A._ent = some ent) (hX : w.length ≤ A._matX.length)
    (hshape : ∀ q, q < w.length → (A.matXq q).rows = A.mat_.cols ∧
      (A.matXq q).cols = A.mat_.rows) :
    ∃ B, multVec A b C = .ok B ∧ B._matX.length = A._matX.length ∧
      ∀ q, q < w.length → (B.matXq q).rows = (A.matXq q).rows ∧
        (B.matXq q).cols = (A.matXq q).cols ∧
        ∀ k j, k < (A.matXq q).rows → j < (A.matXq q).cols →
          (B.matXq q).val k j = (A.matXq q).val k j * b.getD k 0 := by
  obtain ⟨mats1, hloop, hl1, hdone, -⟩ := scaleImages_ok w.length
    (fun _ k =>
      match b[k]? with
      | none => .error .outOfRange
      | some bk => .ok bk)
    (fun _ k => b.getD k 0) A._matX hX
    (fun r k hr hk => by
      have hk1 : k < b.length := by
        rw [hb, ← (hshape r hr).1]
        exact hk
      simp only [getElem?_getD_of_lt b 0 hk1])
  obtain ⟨E1, hE1⟩ : ∃ E1 : ElementMatrix R P, E1 = { (C.copyFrom A false) with
      _matX := mats1 } := ⟨_, rfl⟩
  have hEX : E1._matX = mats1 := by rw [hE1]
  have hmr : E1.mat_.rows = A.mat_.rows := by
    rw [hE1]
    exact DenseMatrix.resize_rows _ _ _
  have hmc : E1.mat_.cols = A.mat_.cols := by
    rw [hE1]
    exact DenseMatrix.resize_cols _ _ _
  have hint : ∃ B, E1.integrate = .ok B ∧ B._matX = E1._matX := by
    cases hval : E1._valid with
    | false =>
      refine ⟨E1, ?_, rfl⟩
      simp only [ElementMatrix.integrate, hval, Bool.false_eq_true, and_false, if_false]
    | true =>
      obtain ⟨M, h, -⟩ := ElementMatrix.integrate_ok E1 w ent
        (by rw [hE1]; rfl) (by rw [hE1]; rfl) hval
        (by rw [hE1]; exact hw) (by rw [hE1]; exact hent)
        (fun q hq => by
          show ((E1._matX).getD q DenseMatrix.empty).rows = _ ∧
            ((E1._matX).getD q DenseMatrix.empty).cols = _
          rw [hEX, (hdone q hq).1, (hdone q hq).2.1, hmr, hmc]
          exact hshape q hq)
        (by rw [hEX, hl1]; exact hX)
      exact ⟨_, h, rfl⟩
  obtain ⟨B, hB, hBX⟩ := hint
  rw [hEX] at hBX
  refine ⟨B, ?_, by rw [hBX]; exact hl1, ?_⟩
  · rw [multVec, if_pos hb]
    show (match A._w with
      | none => Except.error Error.outOfRange
      | some w => _) = _
    rw [hw]
    show ((scaleImages w.length _ A._matX).bind _) = _
    rw [hloop, bind_ok, ← hE1]
    exact hB
  · intro q hq
    have hq1 : B.matXq q = mats1.getD q DenseMatrix.empty := by
      show (B._matX).getD q DenseMatrix.empty = _
      rw [hBX]
    rw [hq1]
    obtain ⟨hr, hc, hd⟩ : (mats1.getD q DenseMatrix.empty).rows = (A.matXq q).rows ∧
        (mats1.getD q DenseMatrix.empty).cols = (A.matXq q).cols ∧
        ∀ t, (mats1.getD q DenseMatrix.empty).data t
          = if t < (A.matXq q).cols * (A.matXq q).rows
            then (A.matXq q).data t * b.getD (t / (A.matXq q).cols) 0
            else (A.matXq q).data t := hdone q hq
    refine ⟨hr, hc, ?_⟩
    intro k j hk hj
    show (mats1.getD q DenseMatrix.empty).data ((mats1.getD q DenseMatrix.empty).cols * k + j)
      = _
    rw [hc, hd, if_pos (by
      rw [Nat.mul_comm (A.matXq q).cols (A.matXq q).rows]
      exact flat_lt hk hj), flat_div k hj]
    rfl

/-- Witness for C14: the sample operator `opSq` has two quadrature points and
an integrated matrix with two columns; the vector `[10, 100]` scales row `k` of
both basis images by its `k`-th entry. -/
theorem multVec_row_scale_witness :
    ∃ B, multVec Sample.opSq [10, 100] ElementMatrix.blank = .ok B ∧
      B._matX.length = Sample.opSq._matX.length ∧
      ∀ q, q < ([1/2, 1/2] : List ℚ).length →
        (B.matXq q).rows = (Sample.opSq.matXq q).rows ∧
        (B.matXq q).cols = (Sample.opSq.matXq q).cols ∧
        ∀ k j, k < (Sample.opSq.matXq q).rows → j < (Sample.opSq.matXq q).cols →
          (B.matXq q).val k j
            = (Sample.opSq.matXq q).val k j * ([10, 100] : List ℚ).getD k 0 :=
  multVec_row_scale Sample.opSq ElementMatrix.blank [10, 100] [1/2, 1/2] Sample.seg rfl rfl
    rfl (by decide)
    (by
      intro q hq
      have hq2 : q < 2 := hq
      interval_cases q <;> exact ⟨rfl, rfl⟩)

/-- The product of the `r x r` identity with a basis image of `r` rows, written
over the zeroed image: the image itself, whatever `beta` is. -/
theorem identity_mult (b Ai : DenseMatrix R) (r : ℕ) (beta : R) (hI : IsIdentity b r)
    (hA : Ai.rows = r) :
    b.mult Ai (Ai.opAssignScalar (· * ·) 0) 1 beta = .ok Ai := by
  obtain ⟨hbr, hbc, hb⟩ := hI
  rw [DenseMatrix.mult, if_pos (hbc.trans hA.symm)]
  refine congrArg Except.ok (DenseMatrix.ext_data (hbr.trans hA.symm) rfl (fun k => ?_))
  show (if k < b.rows * Ai.cols then _ else _) = Ai.data k
  rw [hbr, hbc]
  by_cases hk : k < r * Ai.cols
  · rw [if_pos hk]
    have hi : k / Ai.cols < r := flat_div_lt hk
    have hsum : ∑ t in Finset.range r, b.val (k / Ai.cols) t * Ai.val t (k % Ai.cols)
        = Ai.val (k / Ai.cols) (k % Ai.cols) := by
      rw [Finset.sum_eq_single (k / Ai.cols)]
      · rw [hb _ _ hi hi, if_pos rfl, one_mul]
      · intro t ht hne
        rw [hb _ _ hi (Finset.mem_range.mp ht), if_neg (Ne.symm hne), zero_mul]
      · intro h
        exact absurd (Finset.mem_range.mpr hi) h
    have hz : (Ai.opAssignScalar (· * ·) 0).data k = 0 := by
      show (if k < Ai.length then Ai.data k * 0 else Ai.data k) = 0
      rw [if_pos (by rw [DenseMatrix.length, hA]; exact hk), mul_zero]
    rw [hsum, hz, mul_zero, add_zero, one_mul]
    show Ai.data (Ai.cols * (k / Ai.cols) + k % Ai.cols) = _
    rw [Nat.div_add_mod]
  · rw [if_neg hk]
    show (if k < Ai.length then Ai.data k * 0 else Ai.data k) = _
    rw [if_neg (by rw [DenseMatrix.length, hA]; exact hk)]

/-- The loop of the constant-matrix branch with the identity matrix leaves the
basis images as they are. -/
theorem multMatConst_identity (A : ElementMatrix R P) (b : DenseMatrix R) (r n : ℕ)
    (hI : IsIdentity b r) (hn : n ≤ A._matX.length)
    (hrows : ∀ q, q < A._matX.length → (A.matXq q).rows = r) :
    multMatConst A b n A._matX = .ok A._matX := by
  have key : ∀ k, k ≤ n → forLoop k (fun i ms =>
      match ms[i]?, A._matX[i]? with
      | some Ci, some Ai =>
        (b.mult Ai (Ci.opAssignScalar (· * ·) 0) 1 (if i > 0 then 1 else 0)).map
          fun m => ms.set i m
      | _, _ => .error .outOfRange) A._matX = .ok A._matX := by
    intro k
    induction k with
    | zero => intro _; rfl
    | succ k ih =>
      intro hk
      have hkX : k < A._matX.length := by omega
      have hm : A._matX[k]? = some (A.matXq k) := getElem?_getD_of_lt _ _ hkX
      rw [forLoop_succ, ih (Nat.le_of_succ_le hk), bind_ok]
      simp only [hm]
      rw [identity_mult b (A.matXq k) r _ hI (hrows k hkX), map_ok]
      refine congrArg Except.ok (list_eq_of_getD DenseMatrix.empty _ _ (List.length_set _ _ _) ?_)
      intro i _
      by_cases hik : k = i
      · subst hik
        rw [getD_set_self _ _ _ hkX]
        rfl
      · rw [getD_set_ne _ _ _ hik]
  exact key n le_rfl

/-- The constant-matrix overload `mult(A, b, C)` with the `r x r` identity `b`
outside the two special cases of the code (the guard `b.rows() * b.cols() ==
A.cols()` and the row-per-quadrature-point shape): the result is the
structural copy of `A` with the same basis images, valid and integrated. -/
theorem multMat_identity_ok (A C : ElementMatrix R P) (b : DenseMatrix R) (r : ℕ)
    (x : List P) (w : List R) (ent : MeshEntity R P)
    (hI : IsIdentity b r) (hguard : r * r ≠ A.mat_.cols)
    (hper : ¬ (r = A._matX.length ∧ r = (A.matXq 0).cols))
    (hx : A._x = some x) (hw : A._w = some w) (hent : A._ent = some ent)
    (h0 : 0 < A._matX.length) (hxX : x.length ≤ A._matX.length)
    (hwX : w.length ≤ A._matX.length)
    (hrows : ∀ q, q < A._matX.length → (A.matXq q).rows = r)
    (hshape : ∀ q, q < w.length → (A.matXq q).rows = A.mat_.cols ∧
      (A.matXq q).cols = A.mat_.rows) :
    ∃ B, multMat A b C = .ok B ∧ B._matX = A._matX ∧ B._idsR = A._idsR ∧
      B._idsC = A._idsC ∧ B._valid = true ∧ B._integrated = true := by
  obtain ⟨hbr, hbc, hb⟩ := hI
  have hloop := multMatConst_identity A b r x.length ⟨hbr, hbc, hb⟩ hxX hrows
  have hm0 : A._matX[0]? = some (A.matXq 0) := getElem?_getD_of_lt _ _ h0
  obtain ⟨E1, hE1⟩ : ∃ E1 : ElementMatrix R P, E1 = { (C.copyFrom A false) with
      _matX := A._matX, _valid := true } := ⟨_, rfl⟩
  have hEX : E1._matX = A._matX := by rw [hE1]
  have hmr : E1.mat_.rows = A.mat_.rows := by
    rw [hE1]
    exact DenseMatrix.resize_rows _ _ _
  have hmc : E1.mat_.cols = A.mat_.cols := by
    rw [hE1]
    exact DenseMatrix.resize_cols _ _ _
  obtain ⟨M, hint, -⟩ := ElementMatrix.integrate_ok E1 w ent
    (by rw [hE1]; rfl) (by rw [hE1]; rfl) (by rw [hE1])
    (by rw [hE1]; exact hw) (by rw [hE1]; exact hent)
    (fun q hq => by
      show ((E1._matX).getD q DenseMatrix.empty).rows = _ ∧
        ((E1._matX).getD q DenseMatrix.empty).cols = _
      rw [hEX, hmr, hmc]
      exact hshape q hq)
    (by rw [hEX]; exact hwX)
  have hconst : (match A._matX[0]? with
      | none => (Except.error Error.outOfRange : Except Error (ElementMatrix R P))
      | some A0 =>
        if b.rows ≠ A0.rows then .error .logError
        else
          (multMatConst A b x.length (C.copyFrom A false)._matX).bind fun mats =>
            ElementMatrix.integrate
              { (C.copyFrom A false) with
                _matX := mats, _valid := true })
      = .ok { E1 with mat_ := M, _integrated := true } := by
    rw [hm0]
    show (if b.rows ≠ (A.matXq 0).rows then _ else _) = _
    rw [if_neg (by rw [hbr, hrows 0 h0]; exact fun h => h rfl)]
    show ((multMatConst A b x.length A._matX).bind _) = _
    rw [hloop, bind_ok, ← hE1]
    exact hint
  refine ⟨{ E1 with mat_ := M, _integrated := true }, ?_, hEX, by rw [hE1]; rfl,
    by rw [hE1]; rfl, by rw [hE1], rfl⟩
  rw [multMat, if_neg (by rw [hbr, hbc]; exact hguard)]
  simp only [hx]
  by_cases hlen : b.rows = A._matX.length
  · rw [if_pos hlen, DenseMatrix.row_ok b 0 (by omega), bind_ok]
    simp only [hm0]
    rw [if_neg (by
      intro h
      exact hper ⟨hbr.symm.trans hlen, hbc.symm.trans h⟩)]
    simp only [hm0] at hconst
    exact hconst
  · rw [if_neg hlen]
    exact hconst

/-- C13 (amended): for every operator `A` whose basis images have `r` rows
(with quadrature points, `n` weights, an entity, at least one and at least `n`
basis images of the transposed shape of its integrated matrix), the
constant-matrix overload `mult(A, I, B)` with the `r x r` identity `I` returns
and gives `B` the basis images of `A`, provided that `r * r` is not `A.cols()`
(which excludes `r = 1` for the scalar value operator) and that `I` does not
have the shape of one row per quadrature point (`r` rows for `r` images and
`r` columns for `r` image columns). -/
theorem multMat_identity (A C : ElementMatrix R P) (b : DenseMatrix R) (r : ℕ)
    (x : List P) (w : List R) (ent : MeshEntity R P)
    (hI : IsIdentity b r) (hguard : r * r ≠ A.mat_.cols)
    (hper : ¬ (r = A._matX.length ∧ r = (A.matXq 0).cols))
    (hx : A._x = some x) (hw : A._w = some w) (hent : A._ent = some ent)
    (h0 : 0 < A._matX.length) (hxX : x.length ≤ A._matX.length)
    (hwX : w.length ≤ A._matX.length)
    (hrows : ∀ q, q < A._matX.length → (A.matXq q).rows = r)
    (hshape : ∀ q, q < w.length → (A.matXq q).rows = A.mat_.cols ∧
      (A.matXq q).cols = A.mat_.rows) :
    ∃ B, multMat A b C = .ok B ∧ B._matX = A._matX := by
  obtain ⟨B, hB, hX, -⟩ := multMat_identity_ok A C b r x w ent hI hguard hper hx hw hent h0
    hxX hwX hrows hshape
  exact ⟨B, hB, hX⟩

theorem Sample.idMat_identity (r : ℕ) : IsIdentity (Sample.idMat r) r := by
  refine ⟨rfl, rfl, ?_⟩
  intro i j hi hj
  show (if r * i + j < r * r ∧ (r * i + j) / r = (r * i + j) % r then (1 : ℚ) else 0) = _
  rw [flat_div i hj, flat_mod i hj]
  by_cases h : i = j
  · rw [if_pos h, if_pos ⟨flat_lt hi hj, h⟩]
  · rw [if_neg h, if_neg (fun h1 => h h1.2)]

/-- Witness for C13 (amended): the operator `opG` with one four-row basis image
and the 4 x 4 identity. -/
theorem multMat_identity_witness :
    ∃ B, multMat (Sample.opG false) (Sample.idMat 4) ElementMatrix.blank = .ok B ∧
      B._matX = (Sample.opG false)._matX :=
  multMat_identity (Sample.opG false) ElementMatrix.blank (Sample.idMat 4) 4 [(1/3, 1/3)] [1]
    Sample.tri (Sample.idMat_identity 4) (by decide) (by decide) rfl rfl rfl (by decide)
    (by decide) (by decide)
    (by
      intro q hq
      have hq1 : q < 1 := hq
      interval_cases q
      rfl)
    (by
      intro q hq
      have hq1 : q < 1 := hq
      interval_cases q
      exact ⟨rfl, rfl⟩)

/-- C13 fails as stated for the scalar value operator: `pot` on the triangle
`tri` with one component returns a valid operator whose basis images have one
row, and the constant-matrix overload `mult` with the 1 x 1 identity stops at
`THROW_TO_IMPL`. -/
theorem multMat_identity_counterexample :
    IsIdentity (Sample.idMat 1) 1 ∧
    ∃ A, ElementMatrix.pot Sample.midRules false ElementMatrix.blank Sample.tri 2 false 1 0 0
        = .ok A ∧ A._valid = true ∧ (∀ q, q < A._matX.length → (A.matXq q).rows = 1) ∧
      multMat A (Sample.idMat 1) ElementMatrix.blank = .error .toImpl := by
  refine ⟨Sample.idMat_identity 1, ?_⟩
  obtain ⟨A, hA, hop⟩ := ElementMatrix.pot_ok Sample.midRules false ElementMatrix.blank
    Sample.tri 2 false 1 0 0 (Or.inr rfl) (by decide) (by decide) (fun h => by cases h)
  obtain ⟨-, -, -, -, -, -, hval, -, -, -, hcols, hlen, himg⟩ := hop
  refine ⟨A, hA, hval, ?_, ?_⟩
  · intro q hq
    have hq3 : q < ([(1/2, 0), (1/2, 1/2), (0, 1/2)] : List (ℚ × ℚ)).length := by
      rw [hlen] at hq
      exact hq
    obtain ⟨Z, hZr, hZc, -, hfill⟩ := himg q _ (getElem?_getD_of_lt _ (0, 0) hq3)
    exact (ElementMatrix.fillMatX_U_Rows_shape _ _ _ Z _ hZr hZc hfill).1
  · rw [multMat, if_pos (by rw [hcols]; rfl)]

theorem DenseMatrix.ext_val {a b : DenseMatrix R} (hr : a.rows = b.rows)
    (hc : a.cols = b.cols)
    (hv : ∀ i j, i < b.rows → j < b.cols → a.val i j = b.val i j)
    (ht : ∀ t, b.rows * b.cols ≤ t → a.data t = b.data t) : a = b := by
  refine DenseMatrix.ext_data hr hc (fun t => ?_)
  rcases Nat.lt_or_ge t (b.rows * b.cols) with h | h
  · have h1 := hv (t / b.cols) (t % b.cols) (flat_div_lt h) (flat_mod_lt h)
    simp only [DenseMatrix.val, hc, Nat.div_add_mod] at h1
    exact h1
  · exact ht t h

/-- A row write: shape, the written row, the other rows, and the buffer behind
the matrix. -/
theorem DenseMatrix.setRow_frame (m : DenseMatrix R) (i : ℕ) (v : ℕ → R) (hi : i < m.rows) :
    ∃ M, m.setRow i v = .ok M ∧ M.rows = m.rows ∧ M.cols = m.cols ∧
      (∀ j, j < m.cols → M.val i j = v j) ∧
      (∀ k j, k ≠ i → j < m.cols → M.val k j = m.val k j) ∧
      (∀ t, m.rows * m.cols ≤ t → M.data t = m.data t) := by
  obtain ⟨M, hM, hr, hc, hrow, hoth⟩ := DenseMatrix.setRow_ok m i v hi
  refine ⟨M, hM, hr, hc, hrow, hoth, ?_⟩
  intro t ht
  rw [DenseMatrix.setRow, if_pos hi] at hM
  cases hM
  show (if m.cols * i ≤ t ∧ t < m.cols * i + m.cols then _ else m.data t) = _
  have h1 : m.cols * i + m.cols ≤ m.rows * m.cols := by
    rw [← Nat.mul_succ, Nat.mul_comm m.rows]
    exact Nat.mul_le_mul_left _ hi
  rw [if_neg (by omega)]

/-- The range-based loop succeeds when its body does on every element, and
relates the elements position by position. -/
theorem forEach_rel {α : Type} (body : α → Except Error α) (Rel : α → α → Prop) (d : α)
    (l : List α) (h : ∀ q, q < l.length → ∃ a1, body (l.getD q d) = .ok a1 ∧
      Rel (l.getD q d) a1) :
    ∃ l1, forEach body l = .ok l1 ∧ l1.length = l.length ∧
      ∀ q, q < l.length → Rel (l.getD q d) (l1.getD q d) := by
  induction l with
  | nil => exact ⟨[], rfl, rfl, fun q hq => absurd hq (Nat.not_lt_zero q)⟩
  | cons a l ih =>
    obtain ⟨a1, ha1, hrel⟩ := h 0 (Nat.succ_pos _)
    obtain ⟨l1, hl1, hlen, hall⟩ := ih (fun q hq => h (q + 1) (Nat.succ_lt_succ hq))
    refine ⟨a1 :: l1, ?_, by rw [List.length_cons, List.length_cons, hlen], ?_⟩
    · have ha2 : body a = .ok a1 := ha1
      rw [forEach, ha2, bind_ok, hl1, map_ok]
    · intro q hq
      cases q with
      | zero => exact hrel
      | succ q => exact hall q (Nat.lt_of_succ_lt_succ hq)

/-- A body that reproduces its own results makes the range-based loop
reproduce its result. -/
theorem forEach_idem {α : Type} (body : α → Except Error α)
    (h : ∀ a a1, body a = .ok a1 → body a1 = .ok a1) (l l1 : List α)
    (hl : forEach body l = .ok l1) : forEach body l1 = .ok l1 := by
  induction l generalizing l1 with
  | nil =>
    cases hl
    rfl
  | cons a l ih =>
    rw [forEach] at hl
    cases ha : body a with
    | error e =>
      rw [ha] at hl
      cases hl
    | ok a1 =>
      rw [ha, bind_ok] at hl
      cases hr : forEach body l with
      | error e =>
        rw [hr] at hl
        cases hl
      | ok l2 =>
        rw [hr, map_ok] at hl
        cases hl
        rw [forEach, h a a1 ha, bind_ok, ih l2 hr, map_ok]

/-- The two statements of `sym` on the row pair `(i, k)`: both rows hold
`0.5 * row_i + 0.5 * row_k`, everything else is kept. -/
theorem avgRows_ok (m : DenseMatrix R) (i k : ℕ) (hi : i < m.rows) (hk : k < m.rows)
    (hik : i ≠ k) :
    ∃ M, avgRows m i k = .ok M ∧ M.rows = m.rows ∧ M.cols = m.cols ∧
      (∀ j, j < m.cols → M.val i j = 1 / 2 * m.val i j + 1 / 2 * m.val k j) ∧
      (∀ j, j < m.cols → M.val k j = 1 / 2 * m.val i j + 1 / 2 * m.val k j) ∧
      (∀ r j, r ≠ i → r ≠ k → j < m.cols → M.val r j = m.val r j) ∧
      (∀ t, m.rows * m.cols ≤ t → M.data t = m.data t) := by
  obtain ⟨m1, h1, hr1, hc1, hrow1, hoth1, ht1⟩ := DenseMatrix.setRow_frame m i
    (fun j => 1 / 2 * m.val i j + 1 / 2 * m.val k j) hi
  obtain ⟨M, h2, hr2, hc2, hrow2, hoth2, ht2⟩ := DenseMatrix.setRow_frame m1 k
    (fun j => m1.val i j) (by rw [hr1]; exact hk)
  refine ⟨M, ?_, hr2.trans hr1, hc2.trans hc1, ?_, ?_, ?_, ?_⟩
  · rw [avgRows, DenseMatrix.row_ok m i hi, bind_ok, DenseMatrix.row_ok m k hk, bind_ok, h1,
      bind_ok, DenseMatrix.row_ok m1 i (by rw [hr1]; exact hi), bind_ok, h2]
  · intro j hj
    rw [hoth2 i j hik (by rw [hc1]; exact hj), hrow1 j hj]
  · intro j hj
    rw [hrow2 j (by rw [hc1]; exact hj), hrow1 j hj]
  · intro r j hri hrk hj
    rw [hoth2 r j hrk (by rw [hc1]; exact hj), hoth1 r j hri hj]
  · intro t ht
    rw [ht2 t (by rw [hr1, hc1]; exact ht), ht1 t ht]

/-- On a row pair that already agrees the two statements of `sym` change
nothing (the factor `0.5` being one half). -/
theorem avgRows_fixed (m : DenseMatrix R) (i k : ℕ) (h2 : (2 : R) ≠ 0) (hi : i < m.rows)
    (hk : k < m.rows) (hik : i ≠ k) (heq : ∀ j, j < m.cols → m.val i j = m.val k j) :
    avgRows m i k = .ok m := by
  obtain ⟨M, hM, hr, hc, hrow1, hrow2, hoth, ht⟩ := avgRows_ok m i k hi hk hik
  rw [hM]
  refine congrArg Except.ok (DenseMatrix.ext_val hr hc ?_ ht)
  intro r j hr1 hj
  have hhalf : ∀ a : R, 1 / 2 * a + 1 / 2 * a = a := by
    intro a
    field_simp
    ring
  by_cases hri : r = i
  · rw [hri, hrow1 j hj, ← heq j hj]
    exact hhalf _
  · by_cases hrk : r = k
    · rw [hrk, hrow2 j hj, heq j hj]
      exact hhalf _
    · exact hoth r j hri hrk hj

theorem half_sum (a b : R) : 1 / 2 * a + 1 / 2 * b = (a + b) / 2 := by
  ring

/-- The body of `sym` on an image of 1, 4 or 9 rows returns the symmetrised
image and keeps the buffer behind the matrix. -/
theorem symImage_ok (m : DenseMatrix R) (h : m.rows = 1 ∨ m.rows = 4 ∨ m.rows = 9) :
    ∃ M, symImage m = .ok M ∧ SymOf m M := by
  rcases h with h | h | h
  · refine ⟨m, by rw [symImage, if_pos h], rfl, rfl, fun _ => rfl, ?_, ?_⟩
    · intro h4
      rw [h] at h4
      cases h4
    · intro h9
      rw [h] at h9
      cases h9
  · obtain ⟨M, hM, hr, hc, hrow1, hrow2, hoth, -⟩ := avgRows_ok m 1 2 (by omega) (by omega)
      (by decide)
    refine ⟨M, by rw [symImage, if_neg (by omega), if_pos h]; exact hM, hr, hc, ?_, ?_, ?_⟩
    · intro h1
      rw [h] at h1
      cases h1
    · intro _ j hj
      exact ⟨hoth 0 j (by decide) (by decide) hj, (hrow1 j hj).trans (half_sum _ _),
        (hrow2 j hj).trans (half_sum _ _), hoth 3 j (by decide) (by decide) hj⟩
    · intro h9
      rw [h] at h9
      cases h9
  · obtain ⟨m2, h2, hr2, hc2, ha1, ha3, hao, -⟩ := avgRows_ok m 1 3 (by omega) (by omega)
      (by decide)
    obtain ⟨m4, h4, hr4, hc4, hb2, hb6, hbo, -⟩ := avgRows_ok m2 2 6 (by omega) (by omega)
      (by decide)
    obtain ⟨M, h6, hr6, hc6, hc5, hc7, hco, -⟩ := avgRows_ok m4 5 7 (by omega) (by omega)
      (by decide)
    refine ⟨M, ?_, hr6.trans (hr4.trans hr2), hc6.trans (hc4.trans hc2), ?_, ?_, ?_⟩
    · rw [symImage, if_neg (by omega), if_neg (by omega), if_pos h, h2, bind_ok, h4, bind_ok]
      exact h6
    · intro h1
      rw [h] at h1
      cases h1
    · intro h4
      rw [h] at h4
      cases h4
    · intro _ j hj
      have hj2 : j < m2.cols := by rw [hc2]; exact hj
      have hj4 : j < m4.cols := by rw [hc4]; exact hj2
      refine ⟨?_, ?_, ?_, ?_, ?_, ?_, ?_, ?_, ?_⟩
      · rw [hco 0 j (by decide) (by decide) hj4, hbo 0 j (by decide) (by decide) hj2,
          hao 0 j (by decide) (by decide) hj]
      · rw [hco 1 j (by decide) (by decide) hj4, hbo 1 j (by decide) (by decide) hj2,
          ha1 j hj, half_sum]
      · rw [hco 2 j (by decide) (by decide) hj4, hb2 j hj2,
          hao 2 j (by decide) (by decide) hj, hao 6 j (by decide) (by decide) hj, half_sum]
      · rw [hco 3 j (by decide) (by decide) hj4, hbo 3 j (by decide) (by decide) hj2,
          ha3 j hj, half_sum]
      · rw [hco 4 j (by decide) (by decide) hj4, hbo 4 j (by decide) (by decide) hj2,
          hao 4 j (by decide) (by decide) hj]
      · rw [hc5 j hj4, hbo 5 j (by decide) (by decide) hj2, hbo 7 j (by decide) (by decide) hj2,
          hao 5 j (by decide) (by decide) hj, hao 7 j (by decide) (by decide) hj, half_sum]
      · rw [hco 6 j (by decide) (by decide) hj4, hb6 j hj2,
          hao 2 j (by decide) (by decide) hj, hao 6 j (by decide) (by decide) hj, half_sum]
      · rw [hc7 j hj4, hbo 5 j (by decide) (by decide) hj2, hbo 7 j (by decide) (by decide) hj2,
          hao 5 j (by decide) (by decide) hj, hao 7 j (by decide) (by decide) hj, half_sum]
      · rw [hco 8 j (by decide) (by decide) hj4, hbo 8 j (by decide) (by decide) hj2,
          hao 8 j (by decide) (by decide) hj]

/-- The body of `sym` reproduces its own results: a symmetrised image is a
fixed point. -/
theorem symImage_idem (h2 : (2 : R) ≠ 0) (m M : DenseMatrix R) (h : symImage m = .ok M) :
    symImage M = .ok M := by
  by_cases h1 : m.rows = 1
  · rw [symImage, if_pos h1] at h
    cases h
    exact by rw [symImage, if_pos h1]
  · by_cases h4 : m.rows = 4
    · rw [symImage, if_neg h1, if_pos h4] at h
      obtain ⟨M1, hM, hr, hc, hrow1, hrow2, -⟩ := avgRows_ok m 1 2 (by omega) (by omega)
        (by decide)
      rw [hM] at h
      have hMM : M1 = M := Except.ok.inj h
      subst hMM
      have hr4 : M1.rows = 4 := hr.trans h4
      rw [symImage, if_neg (by omega), if_pos hr4]
      exact avgRows_fixed M1 1 2 h2 (by omega) (by omega) (by decide)
        (fun j hj => by rw [hrow1 j (hc ▸ hj), hrow2 j (hc ▸ hj)])
    · by_cases h9 : m.rows = 9
      · rw [symImage, if_neg h1, if_neg h4, if_pos h9] at h
        obtain ⟨m2, e2, hr2, hc2, ha1, ha3, hao, -⟩ := avgRows_ok m 1 3 (by omega) (by omega)
          (by decide)
        obtain ⟨m4, e4, hr4, hc4, hb2, hb6, hbo, -⟩ := avgRows_ok m2 2 6 (by omega)
          (by omega) (by decide)
        obtain ⟨M1, e6, hr6, hc6, hc5, hc7, hco, -⟩ := avgRows_ok m4 5 7 (by omega)
          (by omega) (by decide)
        rw [e2, bind_ok, e4, bind_ok, e6] at h
        have hMM : M1 = M := Except.ok.inj h
        subst hMM
        have hr9 : M1.rows = 9 := by omega
        have f13 := avgRows_fixed M1 1 3 h2 (by omega) (by omega) (by decide)
          (fun j hj => by
            have hj4 : j < m4.cols := hc6 ▸ hj
            have hj2 : j < m2.cols := hc4 ▸ hj4
            have hj0 : j < m.cols := hc2 ▸ hj2
            rw [hco 1 j (by decide) (by decide) hj4, hco 3 j (by decide) (by decide) hj4,
              hbo 1 j (by decide) (by decide) hj2, hbo 3 j (by decide) (by decide) hj2,
              ha1 j hj0, ha3 j hj0])
        have f26 := avgRows_fixed M1 2 6 h2 (by omega) (by omega) (by decide)
          (fun j hj => by
            have hj4 : j < m4.cols := hc6 ▸ hj
            have hj2 : j < m2.cols := hc4 ▸ hj4
            rw [hco 2 j (by decide) (by decide) hj4, hco 6 j (by decide) (by decide) hj4,
              hb2 j hj2, hb6 j hj2])
        have f57 := avgRows_fixed M1 5 7 h2 (by omega) (by omega) (by decide)
          (fun j hj => by
            have hj4 : j < m4.cols := hc6 ▸ hj
            rw [hc5 j hj4, hc7 j hj4])
        rw [symImage, if_neg (by omega), if_neg (by omega), if_pos hr9, f13, bind_ok, f26,
          bind_ok, f57]
      · rw [symImage, if_neg h1, if_neg h4, if_neg h9] at h
        cases h

/-- The body of `trace` on an image of 1, 4 or 9 rows returns the trace image;
a one-row image is returned as it is. -/
theorem traceImage_ok (m : DenseMatrix R) (h : m.rows = 1 ∨ m.rows = 4 ∨ m.rows = 9) :
    ∃ M, traceImage m = .ok M ∧ TraceOf m M ∧ (m.rows = 1 → M = m) := by
  have hz : ∀ i j, i < m.rows → j < m.cols → (m.opAssignScalar (· * ·) 0).val i j = 0 := by
    intro i j hi hj
    show (if m.cols * i + j < m.length then m.data (m.cols * i + j) * 0 else _) = 0
    rw [if_pos (show m.cols * i + j < m.length from flat_lt hi hj), mul_zero]
  rcases h with h | h | h
  · refine ⟨m, by rw [traceImage, if_pos h], ⟨rfl, rfl, ?_, ?_⟩, fun _ => rfl⟩
    · intro h4
      rw [h] at h4
      cases h4
    · intro h9
      rw [h] at h9
      cases h9
  · obtain ⟨m1, e1, hr1, hc1, hrow1, hoth1⟩ := DenseMatrix.setRow_ok
      (m.opAssignScalar (· * ·) 0) 0 (fun j => m.val 0 j + m.val 3 j)
      (by show 0 < m.rows; omega)
    obtain ⟨M, e2, hr2, hc2, hrow2, hoth2⟩ := DenseMatrix.setRow_ok m1 3
      (fun j => m.val 0 j + m.val 3 j) (by rw [hr1]; show 3 < m.rows; omega)
    refine ⟨M, ?_, ⟨hr2.trans hr1, hc2.trans hc1, ?_, ?_⟩, ?_⟩
    · rw [traceImage, if_neg (by omega), if_pos h, DenseMatrix.row_ok m 0 (by omega), bind_ok,
        DenseMatrix.row_ok m 3 (by omega), bind_ok, e1, bind_ok]
      exact e2
    · intro _ j hj
      have hj0 : j < (m.opAssignScalar (· * ·) 0).cols := hj
      have hj1 : j < m1.cols := by rw [hc1]; exact hj
      refine ⟨?_, ?_, ?_, ?_⟩
      · rw [hoth2 0 j (by decide) hj1, hrow1 j hj0]
      · rw [hoth2 1 j (by decide) hj1, hoth1 1 j (by decide) hj0, hz 1 j (by omega) hj]
      · rw [hoth2 2 j (by decide) hj1, hoth1 2 j (by decide) hj0, hz 2 j (by omega) hj]
      · rw [hrow2 j hj1]
    · intro h9
      rw [h] at h9
      cases h9
    · intro h1
      rw [h] at h1
      cases h1
  · obtain ⟨m1, e1, hr1, hc1, hrow1, hoth1⟩ := DenseMatrix.setRow_ok
      (m.opAssignScalar (· * ·) 0) 0 (fun j => m.val 0 j + m.val 4 j + m.val 8 j)
      (by show 0 < m.rows; omega)
    obtain ⟨m2, e2, hr2, hc2, hrow2, hoth2⟩ := DenseMatrix.setRow_ok m1 4
      (fun j => m.val 0 j + m.val 4 j + m.val 8 j) (by rw [hr1]; show 4 < m.rows; omega)
    obtain ⟨M, e3, hr3, hc3, hrow3, hoth3⟩ := DenseMatrix.setRow_ok m2 8
      (fun j => m.val 0 j + m.val 4 j + m.val 8 j)
      (by rw [hr2, hr1]; show 8 < m.rows; omega)
    refine ⟨M, ?_, ⟨hr3.trans (hr2.trans hr1), hc3.trans (hc2.trans hc1), ?_, ?_⟩, ?_⟩
    · rw [traceImage, if_neg (by omega), if_neg (by omega), if_pos h,
        DenseMatrix.row_ok m 0 (by omega), bind_ok, DenseMatrix.row_ok m 4 (by omega), bind_ok,
        DenseMatrix.row_ok m 8 (by omega), bind_ok, e1, bind_ok, e2, bind_ok]
      exact e3
    · intro h4
      rw [h] at h4
      cases h4
    · intro _ j hj
      have hj0 : j < (m.opAssignScalar (· * ·) 0).cols := hj
      have hj1 : j < m1.cols := by rw [hc1]; exact hj
      have hj2 : j < m2.cols := by rw [hc2]; exact hj1
      have zero : ∀ i, i ≠ 0 → i ≠ 4 → i ≠ 8 → i < 9 → M.val i j = 0 := by
        intro i i0 i4 i8 i9
        rw [hoth3 i j i8 hj2, hoth2 i j i4 hj1, hoth1 i j i0 hj0, hz i j (by omega) hj]
      refine ⟨?_, zero 1 (by decide) (by decide) (by decide) (by decide),
        zero 2 (by decide) (by decide) (by decide) (by decide),
        zero 3 (by decide) (by decide) (by decide) (by decide), ?_,
        zero 5 (by decide) (by decide) (by decide) (by decide),
        zero 6 (by decide) (by decide) (by decide) (by decide),
        zero 7 (by decide) (by decide) (by decide) (by decide), ?_⟩
      · rw [hoth3 0 j (by decide) hj2, hoth2 0 j (by decide) hj1, hrow1 j hj0]
      · rw [hoth3 4 j (by decide) hj2, hrow2 j hj1]
      · rw [hrow3 j hj2]
    · intro h1
      rw [h] at h1
      cases h1

/-- The range-based loop stops with the error of its body on the first
element. -/
theorem forEach_head_error {α : Type} (body : α → Except Error α) (d : α) (l : List α)
    (e : Error) (hl : 0 < l.length) (h : body (l.getD 0 d) = .error e) :
    forEach body l = .error e := by
  cases l with
  | nil => exact absurd hl (Nat.lt_irrefl 0)
  | cons a l =>
    have h1 : body a = .error e := h
    rw [forEach, h1]
    rfl

/-- The function `sym(A, B)` on an operator whose basis images have 1, 4 or 9
rows: `B` is the structural copy of `A` with symmetrised basis images, valid
and not integrated. -/
theorem sym_ok (A B : ElementMatrix R P)
    (hrows : ∀ q, q < A._matX.length →
      (A.matXq q).rows = 1 ∨ (A.matXq q).rows = 4 ∨ (A.matXq q).rows = 9) :
    ∃ mats, forEach symImage A._matX = .ok mats ∧
      sym A B = .ok { (B.copyFrom A false) with
        _matX := mats, _valid := true, _integrated := false } ∧
      mats.length = A._matX.length ∧
      ∀ q, q < A._matX.length → SymOf (A.matXq q) (mats.getD q DenseMatrix.empty) := by
  obtain ⟨mats, hm, hlen, hall⟩ := forEach_rel symImage SymOf DenseMatrix.empty A._matX
    (fun q hq => symImage_ok _ (hrows q hq))
  refine ⟨mats, hm, ?_, hlen, hall⟩
  show ((forEach symImage A._matX).map _) = _
  rw [hm, map_ok]

/-- C15 (amended): for every operator `A` whose basis images have 1, 4 or 9
rows, `sym(A, B)` returns and gives `B` as many basis images as `A` has, each
of the shape of `A`'s and equal to it except that in four-row images the rows
1 and 2 both hold `(row1 + row2) / 2` and in nine-row images each of the row
pairs (1,3), (2,6), (5,7) holds the average of the pair; one-row images are
unchanged; `B` has the ids of `A`, is valid and is not integrated. -/
theorem sym_images (A B : ElementMatrix R P)
    (hrows : ∀ q, q < A._matX.length →
      (A.matXq q).rows = 1 ∨ (A.matXq q).rows = 4 ∨ (A.matXq q).rows = 9) :
    ∃ S, sym A B = .ok S ∧ S._matX.length = A._matX.length ∧
      (∀ q, q < A._matX.length → SymOf (A.matXq q) (S.matXq q)) ∧
      S._idsR = A._idsR ∧ S._idsC = A._idsC ∧ S._valid = true ∧ S._integrated = false := by
  obtain ⟨mats, -, hS, hlen, hall⟩ := sym_ok A B hrows
  exact ⟨_, hS, hlen, hall, rfl, rfl, rfl, rfl⟩

/-- Witness for C15 (amended): the operator `opG` with one four-row basis
image. -/
theorem sym_images_witness :
    ∃ S, sym (Sample.opG false) ElementMatrix.blank = .ok S ∧
      S._matX.length = (Sample.opG false)._matX.length ∧
      (∀ q, q < (Sample.opG false)._matX.length →
        SymOf ((Sample.opG false).matXq q) (S.matXq q)) ∧
      S._idsR = (Sample.opG false)._idsR ∧ S._idsC = (Sample.opG false)._idsC ∧
      S._valid = true ∧ S._integrated = false :=
  sym_images (Sample.opG false) ElementMatrix.blank
    (by
      intro q hq
      have hq1 : q < 1 := hq
      interval_cases q
      exact Or.inr (Or.inl rfl))

/-- The gradient operator of a scalar field on the triangle `tri`: `grad`
returns an operator with three basis images of two rows. -/
theorem Sample.grad_scalar_tri :
    ∃ A, ElementMatrix.gradBase Sample.midRules 1 Sample.scalarOp Sample.tri 2 false false
        false false = .ok A ∧ 0 < A._matX.length ∧ (A.matXq 0).rows = 2 := by
  obtain ⟨A, hA, hop⟩ := ElementMatrix.gradBase_scalar_ok Sample.midRules 1 Sample.scalarOp
    Sample.tri 2 false false rfl rfl (Or.inl (by decide)) (Or.inr (Or.inl rfl))
  obtain ⟨-, -, -, -, -, -, hlen, himg⟩ := hop
  refine ⟨A, hA, by rw [hlen]; decide, ?_⟩
  exact (himg 0 (1/2, 0) rfl).1

/-- C15 fails as stated for an operator with two-row basis images: `grad`
of a scalar field on the triangle `tri` returns such an operator `A`, and
`sym(A, B)` stops at `log(Critical, ..)` instead of giving `B` the images of
`A` and marking it valid. -/
theorem sym_images_counterexample :
    ∃ A, ElementMatrix.gradBase Sample.midRules 1 Sample.scalarOp Sample.tri 2 false false
        false false = .ok A ∧ (A.matXq 0).rows = 2 ∧
      sym A ElementMatrix.blank = .error .critical := by
  obtain ⟨A, hA, hlen, hr⟩ := Sample.grad_scalar_tri
  refine ⟨A, hA, hr, ?_⟩
  have himg : symImage (A._matX.getD 0 DenseMatrix.empty) = .error .critical := by
    have hr1 : (A._matX.getD 0 DenseMatrix.empty).rows = 2 := hr
    rw [symImage, if_neg (by omega), if_neg (by omega), if_neg (by omega)]
  show ((forEach symImage A._matX).map _) = _
  rw [forEach_head_error symImage DenseMatrix.empty A._matX _ hlen himg]
  rfl

/-- C16: for every operator `A` whose basis images have 1, 4 or 9 rows,
`sym(A)` returns an operator `S`, and `sym(S)` returns `S` again: the same
basis images, ids and flags (the factor `0.5` of the code being one half of a
field in which 2 is not zero). -/
theorem sym_idempotent (h2 : (2 : R) ≠ 0) (A : ElementMatrix R P)
    (hrows : ∀ q, q < A._matX.length →
      (A.matXq q).rows = 1 ∨ (A.matXq q).rows = 4 ∨ (A.matXq q).rows = 9) :
    ∃ S, symRet A = .ok S ∧ symRet S = .ok S := by
  obtain ⟨B0, hB0⟩ : ∃ B0 : ElementMatrix R P, ElementMatrix.ofDof 0 = .ok B0 := ⟨_, rfl⟩
  obtain ⟨mats, hm, hS, -, -⟩ := sym_ok A B0 hrows
  have hm2 : forEach symImage mats = .ok mats :=
    forEach_idem symImage (symImage_idem h2) _ _ hm
  refine ⟨_, by rw [symRet, hB0, bind_ok]; exact hS, ?_⟩
  rw [symRet, hB0, bind_ok]
  show ((forEach symImage mats).map _) = _
  rw [hm2, map_ok]
  refine congrArg Except.ok ?_
  simp only [ElementMatrix.copyFrom, Bool.false_eq_true, if_false, DenseMatrix.resize_rows,
    DenseMatrix.resize_cols]

/-- Witness for C16: the operator `opG` with one four-row basis image over the
rationals. -/
theorem sym_idempotent_witness :
    ∃ S, symRet (Sample.opG false) = .ok S ∧ symRet S = .ok S :=
  sym_idempotent (by norm_num) (Sample.opG false)
    (by
      intro q hq
      have hq1 : q < 1 := hq
      interval_cases q
      exact Or.inr (Or.inl rfl))

/-- C17 (amended): for every operator `A` whose basis images have 1, 4 or 9
rows, `trace(A, B)` returns and gives `B` as many basis images as `A` has, each
of the shape of `A`'s, in which, for four-row images, the rows 0 and 3 both
equal `row0 + row3` of `A` and the rows 1 and 2 are zero, and for nine-row
images the rows 0, 4 and 8 all equal `row0 + row4 + row8` of `A` and every
other row is zero; one-row images are unchanged; `B` is valid and not
integrated. -/
theorem trace_images (A B : ElementMatrix R P)
    (hrows : ∀ q, q < A._matX.length →
      (A.matXq q).rows = 1 ∨ (A.matXq q).rows = 4 ∨ (A.matXq q).rows = 9) :
    ∃ T, trace A B = .ok T ∧ T._matX.length = A._matX.length ∧
      (∀ q, q < A._matX.length → TraceOf (A.matXq q) (T.matXq q) ∧
        ((A.matXq q).rows = 1 → T.matXq q = A.matXq q)) ∧
      T._valid = true ∧ T._integrated = false := by
  obtain ⟨mats, hm, hlen, hall⟩ := forEach_rel traceImage
    (fun m M => TraceOf m M ∧ (m.rows = 1 → M = m)) DenseMatrix.empty A._matX
    (fun q hq => traceImage_ok _ (hrows q hq))
  refine ⟨{ (B.copyFrom A false) with _matX := mats, _valid := true, _integrated := false },
    ?_, hlen, hall, rfl, rfl⟩
  show ((forEach traceImage A._matX).map _) = _
  rw [hm, map_ok]

/-- Witness for C17 (amended): the operator `opG` with one four-row basis
image. -/
theorem trace_images_witness :
    ∃ T, trace (Sample.opG false) ElementMatrix.blank = .ok T ∧
      T._matX.length = (Sample.opG false)._matX.length ∧
      (∀ q, q < (Sample.opG false)._matX.length →
        TraceOf ((Sample.opG false).matXq q) (T.matXq q) ∧
        (((Sample.opG false).matXq q).rows = 1 → T.matXq q = (Sample.opG false).matXq q)) ∧
      T._valid = true ∧ T._integrated = false :=
  trace_images (Sample.opG false) ElementMatrix.blank
    (by
      intro q hq
      have hq1 : q < 1 := hq
      interval_cases q
      exact Or.inr (Or.inl rfl))

/-- C17 fails as stated for an operator with two-row basis images: `grad`
of a scalar field on the triangle `tri` returns such an operator `A`, and
`trace(A, B)` stops at `log(Critical, ..)`. -/
theorem trace_images_counterexample :
    ∃ A, ElementMatrix.gradBase Sample.midRules 1 Sample.scalarOp Sample.tri 2 false false
        false false = .ok A ∧ (A.matXq 0).rows = 2 ∧
      trace A ElementMatrix.blank = .error .critical := by
  obtain ⟨A, hA, hlen, hr⟩ := Sample.grad_scalar_tri
  refine ⟨A, hA, hr, ?_⟩
  have himg : traceImage (A._matX.getD 0 DenseMatrix.empty) = .error .critical := by
    have hr1 : (A._matX.getD 0 DenseMatrix.empty).rows = 2 := hr
    rw [traceImage, if_neg (by omega), if_neg (by omega), if_neg (by omega)]
  show ((forEach traceImage A._matX).map _) = _
  rw [forEach_head_error traceImage DenseMatrix.empty A._matX _ hlen himg]
  rfl

/-- The row collapse of `dot` for a divergence-marked operand on an entity of
dimension `d` whose basis image has `d * d` rows: one row holding the sum of
the rows at the index set of `d`. -/
theorem collapse_div (Ai : DenseMatrix R) (d : ℕ) (hd : d = 1 ∨ d = 2 ∨ d = 3)
    (hr : Ai.rows = d * d) :
    ∃ Aii, collapseRows Ai (divIds d) = .ok Aii ∧ Aii.rows = 1 ∧ Aii.cols = Ai.cols ∧
      ∀ j, j < Ai.cols → Aii.val 0 j = divRow Ai d j := by
  have hpos : 0 < Ai.rows := by
    rcases hd with h | h | h <;> subst h <;> omega
  obtain ⟨A0, h0, hr0, hc0, hrow0, -⟩ := DenseMatrix.setRow_ok (DenseMatrix.ofSize 1 Ai.cols) 0
    (fun j => Ai.val 0 j) (by
      show 0 < (DenseMatrix.resize _ 1 Ai.cols).rows
      rw [DenseMatrix.resize_rows]
      exact Nat.one_pos)
  have hr0a : A0.rows = 1 := by
    rw [hr0]
    exact DenseMatrix.resize_rows _ _ _
  have hc0a : A0.cols = Ai.cols := by
    rw [hc0]
    exact DenseMatrix.resize_cols _ _ _
  have hc0b : (DenseMatrix.ofSize 1 Ai.cols : DenseMatrix R).cols = Ai.cols :=
    DenseMatrix.resize_cols _ _ _
  have hhead : ∀ ids : List ℕ, collapseRows Ai ids
      = forLoop (ids.length - 1) (fun i Aii =>
          match ids[i + 1]? with
          | some k =>
            (Ai.row k).bind fun rk =>
            (Aii.row 0).bind fun cur => Aii.setRow 0 (fun j => cur j + rk j)
          | none => .error .outOfRange) A0 := by
    intro ids
    rw [collapseRows, DenseMatrix.row_ok Ai 0 hpos, bind_ok, h0, bind_ok]
  have hadd : ∀ (M : DenseMatrix R) (k : ℕ), M.rows = 1 → M.cols = Ai.cols → k < Ai.rows →
      ∃ M1, ((Ai.row k).bind fun rk =>
          (M.row 0).bind fun cur => M.setRow 0 (fun j => cur j + rk j)) = .ok M1 ∧
        M1.rows = 1 ∧ M1.cols = Ai.cols ∧
        ∀ j, j < Ai.cols → M1.val 0 j = M.val 0 j + Ai.val k j := by
    intro M k hMr hMc hk
    obtain ⟨M1, e1, r1, c1, row1, -⟩ := DenseMatrix.setRow_ok M 0
      (fun j => M.val 0 j + Ai.val k j) (by rw [hMr]; exact Nat.one_pos)
    refine ⟨M1, ?_, r1.trans hMr, c1.trans hMc, fun j hj => row1 j (by rw [hMc]; exact hj)⟩
    rw [DenseMatrix.row_ok Ai k hk, bind_ok, DenseMatrix.row_ok M 0 (by rw [hMr]; exact Nat.one_pos),
      bind_ok]
    exact e1
  rcases hd with h | h | h
  · subst h
    refine ⟨A0, ?_, hr0a, hc0a, ?_⟩
    · rw [hhead]
      rfl
    · intro j hj
      rw [hrow0 j (by rw [hc0b]; exact hj)]
      simp [divRow, divIds]
  · subst h
    obtain ⟨M1, e1, r1, c1, v1⟩ := hadd A0 3 hr0a hc0a (by omega)
    refine ⟨M1, ?_, r1, c1, ?_⟩
    · rw [hhead]
      show forLoop 1 _ A0 = _
      rw [forLoop_succ]
      exact e1
    · intro j hj
      rw [v1 j hj, hrow0 j (by rw [hc0b]; exact hj)]
      simp [divRow, divIds]
  · subst h
    obtain ⟨M1, e1, r1, c1, v1⟩ := hadd A0 4 hr0a hc0a (by omega)
    obtain ⟨M2, e2, r2, c2, v2⟩ := hadd M1 8 r1 c1 (by omega)
    refine ⟨M2, ?_, r2, c2, ?_⟩
    · rw [hhead]
      show forLoop 2 _ A0 = _
      rw [forLoop_succ, forLoop_succ]
      show Except.bind (Except.bind (Except.ok A0) _) _ = _
      rw [bind_ok]
      show Except.bind ((Ai.row 4).bind fun rk =>
          (A0.row 0).bind fun cur => A0.setRow 0 (fun j => cur j + rk j)) _ = _
      rw [e1, bind_ok]
      exact e2
    · intro j hj
      rw [v2 j hj, v1 j hj, hrow0 j (by rw [hc0b]; exact hj)]
      simp [divRow, divIds, add_assoc]

/-- The quadrature loop of `dot` after `k` rounds, for any branch: when round
`q` turns the image `C_q` into a `ca x cb` matrix with the entries `g q` and
adds its multiple by `w_q * size` to the integrated matrix, the integrated
matrix holds the weighted sum of the `g q`. -/
theorem dot_accum_loop (A B : ElementMatrix R P) (b : R) (w : List R) (ent : MeshEntity R P)
    (ca cb : ℕ) (g : ℕ → ℕ → R)
    (hstep : ∀ q, q < w.length → ∀ C : ElementMatrix R P, q < C._matX.length →
      ∃ Ci1 : DenseMatrix R, Ci1.rows = ca ∧ Ci1.cols = cb ∧
        (∀ t, t < ca * cb → Ci1.data t = g q t) ∧
        dotStep A B b w q C
          = (if q > 0 then C.mat_.addAssign (Ci1.mulScalar (w.getD q 0 * ent.size))
              else .ok (C.mat_.assign (Ci1.mulScalar (w.getD q 0 * ent.size)))).map
            fun M => { C with _matX := C._matX.set q Ci1, mat_ := M })
    (C1 : ElementMatrix R P) (hC1 : C1._matX.length = w.length) (k : ℕ)
    (hk : k ≤ w.length) :
    ∃ X M, forLoop k (dotStep A B b w) C1 = .ok { C1 with _matX := X, mat_ := M } ∧
      X.length = w.length ∧ (k = 0 → M = C1.mat_) ∧
      (0 < k → M.rows = ca ∧ M.cols = cb ∧ ∀ t, t < ca * cb →
        M.data t = ∑ q in Finset.range k, g q t * (w.getD q 0 * ent.size)) := by
  induction k with
  | zero => exact ⟨C1._matX, C1.mat_, rfl, hC1, fun _ => rfl, fun h => absurd h (lt_irrefl 0)⟩
  | succ k ih =>
    obtain ⟨X, M, hloop, hXlen, -, hM⟩ := ih (Nat.le_of_succ_le hk)
    have hkw : k < w.length := hk
    obtain ⟨Ci1, hTr, hTc, hTd, hds⟩ := hstep k hkw { C1 with _matX := X, mat_ := M }
      (by show k < X.length; rw [hXlen]; exact hkw)
    have hSr : (Ci1.mulScalar (w.getD k 0 * ent.size)).rows = ca := by
      rw [DenseMatrix.mulScalar_rows, hTr]
    have hSc : (Ci1.mulScalar (w.getD k 0 * ent.size)).cols = cb := by
      rw [DenseMatrix.mulScalar_cols, hTc]
    have hSd : ∀ t, t < ca * cb → (Ci1.mulScalar (w.getD k 0 * ent.size)).data t
        = g k t * (w.getD k 0 * ent.size) := by
      intro t ht
      rw [DenseMatrix.mulScalar_data _ _ _ (by rw [hTr, hTc]; exact ht), hTd t ht]
    have hstep1 : ∀ M1 : DenseMatrix R,
        (if k > 0 then M.addAssign (Ci1.mulScalar (w.getD k 0 * ent.size))
          else .ok (M.assign (Ci1.mulScalar (w.getD k 0 * ent.size)))) = .ok M1 →
        forLoop (k + 1) (dotStep A B b w) C1
          = .ok { C1 with _matX := X.set k Ci1, mat_ := M1 } := by
      intro M1 hM1
      rw [forLoop_succ, hloop, bind_ok, hds]
      show Except.map _ (if k > 0 then _ else _) = _
      rw [hM1]
      rfl
    rcases Nat.eq_zero_or_pos k with hk0 | hkpos
    · refine ⟨X.set k Ci1, M.assign (Ci1.mulScalar (w.getD k 0 * ent.size)),
        hstep1 _ (by rw [if_neg (by omega)]), by rw [List.length_set]; exact hXlen,
        fun h => absurd h (Nat.succ_ne_zero k), fun _ => ⟨?_, ?_, ?_⟩⟩
      · rw [DenseMatrix.assign, DenseMatrix.copy__rows, hSr]
      · rw [DenseMatrix.assign, DenseMatrix.copy__cols, hSc]
      · intro t ht
        subst hk0
        rw [DenseMatrix.assign, DenseMatrix.copy__data _ _ _ (by rw [hSr, hSc]; exact ht),
          hSd t ht, Finset.sum_range_one]
    · obtain ⟨hMr, hMc, hMd⟩ := hM hkpos
      obtain ⟨M1, hadd, hr1, hc1, hd1⟩ := DenseMatrix.addAssign_same M
        (Ci1.mulScalar (w.getD k 0 * ent.size)) (hSr.trans hMr.symm) (hSc.trans hMc.symm)
      refine ⟨X.set k Ci1, M1, hstep1 _ (by rw [if_pos hkpos]; exact hadd),
        by rw [List.length_set]; exact hXlen, fun h => absurd h (Nat.succ_ne_zero k),
        fun _ => ⟨hr1.trans hMr, hc1.trans hMc, ?_⟩⟩
      intro t ht
      rw [hd1 t (by rw [hMr, hMc]; exact ht), hMd t ht, hSd t ht, Finset.sum_range_succ]

/-- The call `dot(A, B, b)` for any branch of the quadrature loop: the result
is valid and integrated, has the ids of `_prepDot`, and entry `(i, j)` of its
integrated matrix is the weighted sum of the entries `g q (cb * i + j)`. -/
theorem dotRet_accum (A B : ElementMatrix R P) (b : R) (w : List R) (ent : MeshEntity R P)
    (ca cb : ℕ) (g : ℕ → ℕ → R) (hord : A._order = B._order) (hw : A._w = some w)
    (hent : A._ent = some ent) (hA : A._matX.length = w.length)
    (hids : A._nCoeff * ent.nodeCount ≤ A._idsR.length)
    (hstep : ∀ q, q < w.length → ∀ C : ElementMatrix R P, q < C._matX.length →
      ∃ Ci1 : DenseMatrix R, Ci1.rows = ca ∧ Ci1.cols = cb ∧
        (∀ t, t < ca * cb → Ci1.data t = g q t) ∧
        dotStep A B b w q C
          = (if q > 0 then C.mat_.addAssign (Ci1.mulScalar (w.getD q 0 * ent.size))
              else .ok (C.mat_.assign (Ci1.mulScalar (w.getD q 0 * ent.size)))).map
            fun M => { C with _matX := C._matX.set q Ci1, mat_ := M }) :
    ∃ C, dotRet A B b = .ok C ∧ C._valid = true ∧ C._integrated = true ∧
      C._idsR = A._idsR ∧ C._idsC = B._idsR ∧
      ∀ i j, i < ca → j < cb → C.mat_.val i j
        = ∑ q in Finset.range w.length, g q (cb * i + j) * (w.getD q 0 * ent.size) := by
  have hids1 : ∀ e, A._ent = some e → A._nCoeff * e.nodeCount ≤ A._idsR.length := by
    intro e he
    rw [hent] at he
    cases he
    exact hids
  rw [dotRet_eq]
  rcases Nat.eq_zero_or_pos w.length with h0 | hpos
  · have hw0 : A._w = some [] := by rw [hw, List.length_eq_zero.mp h0]
    have hdot := dot_no_rules A B { (ElementMatrix.blank : ElementMatrix R P) with
        _newStyle := false } b hord hw0 hids1
    refine ⟨_, hdot, rfl, rfl, rfl, rfl, ?_⟩
    intro i j _ _
    rw [h0, Finset.sum_range_zero]
    show (DenseMatrix.resize _ _ _).data _ = 0
    exact resize_zero_data _ _ _ (fun t => resize_zero_data _ _ _ (fun _ => rfl) t) _
  · have hprep := prepDot_ok A B { (ElementMatrix.blank : ElementMatrix R P) with
        _newStyle := false } hord hids1
    obtain ⟨X, M, hloop, -, -, hM⟩ := dot_accum_loop A B b w ent ca cb g hstep
      { (ElementMatrix.copyFrom { (ElementMatrix.blank : ElementMatrix R P) with
          _newStyle := false } A false) with
        _idsR := A._idsR, _idsC := B._idsR, _ids := A._idsR,
        mat_ := (DenseMatrix.resize
            ({ (ElementMatrix.blank : ElementMatrix R P) with _newStyle := false }).mat_
            A.mat_.rows A.mat_.cols).resize A._idsR.length
          (if B._idsR.length = 0 then A._idsR.length else B._idsR.length) }
      hA w.length le_rfl
    obtain ⟨hr, hc, hd⟩ := hM hpos
    refine ⟨{ (ElementMatrix.copyFrom { (ElementMatrix.blank : ElementMatrix R P) with
          _newStyle := false } A false) with
        _idsR := A._idsR, _idsC := B._idsR, _ids := A._idsR, _matX := X, mat_ := M,
        _valid := true, _integrated := true }, ?_, rfl, rfl, rfl, rfl, ?_⟩
    · rw [dot, hprep]
      show (match A._w with
        | none => Except.error Error.outOfRange
        | some w => _) = _
      rw [hw]
      show Except.map _ (forLoop w.length (dotStep A B b w) _) = _
      rw [hloop]
      rfl
    · intro i j hi hj
      show M.data (M.cols * i + j) = _
      rw [hc, hd _ (flat_lt hi hj)]

/-- One round of `dot(A, B, b)` on the first divergence branch: `A` is
divergence-marked with `d * d`-row images, the image of `B` has one row. -/
theorem dotStep_div_left (A B : ElementMatrix R P) (b : R) (w : List R)
    (ent : MeshEntity R P) (d ca cb : ℕ) (hd : d = 1 ∨ d = 2 ∨ d = 3) (hdim : ent.dim = d)
    (hdiv : A._div = true) (hent : A._ent = some ent)
    (hA : A._matX.length = w.length) (hB : B._matX.length = w.length)
    (hsA : ∀ q, q < w.length → (A.matXq q).rows = d * d ∧ (A.matXq q).cols = ca)
    (hsB : ∀ q, q < w.length → (B.matXq q).rows = 1 ∧ (B.matXq q).cols = cb)
    (q : ℕ) (hq : q < w.length) (C : ElementMatrix R P) (hC : q < C._matX.length) :
    ∃ Ci1 : DenseMatrix R, Ci1.rows = ca ∧ Ci1.cols = cb ∧
      (∀ t, t < ca * cb → Ci1.data t
        = b * (divRow (A.matXq q) d (t / cb) * (B.matXq q).val 0 (t % cb))) ∧
      dotStep A B b w q C
        = (if q > 0 then C.mat_.addAssign (Ci1.mulScalar (w.getD q 0 * ent.size))
            else .ok (C.mat_.assign (Ci1.mulScalar (w.getD q 0 * ent.size)))).map
          fun M => { C with _matX := C._matX.set q Ci1, mat_ := M } := by
  obtain ⟨hAr, hAc⟩ := hsA q hq
  obtain ⟨hBr, hBc⟩ := hsB q hq
  have h1 : A._matX[q]? = some (A.matXq q) := getElem?_getD_of_lt _ _ (hA ▸ hq)
  have h2 : B._matX[q]? = some (B.matXq q) := getElem?_getD_of_lt _ _ (hB ▸ hq)
  have h3 : C._matX[q]? = some (C._matX.getD q DenseMatrix.empty) :=
    getElem?_getD_of_lt _ _ hC
  have h4 : w[q]? = some (w.getD q 0) := getElem?_getD_of_lt _ _ hq
  obtain ⟨Aii, hcol, hir, hic, hiv⟩ := collapse_div (A.matXq q) d hd hAr
  obtain ⟨Ci1, hT, hTr, hTc, hTd⟩ := DenseMatrix.transMult_ok Aii (B.matXq q)
    (C._matX.getD q DenseMatrix.empty) b 0 (hir.trans hBr.symm)
  have hpos : A._div = true ∨ ((A.matXq q).rows > 1 ∧ (B.matXq q).rows = 1) := Or.inl hdiv
  refine ⟨Ci1, by rw [hTr, hic, hAc], by rw [hTc, hBc], ?_, ?_⟩
  · intro t ht
    have hi : t / cb < (A.matXq q).cols := by
      rw [hAc]
      exact flat_div_lt ht
    rw [hTd t (by rw [hic, hAc, hBc]; exact ht), hir, Finset.sum_range_one, hBc, hiv _ hi]
    ring
  · simp only [dotStep, h1, h2, h3, h4, hent, if_pos hpos, if_pos hdiv, hdim, hcol, bind_ok, hT]

/-- One round of `dot(B, A, b)` on the second divergence branch: the image of
the first operand `B` has one row and `B` is not divergence-marked, the second
operand `A` is divergence-marked with `d * d`-row images. -/
theorem dotStep_div_right (A B : ElementMatrix R P) (b : R) (w : List R)
    (ent : MeshEntity R P) (d ca cb : ℕ) (hd : d = 1 ∨ d = 2 ∨ d = 3) (hdim : ent.dim = d)
    (hdivA : A._div = true) (hdivB : B._div = false)
    (hentA : A._ent = some ent) (hentB : B._ent = some ent)
    (hA : A._matX.length = w.length) (hB : B._matX.length = w.length)
    (hsA : ∀ q, q < w.length → (A.matXq q).rows = d * d ∧ (A.matXq q).cols = ca)
    (hsB : ∀ q, q < w.length → (B.matXq q).rows = 1 ∧ (B.matXq q).cols = cb)
    (q : ℕ) (hq : q < w.length) (C : ElementMatrix R P) (hC : q < C._matX.length) :
    ∃ Ci1 : DenseMatrix R, Ci1.rows = cb ∧ Ci1.cols = ca ∧
      (∀ t, t < cb * ca → Ci1.data t
        = b * ((B.matXq q).val 0 (t / ca) * divRow (A.matXq q) d (t % ca))) ∧
      dotStep B A b w q C
        = (if q > 0 then C.mat_.addAssign (Ci1.mulScalar (w.getD q 0 * ent.size))
            else .ok (C.mat_.assign (Ci1.mulScalar (w.getD q 0 * ent.size)))).map
          fun M => { C with _matX := C._matX.set q Ci1, mat_ := M } := by
  obtain ⟨hAr, hAc⟩ := hsA q hq
  obtain ⟨hBr, hBc⟩ := hsB q hq
  have h1 : A._matX[q]? = some (A.matXq q) := getElem?_getD_of_lt _ _ (hA ▸ hq)
  have h2 : B._matX[q]? = some (B.matXq q) := getElem?_getD_of_lt _ _ (hB ▸ hq)
  have h3 : C._matX[q]? = some (C._matX.getD q DenseMatrix.empty) :=
    getElem?_getD_of_lt _ _ hC
  have h4 : w[q]? = some (w.getD q 0) := getElem?_getD_of_lt _ _ hq
  obtain ⟨Aii, hcol, hir, hic, hiv⟩ := collapse_div (A.matXq q) d hd hAr
  obtain ⟨Ci1, hT, hTr, hTc, hTd⟩ := DenseMatrix.transMult_ok (B.matXq q) Aii
    (C._matX.getD q DenseMatrix.empty) b 0 (hBr.trans hir.symm)
  have hneg : ¬ (B._div = true ∨ ((B.matXq q).rows > 1 ∧ (A.matXq q).rows = 1)) := by
    rw [hdivB, hBr]
    simp
  have hpos : A._div = true ∨ ((A.matXq q).rows > 1 ∧ (B.matXq q).rows = 1) := Or.inl hdivA
  refine ⟨Ci1, by rw [hTr, hBc], by rw [hTc, hic, hAc], ?_, ?_⟩
  · intro t ht
    have hi : t % ca < (A.matXq q).cols := by
      rw [hAc]
      exact flat_mod_lt ht
    rw [hTd t (by rw [hic, hAc, hBc]; exact ht), hBr, Finset.sum_range_one, hic, hAc,
      hiv _ hi]
    ring
  · simp only [dotStep, h1, h2, h3, h4, hentB, if_neg hneg, if_pos hpos]
    simp only [hentA, hdivA, hdim, hcol, bind_ok, hT]

/-- C19: for a divergence-marked operator `A` on an entity of dimension `d` in
{1, 2, 3} whose basis images have `d * d` rows, and an operator `B` of the same
order on the same rule and entity with single-row basis images, not marked
divergence-form, `dot(A, B, b)` returns and entry `(i, j)` of its integrated
matrix is the sum over `q` of `w_q * size * b * s_q[i] * B_q[0][j]`, the entry
of `transpose(s_q) * B_q`, where `s_q` is the sum of the rows of `A_q` at the
index set {0}, {0,3} or {0,4,8}; and `dot(B, A, b)` returns and entry `(i, j)`
of its integrated matrix is the sum over `q` of
`w_q * size * b * B_q[0][i] * s_q[j]`, the entry of `transpose(B_q) * s_q`. -/
theorem dot_div_single (A B : ElementMatrix R P) (b : R) (w : List R)
    (ent : MeshEntity R P) (d ca cb : ℕ) (hd : d = 1 ∨ d = 2 ∨ d = 3) (hdim : ent.dim = d)
    (hdivA : A._div = true) (hdivB : B._div = false) (hord : A._order = B._order)
    (hwA : A._w = some w) (hwB : B._w = some w)
    (hentA : A._ent = some ent) (hentB : B._ent = some ent)
    (hA : A._matX.length = w.length) (hB : B._matX.length = w.length)
    (hsA : ∀ q, q < w.length → (A.matXq q).rows = d * d ∧ (A.matXq q).cols = ca)
    (hsB : ∀ q, q < w.length → (B.matXq q).rows = 1 ∧ (B.matXq q).cols = cb)
    (hidsA : A._nCoeff * ent.nodeCount ≤ A._idsR.length)
    (hidsB : B._nCoeff * ent.nodeCount ≤ B._idsR.length) :
    (∃ C, dotRet A B b = .ok C ∧ C._valid = true ∧ C._integrated = true ∧
      ∀ i j, i < ca → j < cb → C.mat_.val i j
        = ∑ q in Finset.range w.length, (w.getD q 0 * ent.size * b)
            * (divRow (A.matXq q) d i * (B.matXq q).val 0 j)) ∧
    (∃ C, dotRet B A b = .ok C ∧ C._valid = true ∧ C._integrated = true ∧
      ∀ i j, i < cb → j < ca → C.mat_.val i j
        = ∑ q in Finset.range w.length, (w.getD q 0 * ent.size * b)
            * ((B.matXq q).val 0 i * divRow (A.matXq q) d j)) := by
  constructor
  · obtain ⟨C, hC, hv, hi, -, -, hM⟩ := dotRet_accum A B b w ent ca cb
      (fun q t => b * (divRow (A.matXq q) d (t / cb) * (B.matXq q).val 0 (t % cb)))
      hord hwA hentA hA hidsA
      (fun q hq C hC => dotStep_div_left A B b w ent d ca cb hd hdim hdivA hentA hA hB hsA hsB
        q hq C hC)
    refine ⟨C, hC, hv, hi, ?_⟩
    intro i j hi1 hj1
    rw [hM i j hi1 hj1]
    apply Finset.sum_congr rfl
    intro q _
    rw [flat_div i hj1, flat_mod i hj1]
    ring
  · obtain ⟨C, hC, hv, hi, -, -, hM⟩ := dotRet_accum B A b w ent cb ca
      (fun q t => b * ((B.matXq q).val 0 (t / ca) * divRow (A.matXq q) d (t % ca)))
      hord.symm hwB hentB hB hidsB
      (fun q hq C hC => dotStep_div_right A B b w ent d ca cb hd hdim hdivA hdivB hentA hentB
        hA hB hsA hsB q hq C hC)
    refine ⟨C, hC, hv, hi, ?_⟩
    intro i j hi1 hj1
    rw [hM i j hi1 hj1]
    apply Finset.sum_congr rfl
    intro q _
    rw [flat_div i hj1, flat_mod i hj1]
    ring

/-- Witness for C19: the divergence-marked operator `opG` with one four-row
basis image and the value operator `opV` on the triangle `tri`. -/
theorem dot_div_single_witness :
    (∃ C, dotRet (Sample.opG true) Sample.opV 5 = .ok C ∧ C._valid = true ∧
      C._integrated = true ∧
      ∀ i j, i < 6 → j < 3 → C.mat_.val i j
        = ∑ q in Finset.range ([1] : List ℚ).length,
            (([1] : List ℚ).getD q 0 * Sample.tri.size * 5)
            * (divRow ((Sample.opG true).matXq q) 2 i * (Sample.opV.matXq q).val 0 j)) ∧
    (∃ C, dotRet Sample.opV (Sample.opG true) 5 = .ok C ∧ C._valid = true ∧
      C._integrated = true ∧
      ∀ i j, i < 3 → j < 6 → C.mat_.val i j
        = ∑ q in Finset.range ([1] : List ℚ).length,
            (([1] : List ℚ).getD q 0 * Sample.tri.size * 5)
            * ((Sample.opV.matXq q).val 0 i * divRow ((Sample.opG true).matXq q) 2 j)) :=
  dot_div_single (Sample.opG true) Sample.opV 5 [1] Sample.tri 2 6 3 (Or.inr (Or.inl rfl)) rfl
    rfl rfl rfl rfl rfl rfl rfl rfl rfl
    (by
      intro q hq
      have hq1 : q < 1 := hq
      interval_cases q
      exact ⟨rfl, rfl⟩)
    (by
      intro q hq
      have hq1 : q < 1 := hq
      interval_cases q
      exact ⟨rfl, rfl⟩)
    (by decide) (by decide)

theorem forLoop_error_first {σ : Type} (body : ℕ → σ → Except Error σ) (s : σ) (e : Error)
    (h : body 0 s = .error e) (n : ℕ) (hn : 0 < n) : forLoop n body s = .error e := by
  induction n with
  | zero => exact absurd hn (Nat.lt_irrefl 0)
  | succ k ih =>
    rw [forLoop_succ]
    rcases Nat.eq_zero_or_pos k with hk | hk
    · subst hk
      exact h
    · rw [ih hk]
      rfl

/-- The call `dot(A, A, b, C)` of a divergence-marked operator with itself on
an entity of dimension 2 or 3: the first branch of the loop collapses the rows
of the first operand only and hands the one-row matrix and the uncollapsed
`d * d`-row image of the second operand to `transMult`, whose product
`A.T * B` is not defined for different row counts. -/
theorem dot_div_self_error (A C : ElementMatrix R P) (b : R) (w : List R)
    (ent : MeshEntity R P) (d : ℕ) (hd : d = 2 ∨ d = 3) (hdim : ent.dim = d)
    (hdiv : A._div = true) (hw : A._w = some w) (hent : A._ent = some ent)
    (hpos : 0 < w.length) (h0 : 0 < A._matX.length) (hrows : (A.matXq 0).rows = d * d)
    (hids : A._nCoeff * ent.nodeCount ≤ A._idsR.length) :
    dot A A b C = .error .lengthError := by
  have hprep := prepDot_ok A A C rfl
    (fun e he => by rw [hent] at he; cases he; exact hids)
  have h1 : A._matX[0]? = some (A.matXq 0) := getElem?_getD_of_lt _ _ h0
  have h4 : w[0]? = some (w.getD 0 0) := getElem?_getD_of_lt _ _ hpos
  obtain ⟨Aii, hcol, hir, -, -⟩ := collapse_div (A.matXq 0) d
    (by rcases hd with h | h; exact Or.inr (Or.inl h); exact Or.inr (Or.inr h)) hrows
  have hT : ∀ Ci : DenseMatrix R, Aii.transMult (A.matXq 0) Ci b 0 = .error .lengthError := by
    intro Ci
    rw [DenseMatrix.transMult, if_neg]
    rw [hir, hrows]
    rcases hd with h | h <;> subst h <;> decide
  have hp : A._div = true ∨ ((A.matXq 0).rows > 1 ∧ (A.matXq 0).rows = 1) := Or.inl hdiv
  rw [dot, hprep]
  show (match A._w with
    | none => Except.error Error.outOfRange
    | some w => _) = _
  rw [hw]
  show Except.map _ (forLoop w.length (dotStep A A b w) _) = _
  have hstep : ∀ C1 : ElementMatrix R P, 0 < C1._matX.length →
      dotStep A A b w 0 C1 = .error .lengthError := by
    intro C1 hC1
    have h3 : C1._matX[0]? = some (C1._matX.getD 0 DenseMatrix.empty) :=
      getElem?_getD_of_lt _ _ hC1
    simp only [dotStep, h1, h3, h4, hent, if_pos hp, if_pos hdiv, hdim, hcol, bind_ok, hT]
    rfl
  have hloop : ∀ C1 : ElementMatrix R P, 0 < C1._matX.length →
      forLoop w.length (dotStep A A b w) C1 = .error .lengthError :=
    fun C1 h => forLoop_error_first _ _ _ (hstep C1 h) _ hpos
  rw [hloop]
  · rfl
  · exact h0

/-- The divergence-marked gradient operator of a vector field with two
components on the triangle `tri`: `grad(tri, 2, false, false, true, 2, 3, 0)`
returns an operator on the three points of the midpoint rule with three
four-row basis images and six row ids. -/
theorem Sample.grad_vec_tri :
    ∃ G, ElementMatrix.grad Sample.midRules 1 ElementMatrix.blank Sample.tri 2 false false true
        2 3 0 false = .ok G ∧ G._div = true ∧ G._nCoeff = 2 ∧
      G._w = some [1/3, 1/3, 1/3] ∧ G._ent = some Sample.tri ∧ G._matX.length = 3 ∧
      (G.matXq 0).rows = 4 ∧ (G.matXq 1).rows = 4 ∧ (G.matXq 2).rows = 4 ∧
      G._idsR.length = 6 :=
  ⟨_, rfl, rfl, rfl, rfl, rfl, rfl, rfl, rfl, rfl, rfl⟩

/-- C18 (the code at the failing input): for the vector field with two
components on the triangle `tri`, `G = grad(.., div = true)` is a
divergence-marked operator with three four-row basis images, and
`dot(G, G, k)` with `k = 1` does not return a result: the loop collapses the
rows 0 and 3 of the first operand only and `transMult` meets a one-row and a
four-row matrix. -/
theorem dot_div_self_fails :
    ∃ G, ElementMatrix.grad Sample.midRules 1 ElementMatrix.blank Sample.tri 2 false false true
        2 3 0 false = .ok G ∧ G._div = true ∧ G._nCoeff = 2 ∧ G._matX.length = 3 ∧
      (G.matXq 0).rows = 4 ∧ (G.matXq 1).rows = 4 ∧ (G.matXq 2).rows = 4 ∧
      dot G G 1 ElementMatrix.blank = .error .lengthError ∧
      dotRet G G 1 = .error .lengthError := by
  obtain ⟨G, hG, hdiv, hnc, hw, hent, hlen, hr0, hr1, hr2, hids⟩ := Sample.grad_vec_tri
  have hids1 : G._nCoeff * Sample.tri.nodeCount ≤ G._idsR.length := by
    rw [hnc, hids]
    decide
  refine ⟨G, hG, hdiv, hnc, hlen, hr0, hr1, hr2, ?_, ?_⟩
  · exact dot_div_self_error G ElementMatrix.blank 1 [1/3, 1/3, 1/3] Sample.tri 2 (Or.inl rfl)
      rfl hdiv hw hent (by decide) (by rw [hlen]; decide) hr0 hids1
  · rw [dotRet_eq]
    exact dot_div_self_error G _ 1 [1/3, 1/3, 1/3] Sample.tri 2 (Or.inl rfl)
      rfl hdiv hw hent (by decide) (by rw [hlen]; decide) hr0 hids1

namespace SparseMatrix

theorem findSlot_some (rowIdx : List ℕ) (j : ℕ) (n : ℕ) :
    ∀ k t, findSlot rowIdx j k n = some t → k ≤ t ∧ t < k + n ∧ rowIdx[t]? = some j := by
  induction n with
  | zero =>
    intro k t h
    cases h
  | succ n ih =>
    intro k t h
    rw [findSlot] at h
    cases hk : rowIdx[k]? with
    | none =>
      rw [hk] at h
      cases h
    | some c =>
      rw [hk] at h
      by_cases hc : c = j
      · simp only [if_pos hc] at h
        cases h
        exact ⟨le_rfl, by omega, by rw [hk, hc]⟩
      · simp only [if_neg hc] at h
        obtain ⟨h1, h2, h3⟩ := ih (k + 1) t h
        exact ⟨by omega, by omega, h3⟩

/-- The loop of `addVal` adds to the slot that the search finds. -/
theorem addValScan_eq (S : SparseMatrix R) (j : ℕ) (val : R) (n : ℕ) :
    ∀ k, (∀ t, k ≤ t → t < k + n → t < S.rowIdx_.length ∧ t < S.vals_.length) →
      addValScan S j val k n = .ok (S.bump (findSlot S.rowIdx_ j k n) val) := by
  induction n with
  | zero =>
    intro k _
    rfl
  | succ n ih =>
    intro k hb
    obtain ⟨hk1, hk2⟩ := hb k le_rfl (by omega)
    have e1 : S.rowIdx_[k]? = some (S.rowIdx_.getD k 0) := getElem?_getD_of_lt _ _ hk1
    have e2 : S.vals_[k]? = some (S.vals_.getD k 0) := getElem?_getD_of_lt _ _ hk2
    rw [addValScan, findSlot]
    simp only [e1]
    by_cases hc : S.rowIdx_.getD k 0 = j
    · simp only [if_pos hc, e2]
      rfl
    · simp only [if_neg hc]
      exact ih (k + 1) (fun t h1 h2 => hb t (by omega) (by omega))

/-- A position of the pattern: its row is a row of `colPtr_`, its slot lies in
the range of the row and holds the column. -/
theorem slot_range (S : SparseMatrix R) (i j t : ℕ) (h : S.slot i j = some t) :
    i + 1 < S.colPtr_.length ∧ S.colPtr_.getD i 0 ≤ t ∧ t < S.colPtr_.getD (i + 1) 0 ∧
      S.rowIdx_[t]? = some j := by
  rw [slot] at h
  cases h1 : S.colPtr_[i]? with
  | none =>
    rw [h1] at h
    cases h
  | some lo =>
    cases h2 : S.colPtr_[i + 1]? with
    | none =>
      rw [h1, h2] at h
      cases h
    | some hi =>
      rw [h1, h2] at h
      obtain ⟨a, b, c⟩ := findSlot_some _ _ _ _ _ h
      have hlen : i + 1 < S.colPtr_.length := by
        by_contra hn
        rw [List.getElem?_eq_none (by omega)] at h2
        cases h2
      have hlo : S.colPtr_.getD i 0 = lo := by
        rw [List.getD_eq_getElem?_getD, h1]
        rfl
      have hhi : S.colPtr_.getD (i + 1) 0 = hi := by
        rw [List.getD_eq_getElem?_getD, h2]
        rfl
      refine ⟨hlen, by rw [hlo]; exact a, by rw [hhi]; omega, c⟩

/-- Two positions of a well-formed pattern with the same slot are the same
position. -/
theorem slot_inj (S : SparseMatrix R) (hS : PatternOk S) (i j i1 j1 t : ℕ)
    (h : S.slot i j = some t) (h1 : S.slot i1 j1 = some t) : i = i1 ∧ j = j1 := by
  obtain ⟨a1, a2, a3, a4⟩ := slot_range S i j t h
  obtain ⟨b1, b2, b3, b4⟩ := slot_range S i1 j1 t h1
  obtain ⟨-, -, hmono, -, -⟩ := hS
  refine ⟨?_, ?_⟩
  · rcases Nat.lt_trichotomy i i1 with hlt | heq | hgt
    · have := hmono (i + 1) a1 i1 (by omega) hlt
      omega
    · exact heq
    · have := hmono (i1 + 1) b1 i (by omega) hgt
      omega
  · rw [a4] at b4
    exact Option.some.inj b4

/-- The method `addVal(i, j, val)` on a position of a well-formed pattern of
the general storage type adds `val` to the slot of the position. -/
theorem addVal_eq (S : SparseMatrix R) (hS : PatternOk S) (i j t : ℕ) (val : R)
    (h : S.slot i j = some t) : S.addVal i j val = .ok (S.bump (some t) val) := by
  obtain ⟨a1, -, a3, -⟩ := slot_range S i j t h
  obtain ⟨hst, hne, -, hidx, hvals⟩ := hS
  have e1 : S.colPtr_[i]? = some (S.colPtr_.getD i 0) := getElem?_getD_of_lt _ _ (by omega)
  have e2 : S.colPtr_[i + 1]? = some (S.colPtr_.getD (i + 1) 0) := getElem?_getD_of_lt _ _ a1
  have hslot : findSlot S.rowIdx_ j (S.colPtr_.getD i 0)
      (S.colPtr_.getD (i + 1) 0 - S.colPtr_.getD i 0) = some t := by
    rw [slot] at h
    simp only [e1, e2] at h
    exact h
  have hb := hidx (i + 1) a1
  rw [addVal, if_neg (by omega), hst, if_neg (by simp)]
  simp only [e1, e2]
  rw [addValScan_eq S j val _ _ (fun u h1 h2 => ⟨by omega, by omega⟩), hslot]

theorem bump_same (S : SparseMatrix R) (o : Option ℕ) (val : R) : SamePattern S (S.bump o val) := by
  cases o with
  | none => exact ⟨rfl, rfl, rfl, rfl, rfl, rfl⟩
  | some t => exact ⟨rfl, rfl, rfl, List.length_set _ _ _, rfl, rfl⟩

theorem slot_same (S T : SparseMatrix R) (h : SamePattern S T) (i j : ℕ) :
    T.slot i j = S.slot i j := by
  rw [slot, slot, h.1, h.2.1]

theorem patternOk_same (S T : SparseMatrix R) (h : SamePattern S T) (hS : PatternOk S) :
    PatternOk T := by
  obtain ⟨e1, e2, e3, e4, -, -⟩ := h
  obtain ⟨a, b, c, d, e⟩ := hS
  refine ⟨e3.trans a, ?_, ?_, ?_, ?_⟩
  · rw [e1]; exact b
  · rw [e1]; exact c
  · rw [e1, e2]; exact d
  · rw [e2, e4]; exact e

theorem samePattern_trans (S T U : SparseMatrix R) (h1 : SamePattern S T)
    (h2 : SamePattern T U) : SamePattern S U :=
  ⟨h2.1.trans h1.1, h2.2.1.trans h1.2.1, h2.2.2.1.trans h1.2.2.1,
    h2.2.2.2.1.trans h1.2.2.2.1, h2.2.2.2.2.1.trans h1.2.2.2.2.1,
    h2.2.2.2.2.2.trans h1.2.2.2.2.2⟩

/-- The entries after `addVal` on a position of the pattern: `val` is added at
the position, every other entry is unchanged. -/
theorem entry_bump (S : SparseMatrix R) (hS : PatternOk S) (i j t : ℕ) (val : R)
    (h : S.slot i j = some t) (r c : ℕ) :
    (S.bump (some t) val).entry r c
      = S.entry r c + if i = r ∧ j = c then val else 0 := by
  obtain ⟨a1, -, a3, -⟩ := slot_range S i j t h
  have ht : t < S.vals_.length := by
    have := hS.2.2.2.1 (i + 1) a1
    have := hS.2.2.2.2
    omega
  have hsl : (S.bump (some t) val).slot r c = S.slot r c := slot_same _ _ (bump_same S _ val) r c
  rw [entry, entry, hsl]
  cases hk : S.slot r c with
  | none =>
    have hne : ¬ (i = r ∧ j = c) := by
      rintro ⟨rfl, rfl⟩
      rw [h] at hk
      cases hk
    rw [if_neg hne, add_zero]
  | some k =>
    show (S.vals_.set t (S.vals_.getD t 0 + val)).getD k 0 = S.vals_.getD k 0 + _
    by_cases hkt : t = k
    · subst hkt
      obtain ⟨e1, e2⟩ := slot_inj S hS i j r c t h hk
      rw [getD_set_self _ _ _ ht, if_pos ⟨e1, e2⟩]
    · have hne : ¬ (i = r ∧ j = c) := by
        rintro ⟨rfl, rfl⟩
        rw [h] at hk
        exact hkt (Option.some.inj hk)
      rw [getD_set_ne _ _ _ hkt, if_neg hne, add_zero]

end SparseMatrix

/-- The call `integrate()` returns on an operator that has what it reads; the
ids and the shape of the integrated matrix are kept. -/
theorem integrate_total (m : ElementMatrix R P) (h : Integrable m) :
    ∃ m1, m.integrate = .ok m1 ∧ m1._idsR = m._idsR ∧ m1._idsC = m._idsC ∧
      m1.mat_.rows = m.mat_.rows ∧ m1.mat_.cols = m.mat_.cols := by
  by_cases hc : m._newStyle = true ∧ m._integrated = false ∧ m._valid = true
  · obtain ⟨w, ent, hw, hent, hlen, hshape⟩ := h hc
    obtain ⟨M, hM, hr, hcl, -⟩ := ElementMatrix.integrate_ok m w ent hc.1 hc.2.1 hc.2.2 hw hent
      hshape hlen
    exact ⟨_, hM, rfl, rfl, hr, hcl⟩
  · exact ⟨m, by rw [ElementMatrix.integrate, if_neg hc], rfl, rfl, rfl, rfl⟩

namespace SparseMatrix

/-- The inner loop of `addS` over the columns of row `i` of the integrated
matrix: the pattern is kept and every entry of the row is added at its
position. -/
theorem addS_inner (S0 : SparseMatrix R) (hS0 : PatternOk S0) (m1 : ElementMatrix R P)
    (hcov : Covers S0 m1) (b : R) (i : ℕ) (hi : i < m1.mat_.rows) (S : SparseMatrix R)
    (hS : SamePattern S0 S) :
    ∃ S1, forLoop m1.mat_.cols (fun j S2 =>
        match m1._idsR[i]?, m1._idsC[j]? with
        | some r, some c => (m1.mat_.get i j).bind fun v => addVal S2 r c (b * v)
        | _, _ => .error .outOfRange) S = .ok S1 ∧
      SamePattern S0 S1 ∧
      ∀ r c, S1.entry r c = S.entry r c + ∑ j in Finset.range m1.mat_.cols,
        if m1._idsR.getD i 0 = r ∧ m1._idsC.getD j 0 = c then b * m1.mat_.val i j else 0 := by
  obtain ⟨hlr, hlc, hpos⟩ := hcov
  have e1 : m1._idsR[i]? = some (m1._idsR.getD i 0) := getElem?_getD_of_lt _ _ (by omega)
  apply forLoop_inv (fun n T => SamePattern S0 T ∧
    ∀ r c, T.entry r c = S.entry r c + ∑ j in Finset.range n,
      if m1._idsR.getD i 0 = r ∧ m1._idsC.getD j 0 = c then b * m1.mat_.val i j else 0)
  · exact ⟨hS, fun r c => by rw [Finset.sum_range_zero, add_zero]⟩
  · intro j T hj ⟨hT, hent⟩
    have e2 : m1._idsC[j]? = some (m1._idsC.getD j 0) := getElem?_getD_of_lt _ _ (by omega)
    have hTok : PatternOk T := patternOk_same S0 T hT hS0
    obtain ⟨t, ht⟩ := Option.ne_none_iff_exists'.mp (hpos i hi j hj)
    have ht1 : T.slot (m1._idsR.getD i 0) (m1._idsC.getD j 0) = some t := by
      rw [slot_same S0 T hT]
      exact ht
    refine ⟨T.bump (some t) (b * m1.mat_.val i j), ?_,
      samePattern_trans S0 T _ hT (bump_same T _ _), ?_⟩
    · simp only [e1, e2]
      rw [DenseMatrix.get_ok _ i j hi hj, bind_ok]
      exact addVal_eq T hTok _ _ t _ ht1
    · intro r c
      rw [entry_bump T hTok _ _ t _ ht1 r c, hent r c, Finset.sum_range_succ, add_assoc]

/-- The double loop of `addS` over the integrated matrix of `m1`: the pattern
is kept and the contribution of the operator is added. -/
theorem addS_loops (S : SparseMatrix R) (hS : PatternOk S) (m1 : ElementMatrix R P)
    (hcov : Covers S m1) (b : R) :
    ∃ S1, forLoop m1.mat_.rows (fun i S1 =>
        forLoop m1.mat_.cols (fun j S2 =>
          match m1._idsR[i]?, m1._idsC[j]? with
          | some r, some c => (m1.mat_.get i j).bind fun v => addVal S2 r c (b * v)
          | _, _ => .error .outOfRange) S1) S = .ok S1 ∧
      SamePattern S S1 ∧ ∀ r c, S1.entry r c = S.entry r c + contrib m1 b r c := by
  have key := forLoop_inv (fun n T => SamePattern S T ∧
      ∀ r c, T.entry r c = S.entry r c + ∑ i in Finset.range n,
        ∑ j in Finset.range m1.mat_.cols,
          if m1._idsR.getD i 0 = r ∧ m1._idsC.getD j 0 = c then b * m1.mat_.val i j else 0)
    (fun i S1 =>
        forLoop m1.mat_.cols (fun j S2 =>
          match m1._idsR[i]?, m1._idsC[j]? with
          | some r, some c => (m1.mat_.get i j).bind fun v => addVal S2 r c (b * v)
          | _, _ => .error .outOfRange) S1) m1.mat_.rows S
    ⟨⟨rfl, rfl, rfl, rfl, rfl, rfl⟩, fun r c => by rw [Finset.sum_range_zero, add_zero]⟩
    (by
      intro i T hi ⟨hT, hent⟩
      obtain ⟨T1, h1, hsame, he⟩ := addS_inner S hS m1 hcov b i hi T hT
      refine ⟨T1, h1, hsame, ?_⟩
      intro r c
      rw [he r c, hent r c, Finset.sum_range_succ, add_assoc])
  exact key

/-- The method `addS(A, f, scale)` on a well-formed pattern that holds the
positions of the operator: the operator is integrated and its contribution
with the factor `f * scale` is added. -/
theorem addS_ok (S : SparseMatrix R) (hS : PatternOk S) (m : ElementMatrix R P)
    (hint : Integrable m) (hcov : Covers S m) (f scale : R) :
    ∃ S1 m1, S.add m f scale = .ok (S1, m1) ∧ m.integrate = .ok m1 ∧ SamePattern S S1 ∧
      ∀ r c, S1.entry r c = S.entry r c + contrib m1 (f * scale) r c := by
  obtain ⟨m1, hm1, hR, hC, hr, hc⟩ := integrate_total m hint
  have hcov1 : Covers S m1 := by
    obtain ⟨a, b, c⟩ := hcov
    refine ⟨by rw [hr, hR]; exact a, by rw [hc, hC]; exact b, ?_⟩
    intro i hi j hj
    rw [hR, hC]
    exact c i (hr ▸ hi) j (hc ▸ hj)
  obtain ⟨S1, hloop, hsame, hent⟩ := addS_loops S hS m1 hcov1 (f * scale)
  refine ⟨S1, m1, ?_, hm1, hsame, hent⟩
  rw [add, addS, hm1, bind_ok]
  show Except.map _ (forLoop m1.mat_.rows _ S) = _
  rw [hloop]
  rfl

end SparseMatrix

theorem covers_same (S T : SparseMatrix R) (h : SamePattern S T) (m : ElementMatrix R P)
    (hc : Covers S m) : Covers T m :=
  ⟨hc.1, hc.2.1, fun i hi j hj => by
    rw [SparseMatrix.slot_same S T h]
    exact hc.2.2 i hi j hj⟩

/-- The loop of `_T_assembleFConst` over the operators of the map: every
operator is integrated and its contribution is added to the entries. -/
theorem assemble_loop (A : ElementMatrixMap R P) (f scale : R) (S0 : SparseMatrix R)
    (hS0 : PatternOk S0)
    (hint : ∀ q, q < A.mats.length → Integrable (A.mats.getD q ElementMatrix.blank))
    (hcov : ∀ q, q < A.mats.length → Covers S0 (A.mats.getD q ElementMatrix.blank)) :
    ∃ st : SparseMatrix R × List (ElementMatrix R P),
      forLoop A.mats.length (fun q (st : SparseMatrix R × List (ElementMatrix R P)) =>
        match st.2[q]? with
        | none => .error .outOfRange
        | some m => (st.1.add m f scale).map fun r => (r.1, st.2.set q r.2)) (S0, A.mats)
        = .ok st ∧
      SamePattern S0 st.1 ∧ st.2.length = A.mats.length ∧
      (∀ q, q < A.mats.length →
        (A.mats.getD q ElementMatrix.blank).integrate = .ok (st.2.getD q ElementMatrix.blank)) ∧
      ∀ r c, st.1.entry r c = S0.entry r c + ∑ q in Finset.range A.mats.length,
        contrib (st.2.getD q ElementMatrix.blank) (f * scale) r c := by
  obtain ⟨st, hst, h1, h2, -, h4, h5⟩ := forLoop_inv
    (fun k (st : SparseMatrix R × List (ElementMatrix R P)) =>
      SamePattern S0 st.1 ∧ st.2.length = A.mats.length ∧
      (∀ q, k ≤ q → st.2.getD q ElementMatrix.blank = A.mats.getD q ElementMatrix.blank) ∧
      (∀ q, q < k →
        (A.mats.getD q ElementMatrix.blank).integrate
          = .ok (st.2.getD q ElementMatrix.blank)) ∧
      ∀ r c, st.1.entry r c = S0.entry r c + ∑ q in Finset.range k,
        contrib (st.2.getD q ElementMatrix.blank) (f * scale) r c)
    (fun q (st : SparseMatrix R × List (ElementMatrix R P)) =>
        match st.2[q]? with
        | none => .error .outOfRange
        | some m => (st.1.add m f scale).map fun r => (r.1, st.2.set q r.2))
    A.mats.length (S0, A.mats)
    ⟨⟨rfl, rfl, rfl, rfl, rfl, rfl⟩, rfl, fun _ _ => rfl,
      fun q hq => absurd hq (Nat.not_lt_zero q),
      fun r c => by rw [Finset.sum_range_zero, add_zero]⟩
    (by
      intro k st hk ⟨hsame, hlen, hrest, hdone, hent⟩
      have hk2 : k < st.2.length := by rw [hlen]; exact hk
      have hm : st.2[k]? = some (A.mats.getD k ElementMatrix.blank) := by
        rw [getElem?_getD_of_lt _ ElementMatrix.blank hk2, hrest k le_rfl]
      obtain ⟨S1, m1, hadd, hi1, hs1, he1⟩ := SparseMatrix.addS_ok st.1
        (SparseMatrix.patternOk_same S0 st.1 hsame hS0) (A.mats.getD k ElementMatrix.blank)
        (hint k hk) (covers_same S0 st.1 hsame _ (hcov k hk)) f scale
      refine ⟨(S1, st.2.set k m1), ?_, SparseMatrix.samePattern_trans S0 st.1 S1 hsame hs1,
        by rw [List.length_set]; exact hlen, ?_, ?_, ?_⟩
      · simp only [hm]
        rw [hadd]
        rfl
      · intro q hq
        show (st.2.set k m1).getD q ElementMatrix.blank = _
        rw [getD_set_ne _ _ _ (by omega)]
        exact hrest q (by omega)
      · intro q hq
        show _ = Except.ok ((st.2.set k m1).getD q ElementMatrix.blank)
        rcases Nat.lt_succ_iff_lt_or_eq.mp hq with hlt | heq
        · rw [getD_set_ne _ _ _ (by omega)]
          exact hdone q hlt
        · subst heq
          rw [getD_set_self _ _ _ hk2]
          exact hi1
      · intro r c
        show S1.entry r c = S0.entry r c + ∑ q in Finset.range (k + 1),
          contrib ((st.2.set k m1).getD q ElementMatrix.blank) (f * scale) r c
        rw [he1 r c, hent r c, Finset.sum_range_succ, getD_set_self _ _ _ hk2, add_assoc]
        congr 2
        apply Finset.sum_congr rfl
        intro q hq
        rw [getD_set_ne _ _ _ (by have := Finset.mem_range.mp hq; omega)])
  exact ⟨st, hst, h1, h2, h4, h5⟩

/-- Counterexample for C11: the map with the operator `op2`, whose integrated
matrix has the entries 4 and 6 at the positions (4, 0) and (5, 0), and three
6 x 1 sparse matrices with the extents of the map, so that
`fillSparsityPattern` leaves them as they are.  On `spHole`, whose pattern
lacks (5, 0), `assemble(3, R, 2)` returns and the entry at (5, 0) is 0 as
before, not 36; on `spLower`, of the storage type -1, it returns and the entry
at (4, 0) is 10 as before, not 34; and on the empty map with the empty matrix
the call fails. -/
theorem assemble_counterexample :
    (∃ S1 M1, Sample.mapOp2.assemble (fun _ S => .ok S) (fun _ S => .ok S) 3 Sample.spHole 2
        = .ok (S1, M1) ∧
      (M1.mats.getD 0 ElementMatrix.blank).mat_.val 1 0 = 6 ∧
      (M1.mats.getD 0 ElementMatrix.blank)._idsR.getD 1 0 = 5 ∧
      (M1.mats.getD 0 ElementMatrix.blank)._idsC.getD 0 0 = 0 ∧
      Sample.spHole.entry 5 0 = 0 ∧ S1.entry 5 0 = 0) ∧
    (∃ S1 M1, Sample.mapOp2.assemble (fun _ S => .ok S) (fun _ S => .ok S) 3 Sample.spLower 2
        = .ok (S1, M1) ∧
      (M1.mats.getD 0 ElementMatrix.blank).mat_.val 0 0 = 4 ∧
      (M1.mats.getD 0 ElementMatrix.blank)._idsR.getD 0 0 = 4 ∧
      (M1.mats.getD 0 ElementMatrix.blank)._idsC.getD 0 0 = 0 ∧
      Sample.spLower.entry 4 0 = 10 ∧ S1.entry 4 0 = 10) ∧
    Sample.mapNone.assemble (fun _ S => .ok S) (fun _ S => .ok S) 3 Sample.spNone 2
      = .error .lengthError := by
  refine ⟨⟨_, _, rfl, ?_, rfl, rfl, ?_, ?_⟩, ⟨_, _, rfl, ?_, rfl, rfl, ?_, ?_⟩, rfl⟩
  all_goals first
    | rfl
    | norm_num [DenseMatrix.val, DenseMatrix.setZero, DenseMatrix.mulScalar, DenseMatrix.length,
        DenseMatrix.ofSize, DenseMatrix.empty, DenseMatrix.resize, DenseMatrix.allocate_,
        DenseMatrix.clean, DenseMatrix.opAssignScalar, DenseMatrix.copy, DenseMatrix.copy_,
        Sample.spHole, Sample.spLower, Sample.sp, Sample.mapOp2, Sample.op2,
        Sample.rowMat, Sample.seg, SparseMatrix.size, SparseMatrix.entry, SparseMatrix.slot,
        SparseMatrix.findSlot, ElementMatrix.blank]

/-- C11 (amended): for every map `A` whose operators carry what `integrate()`
reads and every scalar coefficient `f`, on a sparse matrix `R` of the general
storage type (`stype_ == 0`) that is not empty and whose well-formed pattern,
once `fillSparsityPattern(R)` has run, holds the positions
`(rowIds[i], colIds[j])` of every operator, `assemble(f, R, scale)` (per
operator `SparseMatrix::addS`) returns, integrates each operator, and leaves
the entry of `R` at every position `(r, c)` increased by the sum of
`f * scale * M[i][j]` over all operators and all entries `(i, j)` of their
integrated matrices `M` with `(rowIds[i], colIds[j]) = (r, c)`; an entry that
no operator entry is sent to is unchanged. -/
theorem assemble_scatter_add
    (build addP : List (List ℕ) → SparseMatrix R → Except Error (SparseMatrix R))
    (A : ElementMatrixMap R P) (f scale : R) (S S0 : SparseMatrix R) (call : PatternCall)
    (hcall : A.fillSparsityPattern S._rows S._cols = .ok call)
    (hpat : ElementMatrixMap.applyPattern build addP call S = .ok S0)
    (hne : S0._rows ≠ 0) (hS0 : PatternOk S0)
    (hint : ∀ q, q < A.mats.length → Integrable (A.mats.getD q ElementMatrix.blank))
    (hcov : ∀ q, q < A.mats.length → Covers S0 (A.mats.getD q ElementMatrix.blank)) :
    ∃ S1 mats1, A.assemble build addP f S scale = .ok (S1, { A with mats := mats1 }) ∧
      mats1.length = A.mats.length ∧
      (∀ q, q < A.mats.length →
        (A.mats.getD q ElementMatrix.blank).integrate
          = .ok (mats1.getD q ElementMatrix.blank)) ∧
      (∀ r c, S1.entry r c = S0.entry r c + ∑ q in Finset.range A.mats.length,
        contrib (mats1.getD q ElementMatrix.blank) (f * scale) r c) ∧
      ∀ r c, (∀ q, q < A.mats.length → ∀ i, i < (A.mats.getD q ElementMatrix.blank).mat_.rows →
          ∀ j, j < (A.mats.getD q ElementMatrix.blank).mat_.cols →
          ¬ ((A.mats.getD q ElementMatrix.blank)._idsR.getD i 0 = r ∧
            (A.mats.getD q ElementMatrix.blank)._idsC.getD j 0 = c)) →
        S1.entry r c = S0.entry r c := by
  obtain ⟨st, hloop, -, hlen, hdone, hent⟩ := assemble_loop A f scale S0 hS0 hint hcov
  refine ⟨st.1, st.2, ?_, hlen, hdone, hent, ?_⟩
  · rw [ElementMatrixMap.assemble, hcall, bind_ok, hpat, bind_ok,
      ElementMatrixMap._T_assembleFConst]
    have hsz : ¬ (S0.size = 0) := hne
    simp only [if_neg hsz]
    show Except.map _ (forLoop A.mats.length _ (S0, A.mats)) = _
    rw [hloop]
    rfl
  · intro r c hno
    rw [hent r c]
    have hz : ∀ q, q ∈ Finset.range A.mats.length →
        contrib (st.2.getD q ElementMatrix.blank) (f * scale) r c = 0 := by
      intro q hq
      have hq1 := Finset.mem_range.mp hq
      obtain ⟨m1, hm1, hR, hC, hr, hc⟩ := integrate_total _ (hint q hq1)
      have heq : st.2.getD q ElementMatrix.blank = m1 := by
        have := hdone q hq1
        rw [hm1] at this
        exact (Except.ok.inj this).symm
      rw [heq, contrib]
      apply Finset.sum_eq_zero
      intro i hi
      apply Finset.sum_eq_zero
      intro j hj
      rw [if_neg]
      rw [hR, hC]
      exact hno q hq1 i (hr ▸ Finset.mem_range.mp hi) j (hc ▸ Finset.mem_range.mp hj)
    rw [Finset.sum_eq_zero hz, add_zero]

/-- Witness for C11 (amended): the map with the operator `op2` and the 6 x 1 sparse
matrix `sp`, whose extents are those of the map, so that
`fillSparsityPattern` leaves it as it is. -/
theorem assemble_scatter_add_witness :
    ∃ S1 mats1, Sample.mapOp2.assemble (fun _ S => .ok S) (fun _ S => .ok S) 3 Sample.sp 2
        = .ok (S1, { Sample.mapOp2 with mats := mats1 }) ∧
      mats1.length = Sample.mapOp2.mats.length ∧
      (∀ q, q < Sample.mapOp2.mats.length →
        (Sample.mapOp2.mats.getD q ElementMatrix.blank).integrate
          = .ok (mats1.getD q ElementMatrix.blank)) ∧
      (∀ r c, S1.entry r c = Sample.sp.entry r c + ∑ q in Finset.range Sample.mapOp2.mats.length,
        contrib (mats1.getD q ElementMatrix.blank) (3 * 2) r c) ∧
      ∀ r c, (∀ q, q < Sample.mapOp2.mats.length →
          ∀ i, i < (Sample.mapOp2.mats.getD q ElementMatrix.blank).mat_.rows →
          ∀ j, j < (Sample.mapOp2.mats.getD q ElementMatrix.blank).mat_.cols →
          ¬ ((Sample.mapOp2.mats.getD q ElementMatrix.blank)._idsR.getD i 0 = r ∧
            (Sample.mapOp2.mats.getD q ElementMatrix.blank)._idsC.getD j 0 = c)) →
        S1.entry r c = Sample.sp.entry r c :=
  assemble_scatter_add (fun _ S => .ok S) (fun _ S => .ok S) Sample.mapOp2 3 2 Sample.sp
    Sample.sp PatternCall.unchanged rfl rfl (by decide)
    ⟨rfl, by decide, by decide, by decide, by decide⟩
    (by
      intro q hq
      have hq1 : q < 1 := hq
      interval_cases q
      intro _
      refine ⟨[1/2, 1/2], Sample.seg, rfl, rfl, by decide, ?_⟩
      intro k hk
      have hk2 : k < 2 := hk
      interval_cases k <;> exact ⟨rfl, rfl⟩)
    (by
      intro q hq
      have hq1 : q < 1 := hq
      interval_cases q
      refine ⟨by decide, by decide, ?_⟩
      intro i hi j hj
      have hi2 : i < 2 := hi
      have hj1 : j < 1 := hj
      interval_cases i <;> interval_cases j <;> decide)

theorem bind_eq_ok {α β : Type} {x : Except Error α} {f : α → Except Error β} {b : β}
    (h : x.bind f = .ok b) : ∃ a, x = .ok a ∧ f a = .ok b := by
  cases x with
  | error e => cases h
  | ok a => exact ⟨a, rfl, h⟩

theorem map_eq_ok {α β : Type} {x : Except Error α} {f : α → β} {b : β}
    (h : x.map f = .ok b) : ∃ a, x = .ok a ∧ b = f a := by
  cases x with
  | error e => cases h
  | ok a => exact ⟨a, rfl, (Except.ok.inj h).symm⟩

/-- A slice write on an id array: the positions before and behind the slice are
kept, the positions of the slice take the values. -/
theorem setIdSlice_entries (l vals : List ℕ) (start stop : ℕ) (h1 : start ≤ stop)
    (h2 : stop ≤ l.length) (h3 : stop - start ≤ vals.length) :
    ∃ l1, setIdSlice l vals start stop = .ok l1 ∧ l1.length = l.length ∧
      (∀ t, t < start → l1.getD t 0 = l.getD t 0) ∧
      (∀ t, start ≤ t → t < stop → l1.getD t 0 = vals.getD (t - start) 0) ∧
      (∀ t, stop ≤ t → l1.getD t 0 = l.getD t 0) := by
  have ha : (l.take start).length = start := by
    rw [List.length_take]; omega
  have hb : (vals.take (stop - start)).length = stop - start := by
    rw [List.length_take]; omega
  refine ⟨l.take start ++ vals.take (stop - start) ++ l.drop stop,
    by rw [setIdSlice, if_pos ⟨h1, h2, h3⟩], ?_, ?_, ?_, ?_⟩
  · simp only [List.length_append, List.length_take, List.length_drop]
    omega
  · intro t ht
    rw [List.getD_eq_getElem?_getD, List.getD_eq_getElem?_getD, List.append_assoc,
      List.getElem?_append_left (by omega), List.getElem?_take_of_lt ht]
  · intro t ht1 ht2
    rw [List.getD_eq_getElem?_getD, List.getD_eq_getElem?_getD,
      List.getElem?_append_left (by rw [List.length_append]; omega),
      List.getElem?_append_right (by omega), ha, List.getElem?_take_of_lt (by omega)]
  · intro t ht
    rw [List.getD_eq_getElem?_getD, List.getD_eq_getElem?_getD,
      List.getElem?_append_right (by rw [List.length_append]; omega), List.length_append, ha, hb,
      List.getElem?_drop]
    congr 2
    omega

/-- The id loop of `resize`: block `i` of the array takes the values of round
`i`, the positions behind the last block are kept. -/
theorem setIds_loop_entries (vals : ℕ → List ℕ) (nVerts : ℕ)
    (hv : ∀ i, (vals i).length = nVerts) (l : List ℕ) (k : ℕ) (hk : k * nVerts ≤ l.length) :
    ∃ l1, forLoop k (fun i idsR => setIdSlice idsR (vals i) (i * nVerts) ((i + 1) * nVerts)) l
        = .ok l1 ∧ l1.length = l.length ∧
      (∀ i, i < k → ∀ j, j < nVerts → l1.getD (i * nVerts + j) 0 = (vals i).getD j 0) ∧
      (∀ t, k * nVerts ≤ t → l1.getD t 0 = l.getD t 0) := by
  induction k with
  | zero =>
    exact ⟨l, rfl, rfl, fun i hi => absurd hi (Nat.not_lt_zero i), fun _ _ => rfl⟩
  | succ k ih =>
    have hle : k * nVerts ≤ (k + 1) * nVerts := Nat.mul_le_mul_right _ (Nat.le_succ k)
    have hsucc : (k + 1) * nVerts = k * nVerts + nVerts := Nat.succ_mul k nVerts
    obtain ⟨l1, h1, hlen, hdone, hrest⟩ := ih (le_trans hle hk)
    obtain ⟨l2, h2, hlen2, hbefore, hin, hafter⟩ := setIdSlice_entries l1 (vals k)
      (k * nVerts) ((k + 1) * nVerts) hle (by rw [hlen]; exact hk)
      (by rw [hv k, hsucc]; omega)
    refine ⟨l2, ?_, hlen2.trans hlen, ?_, ?_⟩
    · rw [forLoop_succ, h1]
      exact h2
    · intro i hi j hj
      rcases Nat.lt_succ_iff_lt_or_eq.mp hi with hlt | heq
      · have hb : (i + 1) * nVerts ≤ k * nVerts := Nat.mul_le_mul_right _ hlt
        have hs : (i + 1) * nVerts = i * nVerts + nVerts := Nat.succ_mul i nVerts
        rw [hbefore _ (by omega)]
        exact hdone i hlt j hj
      · subst heq
        rw [hin _ (by omega) (by omega), Nat.add_sub_cancel_left]
    · intro t ht
      rw [hafter t ht, hrest t (by omega)]

namespace ElementMatrix

/-- Success of `resize(rows, cols, true)` with the row ids it writes: block `i`
of `_idsR` holds the node ids of the entity shifted by
`i * _dofPerCoeff + _dofOffset`. -/
theorem resize_ok_ids (E : ElementMatrix R P) (rows cols : ℕ)
    (h : ∀ ent, E._ent = some ent → E._nCoeff * ent.nodeCount ≤ rows) :
    ∃ idsR, E.resize rows cols true = .ok
        { E with _idsR := idsR, _idsC := resizeIds E._idsC (if cols = 0 then rows else cols),
                 _ids := resizeIds E._ids rows,
                 mat_ := E.mat_.resize rows (if cols = 0 then rows else cols) } ∧
      idsR.length = rows ∧
      ∀ ent, E._ent = some ent → ∀ i, i < E._nCoeff → ∀ j, j < ent.nodeCount →
        idsR.getD (i * ent.nodeCount + j) 0
          = ent.ids.getD j 0 + i * E._dofPerCoeff + E._dofOffset := by
  have hlen : (resizeIds E._idsR rows).length = rows := by
    simp only [resizeIds, List.length_append, List.length_take, List.length_replicate]
    omega
  cases hent : E._ent with
  | none =>
    refine ⟨resizeIds E._idsR rows, ?_, hlen, fun ent he => by cases he⟩
    simp only [resize, hent]
  | some ent =>
    obtain ⟨l1, h1, hl1, hdone, -⟩ := setIds_loop_entries
      (fun i => ent.ids.map (· + i * E._dofPerCoeff + E._dofOffset)) ent.nodeCount
      (fun i => by simp [MeshEntity.nodeCount]) (resizeIds E._idsR rows) E._nCoeff
      (by rw [hlen]; exact h ent hent)
    refine ⟨l1, ?_, hl1.trans hlen, ?_⟩
    · simp only [resize, hent, if_true, h1]
      rfl
    · intro e he i hi j hj
      cases he
      rw [hdone i hi j hj]
      have hj1 : j < ent.ids.length := hj
      rw [List.getD_eq_getElem _ _ (by rw [List.length_map]; exact hj1),
        List.getD_eq_getElem _ _ hj1, List.getElem_map]

/-- What `integrate()` may change: the integrated matrix and the flag
`_integrated`. -/
theorem integrate_frame (E A : ElementMatrix R P) (h : E.integrate = .ok A) :
    ∃ M b, A = { E with mat_ := M, _integrated := b } := by
  rw [integrate] at h
  by_cases hc : E._newStyle = true ∧ E._integrated = false ∧ E._valid = true
  · rw [if_pos hc] at h
    cases hw : E._w with
    | none =>
      rw [hw] at h
      cases h
    | some w =>
      rw [hw] at h
      obtain ⟨M, -, hA⟩ := map_eq_ok h
      exact ⟨M, true, hA⟩
  · rw [if_neg hc] at h
    exact ⟨E.mat_, E._integrated, (Except.ok.inj h).symm⟩

end ElementMatrix

theorem gradRows_pos (ent : MeshEntity R P) (nCoeff : ℕ) (elastic : Bool)
    (hdim : 0 < ent.dim) (hnc : nCoeff ≠ 0) :
    ent.dim ≤ gradRows ent nCoeff elastic := by
  unfold gradRows
  split
  · split
    · omega
    · split <;> omega
  · exact Nat.le_mul_of_pos_right _ (Nat.pos_of_ne_zero hnc)

theorem gradRows_elastic2 (ent : MeshEntity R P) (nCoeff : ℕ) (hd : ent.dim = 2) :
    gradRows ent nCoeff true = 3 := by
  simp [gradRows, hd]

theorem gradRows_elastic3 (ent : MeshEntity R P) (nCoeff : ℕ) (hd : ent.dim = 3) :
    gradRows ent nCoeff true = 6 := by
  simp [gradRows, hd]

theorem gradRows_full (ent : MeshEntity R P) (nCoeff : ℕ) :
    gradRows ent nCoeff false = ent.dim * nCoeff := by
  simp [gradRows]

namespace ElementMatrix

theorem resizeMatX_U__ids (E : ElementMatrix R P) (x : List P) (ent : MeshEntity R P)
    (hx : E._x = some x) (hent : E._ent = some ent) (hnc : E._nCoeff ≠ 0) :
    ∃ idsR, E.resizeMatX_U_ = .ok
        { E with _idsR := idsR, _idsC := resizeIds E._idsC E._nCoeff,
                 _ids := resizeIds E._ids (ent.nodeCount * E._nCoeff),
                 mat_ := E.mat_.resize (ent.nodeCount * E._nCoeff) E._nCoeff,
                 _matX := (resizeMats E._matX x.length).map
                    fun m => (m.resize E._nCoeff (ent.nodeCount * E._nCoeff)).setZero } ∧
      RowIdsOf ent E._nCoeff E._dofPerCoeff E._dofOffset idsR := by
  obtain ⟨idsR, h, hl, hids⟩ := resize_ok_ids E (ent.nodeCount * E._nCoeff) E._nCoeff
    (fun e he => by rw [hent] at he; cases he; exact le_of_eq (Nat.mul_comm _ _))
  refine ⟨idsR, ?_, hl, fun i j hi hj => hids ent hent i hi j hj⟩
  simp only [resizeMatX_U_, hx, hent, if_neg hnc, h]
  simp only [Except.map, if_neg hnc]

/-- What `fillMatX_U_` may change: the basis images, the flag `_valid`, and
through `integrate()` the integrated matrix and the flag `_integrated`. -/
theorem fillMatX_U__frame (E A : ElementMatrix R P) (sum : Bool)
    (h : E.fillMatX_U_ sum = .ok A) :
    ∃ mats M b, A = { E with _matX := mats, _valid := true, mat_ := M, _integrated := b } := by
  rw [fillMatX_U_] at h
  cases hx : E._x with
  | none =>
    rw [hx] at h
    cases h
  | some x =>
    cases hent : E._ent with
    | none =>
      rw [hx, hent] at h
      cases h
    | some ent =>
      rw [hx, hent] at h
      obtain ⟨mats, -, h2⟩ := bind_eq_ok h
      cases sum with
      | false =>
        exact ⟨mats, E.mat_, E._integrated, (Except.ok.inj h2).symm⟩
      | true =>
        obtain ⟨M, b, hA⟩ := integrate_frame _ _ h2
        exact ⟨mats, M, b, hA⟩

/-- The row ids after `pot(ent, order, sum, nCoeff, dofPerCoeff, dofOffset)` on
an operator that is not valid. -/
theorem pot_ids (rules : IntegrationRules R P) (dbg : Bool) (E A : ElementMatrix R P)
    (ent : MeshEntity R P) (order : ℕ) (sum : Bool) (nCoeff dofPerCoeff dofOffset : ℕ)
    (hmiss : E._valid = false) (hnc : nCoeff ≠ 0)
    (h : E.pot rules dbg ent order sum nCoeff dofPerCoeff dofOffset = .ok A) :
    RowIdsOf ent nCoeff dofPerCoeff dofOffset A._idsR := by
  have hcond : dbg = true ∨ E._valid = false ∨ E._order ≠ order ∨ E.entIs ent = false
      ∨ E._nCoeff ≠ nCoeff := Or.inr (Or.inl hmiss)
  rw [pot, if_pos hcond] at h
  obtain ⟨E2, h2, h3⟩ := bind_eq_ok h
  obtain ⟨E1, h1, h2⟩ := bind_eq_ok h2
  have hE1 : E1 = { E with
      _newStyle := true, _order := 0, _nCoeff := nCoeff,
      _dofPerCoeff := dofPerCoeff, _dofOffset := dofOffset, _ent := none, _w := none,
      _x := none, _div := false, _integrated := false, _elastic := false,
      _valid := false } := by
    rw [init] at h1
    by_cases hg : nCoeff > 1 ∧ dofPerCoeff = 0
    · rw [if_pos hg] at h1
      cases h1
    · rw [if_neg hg] at h1
      exact (Except.ok.inj h1).symm
  have hmiss1 : ¬ (E1._valid = true ∧ E1._order = order ∧ E1.entIs ent = true) := by
    rw [hE1]
    simp
  rw [potBase, if_neg hmiss1] at h2
  obtain ⟨E3, h4, h5⟩ := bind_eq_ok h2
  obtain ⟨idsR, h6, hids⟩ := resizeMatX_U__ids (E1.fillEntityAndOrder_ rules ent order)
    (rules.abscissa ent order) ent rfl rfl (by rw [hE1]; exact hnc)
  rw [h6] at h4
  have hE3 : E3._idsR = idsR := by
    rw [← Except.ok.inj h4]
  have hlay : (E1.fillEntityAndOrder_ rules ent order)._nCoeff = nCoeff ∧
      (E1.fillEntityAndOrder_ rules ent order)._dofPerCoeff = dofPerCoeff ∧
      (E1.fillEntityAndOrder_ rules ent order)._dofOffset = dofOffset := by
    rw [hE1]
    exact ⟨rfl, rfl, rfl⟩
  rw [hlay.1, hlay.2.1, hlay.2.2] at hids
  obtain ⟨mats, M, b, hE2⟩ := fillMatX_U__frame _ _ _ h5
  have hE2ids : E2._idsR = idsR := by
    rw [hE2]
    exact hE3
  have hA : A._idsR = idsR := by
    cases sum with
    | false =>
      rw [← Except.ok.inj h3]
      exact hE2ids
    | true =>
      obtain ⟨M1, b1, hA1⟩ := integrate_frame _ _ h3
      rw [hA1]
      exact hE2ids
  rw [hA]
  exact hids

end ElementMatrix

theorem setRowSlices_ok (ws : List (ℕ × (ℕ → R) × ℕ × ℕ)) (M : DenseMatrix R)
    (h : ∀ w ∈ ws, w.1 < M.rows ∧ w.2.2.1 ≤ w.2.2.2 ∧ w.2.2.2 ≤ M.cols) :
    ∃ M1, ElementMatrix.setRowSlices M ws = .ok M1 ∧ M1.rows = M.rows ∧ M1.cols = M.cols := by
  induction ws generalizing M with
  | nil => exact ⟨M, rfl, rfl, rfl⟩
  | cons w rest ih =>
    obtain ⟨i, v, start, stop⟩ := w
    obtain ⟨M1, h1, hr1, hc1, -⟩ := DenseMatrix.setRowSlice_ok M i v start stop
      (h _ (List.mem_cons_self _ _))
    obtain ⟨M2, h2, hr2, hc2⟩ := ih M1
      (fun w hw => by rw [hr1, hc1]; exact h w (List.mem_cons_of_mem _ hw))
    refine ⟨M2, ?_, hr2.trans hr1, hc2.trans hc1⟩
    show (M.setRowSlice i v start stop).bind _ = _
    rw [h1]
    exact h2

namespace ElementMatrix

/-- The body of the third loop of `grad` returns normally on a matrix of the
layout shape and keeps the shape, for every field kind the layout has room
for: a scalar field, or at least as many components as the dimension. -/
theorem gradFill_ok (ent : MeshEntity R P) (nCoeff : ℕ) (elastic : Bool) (a : R)
    (dNdx dNdy dNdz M : DenseMatrix R) (i : ℕ)
    (hdim : ent.dim = 1 ∨ ent.dim = 2 ∨ ent.dim = 3) (hnc : nCoeff ≠ 0)
    (hlay : nCoeff = 1 ∨ ent.dim ≤ nCoeff)
    (hMr : M.rows = gradRows ent nCoeff elastic) (hMc : M.cols = ent.nodeCount * nCoeff)
    (hx : 0 < ent.dim → i < dNdx.rows) (hy : 1 < ent.dim → i < dNdy.rows)
    (hz : 2 < ent.dim → i < dNdz.rows) :
    ∃ M1, gradFill ent nCoeff elastic a dNdx dNdy dNdz i M = .ok M1 ∧
      M1.rows = M.rows ∧ M1.cols = M.cols := by
  have hge : ent.dim ≤ M.rows := by
    rw [hMr]
    exact gradRows_pos ent nCoeff elastic (by omega) hnc
  by_cases h1 : nCoeff = 1
  · subst h1
    have hMc1 : M.cols = ent.nodeCount := by rw [hMc, Nat.mul_one]
    obtain ⟨M1, e1, hr1, hc1, -, -⟩ := gradFill_stage ent 0 i dNdx M (fun h => by omega) hMc1 hx
    obtain ⟨M2, e2, hr2, hc2, -, -⟩ := gradFill_stage ent 1 i dNdy M1
      (fun h => by omega) (hc1.trans hMc1) hy
    obtain ⟨M3, e3, hr3, hc3, -, -⟩ := gradFill_stage ent 2 i dNdz M2
      (fun h => by omega) (hc2.trans (hc1.trans hMc1)) hz
    refine ⟨M3, ?_, by rw [hr3, hr2, hr1], by rw [hc3, hc2, hc1]⟩
    simp only [gradFill, if_true, e1, bind_ok, e2, e3]
  · have hle : ent.dim ≤ nCoeff := by
      rcases hlay with h | h
      · exact absurd h h1
      · exact h
    have hcols : ∀ k, k ≤ nCoeff → k * ent.nodeCount ≤ M.cols := by
      intro k hk
      rw [hMc, Nat.mul_comm]
      exact Nat.mul_le_mul_left _ hk
    have hc1 := hcols 1 (by omega)
    rcases hdim with hd | hd | hd
    · obtain ⟨M1, e1, hr1, hc1, -⟩ := DenseMatrix.setRowSlice_ok M 0 (fun j => dNdx.val i j) 0
        ent.nodeCount ⟨by omega, by omega, by omega⟩
      refine ⟨M1, ?_, hr1, hc1⟩
      simp only [gradFill, if_neg h1, if_pos hd, DenseMatrix.row_ok _ i (hx (by omega)), bind_ok,
        e1]
    · have hn1 : ¬ ent.dim = 1 := by omega
      have hc2 := hcols 2 (by omega)
      simp only [gradFill, if_neg h1, if_neg hn1, if_pos hd,
        DenseMatrix.row_ok _ i (hx (by omega)), DenseMatrix.row_ok _ i (hy (by omega)), bind_ok]
      cases elastic with
      | true =>
        rw [gradRows_elastic2 ent nCoeff hd] at hMr
        simp only [if_true]
        exact setRowSlices_ok _ M (by
          intro w hw
          simp only [List.mem_cons, List.mem_singleton, List.not_mem_nil, or_false] at hw
          rcases hw with rfl | rfl | rfl | rfl <;> refine ⟨?_, ?_, ?_⟩ <;> dsimp only <;> omega)
      | false =>
        rw [gradRows_full, hd] at hMr
        simp only [Bool.false_eq_true, if_false]
        exact setRowSlices_ok _ M (by
          intro w hw
          simp only [List.mem_cons, List.mem_singleton, List.not_mem_nil, or_false] at hw
          rcases hw with rfl | rfl | rfl | rfl <;> refine ⟨?_, ?_, ?_⟩ <;> dsimp only <;> omega)
    · have hn1 : ¬ ent.dim = 1 := by omega
      have hn2 : ¬ ent.dim = 2 := by omega
      have hc2 := hcols 2 (by omega)
      have hc3 := hcols 3 (by omega)
      simp only [gradFill, if_neg h1, if_neg hn1, if_neg hn2, if_pos hd,
        DenseMatrix.row_ok _ i (hx (by omega)), DenseMatrix.row_ok _ i (hy (by omega)),
        DenseMatrix.row_ok _ i (hz (by omega)), bind_ok]
      cases elastic with
      | true =>
        rw [gradRows_elastic3 ent nCoeff hd] at hMr
        simp only [if_true]
        exact setRowSlices_ok _ M (by
          intro w hw
          simp only [List.mem_cons, List.mem_singleton, List.not_mem_nil, or_false] at hw
          rcases hw with rfl | rfl | rfl | rfl | rfl | rfl | rfl | rfl | rfl <;>
            refine ⟨?_, ?_, ?_⟩ <;> dsimp only <;> omega)
      | false =>
        rw [gradRows_full, hd] at hMr
        simp only [Bool.false_eq_true, if_false]
        exact setRowSlices_ok _ M (by
          intro w hw
          simp only [List.mem_cons, List.mem_singleton, List.not_mem_nil, or_false] at hw
          rcases hw with rfl | rfl | rfl | rfl | rfl | rfl | rfl | rfl | rfl <;>
            refine ⟨?_, ?_, ?_⟩ <;> dsimp only <;> omega)

/-- The layout sizing of `grad`: `resize(nVerts*nCoeff, nCols)` with the row
ids it writes, and the zeroed basis images. -/
theorem gradLayout_ok (E1 : ElementMatrix R P) (ent : MeshEntity R P) (n : ℕ)
    (elastic : Bool) (hent : E1._ent = some ent) (hnc : E1._nCoeff ≠ 0) (hdim : 0 < ent.dim) :
    ∃ idsR idsC ids mat, E1.gradLayout ent n elastic = .ok
        { E1 with
          _idsR := idsR, _idsC := idsC, _ids := ids, mat_ := mat,
          _matX := (resizeMats E1._matX n).map fun m =>
            (m.resize (gradRows ent E1._nCoeff elastic) (ent.nodeCount * E1._nCoeff)).setZero } ∧
      RowIdsOf ent E1._nCoeff E1._dofPerCoeff E1._dofOffset idsR ∧
      mat.rows = ent.nodeCount * E1._nCoeff ∧ mat.cols = gradRows ent E1._nCoeff elastic := by
  have hnz : ¬ (ent.dim * E1._nCoeff = 0) := Nat.mul_ne_zero (by omega) hnc
  have hg : ¬ (gradRows ent E1._nCoeff elastic = 0) := by
    have := gradRows_pos ent E1._nCoeff elastic hdim hnc
    omega
  obtain ⟨idsR, hres, hidl, hids⟩ := resize_ok_ids E1 (ent.nodeCount * E1._nCoeff)
    (gradRows ent E1._nCoeff elastic)
    (fun e he => by rw [hent] at he; cases he; exact le_of_eq (Nat.mul_comm _ _))
  refine ⟨idsR,
    resizeIds E1._idsC (if gradRows ent E1._nCoeff elastic = 0 then ent.nodeCount * E1._nCoeff
      else gradRows ent E1._nCoeff elastic),
    resizeIds E1._ids (ent.nodeCount * E1._nCoeff),
    E1.mat_.resize (ent.nodeCount * E1._nCoeff)
      (if gradRows ent E1._nCoeff elastic = 0 then ent.nodeCount * E1._nCoeff
        else gradRows ent E1._nCoeff elastic),
    ?_, ⟨hidl, fun i j hi hj => hids ent hent i hi j hj⟩, DenseMatrix.resize_rows _ _ _, ?_⟩
  · rw [gradLayout, if_neg hnz]
    show (E1.resize (ent.nodeCount * E1._nCoeff) (gradRows ent E1._nCoeff elastic) true).map _ = _
    rw [hres]
    rfl
  · rw [DenseMatrix.resize_cols, if_neg hg]

/-- The third loop of `grad` and `setValid(true)`: every basis image is the row
fill of the image found there, and keeps its shape. -/
theorem gradFillAll_ok (E5 : ElementMatrix R P) (ent : MeshEntity R P) (n : ℕ)
    (elastic : Bool) (a : R)
    (hdim : ent.dim = 1 ∨ ent.dim = 2 ∨ ent.dim = 3) (hnc : E5._nCoeff ≠ 0)
    (hlay : E5._nCoeff = 1 ∨ ent.dim ≤ E5._nCoeff)
    (hlen : E5._matX.length = n)
    (hshape : ∀ q, q < n →
      (E5._matX.getD q DenseMatrix.empty).rows = gradRows ent E5._nCoeff elastic ∧
      (E5._matX.getD q DenseMatrix.empty).cols = ent.nodeCount * E5._nCoeff)
    (hx : 0 < ent.dim → n ≤ E5.dNdx_.rows) (hy : 1 < ent.dim → n ≤ E5.dNdy_.rows)
    (hz : 2 < ent.dim → n ≤ E5.dNdz_.rows) :
    ∃ mats1, E5.gradFillAll ent n elastic a = .ok { E5 with _matX := mats1, _valid := true } ∧
      mats1.length = n ∧
      ∀ q, q < n →
        gradFill ent E5._nCoeff elastic a E5.dNdx_ E5.dNdy_ E5.dNdz_ q
          (E5._matX.getD q DenseMatrix.empty) = .ok (mats1.getD q DenseMatrix.empty) ∧
        (mats1.getD q DenseMatrix.empty).rows = gradRows ent E5._nCoeff elastic ∧
        (mats1.getD q DenseMatrix.empty).cols = ent.nodeCount * E5._nCoeff := by
  obtain ⟨mats1, hloop, hl1, hdone, -⟩ := forLoop_inv
    (fun k (ms : List (DenseMatrix R)) => ms.length = n ∧
      (∀ q, q < k →
        gradFill ent E5._nCoeff elastic a E5.dNdx_ E5.dNdy_ E5.dNdz_ q
          (E5._matX.getD q DenseMatrix.empty) = .ok (ms.getD q DenseMatrix.empty) ∧
        (ms.getD q DenseMatrix.empty).rows = gradRows ent E5._nCoeff elastic ∧
        (ms.getD q DenseMatrix.empty).cols = ent.nodeCount * E5._nCoeff) ∧
      (∀ q, k ≤ q → ms.getD q DenseMatrix.empty = E5._matX.getD q DenseMatrix.empty))
    (fun i mats =>
        match mats[i]? with
        | none => .error .outOfRange
        | some Mi =>
          (gradFill ent E5._nCoeff elastic a E5.dNdx_ E5.dNdy_ E5.dNdz_ i Mi).map
            fun Mi1 => mats.set i Mi1)
    n E5._matX ⟨hlen, fun q h => absurd h (Nat.not_lt_zero q), fun _ _ => rfl⟩
    (by
      intro k ms hk ⟨hl, hd, hrest⟩
      have hm : ms[k]? = some (ms.getD k DenseMatrix.empty) :=
        getElem?_getD_of_lt _ _ (hl ▸ hk)
      obtain ⟨M1, h1, hr1, hc1⟩ := gradFill_ok ent E5._nCoeff elastic a E5.dNdx_ E5.dNdy_
        E5.dNdz_ (ms.getD k DenseMatrix.empty) k hdim hnc hlay
        (by rw [hrest k le_rfl]; exact (hshape k hk).1)
        (by rw [hrest k le_rfl]; exact (hshape k hk).2)
        (fun h => Nat.lt_of_lt_of_le hk (hx h)) (fun h => Nat.lt_of_lt_of_le hk (hy h))
        (fun h => Nat.lt_of_lt_of_le hk (hz h))
      refine ⟨ms.set k M1, ?_, by rw [List.length_set]; exact hl, ?_, ?_⟩
      · simp only [hm, h1]
        rfl
      · intro q hq
        rcases Nat.lt_succ_iff_lt_or_eq.mp hq with hlt | heq
        · rw [getD_set_ne _ _ _ (Nat.ne_of_gt hlt)]
          exact hd q hlt
        · subst heq
          rw [getD_set_self _ _ _ (hl ▸ hk)]
          rw [hrest q le_rfl] at h1 hr1 hc1
          exact ⟨h1, hr1.trans (hshape q hk).1, hc1.trans (hshape q hk).2⟩
      · intro q hq
        rw [getD_set_ne _ _ _ (by omega), hrest q (by omega)])
  refine ⟨mats1, ?_, hl1, hdone⟩
  simp only [gradFillAll, hloop, map_ok]

/-- The gradient tables of `grad`: after the cache block and the second loop
the rows of `dNdx_`, `dNdy_`, `dNdz_` hold the physical derivatives at the
quadrature points; nothing but the six tables changes. -/
theorem gradTables_ok (E3 : ElementMatrix R P) (ent : MeshEntity R P) (x : List P)
    (hdim : ent.dim = 1 ∨ ent.dim = 2 ∨ ent.dim = 3)
    (hcache : E3.dNdr_.rows ≠ x.length ∨ x.length = 0) :
    ∃ E4 r s t dx dy dz, E3.gradCache ent x = .ok E4 ∧
      forLoop x.length (gradPhysStep ent) E4 = .ok
        { E3 with dNdr_ := r, dNds_ := s, dNdt_ := t, dNdx_ := dx, dNdy_ := dy, dNdz_ := dz } ∧
      (0 < ent.dim → x.length ≤ dx.rows ∧ ∀ q xq, x[q]? = some xq →
        ∀ j, j < ent.nodeCount → dx.val q j = physGrad ent xq 0 j) ∧
      (1 < ent.dim → x.length ≤ dy.rows ∧ ∀ q xq, x[q]? = some xq →
        ∀ j, j < ent.nodeCount → dy.val q j = physGrad ent xq 1 j) ∧
      (2 < ent.dim → x.length ≤ dz.rows ∧ ∀ q xq, x[q]? = some xq →
        ∀ j, j < ent.nodeCount → dz.val q j = physGrad ent xq 2 j) := by
  have hlt : ∀ q xq, x[q]? = some xq → q < x.length := by
    intro q xq hq
    rcases Nat.lt_or_ge q x.length with h | h
    · exact h
    · rw [List.getElem?_eq_none h] at hq
      cases hq
  rcases Nat.eq_zero_or_pos x.length with h0 | hn
  · obtain ⟨r, s, t, dx, dy, dz, hc⟩ := gradCache_frame E3 ent x (Or.inr h0)
    refine ⟨_, r, s, t, dx, dy, dz, hc, by rw [h0]; rfl, ?_, ?_, ?_⟩ <;>
    · intro _
      refine ⟨by rw [h0]; exact Nat.zero_le _, fun q xq hq => ?_⟩
      have := hlt q xq hq
      omega
  · obtain ⟨r, s, t, hc0, hr, hs, ht⟩ := gradCache_ok E3 ent x
      (by
        rcases hcache with h | h
        · exact h
        · omega)
    obtain ⟨E4, hE4, hc⟩ : ∃ E4 : ElementMatrix R P,
        E4 = { E3 with
          dNdr_ := r, dNds_ := s, dNdt_ := t,
          dNdx_ := if ent.dim > 0 then E3.dNdx_.resize x.length ent.nodeCount else E3.dNdx_,
          dNdy_ := if ent.dim > 1 then E3.dNdy_.resize x.length ent.nodeCount else E3.dNdy_,
          dNdz_ := if ent.dim > 2 then E3.dNdz_.resize x.length ent.nodeCount else E3.dNdz_ } ∧
        E3.gradCache ent x = .ok E4 := ⟨_, rfl, hc0⟩
    obtain ⟨dx, dy, dz, hphys0, hdx, hdy, hdz⟩ := gradPhys_ok E4 ent x hdim
      (fun h => by rw [hE4]; exact hr h) (fun h => by rw [hE4]; exact hs h)
      (fun h => by rw [hE4]; exact ht h)
      (fun h => by
        rw [hE4]
        show RowsAre (if ent.dim > 0 then _ else _) _ _ _ _
        rw [if_pos h]; exact DenseMatrix.rowsAre_resize _ _ _ _)
      (fun h => by
        rw [hE4]
        show RowsAre (if ent.dim > 1 then _ else _) _ _ _ _
        rw [if_pos h]; exact DenseMatrix.rowsAre_resize _ _ _ _)
      (fun h => by
        rw [hE4]
        show RowsAre (if ent.dim > 2 then _ else _) _ _ _ _
        rw [if_pos h]; exact DenseMatrix.rowsAre_resize _ _ _ _)
    have hfin : forLoop x.length (gradPhysStep ent) E4 = .ok
        { E3 with dNdr_ := r, dNds_ := s, dNdt_ := t, dNdx_ := dx, dNdy_ := dy, dNdz_ := dz } := by
      rw [hphys0, hE4]
    have hrow : ∀ (d : DenseMatrix R) (s : ℕ),
        RowsAre d x.length ent.nodeCount x.length
          (fun i j => atPoint x i (fun p => physGrad ent p s j)) →
        x.length ≤ d.rows ∧ ∀ q xq, x[q]? = some xq →
          ∀ j, j < ent.nodeCount → d.val q j = physGrad ent xq s j := by
      intro d s hd
      refine ⟨le_of_eq hd.1.symm, fun q xq hq j hj => ?_⟩
      rw [hd.2.2 q (hlt q xq hq) j hj]
      exact atPoint_eq x q xq _ hq
    exact ⟨E4, r, s, t, dx, dy, dz, hc, hfin, fun h => hrow dx 0 (hdx h),
      fun h => hrow dy 1 (hdy h), fun h => hrow dz 2 (hdz h)⟩

end ElementMatrix

theorem isGradOp_integrated {rules : IntegrationRules R P} {ent : MeshEntity R P}
    {order nCoeff dofPerCoeff dofOffset : ℕ} {elastic div : Bool} {a : R}
    {A : ElementMatrix R P}
    (h : IsGradOp rules ent order nCoeff dofPerCoeff dofOffset elastic div a A)
    (M : DenseMatrix R) (b : Bool) (hr : M.rows = A.mat_.rows) (hc : M.cols = A.mat_.cols) :
    IsGradOp rules ent order nCoeff dofPerCoeff dofOffset elastic div a
      { A with mat_ := M, _integrated := b } := by
  obtain ⟨h1, h2, h3, h4, h5, h6, h7, h8, h9, h10, h11, h12, h13⟩ := h
  exact ⟨h1, h2, h3, h4, h5, h6, h7, h8, h9, hr.trans h10, hc.trans h11, h12, h13⟩

namespace ElementMatrix

/-- Success of `grad(ent, order, elastic, sum, div, kelvin)` on a new-style
operator that is not valid and whose gradient cache is not sized to the rule,
for an entity of dimension 1, 2 or 3 and a field the layout has room for. -/
theorem gradBase_ok (rules : IntegrationRules R P) (rsqrt2 : R)
    (E : ElementMatrix R P) (ent : MeshEntity R P) (order : ℕ)
    (elastic sum div kelvin : Bool)
    (hval : E._valid = false) (hnew : E._newStyle = true) (hnc : E._nCoeff ≠ 0)
    (hlay : E._nCoeff = 1 ∨ ent.dim ≤ E._nCoeff)
    (hcache : E.dNdr_.rows ≠ (rules.abscissa ent order).length
      ∨ (rules.abscissa ent order).length = 0)
    (hdim : ent.dim = 1 ∨ ent.dim = 2 ∨ ent.dim = 3)
    (hlen : sum = true →
      (rules.weights ent order).length ≤ (rules.abscissa ent order).length) :
    ∃ A, E.gradBase rules rsqrt2 ent order elastic sum div kelvin = .ok A ∧
      IsGradOp rules ent order E._nCoeff E._dofPerCoeff E._dofOffset elastic div
        (if elastic = true ∧ kelvin = true then rsqrt2 else 1) A ∧
      A._integrated = sum := by
  have hchk : ¬ (E._valid = true ∧ E._order = order ∧ E.entIs ent = true
      ∧ E._elastic = elastic) := by
    rw [hval]; simp
  have hpos : 0 < ent.dim := by omega
  obtain ⟨idsR, idsC, ids, mat, hlay0, hids, hmr, hmc⟩ := gradLayout_ok
    (gradHead rules E ent order elastic div) ent (rules.abscissa ent order).length elastic
    rfl hnc hpos
  obtain ⟨E3, hE3, hlayE⟩ : ∃ E3 : ElementMatrix R P,
      E3 = { (gradHead rules E ent order elastic div) with
        _idsR := idsR, _idsC := idsC, _ids := ids, mat_ := mat,
        _matX := (resizeMats E._matX (rules.abscissa ent order).length).map fun m =>
          (m.resize (gradRows ent E._nCoeff elastic) (ent.nodeCount * E._nCoeff)).setZero } ∧
      (gradHead rules E ent order elastic div).gradLayout ent
        (rules.abscissa ent order).length elastic = .ok E3 := ⟨_, rfl, hlay0⟩
  have hz := zeroed_mats E._matX (rules.abscissa ent order).length
    (gradRows ent E._nCoeff elastic) (ent.nodeCount * E._nCoeff)
  have h3X : E3._matX = (resizeMats E._matX (rules.abscissa ent order).length).map fun m =>
      (m.resize (gradRows ent E._nCoeff elastic) (ent.nodeCount * E._nCoeff)).setZero := by
    rw [hE3]
  have h3len : E3._matX.length = (rules.abscissa ent order).length := by
    rw [h3X, List.length_map, resizeMats_length]
  obtain ⟨E4, r, s, t, dx, dy, dz, hc, hphys0, hdx, hdy, hdz⟩ := gradTables_ok E3 ent
    (rules.abscissa ent order) hdim (by rw [hE3]; exact hcache)
  obtain ⟨E5, hE5, hphys⟩ : ∃ E5 : ElementMatrix R P,
      E5 = { E3 with
        dNdr_ := r, dNds_ := s, dNdt_ := t, dNdx_ := dx, dNdy_ := dy, dNdz_ := dz } ∧
      forLoop (rules.abscissa ent order).length (gradPhysStep ent) E4 = .ok E5 :=
    ⟨_, rfl, hphys0⟩
  have h5X : E5._matX = E3._matX := by rw [hE5]
  have h5nc : E5._nCoeff = E._nCoeff := by rw [hE5, hE3]; rfl
  obtain ⟨mats1, hfill, hl1, hd1⟩ := gradFillAll_ok E5 ent (rules.abscissa ent order).length
    elastic (if elastic = true ∧ kelvin = true then rsqrt2 else 1) hdim
    (by rw [h5nc]; exact hnc) (by rw [h5nc]; exact hlay) (by rw [h5X]; exact h3len)
    (fun q hq => by rw [h5X, h5nc, h3X]; exact ⟨(hz q hq).1, (hz q hq).2.1⟩)
    (fun h => by rw [hE5]; exact (hdx h).1) (fun h => by rw [hE5]; exact (hdy h).1)
    (fun h => by rw [hE5]; exact (hdz h).1)
  obtain ⟨A0, hA0, hfillA⟩ : ∃ A0 : ElementMatrix R P,
      A0 = { E5 with _matX := mats1, _valid := true } ∧
      E5.gradFillAll ent (rules.abscissa ent order).length elastic
        (if elastic = true ∧ kelvin = true then rsqrt2 else 1) = .ok A0 := ⟨_, rfl, hfill⟩
  have hrun : E.gradBase rules rsqrt2 ent order elastic sum div kelvin
      = (if sum = true then A0.integrate else .ok A0) := by
    rw [gradBase, if_neg hchk]
    simp only [hlayE, bind_ok, hc, hphys]
    rw [hfillA]
    rfl
  have hlt : ∀ q xq, (rules.abscissa ent order)[q]? = some xq →
      q < (rules.abscissa ent order).length := by
    intro q xq hq
    rcases Nat.lt_or_ge q (rules.abscissa ent order).length with h | h
    · exact h
    · rw [List.getElem?_eq_none h] at hq
      cases hq
  have hsh : ∀ q, q < (rules.abscissa ent order).length →
      (A0.matXq q).rows = gradRows ent E._nCoeff elastic ∧
      (A0.matXq q).cols = ent.nodeCount * E._nCoeff := by
    intro q hq
    have h := hd1 q hq
    rw [h5nc] at h
    rw [hA0]
    exact ⟨h.2.1, h.2.2⟩
  have hA0mat : A0.mat_ = mat := by rw [hA0, hE5, hE3]
  have hop0 : IsGradOp rules ent order E._nCoeff E._dofPerCoeff E._dofOffset elastic div
      (if elastic = true ∧ kelvin = true then rsqrt2 else 1) A0 := by
    refine ⟨by rw [hA0, hE5, hE3]; rfl, by rw [hA0, hE5, hE3]; rfl, by rw [hA0, hE5, hE3]; rfl,
      by rw [hA0, hE5, hE3]; rfl, by rw [hA0, hE5, hE3]; rfl, by rw [hA0, hE5, hE3]; rfl,
      by rw [hA0, hE5, hE3]; rfl, by rw [hA0], ?_, by rw [hA0mat]; exact hmr,
      by rw [hA0mat]; exact hmc, by rw [hA0]; exact hl1, ?_⟩
    · have : A0._idsR = idsR := by rw [hA0, hE5, hE3]
      rw [this]
      exact hids
    · intro q xq hq
      have hq1 := hlt q xq hq
      have hf := (hd1 q hq1).1
      rw [h5X, h5nc, h3X] at hf
      have hfx : E5.dNdx_ = dx := by rw [hE5]
      have hfy : E5.dNdy_ = dy := by rw [hE5]
      have hfz : E5.dNdz_ = dz := by rw [hE5]
      rw [hfx, hfy, hfz] at hf
      refine ⟨_, dx, dy, dz, (hz q hq1).1, (hz q hq1).2.1, (hz q hq1).2.2,
        fun h => ⟨Nat.lt_of_lt_of_le hq1 (hdx h).1, (hdx h).2 q xq hq⟩,
        fun h => ⟨Nat.lt_of_lt_of_le hq1 (hdy h).1, (hdy h).2 q xq hq⟩,
        fun h => ⟨Nat.lt_of_lt_of_le hq1 (hdz h).1, (hdz h).2 q xq hq⟩, ?_⟩
      rw [hA0]
      exact hf
  cases sum with
  | false =>
    exact ⟨A0, by rw [hrun]; rfl, hop0, by rw [hA0, hE5, hE3]; rfl⟩
  | true =>
    obtain ⟨M, hI, hMr, hMc, -⟩ := integrate_ok A0 (rules.weights ent order) ent
      (by rw [hA0, hE5, hE3]; exact hnew) (by rw [hA0, hE5, hE3]; rfl) (by rw [hA0])
      (by rw [hA0, hE5, hE3]; rfl) (by rw [hA0, hE5, hE3]; rfl)
      (fun q hq => by
        obtain ⟨h1, h2⟩ := hsh q (Nat.lt_of_lt_of_le hq (hlen rfl))
        rw [hA0mat, hmr, hmc]
        exact ⟨h1, h2⟩)
      (by
        have : A0._matX.length = (rules.abscissa ent order).length := by
          rw [hA0]; exact hl1
        rw [this]
        exact hlen rfl)
    exact ⟨{ A0 with mat_ := M, _integrated := true }, by rw [hrun, if_pos rfl]; exact hI,
      isGradOp_integrated hop0 M true hMr hMc, rfl⟩

/-- Success of `grad(ent, order, elastic, sum, div, nCoeff, dof, dofOffset,
kelvin)` on an operator that is not valid: the result is the gradient operator
of `ent` for the requested field layout. -/
theorem grad_ok (rules : IntegrationRules R P) (rsqrt2 : R) (E : ElementMatrix R P)
    (ent : MeshEntity R P) (order : ℕ) (elastic sum div : Bool)
    (nCoeff dof dofOffset : ℕ) (kelvin : Bool)
    (hval : E._valid = false) (hnc : nCoeff ≠ 0) (hdpc : ¬ (nCoeff > 1 ∧ dof = 0))
    (hlay : nCoeff = 1 ∨ ent.dim ≤ nCoeff)
    (hcache : E.dNdr_.rows ≠ (rules.abscissa ent order).length
      ∨ (rules.abscissa ent order).length = 0)
    (hdim : ent.dim = 1 ∨ ent.dim = 2 ∨ ent.dim = 3)
    (hlen : sum = true →
      (rules.weights ent order).length ≤ (rules.abscissa ent order).length) :
    ∃ A, E.grad rules rsqrt2 ent order elastic sum div nCoeff dof dofOffset kelvin = .ok A ∧
      IsGradOp rules ent order nCoeff dof dofOffset elastic div
        (if elastic = true ∧ kelvin = true then rsqrt2 else 1) A ∧
      A._integrated = sum := by
  obtain ⟨A, hA, hop, hint⟩ := gradBase_ok rules rsqrt2
    { E with
      _newStyle := true, _order := 0, _nCoeff := nCoeff,
      _dofPerCoeff := dof, _dofOffset := dofOffset,
      _ent := none, _w := none, _x := none, _div := false,
      _integrated := false, _elastic := false, _valid := false }
    ent order elastic sum div kelvin rfl rfl hnc hlay hcache hdim hlen
  have hcond : E._valid = false ∨ E._order ≠ order ∨ E._elastic ≠ elastic
      ∨ E.entIs ent = false ∨ E._nCoeff ≠ nCoeff := Or.inl hval
  refine ⟨A, ?_, hop, hint⟩
  rw [grad, if_pos hcond, init_ok E nCoeff dof dofOffset hdpc]
  show (Except.bind (gradBase rules rsqrt2 _ ent order elastic sum div kelvin) _) = _
  rw [hA]
  show (if sum = true then A.integrate else .ok A) = _
  cases sum with
  | false => rfl
  | true =>
    have h2 : A._integrated = true := hint
    simp only [integrate, h2, if_true]
    simp

end ElementMatrix

namespace DenseMatrix

/-- A slice write read back entry by entry: row `i` takes `v` on the columns
`start .. stop - 1`, every other entry is kept. -/
theorem setRowSlice_val (m : DenseMatrix R) (i : ℕ) (v : ℕ → R) (start stop : ℕ)
    (h : i < m.rows ∧ start ≤ stop ∧ stop ≤ m.cols) :
    ∃ M, m.setRowSlice i v start stop = .ok M ∧ M.rows = m.rows ∧ M.cols = m.cols ∧
      ∀ r c, c < m.cols →
        M.val r c = if r = i ∧ start ≤ c ∧ c < stop then v (c - start) else m.val r c := by
  obtain ⟨M, hM, hr, hc, hd⟩ := setRowSlice_ok m i v start stop h
  refine ⟨M, hM, hr, hc, ?_⟩
  intro r c hcl
  show M.data (M.cols * r + c) = _
  rw [hd, hc]
  by_cases hri : r = i
  · subst hri
    by_cases hin : start ≤ c ∧ c < stop
    · rw [if_pos ⟨by omega, by omega⟩, if_pos ⟨rfl, hin⟩]
      congr 1
      omega
    · rw [if_neg (by omega), if_neg (fun hh => hin hh.2)]
      rfl
  · have hne := flat_row_ne (c := m.cols) (i := i) (k := r) (j := c) hri hcl
    rw [if_neg (fun hh => hne ⟨by omega, by omega⟩), if_neg (fun hh => hri hh.1)]
    rfl

end DenseMatrix

namespace ElementMatrix

/-- The scalar branch of the third loop of `grad` on an image with at least
`dim` rows: rows 0, 1, 2 take the rows `i` of `dNdx_`, `dNdy_`, `dNdz_`, as far
as the dimension reaches. -/
theorem gradFill_scalar_rows (ent : MeshEntity R P) (elastic : Bool) (a : R)
    (dNdx dNdy dNdz M : DenseMatrix R) (i : ℕ)
    (hMr : ent.dim ≤ M.rows) (hMc : M.cols = ent.nodeCount)
    (hx : 0 < ent.dim → i < dNdx.rows) (hy : 1 < ent.dim → i < dNdy.rows)
    (hz : 2 < ent.dim → i < dNdz.rows) :
    ∃ M3, gradFill ent 1 elastic a dNdx dNdy dNdz i M = .ok M3 ∧
      M3.rows = M.rows ∧ M3.cols = ent.nodeCount ∧
      (0 < ent.dim → ∀ j, j < ent.nodeCount → M3.val 0 j = dNdx.val i j) ∧
      (1 < ent.dim → ∀ j, j < ent.nodeCount → M3.val 1 j = dNdy.val i j) ∧
      (2 < ent.dim → ∀ j, j < ent.nodeCount → M3.val 2 j = dNdz.val i j) := by
  obtain ⟨M1, h1, hr1, hc1, hrow1, -⟩ := gradFill_stage ent 0 i dNdx M
    (fun h => by omega) hMc hx
  obtain ⟨M2, h2, hr2, hc2, hrow2, hoth2⟩ := gradFill_stage ent 1 i dNdy M1
    (fun h => by omega) (hc1.trans hMc) hy
  obtain ⟨M3, h3, hr3, hc3, hrow3, hoth3⟩ := gradFill_stage ent 2 i dNdz M2
    (fun h => by omega) (hc2.trans (hc1.trans hMc)) hz
  refine ⟨M3, ?_, by rw [hr3, hr2, hr1], by rw [hc3, hc2, hc1, hMc], ?_, ?_, hrow3⟩
  · simp only [gradFill, if_true, h1, bind_ok, h2, h3]
  · intro h j hj
    rw [hoth3 0 j (by decide) hj, hoth2 0 j (by decide) hj]
    exact hrow1 h j hj
  · intro h j hj
    rw [hoth3 1 j (by decide) hj]
    exact hrow2 h j hj

/-- The elastic branch of the third loop of `grad` for two components on a
2-D entity, on a zeroed 3 x 2 nVerts image: row 0 is `[dx | 0]`, row 1 is
`[0 | dy]`, row 2 is `[dy * a | dx * a]`. -/
theorem gradFill_elastic2 (ent : MeshEntity R P) (a : R) (DX DY DZ Z : DenseMatrix R)
    (q : ℕ) (hd : ent.dim = 2) (hZr : Z.rows = 3) (hZc : Z.cols = ent.nodeCount * 2)
    (hZ0 : ∀ t, t < 3 * (ent.nodeCount * 2) → Z.data t = 0)
    (hx : q < DX.rows) (hy : q < DY.rows) :
    ∃ M, gradFill ent 2 true a DX DY DZ q Z = .ok M ∧ M.rows = 3 ∧
      M.cols = ent.nodeCount * 2 ∧
      ∀ j, j < ent.nodeCount →
        M.val 0 j = DX.val q j ∧ M.val 0 (ent.nodeCount + j) = 0 ∧
        M.val 1 j = 0 ∧ M.val 1 (ent.nodeCount + j) = DY.val q j ∧
        M.val 2 j = DY.val q j * a ∧ M.val 2 (ent.nodeCount + j) = DX.val q j * a := by
  obtain ⟨M1, e1, hr1, hc1, hv1⟩ := DenseMatrix.setRowSlice_val Z 0 (fun j => DX.val q j)
    (0 * ent.nodeCount) (1 * ent.nodeCount) ⟨by omega, by omega, by omega⟩
  obtain ⟨M2, e2, hr2, hc2, hv2⟩ := DenseMatrix.setRowSlice_val M1 1 (fun j => DY.val q j)
    (1 * ent.nodeCount) (2 * ent.nodeCount) ⟨by omega, by omega, by omega⟩
  obtain ⟨M3, e3, hr3, hc3, hv3⟩ := DenseMatrix.setRowSlice_val M2 2
    (fun j => DY.val q j * a) (0 * ent.nodeCount) (1 * ent.nodeCount)
    ⟨by omega, by omega, by omega⟩
  obtain ⟨M4, e4, hr4, hc4, hv4⟩ := DenseMatrix.setRowSlice_val M3 2
    (fun j => DX.val q j * a) (1 * ent.nodeCount) (2 * ent.nodeCount)
    ⟨by omega, by omega, by omega⟩
  have hZv : ∀ r c, r < 3 → c < ent.nodeCount * 2 → Z.val r c = 0 := by
    intro r c hr hc
    show Z.data (Z.cols * r + c) = 0
    apply hZ0
    rw [hZc]
    have := flat_lt (r := 3) (c := ent.nodeCount * 2) hr hc
    omega
  refine ⟨M4, ?_, by omega, by omega, ?_⟩
  · have h1 : ¬ ((2 : ℕ) = 1) := by decide
    have hn1 : ¬ ent.dim = 1 := by omega
    simp only [gradFill, if_neg h1, if_neg hn1, if_pos hd, DenseMatrix.row_ok _ q hx,
      DenseMatrix.row_ok _ q hy, bind_ok, if_true, setRowSlices, e1, e2, e3, e4]
  · intro j hj
    have e0 : j - 0 * ent.nodeCount = j := by omega
    have en : ent.nodeCount + j - 1 * ent.nodeCount = j := by omega
    refine ⟨?_, ?_, ?_, ?_, ?_, ?_⟩
    · rw [hv4 _ _ (by omega), if_neg (by omega), hv3 _ _ (by omega), if_neg (by omega),
        hv2 _ _ (by omega), if_neg (by omega), hv1 _ _ (by omega), if_pos (by omega)]
      simp only [e0]
    · rw [hv4 _ _ (by omega), if_neg (by omega), hv3 _ _ (by omega), if_neg (by omega),
        hv2 _ _ (by omega), if_neg (by omega), hv1 _ _ (by omega), if_neg (by omega)]
      exact hZv _ _ (by omega) (by omega)
    · rw [hv4 _ _ (by omega), if_neg (by omega), hv3 _ _ (by omega), if_neg (by omega),
        hv2 _ _ (by omega), if_neg (by omega), hv1 _ _ (by omega), if_neg (by omega)]
      exact hZv _ _ (by omega) (by omega)
    · rw [hv4 _ _ (by omega), if_neg (by omega), hv3 _ _ (by omega), if_neg (by omega),
        hv2 _ _ (by omega), if_pos (by omega)]
      simp only [en]
    · rw [hv4 _ _ (by omega), if_neg (by omega), hv3 _ _ (by omega), if_pos (by omega)]
      simp only [e0]
    · rw [hv4 _ _ (by omega), if_pos (by omega)]
      simp only [en]

/-- A repeated call of `grad(ent, order, elastic, false, div, nCoeff, dof,
dofOffset, kelvin)` on a valid operator with the same entity, order, `elastic`
and `nCoeff` returns the operator as it is, whatever `div` is. -/
theorem grad_cache_hit (rules : IntegrationRules R P) (rsqrt2 : R) (E : ElementMatrix R P)
    (ent : MeshEntity R P) (order : ℕ) (elastic div : Bool) (nCoeff dof dofOffset : ℕ)
    (kelvin : Bool) (hv : E._valid = true) (ho : E._order = order)
    (he : E._elastic = elastic) (hent : E._ent = some ent) (hn : E._nCoeff = nCoeff) :
    E.grad rules rsqrt2 ent order elastic false div nCoeff dof dofOffset kelvin = .ok E := by
  have hentIs : E.entIs ent = true := by simp [entIs, hent]
  have hcond : ¬ (E._valid = false ∨ E._order ≠ order ∨ E._elastic ≠ elastic
      ∨ E.entIs ent = false ∨ E._nCoeff ≠ nCoeff) := by
    simp [hv, ho, he, hentIs, hn]
  rw [grad, if_neg hcond]
  rfl

end ElementMatrix

/-- C21: after `pot` or `grad` with the field layout `(nCoeff, dofPerCoeff,
dofOffset)` on an operator that is not valid (as `init` leaves it), `rowIds`
has `nVerts * nCoeff` entries and `rowIds[i * nVerts + j]` is the id of node
`j` plus `i * dofPerCoeff + dofOffset`, for every `i < nCoeff` and
`j < nVerts`.  Both calls return normally: `pot` for at least one component
and a stride that `init` accepts; `grad` moreover for an entity of dimension
1, 2 or 3, a field the layout has room for, and a gradient cache that is not
sized to the rule. -/
theorem rowIds_layout (rules : IntegrationRules R P) (rsqrt2 : R) (dbg : Bool)
    (E : ElementMatrix R P) (ent : MeshEntity R P) (order : ℕ)
    (elastic sum div kelvin : Bool) (nCoeff dofPerCoeff dofOffset : ℕ)
    (hfresh : E._valid = false) (hnc : nCoeff ≠ 0)
    (hdpc : ¬ (nCoeff > 1 ∧ dofPerCoeff = 0))
    (hlen : sum = true →
      (rules.weights ent order).length ≤ (rules.abscissa ent order).length) :
    (∃ A, E.pot rules dbg ent order sum nCoeff dofPerCoeff dofOffset = .ok A ∧
      A._idsR.length = ent.nodeCount * nCoeff ∧
      ∀ i j, i < nCoeff → j < ent.nodeCount →
        A._idsR.getD (i * ent.nodeCount + j) 0
          = ent.ids.getD j 0 + i * dofPerCoeff + dofOffset) ∧
    ((ent.dim = 1 ∨ ent.dim = 2 ∨ ent.dim = 3) → (nCoeff = 1 ∨ ent.dim ≤ nCoeff) →
      (E.dNdr_.rows ≠ (rules.abscissa ent order).length
        ∨ (rules.abscissa ent order).length = 0) →
      ∃ A, E.grad rules rsqrt2 ent order elastic sum div nCoeff dofPerCoeff dofOffset kelvin
          = .ok A ∧
        A._idsR.length = ent.nodeCount * nCoeff ∧
        ∀ i j, i < nCoeff → j < ent.nodeCount →
          A._idsR.getD (i * ent.nodeCount + j) 0
            = ent.ids.getD j 0 + i * dofPerCoeff + dofOffset) := by
  constructor
  · obtain ⟨A, hA, -⟩ := ElementMatrix.pot_ok rules dbg E ent order sum nCoeff dofPerCoeff
      dofOffset (Or.inr hfresh) hnc hdpc hlen
    have hids := ElementMatrix.pot_ids rules dbg E A ent order sum nCoeff dofPerCoeff
      dofOffset hfresh hnc hA
    exact ⟨A, hA, hids.1, hids.2⟩
  · intro hdim hlay hcache
    obtain ⟨A, hA, hop, -⟩ := ElementMatrix.grad_ok rules rsqrt2 E ent order elastic sum div
      nCoeff dofPerCoeff dofOffset kelvin hfresh hnc hdpc hlay hcache hdim hlen
    exact ⟨A, hA, hop.2.2.2.2.2.2.2.2.1.1, hop.2.2.2.2.2.2.2.2.1.2⟩

/-- Witness for C21: a vector field with two components and stride 3 on the
triangle `tri`, on the operator left by the constructor. -/
theorem rowIds_layout_witness :
    (∃ A, Sample.scalarOp.pot Sample.midRules false Sample.tri 2 false 2 3 0 = .ok A ∧
      A._idsR.length = Sample.tri.nodeCount * 2 ∧
      ∀ i j, i < 2 → j < Sample.tri.nodeCount →
        A._idsR.getD (i * Sample.tri.nodeCount + j) 0
          = Sample.tri.ids.getD j 0 + i * 3 + 0) ∧
    (∃ A, Sample.scalarOp.grad Sample.midRules 0 Sample.tri 2 false false false 2 3 0 false
          = .ok A ∧
      A._idsR.length = Sample.tri.nodeCount * 2 ∧
      ∀ i j, i < 2 → j < Sample.tri.nodeCount →
        A._idsR.getD (i * Sample.tri.nodeCount + j) 0
          = Sample.tri.ids.getD j 0 + i * 3 + 0) :=
  have h := rowIds_layout Sample.midRules 0 false Sample.scalarOp Sample.tri 2 false false
    false false 2 3 0 rfl (by decide) (by decide) (fun h => by cases h)
  ⟨h.1, h.2 (Or.inr (Or.inl rfl)) (Or.inr (le_refl 2)) (Or.inl (by decide))⟩

/-- C22: for a 2-D entity and a scalar field (`nCoeff = 1`), `grad` on an
operator that is not valid and whose gradient cache is not sized to the rule
returns normally, and row 0 of the q-th basis image is
`dNdr(x_q) * drdx + dNds(x_q) * dsdx`, row 1 is
`dNdr(x_q) * drdy + dNds(x_q) * dsdy`, with `dNdr`, `dNds` the reference
gradients `ent.dNdL(x_q, 0)`, `ent.dNdL(x_q, 1)` and `drdx`, `drdy`, `dsdx`,
`dsdy` the entries `drstdxyz(0,0)`, `(0,1)`, `(1,0)`, `(1,1)`. -/
theorem grad_scalar_2d_rows (rules : IntegrationRules R P) (rsqrt2 : R)
    (E : ElementMatrix R P) (ent : MeshEntity R P) (order : ℕ)
    (elastic sum div kelvin : Bool) (dof dofOffset : ℕ)
    (hfresh : E._valid = false)
    (hcache : E.dNdr_.rows ≠ (rules.abscissa ent order).length
      ∨ (rules.abscissa ent order).length = 0)
    (h2 : ent.dim = 2)
    (hlen : sum = true →
      (rules.weights ent order).length ≤ (rules.abscissa ent order).length) :
    ∃ A, E.grad rules rsqrt2 ent order elastic sum div 1 dof dofOffset kelvin = .ok A ∧
      A._matX.length = (rules.abscissa ent order).length ∧
      ∀ q xq, (rules.abscissa ent order)[q]? = some xq →
        (A.matXq q).rows = (if elastic = true then 3 else 2) ∧
        (A.matXq q).cols = ent.nodeCount ∧
        ∀ j, j < ent.nodeCount →
          (A.matXq q).val 0 j
            = ent.dNdL xq 0 j * ent.drstdxyz 0 0 + ent.dNdL xq 1 j * ent.drstdxyz 1 0 ∧
          (A.matXq q).val 1 j
            = ent.dNdL xq 0 j * ent.drstdxyz 0 1 + ent.dNdL xq 1 j * ent.drstdxyz 1 1 := by
  obtain ⟨A, hA, hop, -⟩ := ElementMatrix.grad_ok rules rsqrt2 E ent order elastic sum div
    1 dof dofOffset kelvin hfresh (by decide) (by omega) (Or.inl rfl) hcache
    (Or.inr (Or.inl h2)) hlen
  obtain ⟨-, -, -, -, -, -, -, -, -, -, -, hXl, hq⟩ := hop
  refine ⟨A, hA, hXl, ?_⟩
  intro q xq hxq
  obtain ⟨Z, DX, DY, DZ, hZr, hZc, -, hX, hY, hZz, hfill⟩ := hq q xq hxq
  have hrows : gradRows ent 1 elastic = (if elastic = true then 3 else 2) := by
    cases elastic <;> simp [gradRows, h2]
  obtain ⟨M3, h3, hr3, hc3, e0, e1, -⟩ := ElementMatrix.gradFill_scalar_rows ent elastic
    (if elastic = true ∧ kelvin = true then rsqrt2 else 1) DX DY DZ Z q
    (by rw [hZr]; exact gradRows_pos ent 1 elastic (by omega) (by decide))
    (by rw [hZc, Nat.mul_one]) (fun h => (hX h).1) (fun h => (hY h).1) (fun h => (hZz h).1)
  rw [hfill] at h3
  have hM : A.matXq q = M3 := Except.ok.inj h3
  rw [hM]
  refine ⟨by rw [hr3, hZr, hrows], hc3, ?_⟩
  intro j hj
  have hp : ∀ s, physGrad ent xq s j
      = ent.dNdL xq 0 j * ent.drstdxyz 0 s + ent.dNdL xq 1 j * ent.drstdxyz 1 s := by
    intro s
    simp only [physGrad, h2, Finset.sum_range_succ, Finset.sum_range_zero, zero_add]
  rw [e0 (by omega) j hj, e1 (by omega) j hj, (hX (by omega)).2 j hj, (hY (by omega)).2 j hj,
    hp 0, hp 1]
  exact ⟨rfl, rfl⟩

/-- Witness for C22: the scalar gradient on the triangle `tri` under the
midpoint rule, on the operator left by the constructor. -/
theorem grad_scalar_2d_rows_witness :
    ∃ A, Sample.scalarOp.grad Sample.midRules 0 Sample.tri 2 false false false 1 0 0 false
        = .ok A ∧
      A._matX.length = (Sample.midRules.abscissa Sample.tri 2).length ∧
      ∀ q xq, (Sample.midRules.abscissa Sample.tri 2)[q]? = some xq →
        (A.matXq q).rows = (if false = true then 3 else 2) ∧
        (A.matXq q).cols = Sample.tri.nodeCount ∧
        ∀ j, j < Sample.tri.nodeCount →
          (A.matXq q).val 0 j
            = Sample.tri.dNdL xq 0 j * Sample.tri.drstdxyz 0 0
              + Sample.tri.dNdL xq 1 j * Sample.tri.drstdxyz 1 0 ∧
          (A.matXq q).val 1 j
            = Sample.tri.dNdL xq 0 j * Sample.tri.drstdxyz 0 1
              + Sample.tri.dNdL xq 1 j * Sample.tri.drstdxyz 1 1 :=
  grad_scalar_2d_rows Sample.midRules 0 Sample.scalarOp Sample.tri 2 false false false false
    0 0 rfl (Or.inl (by decide)) rfl (fun h => by cases h)

/-- C23: for a 2-D entity, `nCoeff = 2` and `elastic = true`, `grad` on an
operator that is not valid and whose gradient cache is not sized to the rule
returns normally, and every basis image has 3 rows and `2 * nVerts` columns
with row 0 = `[dN/dx | 0]`, row 1 = `[0 | dN/dy]` and row 2 =
`[a * dN/dy | a * dN/dx]`; the shear scale `a` is 1 when `kelvin` is false and
the constant `1./std::sqrt(2.)`, the positive number with `a * a = 1/2`, when
`kelvin` is true. -/
theorem grad_elastic_2d {K Q : Type} [LinearOrderedField K] (rules : IntegrationRules K Q)
    (rsqrt2 : K) (E : ElementMatrix K Q) (ent : MeshEntity K Q) (order : ℕ)
    (sum div kelvin : Bool) (dof dofOffset : ℕ)
    (hroot : 0 < rsqrt2 ∧ rsqrt2 * rsqrt2 = 1 / 2)
    (hfresh : E._valid = false)
    (hcache : E.dNdr_.rows ≠ (rules.abscissa ent order).length
      ∨ (rules.abscissa ent order).length = 0)
    (h2 : ent.dim = 2) (hdof : dof ≠ 0)
    (hlen : sum = true →
      (rules.weights ent order).length ≤ (rules.abscissa ent order).length) :
    ∃ a : K, (kelvin = false → a = 1) ∧ (kelvin = true → 0 < a ∧ a * a = 1 / 2) ∧
      ∃ A, E.grad rules rsqrt2 ent order true sum div 2 dof dofOffset kelvin = .ok A ∧
        A._matX.length = (rules.abscissa ent order).length ∧
        ∀ q xq, (rules.abscissa ent order)[q]? = some xq →
          (A.matXq q).rows = 3 ∧ (A.matXq q).cols = 2 * ent.nodeCount ∧
          ∀ j, j < ent.nodeCount →
            (A.matXq q).val 0 j = physGrad ent xq 0 j ∧
            (A.matXq q).val 0 (ent.nodeCount + j) = 0 ∧
            (A.matXq q).val 1 j = 0 ∧
            (A.matXq q).val 1 (ent.nodeCount + j) = physGrad ent xq 1 j ∧
            (A.matXq q).val 2 j = a * physGrad ent xq 1 j ∧
            (A.matXq q).val 2 (ent.nodeCount + j) = a * physGrad ent xq 0 j := by
  refine ⟨if true = true ∧ kelvin = true then rsqrt2 else 1, ?_, ?_, ?_⟩
  · intro hk
    simp [hk]
  · intro hk
    simp only [hk, and_self, if_true]
    exact hroot
  · obtain ⟨A, hA, hop, -⟩ := ElementMatrix.grad_ok rules rsqrt2 E ent order true sum div
      2 dof dofOffset kelvin hfresh (by decide) (by omega) (Or.inr (by omega)) hcache
      (Or.inr (Or.inl h2)) hlen
    obtain ⟨-, -, -, -, -, -, -, -, -, -, -, hXl, hq⟩ := hop
    refine ⟨A, hA, hXl, ?_⟩
    intro q xq hxq
    obtain ⟨Z, DX, DY, DZ, hZr, hZc, hZ0, hX, hY, -, hfill⟩ := hq q xq hxq
    rw [gradRows_elastic2 ent 2 h2] at hZr hZ0
    obtain ⟨M, hM, hr, hc, hv⟩ := ElementMatrix.gradFill_elastic2 ent
      (if true = true ∧ kelvin = true then rsqrt2 else 1) DX DY DZ Z q h2 hZr hZc hZ0
      (hX (by omega)).1 (hY (by omega)).1
    rw [hfill] at hM
    have hMe : A.matXq q = M := Except.ok.inj hM
    rw [hMe]
    refine ⟨hr, by rw [hc, Nat.mul_comm], ?_⟩
    intro j hj
    obtain ⟨v1, v2, v3, v4, v5, v6⟩ := hv j hj
    rw [v1, v2, v3, v4, v5, v6, (hX (by omega)).2 j hj, (hY (by omega)).2 j hj]
    exact ⟨rfl, rfl, rfl, rfl, mul_comm _ _, mul_comm _ _⟩

/-- Witness for C23: the Kelvin layout on the linear triangle over the real
numbers, with `rsqrt2 = √2 / 2`, on a blank operator. -/
theorem grad_elastic_2d_witness :
    ∃ a : ℝ, (true = false → a = 1) ∧ (true = true → 0 < a ∧ a * a = 1 / 2) ∧
      ∃ A, (ElementMatrix.blank : ElementMatrix ℝ (ℝ × ℝ)).grad (Sample.centroidRules ℝ)
          (Real.sqrt 2 / 2) (Sample.triOver ℝ) 2 true false false 2 3 0 true = .ok A ∧
        A._matX.length = ((Sample.centroidRules ℝ).abscissa (Sample.triOver ℝ) 2).length ∧
        ∀ q xq, ((Sample.centroidRules ℝ).abscissa (Sample.triOver ℝ) 2)[q]? = some xq →
          (A.matXq q).rows = 3 ∧ (A.matXq q).cols = 2 * (Sample.triOver ℝ).nodeCount ∧
          ∀ j, j < (Sample.triOver ℝ).nodeCount →
            (A.matXq q).val 0 j = physGrad (Sample.triOver ℝ) xq 0 j ∧
            (A.matXq q).val 0 ((Sample.triOver ℝ).nodeCount + j) = 0 ∧
            (A.matXq q).val 1 j = 0 ∧
            (A.matXq q).val 1 ((Sample.triOver ℝ).nodeCount + j)
              = physGrad (Sample.triOver ℝ) xq 1 j ∧
            (A.matXq q).val 2 j = a * physGrad (Sample.triOver ℝ) xq 1 j ∧
            (A.matXq q).val 2 ((Sample.triOver ℝ).nodeCount + j)
              = a * physGrad (Sample.triOver ℝ) xq 0 j :=
  grad_elastic_2d (Sample.centroidRules ℝ) (Real.sqrt 2 / 2) ElementMatrix.blank
    (Sample.triOver ℝ) 2 false false true 3 0
    ⟨by positivity, by
      rw [div_mul_div_comm, Real.mul_self_sqrt (by norm_num)]
      norm_num⟩
    rfl (Or.inl (by decide)) rfl (by decide) (fun h => by cases h)

/-- C24: the call `grad(tri, 2, false, false, div = true, 2, 3, 0, false)` on
the operator left by the same call with `div = false` returns that operator
as it is: its divergence mark is still `false`, not the requested `true`. -/
theorem grad_div_stale :
    ∃ G G1, Sample.scalarOp.grad Sample.midRules 0 Sample.tri 2 false false false 2 3 0 false
        = .ok G ∧
      G.grad Sample.midRules 0 Sample.tri 2 false false true 2 3 0 false = .ok G1 ∧
      G._div = false ∧ G1._div = false := by
  obtain ⟨G, hG, hop, -⟩ := ElementMatrix.grad_ok Sample.midRules 0 Sample.scalarOp
    Sample.tri 2 false false false 2 3 0 false rfl (by decide) (by decide)
    (Or.inr (le_refl 2)) (Or.inl (by decide)) (Or.inr (Or.inl rfl)) (fun h => by cases h)
  obtain ⟨-, -, hent, hdiv, hel, hord, hnc, hval, -⟩ := hop
  exact ⟨G, G, hG, ElementMatrix.grad_cache_hit Sample.midRules 0 G Sample.tri 2 false true
    2 3 0 false hval hord hel hent hnc, hdiv, hdiv⟩

namespace DenseMatrix

theorem fillRow_ok (m : DenseMatrix R) (i : ℕ) (v : R) (hi : i < m.rows) :
    ∃ M, m.fillRow i v = .ok M ∧ M.rows = m.rows ∧ M.cols = m.cols ∧
      ∀ r j, j < m.cols → M.val r j = if r = i then v else m.val r j := by
  obtain ⟨M, hM, hr, hc, hrow, hoth⟩ := setRow_ok m i (fun _ => v) hi
  refine ⟨M, hM, hr, hc, ?_⟩
  intro r j hj
  by_cases hri : r = i
  · subst hri
    rw [if_pos rfl]
    exact hrow j hj
  · rw [if_neg hri]
    exact hoth r j hri hj

theorem addToRow_ok (m : DenseMatrix R) (i : ℕ) (v : ℕ → R) (n : ℕ) (hn : n = m.cols)
    (hi : i < m.rows) :
    ∃ M, m.addToRow i v n = .ok M ∧ M.rows = m.rows ∧ M.cols = m.cols ∧
      (∀ j, j < m.cols → M.val i j = m.val i j + v j) ∧
      (∀ k j, k ≠ i → j < m.cols → M.val k j = m.val k j) := by
  obtain ⟨M, hM, hr, hc, hrow, hoth⟩ := setRow_ok m i (fun j => m.val i j + v j) hi
  refine ⟨M, ?_, hr, hc, hrow, hoth⟩
  rw [addToRow, if_pos hn, row_ok m i hi]
  exact hM

end DenseMatrix

namespace ElementMatrix

/-- What `resize` may change: `mat_` and the three id arrays. -/
theorem resize_frame (E E1 : ElementMatrix R P) (rows cols : ℕ) (b : Bool)
    (h : E.resize rows cols b = .ok E1) :
    ∃ idsR, E1 = { E with
      _idsR := idsR, _idsC := resizeIds E._idsC (if cols = 0 then rows else cols),
      _ids := resizeIds E._ids rows,
      mat_ := E.mat_.resize rows (if cols = 0 then rows else cols) } := by
  rw [resize] at h
  cases hent : E._ent with
  | none =>
    simp only [hent] at h
    exact ⟨_, (Except.ok.inj h).symm⟩
  | some ent =>
    simp only [hent] at h
    cases b with
    | false =>
      simp only [Bool.false_eq_true, if_false] at h
      exact ⟨_, (Except.ok.inj h).symm⟩
    | true =>
      simp only [if_true] at h
      obtain ⟨idsR, -, hE⟩ := map_eq_ok h
      exact ⟨idsR, hE⟩

/-- One basis image of `identity` for `nCoeff` equal to the dimension 2 or 3:
a `d*d x nVerts*d` matrix whose rows 0 and 3, or 0, 4 and 8, hold 1 and whose
other rows hold 0. -/
theorem identityImage_ok (ent : MeshEntity R P) (d : ℕ) (Mi : DenseMatrix R)
    (hd : d = 2 ∨ d = 3) (hdim : ent.dim = d) :
    ∃ M, identityImage ent d d (ent.dim * d) Mi = .ok M ∧ M.rows = d * d ∧
      M.cols = ent.nodeCount * d ∧
      ∀ r j, r < d * d → j < ent.nodeCount * d →
        M.val r j = if (d = 2 ∧ (r = 0 ∨ r = 3)) ∨ (d = 3 ∧ (r = 0 ∨ r = 4 ∨ r = 8))
          then 1 else 0 := by
  obtain ⟨Z, hZ, hZr, hZc, hZ0⟩ : ∃ Z : DenseMatrix R,
      Z = (Mi.resize (ent.dim * d) (ent.nodeCount * d)).setZero ∧ Z.rows = ent.dim * d ∧
      Z.cols = ent.nodeCount * d ∧
      ∀ r j, r < ent.dim * d → j < ent.nodeCount * d → Z.val r j = 0 := by
    refine ⟨_, rfl, DenseMatrix.resize_rows _ _ _, DenseMatrix.resize_cols _ _ _, ?_⟩
    intro r j hr hj
    simp only [DenseMatrix.val, DenseMatrix.setZero, DenseMatrix.clean,
      DenseMatrix.resize_rows, DenseMatrix.resize_cols, flat_lt hr hj, if_true]
  rcases hd with h | h
  · subst h
    obtain ⟨M1, e1, hr1, hc1, hv1⟩ := DenseMatrix.fillRow_ok Z 0 1 (by omega)
    obtain ⟨M2, e2, hr2, hc2, hv2⟩ := DenseMatrix.fillRow_ok M1 3 1 (by omega)
    refine ⟨M2, ?_, by omega, by omega, ?_⟩
    · simp only [identityImage, ← hZ]
      simp only [hdim, if_true, e1, bind_ok, e2]
    · intro r j hr hj
      rw [hv2 r j (by omega), hv1 r j (by omega), hZ0 r j (by omega) hj]
      interval_cases r <;> simp
  · subst h
    have hn2 : ¬ ((3 : ℕ) = 2) := by decide
    obtain ⟨M1, e1, hr1, hc1, hv1⟩ := DenseMatrix.fillRow_ok Z 0 1 (by omega)
    obtain ⟨M2, e2, hr2, hc2, hv2⟩ := DenseMatrix.fillRow_ok M1 4 1 (by omega)
    obtain ⟨M3, e3, hr3, hc3, hv3⟩ := DenseMatrix.fillRow_ok M2 8 1 (by omega)
    refine ⟨M3, ?_, by omega, by omega, ?_⟩
    · simp only [identityImage, ← hZ]
      simp only [hdim, if_true, if_neg hn2, e1, bind_ok, e2, e3]
    · intro r j hr hj
      rw [hv3 r j (by omega), hv2 r j (by omega), hv1 r j (by omega),
        hZ0 r j (by omega) hj]
      interval_cases r <;> simp

/-- The loop of `identity` over the basis images. -/
theorem identity_loop (ent : MeshEntity R P) (d n : ℕ) (mats : List (DenseMatrix R))
    (hd : d = 2 ∨ d = 3) (hdim : ent.dim = d) (hlen : mats.length = n) :
    ∃ mats1, forLoop n (fun i mats =>
        match mats[i]? with
        | none => .error .outOfRange
        | some Mi =>
          (identityImage ent d d (ent.dim * d) Mi).map fun M => mats.set i M) mats
        = .ok mats1 ∧ mats1.length = n ∧
      ∀ q, q < n →
        (mats1.getD q DenseMatrix.empty).rows = d * d ∧
        (mats1.getD q DenseMatrix.empty).cols = ent.nodeCount * d ∧
        ∀ r j, r < d * d → j < ent.nodeCount * d →
          (mats1.getD q DenseMatrix.empty).val r j
            = if (d = 2 ∧ (r = 0 ∨ r = 3)) ∨ (d = 3 ∧ (r = 0 ∨ r = 4 ∨ r = 8))
              then 1 else 0 := by
  obtain ⟨mats1, hloop, hl1, hdone⟩ := forLoop_inv
    (fun k (ms : List (DenseMatrix R)) => ms.length = n ∧
      ∀ q, q < k →
        (ms.getD q DenseMatrix.empty).rows = d * d ∧
        (ms.getD q DenseMatrix.empty).cols = ent.nodeCount * d ∧
        ∀ r j, r < d * d → j < ent.nodeCount * d →
          (ms.getD q DenseMatrix.empty).val r j
            = if (d = 2 ∧ (r = 0 ∨ r = 3)) ∨ (d = 3 ∧ (r = 0 ∨ r = 4 ∨ r = 8))
              then 1 else 0)
    (fun i mats =>
        match mats[i]? with
        | none => .error .outOfRange
        | some Mi =>
          (identityImage ent d d (ent.dim * d) Mi).map fun M => mats.set i M)
    n mats ⟨hlen, fun q h => absurd h (Nat.not_lt_zero q)⟩
    (by
      intro k ms hk ⟨hl, hdn⟩
      have hm : ms[k]? = some (ms.getD k DenseMatrix.empty) :=
        getElem?_getD_of_lt _ _ (hl ▸ hk)
      obtain ⟨M, hM, hr, hc, hv⟩ := identityImage_ok ent d (ms.getD k DenseMatrix.empty)
        hd hdim
      refine ⟨ms.set k M, ?_, by rw [List.length_set]; exact hl, ?_⟩
      · simp only [hm, hM]
        rfl
      · intro q hq
        rcases Nat.lt_succ_iff_lt_or_eq.mp hq with hlt | heq
        · rw [getD_set_ne _ _ _ (Nat.ne_of_gt hlt)]
          exact hdn q hlt
        · subst heq
          rw [getD_set_self _ _ _ (hl ▸ hk)]
          exact ⟨hr, hc, hv⟩)
  exact ⟨mats1, hloop, hl1, hdone⟩

/-- C26: for an entity of dimension `d` in {2, 3}, `nCoeff = d` and a stride
that `init` accepts, `identity(ent, order, d, dofPerCoeff, dofOffset)` returns
normally with one basis image per quadrature weight, each of `d*d` rows and
`nVerts*d` columns, in which the rows 0 and 3 (`d = 2`) or 0, 4 and 8
(`d = 3`) are filled with 1 and all other rows are 0; the operator is valid
and not integrated. -/
theorem identity_images (rules : IntegrationRules R P) (E : ElementMatrix R P)
    (ent : MeshEntity R P) (order d dofPerCoeff dofOffset : ℕ)
    (hd : d = 2 ∨ d = 3) (hdim : ent.dim = d) (hdpc : dofPerCoeff ≠ 0) :
    ∃ A, E.identity rules ent order d dofPerCoeff dofOffset = .ok A ∧
      A._matX.length = (rules.weights ent order).length ∧
      (∀ q, q < (rules.weights ent order).length →
        (A.matXq q).rows = d * d ∧ (A.matXq q).cols = ent.nodeCount * d ∧
        ∀ r j, r < d * d → j < ent.nodeCount * d →
          (A.matXq q).val r j
            = if (d = 2 ∧ (r = 0 ∨ r = 3)) ∨ (d = 3 ∧ (r = 0 ∨ r = 4 ∨ r = 8))
              then 1 else 0) ∧
      A._valid = true ∧ A._integrated = false := by
  have hg : ¬ (d > 1 ∧ dofPerCoeff = 0) := fun h => hdpc h.2
  obtain ⟨E1, hE1, hinit⟩ : ∃ E1 : ElementMatrix R P,
      E1 = { E with
        _newStyle := true, _order := 0, _nCoeff := d,
        _dofPerCoeff := dofPerCoeff, _dofOffset := dofOffset,
        _ent := none, _w := none, _x := none, _div := false,
        _integrated := false, _elastic := false, _valid := false } ∧
      E.init d dofPerCoeff dofOffset = .ok E1 := ⟨_, rfl, init_ok E d dofPerCoeff dofOffset hg⟩
  have h1nc : E1._nCoeff = d := by rw [hE1]
  have h1int : E1._integrated = false := by rw [hE1]
  obtain ⟨E2, hE2⟩ : ∃ E2 : ElementMatrix R P, E2 = { E1 with
      _ent := some ent, _order := order, _w := some (rules.weights ent order),
      _x := some (rules.abscissa ent order) } := ⟨_, rfl⟩
  have h2nc : E2._nCoeff = d := by rw [hE2]; exact h1nc
  obtain ⟨idsR, hres, -⟩ := resize_ok E2 (ent.nodeCount * d) (ent.dim * E2._nCoeff)
    (fun e he => by
      rw [hE2] at he
      cases he
      rw [h2nc]
      exact le_of_eq (Nat.mul_comm _ _))
  obtain ⟨E3, hE3, hresE⟩ : ∃ E3 : ElementMatrix R P,
      E3 = { E2 with
        _idsR := idsR,
        _idsC := resizeIds E2._idsC
          (if ent.dim * E2._nCoeff = 0 then ent.nodeCount * d else ent.dim * E2._nCoeff),
        _ids := resizeIds E2._ids (ent.nodeCount * d),
        mat_ := E2.mat_.resize (ent.nodeCount * d)
          (if ent.dim * E2._nCoeff = 0 then ent.nodeCount * d else ent.dim * E2._nCoeff) } ∧
      E2.resize (ent.nodeCount * d) (ent.dim * E2._nCoeff) true = .ok E3 := ⟨_, rfl, hres⟩
  have h3nc : E3._nCoeff = d := by rw [hE3]; exact h2nc
  obtain ⟨mats1, hloop, hl1, hdone⟩ := identity_loop ent d (rules.weights ent order).length
    (resizeMats E3._matX (rules.weights ent order).length) hd hdim (resizeMats_length _ _)
  refine ⟨{ E3 with _matX := mats1, _valid := true }, ?_, hl1, hdone, rfl, ?_⟩
  · rw [identity, hinit, bind_ok, identityTail, ← hE2]
    rw [hresE, bind_ok]
    rw [h3nc, h2nc, hloop, map_ok]
  · show E3._integrated = false
    rw [hE3, hE2]
    exact h1int

/-- C25: for every entity and every order whose quadrature rule has at least
one weight, `identity(ent, order, nCoeff, dofPerCoeff, dofOffset)` fails with
an error whenever `nCoeff` differs from `ent.dim()`: the first round of the
loop over the weights runs into `THROW_TO_IMPL`, unless `init` or `resize`
has failed before. -/
theorem identity_mismatch_fails (rules : IntegrationRules R P) (E : ElementMatrix R P)
    (ent : MeshEntity R P) (order nCoeff dofPerCoeff dofOffset : ℕ)
    (hne : nCoeff ≠ ent.dim) (hw : 0 < (rules.weights ent order).length) :
    ∃ e, E.identity rules ent order nCoeff dofPerCoeff dofOffset = .error e := by
  rw [identity]
  cases hinit : E.init nCoeff dofPerCoeff dofOffset with
  | error e => exact ⟨e, rfl⟩
  | ok E1 =>
    have h1nc : E1._nCoeff = nCoeff := by
      rw [init] at hinit
      by_cases hg : nCoeff > 1 ∧ dofPerCoeff = 0
      · rw [if_pos hg] at hinit
        cases hinit
      · rw [if_neg hg] at hinit
        rw [← Except.ok.inj hinit]
    obtain ⟨E2, hE2⟩ : ∃ E2 : ElementMatrix R P, E2 = { E1 with
        _ent := some ent, _order := order, _w := some (rules.weights ent order),
        _x := some (rules.abscissa ent order) } := ⟨_, rfl⟩
    have h2nc : E2._nCoeff = nCoeff := by rw [hE2]; exact h1nc
    rw [bind_ok, identityTail, ← hE2]
    cases hres : E2.resize (ent.nodeCount * nCoeff) (ent.dim * E2._nCoeff) true with
    | error e => exact ⟨e, rfl⟩
    | ok E3 =>
      obtain ⟨idsR, hE3⟩ := resize_frame _ _ _ _ _ hres
      have h3nc : E3._nCoeff = nCoeff := by rw [hE3]; exact h2nc
      have himg : ∀ Mi : DenseMatrix R,
          identityImage ent E3._nCoeff nCoeff (ent.dim * E2._nCoeff) Mi = .error .toImpl := by
        intro Mi
        rw [identityImage, h3nc]
        simp only [if_neg hne]
      rw [bind_ok]
      cases hm : (resizeMats E3._matX (rules.weights ent order).length)[0]? with
      | none =>
        refine ⟨.outOfRange, ?_⟩
        rw [forLoop_error_first _ _ .outOfRange (by simp only [hm]) _ hw]
        rfl
      | some Mi =>
        refine ⟨.toImpl, ?_⟩
        rw [forLoop_error_first _ _ .toImpl (by simp only [hm, himg]; rfl) _ hw]
        rfl

/-- The call `identity` under a rule without weights returns normally whatever
`nCoeff` is: its loop makes no round. -/
theorem identity_no_points (rules : IntegrationRules R P) (E : ElementMatrix R P)
    (ent : MeshEntity R P) (order nCoeff dofPerCoeff dofOffset : ℕ)
    (hg : ¬ (nCoeff > 1 ∧ dofPerCoeff = 0)) (hw : rules.weights ent order = []) :
    ∃ A, E.identity rules ent order nCoeff dofPerCoeff dofOffset = .ok A ∧
      A._valid = true ∧ A._nCoeff = nCoeff ∧ A._matX = [] := by
  obtain ⟨E1, hE1, hinit⟩ : ∃ E1 : ElementMatrix R P,
      E1 = { E with
        _newStyle := true, _order := 0, _nCoeff := nCoeff,
        _dofPerCoeff := dofPerCoeff, _dofOffset := dofOffset,
        _ent := none, _w := none, _x := none, _div := false,
        _integrated := false, _elastic := false, _valid := false } ∧
      E.init nCoeff dofPerCoeff dofOffset = .ok E1 :=
    ⟨_, rfl, init_ok E nCoeff dofPerCoeff dofOffset hg⟩
  have h1nc : E1._nCoeff = nCoeff := by rw [hE1]
  obtain ⟨E2, hE2⟩ : ∃ E2 : ElementMatrix R P, E2 = { E1 with
      _ent := some ent, _order := order, _w := some (rules.weights ent order),
      _x := some (rules.abscissa ent order) } := ⟨_, rfl⟩
  have h2nc : E2._nCoeff = nCoeff := by rw [hE2]; exact h1nc
  obtain ⟨idsR, hres, -⟩ := resize_ok E2 (ent.nodeCount * nCoeff) (ent.dim * E2._nCoeff)
    (fun e he => by
      rw [hE2] at he
      cases he
      rw [h2nc]
      exact le_of_eq (Nat.mul_comm _ _))
  obtain ⟨E3, hE3, hresE⟩ : ∃ E3 : ElementMatrix R P,
      E3 = { E2 with
        _idsR := idsR,
        _idsC := resizeIds E2._idsC
          (if ent.dim * E2._nCoeff = 0 then ent.nodeCount * nCoeff
            else ent.dim * E2._nCoeff),
        _ids := resizeIds E2._ids (ent.nodeCount * nCoeff),
        mat_ := E2.mat_.resize (ent.nodeCount * nCoeff)
          (if ent.dim * E2._nCoeff = 0 then ent.nodeCount * nCoeff
            else ent.dim * E2._nCoeff) } ∧
      E2.resize (ent.nodeCount * nCoeff) (ent.dim * E2._nCoeff) true = .ok E3 :=
    ⟨_, rfl, hres⟩
  refine ⟨{ E3 with _matX := resizeMats E3._matX 0, _valid := true }, ?_, rfl, ?_, ?_⟩
  · rw [identity, hinit, bind_ok, identityTail, ← hE2]
    rw [hresE, bind_ok]
    rw [hw]
    rfl
  · show E3._nCoeff = nCoeff
    rw [hE3]
    exact h2nc
  · show resizeMats E3._matX 0 = []
    simp [resizeMats]

end ElementMatrix

/-- Witness for C25: three components on the triangle `tri` under the midpoint
rule. -/
theorem identity_mismatch_fails_witness :
    3 ≠ Sample.tri.dim ∧ 0 < (Sample.midRules.weights Sample.tri 2).length ∧
    ∃ e, (ElementMatrix.blank : ElementMatrix ℚ (ℚ × ℚ)).identity Sample.midRules Sample.tri
      2 3 1 0 = .error e :=
  ⟨by decide, by decide,
    ElementMatrix.identity_mismatch_fails Sample.midRules ElementMatrix.blank Sample.tri
      2 3 1 0 (by decide) (by decide)⟩

/-- Counterexample for C25 as stated: under a rule without a weight,
`identity` with three components on the 2-D entity `tri` returns normally and
marks the operator valid. -/
theorem identity_mismatch_counterexample :
    3 ≠ Sample.tri.dim ∧
    ∃ A, (ElementMatrix.blank : ElementMatrix ℚ (ℚ × ℚ)).identity Sample.noRules Sample.tri
      2 3 1 0 = .ok A ∧ A._valid = true := by
  obtain ⟨A, h, hv, -⟩ := ElementMatrix.identity_no_points Sample.noRules
    (ElementMatrix.blank : ElementMatrix ℚ (ℚ × ℚ)) Sample.tri 2 3 1 0 (by decide) rfl
  exact ⟨by decide, A, h, hv⟩

/-- Witness for C26: two components with stride 3 on the triangle `tri` under
the midpoint rule. -/
theorem identity_images_witness :
    ∃ A, (ElementMatrix.blank : ElementMatrix ℚ (ℚ × ℚ)).identity Sample.midRules Sample.tri
        2 2 3 0 = .ok A ∧
      A._matX.length = (Sample.midRules.weights Sample.tri 2).length ∧
      (∀ q, q < (Sample.midRules.weights Sample.tri 2).length →
        (A.matXq q).rows = 2 * 2 ∧ (A.matXq q).cols = Sample.tri.nodeCount * 2 ∧
        ∀ r j, r < 2 * 2 → j < Sample.tri.nodeCount * 2 →
          (A.matXq q).val r j
            = if (2 = 2 ∧ (r = 0 ∨ r = 3)) ∨ (2 = 3 ∧ (r = 0 ∨ r = 4 ∨ r = 8))
              then 1 else 0) ∧
      A._valid = true ∧ A._integrated = false :=
  ElementMatrix.identity_images Sample.midRules ElementMatrix.blank Sample.tri 2 2 3 0
    (Or.inl rfl) rfl (by decide)

/-- C28: after `C.copyFrom(E, withMat)` the operator `C` has the order, the
field layout, the entity, the weights, the points, the basis images, the row
and column ids and the flags `div`, `elastic` and `valid` of `E`; with
`withMat` its integrated matrix has the shape and the entries of `E.mat()` and
its flag `integrated` is that of `E`; without `withMat` the flag `integrated`
is false and the integrated matrix has the dimensions of `E.mat()`. -/
theorem copyFrom_fields (C E : ElementMatrix R P) (withMat : Bool) :
    (C.copyFrom E withMat)._order = E._order ∧
    (C.copyFrom E withMat)._nCoeff = E._nCoeff ∧
    (C.copyFrom E withMat)._dofPerCoeff = E._dofPerCoeff ∧
    (C.copyFrom E withMat)._dofOffset = E._dofOffset ∧
    (C.copyFrom E withMat)._ent = E._ent ∧
    (C.copyFrom E withMat)._w = E._w ∧
    (C.copyFrom E withMat)._x = E._x ∧
    (C.copyFrom E withMat)._matX = E._matX ∧
    (C.copyFrom E withMat)._idsR = E._idsR ∧
    (C.copyFrom E withMat)._idsC = E._idsC ∧
    (C.copyFrom E withMat)._div = E._div ∧
    (C.copyFrom E withMat)._elastic = E._elastic ∧
    (C.copyFrom E withMat)._valid = E._valid ∧
    (C.copyFrom E withMat).mat_.rows = E.mat_.rows ∧
    (C.copyFrom E withMat).mat_.cols = E.mat_.cols ∧
    (withMat = true →
      (C.copyFrom E withMat)._integrated = E._integrated ∧
      ∀ i j, i < E.mat_.rows → j < E.mat_.cols →
        (C.copyFrom E withMat).mat_.val i j = E.mat_.val i j) ∧
    (withMat = false → (C.copyFrom E withMat)._integrated = false) := by
  cases withMat with
  | true =>
    refine ⟨rfl, rfl, rfl, rfl, rfl, rfl, rfl, rfl, rfl, rfl, rfl, rfl, rfl,
      DenseMatrix.copy__rows _ _, DenseMatrix.copy__cols _ _, fun _ => ⟨rfl, ?_⟩,
      fun h => by cases h⟩
    intro i j hi hj
    show (C.mat_.copy_ E.mat_).data ((C.mat_.copy_ E.mat_).cols * i + j) = _
    rw [DenseMatrix.copy__cols, DenseMatrix.copy__data _ _ _ (flat_lt hi hj)]
    rfl
  | false =>
    exact ⟨rfl, rfl, rfl, rfl, rfl, rfl, rfl, rfl, rfl, rfl, rfl, rfl, rfl,
      DenseMatrix.resize_rows _ _ _, DenseMatrix.resize_cols _ _ _,
      (fun h => by cases h), fun _ => rfl⟩

/-- A second call of `integrate()` behind one that returned changes nothing. -/
theorem integrate_twice (E E1 : ElementMatrix R P) (h : E.integrate = .ok E1) :
    E1.integrate = .ok E1 := by
  rw [ElementMatrix.integrate] at h
  by_cases hc : E._newStyle = true ∧ E._integrated = false ∧ E._valid = true
  · rw [if_pos hc] at h
    cases hw : E._w with
    | none =>
      rw [hw] at h
      cases h
    | some w =>
      rw [hw] at h
      obtain ⟨M, -, hE1⟩ := map_eq_ok h
      have hint : E1._integrated = true := by rw [hE1]
      rw [ElementMatrix.integrate, if_neg (by rw [hint]; simp)]
  · rw [if_neg hc] at h
    have hE1 : E1 = E := (Except.ok.inj h).symm
    rw [hE1, ElementMatrix.integrate, if_neg hc]

/-- C29: on an operator that has what `integrate()` reads, a call of
`integrate()` returns, and a second call returns the state the first one left:
the same integrated matrix, basis images and flags; when `integrated` is
already true the first call leaves the operator as it is. -/
theorem integrate_idempotent (E : ElementMatrix R P) (h : Integrable E) :
    ∃ E1, E.integrate = .ok E1 ∧ E1.integrate = .ok E1 ∧
      (E._integrated = true → E1 = E) := by
  obtain ⟨E1, h1, -⟩ := integrate_total E h
  refine ⟨E1, h1, integrate_twice E E1 h1, ?_⟩
  intro hint
  have hc : ¬ (E._newStyle = true ∧ E._integrated = false ∧ E._valid = true) := by
    rw [hint]; simp
  rw [ElementMatrix.integrate, if_neg hc] at h1
  exact (Except.ok.inj h1).symm

/-- C30: `integrate()` on an operator that is not valid returns normally and
leaves the operator as it is; it raises no error. -/
theorem integrate_invalid_noop (E : ElementMatrix R P) (h : E._valid = false) :
    E.integrate = .ok E := by
  have hc : ¬ (E._newStyle = true ∧ E._integrated = false ∧ E._valid = true) := by
    rw [h]; simp
  rw [ElementMatrix.integrate, if_neg hc]

/-- Witness for C29: the sample operator `op2`, valid and not integrated. -/
theorem integrate_idempotent_witness :
    Integrable Sample.op2 ∧
    ∃ E1, Sample.op2.integrate = .ok E1 ∧ E1.integrate = .ok E1 ∧
      (Sample.op2._integrated = true → E1 = Sample.op2) :=
  have h : Integrable Sample.op2 := fun _ =>
    ⟨[1/2, 1/2], Sample.seg, rfl, rfl, by decide, fun q hq => by
      have hq2 : q < 2 := hq
      interval_cases q <;> exact ⟨rfl, rfl⟩⟩
  ⟨h, integrate_idempotent Sample.op2 h⟩

/-- Witness for C30: the operator `scalarOp`, as the constructor leaves it. -/
theorem integrate_invalid_noop_witness :
    Sample.scalarOp._valid = false ∧ Sample.scalarOp.integrate = .ok Sample.scalarOp :=
  ⟨rfl, integrate_invalid_noop Sample.scalarOp rfl⟩

/-- Counterexample for C30 as stated: the operator that the constructor
`ElementMatrix(1, 0, 0)` leaves is not valid, and `integrate()` on it raises no
error. -/
theorem integrate_invalid_counterexample :
    ∃ E : ElementMatrix ℚ (ℚ × ℚ), ElementMatrix.ofCoeff 1 0 0 = .ok E ∧ E._valid = false ∧
      ¬ ∃ e, E.integrate = .error e := by
  refine ⟨_, ElementMatrix.init_ok ElementMatrix.blank 1 0 0 (by decide), rfl, ?_⟩
  rintro ⟨e, he⟩
  rw [ElementMatrix.integrate, if_neg (by simp)] at he
  cases he

namespace DenseMatrix

/-- A `resize` to a shape that is not larger keeps the buffer. -/
theorem resize_keep (m : DenseMatrix R) (r c : ℕ) (h : r * c ≤ m.rows * m.cols) :
    (m.resize r c).data = m.data := by
  have hn : ¬ (r * c > m.rows * m.cols) := by omega
  simp only [resize, allocate_, if_neg hn]

end DenseMatrix

namespace ElementMatrix

/-- The body of the loop of `add` for `dim == 1` on a one-row image `Ar` and an
image `Br` with as many columns: the rows of `Br` are summed into the row of
`Ar`. -/
theorem addCollapse_ok (Ar Br : DenseMatrix R) (c : ℕ) (hAr : Ar.rows = 1)
    (hAc : Ar.cols = c) (hBc : Br.cols = c) :
    ∃ M, addCollapse Ar Br = .ok M ∧ M.rows = 1 ∧ M.cols = c ∧
      ∀ j, j < c → M.val 0 j = Ar.val 0 j + ∑ i in Finset.range Br.rows, Br.val i j := by
  obtain ⟨A1, hloop, hr1, hc1, hv1⟩ := forLoop_inv
    (fun k (A : DenseMatrix R) => A.rows = 1 ∧ A.cols = c ∧
      ∀ j, j < c → A.val 0 j = Ar.val 0 j + ∑ i in Finset.range k, Br.val i j)
    (fun i A => (Br.row i).bind fun bi => A.addToRow 0 bi Br.cols)
    Br.rows Ar ⟨hAr, hAc, fun j _ => by rw [Finset.sum_range_zero, add_zero]⟩
    (by
      intro k A hk ⟨hr, hc, hv⟩
      obtain ⟨M, hM, hMr, hMc, hrow, -⟩ := DenseMatrix.addToRow_ok A 0
        (fun j => Br.val k j) Br.cols (by rw [hBc, hc]) (by omega)
      refine ⟨M, ?_, hMr.trans hr, hMc.trans hc, ?_⟩
      · simp only [DenseMatrix.row_ok Br k hk, bind_ok, hM]
      · intro j hj
        rw [hrow j (by rw [hc]; exact hj), hv j hj, Finset.sum_range_succ, add_assoc])
  refine ⟨A1.resize 1 A1.cols, ?_, DenseMatrix.resize_rows _ _ _,
    (DenseMatrix.resize_cols _ _ _).trans hc1, ?_⟩
  · rw [addCollapse, hloop, bind_ok, hr1]
    rfl
  · intro j hj
    rw [← hv1 j hj]
    show (A1.resize 1 A1.cols).data ((A1.resize 1 A1.cols).cols * 0 + j) = A1.data _
    rw [DenseMatrix.resize_keep A1 1 A1.cols (by rw [hr1]), DenseMatrix.resize_cols]

/-- The loop of `add` for `dim == 1` over the basis images. -/
theorem add_loop (B : ElementMatrix R P) (mats : List (DenseMatrix R)) (n c : ℕ)
    (hlen : mats.length = n) (hlenB : n ≤ B._matX.length)
    (hA : ∀ q, q < n → (mats.getD q DenseMatrix.empty).rows = 1 ∧
      (mats.getD q DenseMatrix.empty).cols = c)
    (hB : ∀ q, q < n → (B.matXq q).cols = c) :
    ∃ mats1, forLoop n (fun r mats =>
        match mats[r]?, B._matX[r]? with
        | some Ar, some Br => (addCollapse Ar Br).map fun M => mats.set r M
        | _, _ => .error .outOfRange) mats = .ok mats1 ∧ mats1.length = n ∧
      ∀ q, q < n →
        (mats1.getD q DenseMatrix.empty).rows = 1 ∧
        (mats1.getD q DenseMatrix.empty).cols = c ∧
        ∀ j, j < c → (mats1.getD q DenseMatrix.empty).val 0 j
          = (mats.getD q DenseMatrix.empty).val 0 j
            + ∑ i in Finset.range (B.matXq q).rows, (B.matXq q).val i j := by
  obtain ⟨mats1, hloop, hl1, hdone, -⟩ := forLoop_inv
    (fun k (ms : List (DenseMatrix R)) => ms.length = n ∧
      (∀ q, q < k →
        (ms.getD q DenseMatrix.empty).rows = 1 ∧
        (ms.getD q DenseMatrix.empty).cols = c ∧
        ∀ j, j < c → (ms.getD q DenseMatrix.empty).val 0 j
          = (mats.getD q DenseMatrix.empty).val 0 j
            + ∑ i in Finset.range (B.matXq q).rows, (B.matXq q).val i j) ∧
      (∀ q, k ≤ q → ms.getD q DenseMatrix.empty = mats.getD q DenseMatrix.empty))
    (fun r mats =>
        match mats[r]?, B._matX[r]? with
        | some Ar, some Br => (addCollapse Ar Br).map fun M => mats.set r M
        | _, _ => .error .outOfRange)
    n mats ⟨hlen, fun q h => absurd h (Nat.not_lt_zero q), fun _ _ => rfl⟩
    (by
      intro k ms hk ⟨hl, hd, hrest⟩
      have hm : ms[k]? = some (ms.getD k DenseMatrix.empty) :=
        getElem?_getD_of_lt _ _ (hl ▸ hk)
      have hb : B._matX[k]? = some (B.matXq k) :=
        getElem?_getD_of_lt _ _ (Nat.lt_of_lt_of_le hk hlenB)
      obtain ⟨M, hM, hMr, hMc, hMv⟩ := addCollapse_ok (ms.getD k DenseMatrix.empty)
        (B.matXq k) c (by rw [hrest k le_rfl]; exact (hA k hk).1)
        (by rw [hrest k le_rfl]; exact (hA k hk).2) (hB k hk)
      refine ⟨ms.set k M, ?_, by rw [List.length_set]; exact hl, ?_, ?_⟩
      · simp only [hm, hb, hM]
        rfl
      · intro q hq
        rcases Nat.lt_succ_iff_lt_or_eq.mp hq with hlt | heq
        · rw [getD_set_ne _ _ _ (Nat.ne_of_gt hlt)]
          exact hd q hlt
        · subst heq
          rw [getD_set_self _ _ _ (hl ▸ hk)]
          rw [hrest q le_rfl] at hMv
          exact ⟨hMr, hMc, hMv⟩
      · intro q hq
        rw [getD_set_ne _ _ _ (by omega), hrest q (by omega)])
  exact ⟨mats1, hloop, hl1, hdone⟩

end ElementMatrix

/-- C27: for an operator `A` with `n` single-row basis images and an operator
`B` with `n` basis images of the same column count `c`, the integrated
matrices being of different shapes, `A.add(B, 1)` returns normally and leaves
`A` with `n` single-row basis images whose row is `A_q + sum over i of
B_q[i]`, an integrated matrix with 1 column and the rows it had, and
`integrated = false`.  The row ids of `A` must have room for the ids that
`resize` writes again. -/
theorem add_collapse (A B : ElementMatrix R P) (b : R) (n c : ℕ)
    (hne : ¬ (A.mat_.rows = B.mat_.rows ∧ A.mat_.cols = B.mat_.cols))
    (hids : ∀ ent, A._ent = some ent → A._nCoeff * ent.nodeCount ≤ A.mat_.rows)
    (hlenA : A._matX.length = n) (hlenB : B._matX.length = n)
    (hA : ∀ q, q < n → (A.matXq q).rows = 1 ∧ (A.matXq q).cols = c)
    (hB : ∀ q, q < n → 1 < (B.matXq q).rows ∧ (B.matXq q).cols = c) :
    ∃ A1, A.add B 1 b = .ok A1 ∧ A1._matX.length = n ∧
      (∀ q, q < n →
        (A1.matXq q).rows = 1 ∧ (A1.matXq q).cols = c ∧
        ∀ j, j < c → (A1.matXq q).val 0 j
          = (A.matXq q).val 0 j
            + ∑ i in Finset.range (B.matXq q).rows, (B.matXq q).val i j) ∧
      A1.mat_.rows = A.mat_.rows ∧ A1.mat_.cols = 1 ∧ A1._integrated = false := by
  obtain ⟨A0, hA0⟩ : ∃ A0 : ElementMatrix R P, A0 = { A with _integrated := false } :=
    ⟨_, rfl⟩
  have h0mat : A0.mat_ = A.mat_ := by rw [hA0]
  have h0X : A0._matX = A._matX := by rw [hA0]
  obtain ⟨idsR, hres, -⟩ := ElementMatrix.resize_ok A0 A0.mat_.rows 1
    (fun e he => by rw [hA0] at he ⊢; exact hids e he)
  obtain ⟨A2, hA2, hresE⟩ : ∃ A2 : ElementMatrix R P,
      A2 = { A0 with
        _idsR := idsR,
        _idsC := resizeIds A0._idsC (if 1 = 0 then A0.mat_.rows else 1),
        _ids := resizeIds A0._ids A0.mat_.rows,
        mat_ := A0.mat_.resize A0.mat_.rows (if 1 = 0 then A0.mat_.rows else 1) } ∧
      A0.resize A0.mat_.rows 1 true = .ok A2 := ⟨_, rfl, hres⟩
  have h2X : A2._matX = A._matX := by rw [hA2]; exact h0X
  obtain ⟨mats1, hloop, hl1, hdone⟩ := ElementMatrix.add_loop B A2._matX n c
    (by rw [h2X]; exact hlenA) (le_of_eq hlenB.symm)
    (fun q hq => by rw [h2X]; exact hA q hq) (fun q hq => (hB q hq).2)
  refine ⟨{ A2 with _matX := mats1 }, ?_, hl1, ?_, ?_, ?_, ?_⟩
  · rw [ElementMatrix.add, ← hA0]
    rw [if_neg (by rw [h0mat]; exact hne), if_pos rfl, hresE, bind_ok]
    have hlen2 : A2._matX.length = n := by rw [h2X]; exact hlenA
    rw [hlen2, hloop]
    rfl
  · intro q hq
    have h := hdone q hq
    rw [h2X] at h
    exact h
  · show A2.mat_.rows = A.mat_.rows
    rw [hA2]
    show (A0.mat_.resize A0.mat_.rows _).rows = _
    rw [DenseMatrix.resize_rows, h0mat]
  · show A2.mat_.cols = 1
    rw [hA2]
    show (A0.mat_.resize A0.mat_.rows _).cols = _
    rw [DenseMatrix.resize_cols]
    rfl
  · show A2._integrated = false
    rw [hA2, hA0]

/-- Witness for C27: the sample operators `op2`, with the one-row images
`[1 2]` and `[3 4]`, and `opSq`, with two-row images of two columns. -/
theorem add_collapse_witness :
    ∃ A1, Sample.op2.add Sample.opSq 1 1 = .ok A1 ∧ A1._matX.length = 2 ∧
      (∀ q, q < 2 →
        (A1.matXq q).rows = 1 ∧ (A1.matXq q).cols = 2 ∧
        ∀ j, j < 2 → (A1.matXq q).val 0 j
          = (Sample.op2.matXq q).val 0 j
            + ∑ i in Finset.range (Sample.opSq.matXq q).rows, (Sample.opSq.matXq q).val i j) ∧
      A1.mat_.rows = Sample.op2.mat_.rows ∧ A1.mat_.cols = 1 ∧ A1._integrated = false :=
  add_collapse Sample.op2 Sample.opSq 1 2 2 (by decide)
    (fun e he => by
      have h : e = Sample.seg := (Option.some.inj he).symm
      subst h
      decide)
    rfl rfl
    (fun q hq => by interval_cases q <;> exact ⟨rfl, rfl⟩)
    (fun q hq => by interval_cases q <;> exact ⟨by decide, rfl⟩)

/-- C37: for every operator `A`, operand `B` and `dim`, `A.add(B, dim, b)`
returns the same result (basis images, integrated matrix, ids and flags, or the
same error) for every value of the scale `b`: the factor is not read, `B` is
added unscaled.  On the sample operators `op2` (images `[1 2]`, `[3 4]`) and
`opSq` (images with the rows `[1 2]`, `[3 4]` and `[5 6]`, `[7 8]`) the calls
with `b = 10` and with `b = 1` both return the images `[5 8]` and `[15 18]`,
the plain sums. -/
theorem add_ignores_scale (A B : ElementMatrix R P) (dim : ℕ) (b b1 : R) :
    A.add B dim b = A.add B dim b1 ∧
    ∃ A1, Sample.op2.add Sample.opSq 1 10 = .ok A1 ∧ Sample.op2.add Sample.opSq 1 1 = .ok A1 ∧
      (A1.matXq 0).val 0 0 = 5 ∧ (A1.matXq 0).val 0 1 = 8 ∧
      (A1.matXq 1).val 0 0 = 15 ∧ (A1.matXq 1).val 0 1 = 18 := by
  refine ⟨rfl, _, rfl, rfl, ?_, ?_, ?_, ?_⟩ <;>
  norm_num [ElementMatrix.matXq, DenseMatrix.val, DenseMatrix.resize, DenseMatrix.allocate_,
    DenseMatrix.length, Sample.op2, Sample.opSq, Sample.rowMat, Sample.sqMat]

/-- C40: at the 1 x 2 matrix `M = [5 7]` and the 2 x 2 matrix `A` with the rows
`[1 2]` and `[3 4]` the in-place `M -= A` leaves the rows `A[i] - M0`, that is
`[-4 -5]` and `[-2 -3]`, and `M /= A` leaves the rows `A[i] / M0`, that is
`[1/5 2/7]` and `[3/5 4/7]`: the broadcast branch puts `M` on the right, while
the branch for equal shapes keeps `M` on the left (`[[5 7] [5 7]] -= A` gives
the rows `[4 5]` and `[2 3]`). -/
theorem opAssign_broadcast_operands :
    (∃ D, DenseMatrix.opAssign (· - ·) (Sample.rowMat 5 7) (Sample.sqMat 1 2 3 4) = .ok D ∧
      D.rows = 2 ∧ D.cols = 2 ∧
      D.val 0 0 = -4 ∧ D.val 0 1 = -5 ∧ D.val 1 0 = -2 ∧ D.val 1 1 = -3) ∧
    (∃ Q, DenseMatrix.opAssign (· / ·) (Sample.rowMat 5 7) (Sample.sqMat 1 2 3 4) = .ok Q ∧
      Q.rows = 2 ∧ Q.cols = 2 ∧
      Q.val 0 0 = 1 / 5 ∧ Q.val 0 1 = 2 / 7 ∧ Q.val 1 0 = 3 / 5 ∧ Q.val 1 1 = 4 / 7) ∧
    (∃ D, DenseMatrix.opAssign (· - ·) (Sample.sqMat 5 7 5 7) (Sample.sqMat 1 2 3 4) = .ok D ∧
      D.val 0 0 = 4 ∧ D.val 0 1 = 5 ∧ D.val 1 0 = 2 ∧ D.val 1 1 = 3) := by
  refine ⟨⟨_, rfl, rfl, rfl, ?_, ?_, ?_, ?_⟩, ⟨_, rfl, rfl, rfl, ?_, ?_, ?_, ?_⟩,
    ⟨_, rfl, ?_, ?_, ?_, ?_⟩⟩ <;>
  norm_num [DenseMatrix.val, DenseMatrix.resize, DenseMatrix.allocate_, DenseMatrix.length,
    Sample.rowMat, Sample.sqMat]

/-- C39: at the single position `(1, 2, 3)` the function `toMatrix` returns the
1 x 3 matrix with the row `[1 2 0]`: the copy ends before the component 2,
which keeps the zero of the constructor, while `toArray` stores all three
components `[1 2 3]`. -/
theorem toMatrix_drops_z :
    toMatrix [(⟨1, 2, 3⟩ : Pos ℚ)] = .ok [[1, 2, 0]] ∧
      toArray [(⟨1, 2, 3⟩ : Pos ℚ)] = .ok [1, 2, 3] := by
  constructor <;> rfl



namespace ElementMatrix

theorem idEntry_ok (E : ElementMatrix R P) (a : List R) (j : ℕ) (hj : j < E._ids.length)
    (ha : E._ids.getD j 0 < a.length) :
    E.idEntry a j = .ok (a.getD (E._ids.getD j 0) 0) := by
  simp only [idEntry, getElem?_getD_of_lt _ 0 hj, getElem?_getD_of_lt _ 0 ha]

/-- The legacy method `mult(a, b)` on a square matrix whose ids are indices of
both vectors returns the double sum. -/
theorem multAB_ok (E : ElementMatrix R P) (a b : List R)
    (hsq : E.mat_.cols = E.mat_.rows) (hids : E.mat_.rows ≤ E._ids.length)
    (ha : ∀ j, j < E.mat_.rows → E._ids.getD j 0 < a.length)
    (hb : ∀ j, j < E.mat_.rows → E._ids.getD j 0 < b.length) :
    E.multAB a b = .ok (∑ i in Finset.range E.mat_.rows, ∑ j in Finset.range E.mat_.rows,
      E.mat_.val i j * a.getD (E._ids.getD j 0) 0 * b.getD (E._ids.getD i 0) 0) := by
  obtain ⟨v, hv, hinv⟩ := forLoop_inv
    (fun k (ret : R) => ret = ∑ i in Finset.range k, ∑ j in Finset.range E.mat_.rows,
      E.mat_.val i j * a.getD (E._ids.getD j 0) 0 * b.getD (E._ids.getD i 0) 0)
    (fun i ret =>
      (forLoop E.size (fun j t =>
        (E.mat_.get i j).bind fun s => (E.idEntry a j).map fun aj => t + s * aj) 0).bind fun t =>
      (E.idEntry b i).map fun bi => ret + t * bi) E.mat_.rows 0
    (by beta_reduce; rw [Finset.sum_range_zero])
    (by
      intro i ret hi hret
      obtain ⟨t, ht, htv⟩ := forLoop_inv
        (fun k (t : R) => t = ∑ j in Finset.range k, E.mat_.val i j * a.getD (E._ids.getD j 0) 0)
        (fun j t =>
          (E.mat_.get i j).bind fun s => (E.idEntry a j).map fun aj => t + s * aj)
        E.mat_.rows 0 (by beta_reduce; rw [Finset.sum_range_zero])
        (by
          intro j t hj ht
          refine ⟨t + E.mat_.val i j * a.getD (E._ids.getD j 0) 0, ?_, ?_⟩
          · beta_reduce
            rw [DenseMatrix.get_ok _ i j hi (by omega), bind_ok,
              idEntry_ok E a j (by omega) (ha j hj), map_ok]
          · beta_reduce
            rw [Finset.sum_range_succ, ht])
      refine ⟨ret + t * b.getD (E._ids.getD i 0) 0, ?_, ?_⟩
      · show ((forLoop E.mat_.rows _ 0).bind _) = _
        rw [ht, bind_ok, idEntry_ok E b i (by omega) (hb i hi), map_ok]
      · beta_reduce
        rw [Finset.sum_range_succ, hret, htv, Finset.sum_mul])
  show forLoop E.mat_.rows _ 0 = _
  rw [hv, hinv]

/-- The legacy method `mult_(a, b, m, n)` on a square matrix whose ids are
indices of the four vectors returns the double sum over the differences. -/
theorem mult__ok (E : ElementMatrix R P) (a b m n : List R)
    (hsq : E.mat_.cols = E.mat_.rows) (hids : E.mat_.rows ≤ E._ids.length)
    (ha : ∀ j, j < E.mat_.rows → E._ids.getD j 0 < a.length)
    (hb : ∀ j, j < E.mat_.rows → E._ids.getD j 0 < b.length)
    (hm : ∀ j, j < E.mat_.rows → E._ids.getD j 0 < m.length)
    (hn : ∀ j, j < E.mat_.rows → E._ids.getD j 0 < n.length) :
    E.mult_ a b m n = .ok (∑ i in Finset.range E.mat_.rows, ∑ j in Finset.range E.mat_.rows,
      E.mat_.val i j * (a.getD (E._ids.getD j 0) 0 - b.getD (E._ids.getD j 0) 0)
        * (m.getD (E._ids.getD i 0) 0 - n.getD (E._ids.getD i 0) 0)) := by
  obtain ⟨v, hv, hinv⟩ := forLoop_inv
    (fun k (ret : R) => ret = ∑ i in Finset.range k, ∑ j in Finset.range E.mat_.rows,
      E.mat_.val i j * (a.getD (E._ids.getD j 0) 0 - b.getD (E._ids.getD j 0) 0)
        * (m.getD (E._ids.getD i 0) 0 - n.getD (E._ids.getD i 0) 0))
    (fun i ret =>
      (forLoop E.size (fun j t =>
        (E.mat_.get i j).bind fun s => (E.idEntry a j).bind fun aj =>
        (E.idEntry b j).map fun bj => t + s * (aj - bj)) 0).bind fun t =>
      (E.idEntry m i).bind fun mi => (E.idEntry n i).map fun ni => ret + t * (mi - ni))
    E.mat_.rows 0
    (by beta_reduce; rw [Finset.sum_range_zero])
    (by
      intro i ret hi hret
      obtain ⟨t, ht, htv⟩ := forLoop_inv
        (fun k (t : R) => t = ∑ j in Finset.range k,
          E.mat_.val i j * (a.getD (E._ids.getD j 0) 0 - b.getD (E._ids.getD j 0) 0))
        (fun j t =>
          (E.mat_.get i j).bind fun s => (E.idEntry a j).bind fun aj =>
          (E.idEntry b j).map fun bj => t + s * (aj - bj))
        E.mat_.rows 0 (by beta_reduce; rw [Finset.sum_range_zero])
        (by
          intro j t hj ht
          refine ⟨t + E.mat_.val i j
            * (a.getD (E._ids.getD j 0) 0 - b.getD (E._ids.getD j 0) 0), ?_, ?_⟩
          · beta_reduce
            rw [DenseMatrix.get_ok _ i j hi (by omega), bind_ok,
              idEntry_ok E a j (by omega) (ha j hj), bind_ok,
              idEntry_ok E b j (by omega) (hb j hj), map_ok]
          · beta_reduce
            rw [Finset.sum_range_succ, ht])
      refine ⟨ret + t * (m.getD (E._ids.getD i 0) 0 - n.getD (E._ids.getD i 0) 0), ?_, ?_⟩
      · show ((forLoop E.mat_.rows _ 0).bind _) = _
        rw [ht, bind_ok, idEntry_ok E m i (by omega) (hm i hi), bind_ok,
          idEntry_ok E n i (by omega) (hn i hi), map_ok]
      · beta_reduce
        rw [Finset.sum_range_succ, hret, htv, Finset.sum_mul])
  show forLoop E.mat_.rows _ 0 = _
  rw [hv, hinv]

end ElementMatrix

theorem vecSub_getD (a b : List R) (h : a.length = b.length) (k : ℕ) (hk : k < a.length) :
    (List.zipWith (· - ·) a b).getD k 0 = a.getD k 0 - b.getD k 0 := by
  have hkb : k < b.length := h ▸ hk
  simp [List.getD_eq_getElem?_getD, List.getElem?_zipWith, List.getElem?_eq_getElem hk,
    List.getElem?_eq_getElem hkb]

/-- C35: for every square element matrix `S` whose ids are indices of the
vectors `a`, `b` (of one size) and `m`, `n` (of one size), the four-vector form
`mult(a, b, m, n)` returns a value, the two-vector form `mult(a - b, m - n)`
returns the same value, and the value is the sum over `i`, `j` of
`S(i,j) * (a - b)[ids[j]] * (m - n)[ids[i]]`, where `a - b` and `m - n` are the
entry by entry differences. -/
theorem mult_four_vectors (E : ElementMatrix R P) (a b m n : List R)
    (hsq : E.mat_.cols = E.mat_.rows) (hids : E.mat_.rows ≤ E._ids.length)
    (hab : a.length = b.length) (hmn : m.length = n.length)
    (ha : ∀ j, j < E.mat_.rows → E._ids.getD j 0 < a.length)
    (hm : ∀ j, j < E.mat_.rows → E._ids.getD j 0 < m.length) :
    ∃ v d e, E.multABMN a b m n = .ok v ∧ vecSub a b = .ok d ∧ vecSub m n = .ok e ∧
      E.multAB d e = .ok v ∧
      (∀ k, k < a.length → d.getD k 0 = a.getD k 0 - b.getD k 0) ∧
      (∀ k, k < m.length → e.getD k 0 = m.getD k 0 - n.getD k 0) ∧
      v = ∑ i in Finset.range E.mat_.rows, ∑ j in Finset.range E.mat_.rows,
        E.mat_.val i j * d.getD (E._ids.getD j 0) 0 * e.getD (E._ids.getD i 0) 0 := by
  have hd : ∀ k, k < a.length →
      (List.zipWith (· - ·) a b).getD k 0 = a.getD k 0 - b.getD k 0 := vecSub_getD a b hab
  have he : ∀ k, k < m.length →
      (List.zipWith (· - ·) m n).getD k 0 = m.getD k 0 - n.getD k 0 := vecSub_getD m n hmn
  have hdl : (List.zipWith (· - ·) a b).length = a.length := by
    rw [List.length_zipWith, ← hab, Nat.min_self]
  have hel : (List.zipWith (· - ·) m n).length = m.length := by
    rw [List.length_zipWith, ← hmn, Nat.min_self]
  have hsum : (∑ i in Finset.range E.mat_.rows, ∑ j in Finset.range E.mat_.rows,
      E.mat_.val i j * (a.getD (E._ids.getD j 0) 0 - b.getD (E._ids.getD j 0) 0)
        * (m.getD (E._ids.getD i 0) 0 - n.getD (E._ids.getD i 0) 0))
      = ∑ i in Finset.range E.mat_.rows, ∑ j in Finset.range E.mat_.rows,
        E.mat_.val i j * (List.zipWith (· - ·) a b).getD (E._ids.getD j 0) 0
          * (List.zipWith (· - ·) m n).getD (E._ids.getD i 0) 0 := by
    apply Finset.sum_congr rfl
    intro i hi
    apply Finset.sum_congr rfl
    intro j hj
    rw [hd _ (ha j (Finset.mem_range.mp hj)), he _ (hm i (Finset.mem_range.mp hi))]
  refine ⟨_, List.zipWith (· - ·) a b, List.zipWith (· - ·) m n,
    ElementMatrix.mult__ok E a b m n hsq hids ha (fun j hj => hab ▸ ha j hj) hm
      (fun j hj => hmn ▸ hm j hj), ?_, ?_, ?_, hd, he, hsum⟩
  · rw [vecSub, if_pos hab]
  · rw [vecSub, if_pos hmn]
  · rw [hsum]
    exact ElementMatrix.multAB_ok E _ _ hsq hids (fun j hj => by rw [hdl]; exact ha j hj)
      (fun j hj => by rw [hel]; exact hm j hj)

/-- Witness for C35: the 2 x 2 legacy operator `legacySq` with the ids 2, 0 and
four vectors of three entries. -/
theorem mult_four_vectors_witness :
    ∃ v d e, Sample.legacySq.multABMN [1, 2, 3] [0, 1, 0] [2, 0, 1] [1, 1, 1] = .ok v ∧
      vecSub ([1, 2, 3] : List ℚ) [0, 1, 0] = .ok d ∧
      vecSub ([2, 0, 1] : List ℚ) [1, 1, 1] = .ok e ∧
      Sample.legacySq.multAB d e = .ok v ∧
      (∀ k, k < ([1, 2, 3] : List ℚ).length →
        d.getD k 0 = ([1, 2, 3] : List ℚ).getD k 0 - ([0, 1, 0] : List ℚ).getD k 0) ∧
      (∀ k, k < ([2, 0, 1] : List ℚ).length →
        e.getD k 0 = ([2, 0, 1] : List ℚ).getD k 0 - ([1, 1, 1] : List ℚ).getD k 0) ∧
      v = ∑ i in Finset.range Sample.legacySq.mat_.rows,
        ∑ j in Finset.range Sample.legacySq.mat_.rows,
          Sample.legacySq.mat_.val i j * d.getD (Sample.legacySq._ids.getD j 0) 0
            * e.getD (Sample.legacySq._ids.getD i 0) 0 :=
  mult_four_vectors Sample.legacySq [1, 2, 3] [0, 1, 0] [2, 0, 1] [1, 1, 1] rfl (by decide)
    rfl rfl
    (by
      intro j hj
      have hj2 : j < 2 := hj
      interval_cases j <;> decide)
    (by
      intro j hj
      have hj2 : j < 2 := hj
      interval_cases j <;> decide)

/-- Counterexample for C31: `opV` has one basis image, `opV2` has two and the
same quadrature order; `dot(opV, opV2, 1, C)` returns normally. -/
theorem dot_image_count_counterexample :
    Sample.opV._order = Sample.opV2._order ∧
      Sample.opV._matX.length ≠ Sample.opV2._matX.length ∧
      ∃ C, dot Sample.opV Sample.opV2 1 ElementMatrix.blank = .ok C ∧ C._integrated = true :=
  ⟨rfl, by decide, _, rfl, rfl⟩

/-- C31 (amended): `dot(A, B, b, C)` fails with an error before the numeric
loop runs, in `_prepDot`, whenever `A` and `B` have different quadrature
orders; the number of basis images is not compared. -/
theorem dot_order_mismatch (A B C : ElementMatrix R P) (b : R)
    (hord : A._order ≠ B._order) :
    ∃ e, _prepDot A B C = .error e ∧ dot A B b C = .error e := by
  have key : ∃ e, _prepDot A B C = .error e := by
    rw [_prepDot]
    cases h : (C.copyFrom A false).resize A._idsR.length B._idsR.length true with
    | error e => exact ⟨e, rfl⟩
    | ok C2 =>
      refine ⟨.critical, ?_⟩
      show (if A._order ≠ B._order then _ else _) = _
      rw [if_pos hord]
  obtain ⟨e, he⟩ := key
  exact ⟨e, he, by rw [dot, he]; rfl⟩

/-- Witness for C31 (amended): `opV` of order 0 and `opVOrder1` of order 1. -/
theorem dot_order_mismatch_witness :
    ∃ e, _prepDot Sample.opV Sample.opVOrder1 ElementMatrix.blank = .error e ∧
      dot Sample.opV Sample.opVOrder1 (1 : ℚ) ElementMatrix.blank = .error e :=
  dot_order_mismatch Sample.opV Sample.opVOrder1 ElementMatrix.blank 1 (by decide)

/-- The basis images that `grad` builds on a cache miss have the row count of
the layout: `dim * nCoeff`, or the reduced strain layout when `elastic`. -/
theorem grad_image_rows (rules : IntegrationRules R P) (rsqrt2 : R) (E : ElementMatrix R P)
    (ent : MeshEntity R P) (order : ℕ) (elastic sum div : Bool)
    (nCoeff dof dofOffset : ℕ) (kelvin : Bool)
    (hval : E._valid = false) (hnc : nCoeff ≠ 0) (hdpc : ¬ (nCoeff > 1 ∧ dof = 0))
    (hlay : nCoeff = 1 ∨ ent.dim ≤ nCoeff)
    (hcache : E.dNdr_.rows ≠ (rules.abscissa ent order).length
      ∨ (rules.abscissa ent order).length = 0)
    (hdim : ent.dim = 1 ∨ ent.dim = 2 ∨ ent.dim = 3)
    (hlen : sum = true →
      (rules.weights ent order).length ≤ (rules.abscissa ent order).length) :
    ∃ A, E.grad rules rsqrt2 ent order elastic sum div nCoeff dof dofOffset kelvin = .ok A ∧
      A._div = div ∧ A._ent = some ent ∧
      A._matX.length = (rules.abscissa ent order).length ∧
      ∀ q, q < A._matX.length → (A.matXq q).rows = gradRows ent nCoeff elastic := by
  obtain ⟨A, hA, hop, -⟩ := ElementMatrix.grad_ok rules rsqrt2 E ent order elastic sum div nCoeff dof
    dofOffset kelvin hval hnc hdpc hlay hcache hdim hlen
  obtain ⟨-, -, hent, hdiv, -, -, -, -, -, -, -, hlenX, himg⟩ := hop
  refine ⟨A, hA, hdiv, hent, hlenX, ?_⟩
  intro q hq
  rw [hlenX] at hq
  obtain ⟨Z, DX, DY, DZ, hZr, hZc, -, hx, hy, hz, hfill⟩ :=
    himg q _ (List.getElem?_eq_getElem hq)
  obtain ⟨M1, hM1, hr, -⟩ := ElementMatrix.gradFill_ok ent nCoeff elastic
    (if elastic = true ∧ kelvin = true then rsqrt2 else 1) DX DY DZ Z q hdim hnc hlay hZr hZc
    (fun h => (hx h).1) (fun h => (hy h).1) (fun h => (hz h).1)
  rw [hfill] at hM1
  rw [Except.ok.inj hM1, hr, hZr]

/-- Counterexample for C36: on the linear triangle (dimension 2, collapse set
`{0, 3}`) `grad` with `div` and the elastic layout for two components builds
basis images of 3 rows, and `grad` with `div` for a scalar field builds basis
images of 2 rows; in both the index 3 of the collapse set is not a row. -/
theorem grad_div_collapse_counterexample :
    3 ∈ divIds (Sample.triOver ℚ).dim ∧
    (∃ A, ElementMatrix.blank.grad (Sample.centroidRules ℚ) 1 (Sample.triOver ℚ) 1
        true false true 2 3 0 false = .ok A ∧ A._div = true ∧ A._ent = some (Sample.triOver ℚ) ∧
      A._matX.length = 1 ∧ (A.matXq 0).rows = 3) ∧
    (∃ A, ElementMatrix.blank.grad (Sample.centroidRules ℚ) 1 (Sample.triOver ℚ) 1
        false false true 1 0 0 false = .ok A ∧ A._div = true ∧ A._ent = some (Sample.triOver ℚ) ∧
      A._matX.length = 1 ∧ (A.matXq 0).rows = 2) := by
  refine ⟨by decide, ?_, ?_⟩
  · obtain ⟨A, hA, hdiv, hent, hlen, hrows⟩ := grad_image_rows (Sample.centroidRules ℚ) 1
      ElementMatrix.blank (Sample.triOver ℚ) 1 true false true 2 3 0 false rfl (by decide)
      (by decide) (Or.inr (by decide)) (Or.inl (by decide)) (Or.inr (Or.inl rfl))
      (fun h => by cases h)
    refine ⟨A, hA, hdiv, hent, hlen, ?_⟩
    rw [hrows 0 (by rw [hlen]; decide)]
    exact gradRows_elastic2 _ _ rfl
  · obtain ⟨A, hA, hdiv, hent, hlen, hrows⟩ := grad_image_rows (Sample.centroidRules ℚ) 1
      ElementMatrix.blank (Sample.triOver ℚ) 1 false false true 1 0 0 false rfl (by decide)
      (by decide) (Or.inl rfl) (Or.inl (by decide)) (Or.inr (Or.inl rfl))
      (fun h => by cases h)
    refine ⟨A, hA, hdiv, hent, hlen, ?_⟩
    rw [hrows 0 (by rw [hlen]; decide), gradRows_full]
    rfl

/-- C36 (amended): for every divergence-marked operator `A` that `grad` builds
on an entity of dimension `d` in {1, 2, 3}, either with `d = 1` (any elastic
flag, any `nCoeff >= 1`) or with the full layout (`elastic = false`) for
`nCoeff >= d` components, every index of the collapse set that `dot` uses for
`A` (`{0}`, `{0,3}` or `{0,4,8}`) is a row index of every basis image of `A`. -/
theorem grad_div_collapse_rows (rules : IntegrationRules R P) (rsqrt2 : R)
    (E : ElementMatrix R P) (ent : MeshEntity R P) (order : ℕ) (elastic sum : Bool)
    (nCoeff dof dofOffset : ℕ) (kelvin : Bool)
    (hval : E._valid = false) (hnc : nCoeff ≠ 0) (hdpc : ¬ (nCoeff > 1 ∧ dof = 0))
    (hcache : E.dNdr_.rows ≠ (rules.abscissa ent order).length
      ∨ (rules.abscissa ent order).length = 0)
    (hdim : ent.dim = 1 ∨ ent.dim = 2 ∨ ent.dim = 3)
    (hlen : sum = true →
      (rules.weights ent order).length ≤ (rules.abscissa ent order).length)
    (hcase : ent.dim = 1 ∨ (elastic = false ∧ ent.dim ≤ nCoeff)) :
    ∃ A, E.grad rules rsqrt2 ent order elastic sum true nCoeff dof dofOffset kelvin = .ok A ∧
      A._div = true ∧ A._ent = some ent ∧
      ∀ q, q < A._matX.length → ∀ k, k ∈ divIds ent.dim → k < (A.matXq q).rows := by
  have hlay : nCoeff = 1 ∨ ent.dim ≤ nCoeff := by
    rcases hcase with h | h
    · exact Or.inr (by omega)
    · exact Or.inr h.2
  obtain ⟨A, hA, hdiv, hent, -, hrows⟩ := grad_image_rows rules rsqrt2 E ent order elastic sum
    true nCoeff dof dofOffset kelvin hval hnc hdpc hlay hcache hdim hlen
  refine ⟨A, hA, hdiv, hent, ?_⟩
  intro q hq k hk
  rw [hrows q hq]
  rcases hcase with h1 | ⟨hel, hge⟩
  · have hk0 : k = 0 := by
      rw [divIds, if_pos h1] at hk
      simpa using hk
    have := gradRows_pos ent nCoeff elastic (by omega) hnc
    omega
  · subst hel
    rw [gradRows_full]
    have hmul : ent.dim * ent.dim ≤ ent.dim * nCoeff := Nat.mul_le_mul_left _ hge
    rcases hdim with h | h | h
    · rw [divIds, if_pos h] at hk
      have hk0 : k = 0 := by simpa using hk
      rw [h] at hmul ⊢
      omega
    · rw [divIds, if_neg (by omega), if_pos h] at hk
      have hk0 : k = 0 ∨ k = 3 := by simpa using hk
      rw [h] at hmul ⊢
      omega
    · rw [divIds, if_neg (by omega), if_neg (by omega), if_pos h] at hk
      have hk0 : k = 0 ∨ k = 4 ∨ k = 8 := by simpa using hk
      rw [h] at hmul ⊢
      omega

/-- Witness for C36 (amended): the gradient of a vector field with two
components on the linear triangle, marked divergence-form. -/
theorem grad_div_collapse_rows_witness :
    ∃ A, ElementMatrix.blank.grad (Sample.centroidRules ℚ) 1 (Sample.triOver ℚ) 1
        false false true 2 3 0 false = .ok A ∧
      A._div = true ∧ A._ent = some (Sample.triOver ℚ) ∧
      ∀ q, q < A._matX.length → ∀ k, k ∈ divIds (Sample.triOver ℚ).dim →
        k < (A.matXq q).rows :=
  grad_div_collapse_rows (Sample.centroidRules ℚ) 1 ElementMatrix.blank (Sample.triOver ℚ) 1
    false false 2 3 0 false rfl (by decide) (by decide) (Or.inl (by decide))
    (Or.inr (Or.inl rfl)) (fun h => by cases h) (Or.inr ⟨rfl, by decide⟩)

/-- A constant-space branch of `_T_integrateBLConst` on a compressed row
matrix, when the first operator is integrated, has components and a first row
with a row id and an entry: the first call `R.addVal` throws, whatever the
matrix, the position and the scale are. -/
theorem scatterFirstCol_throws (mats : List (ElementMatrix R P)) (pos : ℕ → ℕ × ℕ) (scale : R)
    (S : SparseMatrix R) (m : ElementMatrix R P) (h0 : mats[0]? = some m)
    (hint : m._integrated = true) (hnc : m._nCoeff ≠ 0) (hr : 0 < m.mat_.rows)
    (hc : 0 < m.mat_.cols) (hid : 0 < m._idsR.length) :
    scatterFirstCol mats pos scale S = .error .toImpl := by
  have hlen : 0 < mats.length := by
    rcases Nat.eq_zero_or_pos mats.length with h | h
    · rw [List.length_eq_zero] at h
      rw [h] at h0
      cases h0
    · exact h
  rw [scatterFirstCol]
  apply forLoop_error_first _ _ _ _ _ hlen
  simp only [h0]
  rw [if_neg (by simp [hint]), if_neg hnc]
  apply forLoop_error_first _ _ _ _ _ hr
  simp only [getElem?_getD_of_lt _ 0 hid]
  rw [DenseMatrix.get_ok _ _ _ hr hc]
  rfl

theorem DenseMatrix.setVal_spec (m : DenseMatrix R) (i j : ℕ) (v : R) (hi : i < m.rows)
    (hj : j < m.cols) :
    ∃ M, m.setVal i j v = .ok M ∧ M.rows = m.rows ∧ M.cols = m.cols ∧ M.val i j = v ∧
      ∀ i1 j1, j1 < m.cols → ¬ (i1 = i ∧ j1 = j) → M.val i1 j1 = m.val i1 j1 := by
  refine ⟨_, DenseMatrix.setVal_ok m i j v hi hj, rfl, rfl, ?_, ?_⟩
  · show Function.update m.data (m.cols * i + j) v (m.cols * i + j) = v
    rw [Function.update_same]
  · intro i1 j1 hj1 hne
    show Function.update m.data (m.cols * i + j) v (m.cols * i1 + j1) = m.data (m.cols * i1 + j1)
    rw [Function.update_noteq]
    intro heq
    apply hne
    have h1 := congrArg (· / m.cols) heq
    have h2 := congrArg (· % m.cols) heq
    simp only [flat_div _ hj1, flat_div _ hj, flat_mod _ hj1, flat_mod _ hj] at h1 h2
    exact ⟨h1, h2⟩

/-- The transposed copy returns on a target of the transposed shape, changes
the integrated matrix only, keeps its shape, and leaves entry `(k, j)` equal to
entry `(j, k)` of the source. -/
theorem transCopy_ok (m E : ElementMatrix R P) (hr : E.mat_.rows = m.mat_.cols)
    (hc : E.mat_.cols = m.mat_.rows) :
    ∃ M, transCopy m E = .ok { E with mat_ := M } ∧ M.rows = m.mat_.cols ∧
      M.cols = m.mat_.rows ∧
      ∀ j k, j < m.mat_.rows → k < m.mat_.cols → M.val k j = m.mat_.val j k := by
  obtain ⟨E1, hrun, M, hE1, hMr, hMc, hv⟩ := forLoop_inv
    (fun n (E1 : ElementMatrix R P) => ∃ M, E1 = { E with mat_ := M } ∧
      M.rows = m.mat_.cols ∧ M.cols = m.mat_.rows ∧
      ∀ j k, j < n → k < m.mat_.cols → M.val k j = m.mat_.val j k)
    (fun j E1 =>
      forLoop m.mat_.cols (fun k (E2 : ElementMatrix R P) =>
        (m.mat_.get j k).bind fun v =>
        (E2.mat_.setVal k j v).map fun M =>
          { E2 with
            mat_ := M }) E1) m.mat_.rows E
    ⟨E.mat_, rfl, hr, hc, fun j k hj _ => absurd hj (Nat.not_lt_zero j)⟩
    (by
      intro j E1 hj ⟨M, hE1, hMr, hMc, hv⟩
      obtain ⟨E2, hrun2, M2, hE2, hM2r, hM2c, hv2, hv3⟩ := forLoop_inv
        (fun n (E2 : ElementMatrix R P) => ∃ M2, E2 = { E with mat_ := M2 } ∧
          M2.rows = m.mat_.cols ∧ M2.cols = m.mat_.rows ∧
          (∀ j1 k, j1 < j → k < m.mat_.cols → M2.val k j1 = m.mat_.val j1 k) ∧
          ∀ k, k < n → M2.val k j = m.mat_.val j k)
        (fun k (E2 : ElementMatrix R P) =>
          (m.mat_.get j k).bind fun v =>
          (E2.mat_.setVal k j v).map fun M =>
            { E2 with
              mat_ := M }) m.mat_.cols E1
        ⟨M, hE1, hMr, hMc, hv, fun k hk => absurd hk (Nat.not_lt_zero k)⟩
        (by
          intro k E2 hk ⟨M2, hE2, hM2r, hM2c, hv2, hv3⟩
          obtain ⟨M3, hset, hM3r, hM3c, hself, hother⟩ := DenseMatrix.setVal_spec M2 k j
            (m.mat_.val j k) (by omega) (by omega)
          refine ⟨{ E with mat_ := M3 }, ?_, M3, rfl, hM3r.trans hM2r, hM3c.trans hM2c, ?_, ?_⟩
          · beta_reduce
            rw [DenseMatrix.get_ok _ j k hj hk, bind_ok, hE2]
            show Except.map _ (M2.setVal k j _) = _
            rw [hset]
            rfl
          · intro j1 k1 hj1 hk1
            rw [hother k1 j1 (by omega) (by omega)]
            exact hv2 j1 k1 hj1 hk1
          · intro k1 hk1
            rcases Nat.lt_succ_iff_lt_or_eq.mp hk1 with hlt | heq
            · rw [hother k1 j (by omega) (by omega)]
              exact hv3 k1 hlt
            · rw [heq]
              exact hself)
      refine ⟨E2, hrun2, M2, hE2, hM2r, hM2c, ?_⟩
      intro j1 k hj1 hk
      rcases Nat.lt_succ_iff_lt_or_eq.mp hj1 with hlt | heq
      · exact hv2 j1 k hlt hk
      · rw [heq]
        exact hv3 k hk)
  refine ⟨M, ?_, hMr, hMc, hv⟩
  rw [transCopy, hrun, hE1]

theorem ElementMatrix.resize_noIds (E : ElementMatrix R P) (rows cols : ℕ) :
    E.resize rows cols false = .ok
      { E with
        _idsR := resizeIds E._idsR rows,
        _idsC := resizeIds E._idsC (if cols = 0 then rows else cols),
        _ids := resizeIds E._ids rows,
        mat_ := E.mat_.resize rows (if cols = 0 then rows else cols) } := by
  rw [ElementMatrix.resize]
  cases h : E._ent <;> simp [h]

/-- The body of the branch `const Space * B` on an integrated operator `m`
with components and at least one row. -/
theorem dotConstLeft_ok (A0 m T : ElementMatrix R P) (hint : m._integrated = true)
    (hnc : m._nCoeff ≠ 0) (hrows : 0 < m.mat_.rows) :
    ∃ T1, dotConstLeft A0 m T = .ok T1 ∧ T1.mat_.rows = m.mat_.cols ∧
      T1.mat_.cols = m.mat_.rows ∧
      (∀ j k, j < m.mat_.rows → k < m.mat_.cols → T1.mat_.val k j = m.mat_.val j k) ∧
      T1._idsR = range A0._dofOffset (A0._dofOffset + A0._nCoeff) ∧ T1._idsC = m._idsR ∧
      T1._integrated = true ∧ T1._matX = m._matX := by
  obtain ⟨T3, hT3⟩ : ∃ T3 : ElementMatrix R P, T3 =
      ({ (T.copyFrom m false) with
        _idsR := resizeIds (T.copyFrom m false)._idsR m.mat_.cols,
        _idsC := resizeIds (T.copyFrom m false)._idsC
          (if m.mat_.rows = 0 then m.mat_.cols else m.mat_.rows),
        _ids := resizeIds (T.copyFrom m false)._ids m.mat_.cols,
        mat_ := (T.copyFrom m false).mat_.resize m.mat_.cols
          (if m.mat_.rows = 0 then m.mat_.cols else m.mat_.rows) } : ElementMatrix R P).setIds
        (range A0._dofOffset (A0._dofOffset + A0._nCoeff)) m._idsR := ⟨_, rfl⟩
  have h3r : T3.mat_.rows = m.mat_.cols := by
    rw [hT3]
    exact DenseMatrix.resize_rows _ _ _
  have h3c : T3.mat_.cols = m.mat_.rows := by
    rw [hT3]
    show (DenseMatrix.resize _ _ _).cols = _
    rw [DenseMatrix.resize_cols, if_neg (by omega)]
  obtain ⟨M, hcopy, hMr, hMc, hv⟩ := transCopy_ok m T3 h3r h3c
  refine ⟨{ T3 with mat_ := M, _integrated := true }, ?_, hMr, hMc, hv, ?_, ?_, rfl, ?_⟩
  · rw [dotConstLeft, if_neg (by rw [hint]; exact Bool.noConfusion), if_neg hnc,
      ElementMatrix.resize_noIds, bind_ok, ← hT3, hcopy]
    rfl
  · rw [hT3]; rfl
  · rw [hT3]; rfl
  · rw [hT3]; rfl

/-- The loop of the map algebra returns when the target has an operator for
every operator of the source and the body returns on each; what the body
guarantees holds for every operator of the result. -/
theorem zipLoop_ok (src : List (ElementMatrix R P))
    (body : ℕ → ElementMatrix R P → ElementMatrix R P → Except Error (ElementMatrix R P))
    (ret : ElementMatrixMap R P) (Q : ℕ → ElementMatrix R P → Prop)
    (hlen : ret.mats.length = src.length)
    (hbody : ∀ i, i < src.length → ∀ T,
      ∃ T1, body i (src.getD i ElementMatrix.blank) T = .ok T1 ∧ Q i T1) :
    ∃ mats, ElementMatrixMap.zipLoop src body ret = .ok { ret with mats := mats } ∧
      mats.length = src.length ∧
      ∀ i, i < src.length → Q i (mats.getD i ElementMatrix.blank) := by
  obtain ⟨mats, hrun, hl, hQ⟩ := forLoop_inv
    (fun n (mats : List (ElementMatrix R P)) => mats.length = src.length ∧
      ∀ i, i < n → Q i (mats.getD i ElementMatrix.blank))
    (fun i mats =>
      match src[i]?, mats[i]? with
      | some m, some T => (body i m T).map fun T1 => mats.set i T1
      | _, _ => .error .outOfRange) src.length ret.mats
    ⟨hlen, fun i hi => absurd hi (Nat.not_lt_zero i)⟩
    (by
      intro i mats hi ⟨hl, hQ⟩
      have e1 : src[i]? = some (src.getD i ElementMatrix.blank) := getElem?_getD_of_lt _ _ hi
      have e2 : mats[i]? = some (mats.getD i ElementMatrix.blank) :=
        getElem?_getD_of_lt _ _ (by omega)
      obtain ⟨T1, hT1, hQ1⟩ := hbody i hi (mats.getD i ElementMatrix.blank)
      refine ⟨mats.set i T1, ?_, by rw [List.length_set]; exact hl, ?_⟩
      · simp only [e1, e2]
        rw [hT1]
        rfl
      · intro i1 hi1
        rcases Nat.lt_succ_iff_lt_or_eq.mp hi1 with hlt | heq
        · rw [getD_set_ne _ _ _ (by omega)]
          exact hQ i1 hlt
        · rw [heq, getD_set_self _ _ _ (by omega)]
          exact hQ1)
  refine ⟨mats, ?_, hl, hQ⟩
  rw [ElementMatrixMap.zipLoop, hrun]
  rfl

theorem ElementMatrixMap.resize_length (A : ElementMatrixMap R P) (n : ℕ) :
    (A.resize n).mats.length = n := by
  simp only [ElementMatrixMap.resize, List.length_append, List.length_take,
    List.length_replicate]
  omega

/-- Counterexample for C32: the operator of `mapNoRows` is integrated, has one
component and a 0 x 1 integrated matrix; the entry that `dot` of the constant
space returns for it has a 1 x 1 integrated matrix, not the 1 x 0 transpose,
and no column id. -/
theorem mapDot_const_counterexample :
    ∃ ret, Sample.constSpace.dot Sample.mapNoRows Sample.mapNone = .ok ret ∧
      (Sample.mapNoRows.mats.getD 0 ElementMatrix.blank)._integrated = true ∧
      (Sample.mapNoRows.mats.getD 0 ElementMatrix.blank)._nCoeff = 1 ∧
      (Sample.mapNoRows.mats.getD 0 ElementMatrix.blank).mat_.rows = 0 ∧
      (ret.mats.getD 0 ElementMatrix.blank).mat_.cols = 1 ∧
      (ret.mats.getD 0 ElementMatrix.blank)._idsC = [] :=
  ⟨_, rfl, rfl, rfl, rfl, rfl, rfl⟩

/-- C32 (amended): for a map `S` of size 1 whose operator `A0` has order 0
(constant space with `nCoeff` c and `dofOffset` o) and a map `B` of integrated
operators with `nCoeff > 0` and at least one row each, `S.dot(B, ret)` returns
and gives `ret` the size of `B`; for every `i`, `ret[i]` has the integrated
matrix equal to the transpose of `B[i]`'s, the row ids `[o, o + c)`, the column
ids `B[i].rowIds` and `integrated = true`; the basis images are those of
`B[i]`, no quadrature is performed. -/
theorem mapDot_const_transposed (S B ret : ElementMatrixMap R P) (A0 : ElementMatrix R P)
    (hS : S.mats = [A0]) (hord : A0._order = 0)
    (hint : ∀ q, q < B.mats.length → (B.mats.getD q ElementMatrix.blank)._integrated = true)
    (hnc : ∀ q, q < B.mats.length → (B.mats.getD q ElementMatrix.blank)._nCoeff ≠ 0)
    (hrows : ∀ q, q < B.mats.length → 0 < (B.mats.getD q ElementMatrix.blank).mat_.rows) :
    ∃ ret1, S.dot B ret = .ok ret1 ∧ ret1.mats.length = B.mats.length ∧
      ∀ q, q < B.mats.length →
        (ret1.mats.getD q ElementMatrix.blank).mat_.rows
          = (B.mats.getD q ElementMatrix.blank).mat_.cols ∧
        (ret1.mats.getD q ElementMatrix.blank).mat_.cols
          = (B.mats.getD q ElementMatrix.blank).mat_.rows ∧
        (∀ j k, j < (B.mats.getD q ElementMatrix.blank).mat_.rows →
          k < (B.mats.getD q ElementMatrix.blank).mat_.cols →
          (ret1.mats.getD q ElementMatrix.blank).mat_.val k j
            = (B.mats.getD q ElementMatrix.blank).mat_.val j k) ∧
        (ret1.mats.getD q ElementMatrix.blank)._idsR
          = List.range' A0._dofOffset A0._nCoeff ∧
        (ret1.mats.getD q ElementMatrix.blank)._idsC
          = (B.mats.getD q ElementMatrix.blank)._idsR ∧
        (ret1.mats.getD q ElementMatrix.blank)._integrated = true ∧
        (ret1.mats.getD q ElementMatrix.blank)._matX
          = (B.mats.getD q ElementMatrix.blank)._matX := by
  have hconst : S.isConstSpace = true := by
    simp [ElementMatrixMap.isConstSpace, ElementMatrixMap.size, hS, hord]
  have h0 : S.mats[0]? = some A0 := by rw [hS]; rfl
  obtain ⟨mats, hrun, hl, hQ⟩ := zipLoop_ok B.mats (fun _ m T => dotConstLeft A0 m T)
    ((ret.resize B.size).setDof (A0._nCoeff + A0._dofOffset) B.dof)
    (fun q T1 => T1.mat_.rows = (B.mats.getD q ElementMatrix.blank).mat_.cols ∧
      T1.mat_.cols = (B.mats.getD q ElementMatrix.blank).mat_.rows ∧
      (∀ j k, j < (B.mats.getD q ElementMatrix.blank).mat_.rows →
        k < (B.mats.getD q ElementMatrix.blank).mat_.cols →
        T1.mat_.val k j = (B.mats.getD q ElementMatrix.blank).mat_.val j k) ∧
      T1._idsR = List.range' A0._dofOffset A0._nCoeff ∧
      T1._idsC = (B.mats.getD q ElementMatrix.blank)._idsR ∧
      T1._integrated = true ∧ T1._matX = (B.mats.getD q ElementMatrix.blank)._matX)
    (ElementMatrixMap.resize_length ret B.size)
    (by
      intro q hq T
      obtain ⟨T1, h1, h2, h3, h4, h5, h6, h7, h8⟩ := dotConstLeft_ok A0
        (B.mats.getD q ElementMatrix.blank) T (hint q hq) (hnc q hq) (hrows q hq)
      refine ⟨T1, h1, h2, h3, h4, ?_, h6, h7, h8⟩
      rw [h5, range, Nat.add_sub_cancel_left])
  refine ⟨{ ((ret.resize B.size).setDof (A0._nCoeff + A0._dofOffset) B.dof) with
    mats := mats }, ?_, hl, hQ⟩
  rw [ElementMatrixMap.dot, if_pos hconst]
  simp only [h0]
  exact hrun

/-- Witness for C32 (amended): the constant space with one component and the
dof offset 1, and the map with the integrated 3 x 1 operator `opInt`. -/
theorem mapDot_const_transposed_witness :
    ∃ ret1, Sample.constSpace.dot Sample.mapInt Sample.mapNone = .ok ret1 ∧
      ret1.mats.length = Sample.mapInt.mats.length ∧
      ∀ q, q < Sample.mapInt.mats.length →
        (ret1.mats.getD q ElementMatrix.blank).mat_.rows
          = (Sample.mapInt.mats.getD q ElementMatrix.blank).mat_.cols ∧
        (ret1.mats.getD q ElementMatrix.blank).mat_.cols
          = (Sample.mapInt.mats.getD q ElementMatrix.blank).mat_.rows ∧
        (∀ j k, j < (Sample.mapInt.mats.getD q ElementMatrix.blank).mat_.rows →
          k < (Sample.mapInt.mats.getD q ElementMatrix.blank).mat_.cols →
          (ret1.mats.getD q ElementMatrix.blank).mat_.val k j
            = (Sample.mapInt.mats.getD q ElementMatrix.blank).mat_.val j k) ∧
        (ret1.mats.getD q ElementMatrix.blank)._idsR
          = List.range' (Sample.constSpace.mats.getD 0 ElementMatrix.blank)._dofOffset
              (Sample.constSpace.mats.getD 0 ElementMatrix.blank)._nCoeff ∧
        (ret1.mats.getD q ElementMatrix.blank)._idsC
          = (Sample.mapInt.mats.getD q ElementMatrix.blank)._idsR ∧
        (ret1.mats.getD q ElementMatrix.blank)._integrated = true ∧
        (ret1.mats.getD q ElementMatrix.blank)._matX
          = (Sample.mapInt.mats.getD q ElementMatrix.blank)._matX :=
  mapDot_const_transposed Sample.constSpace Sample.mapInt Sample.mapNone
    (Sample.constSpace.mats.getD 0 ElementMatrix.blank) rfl rfl
    (by
      intro q hq
      have hq1 : q < 1 := hq
      interval_cases q
      rfl)
    (by
      intro q hq
      have hq1 : q < 1 := hq
      interval_cases q
      decide)
    (by
      intro q hq
      have hq1 : q < 1 := hq
      interval_cases q
      decide)

/-- The first loop of the legacy `ux2uy2`: column `q` of `dNdr_` and of `dNds_`
holds the reference gradients at the quadrature point `x[q]`. -/
theorem ux2uy2_cols_loop (ent : MeshEntity R P) (x : List P) (d : P)
    (n nV : ℕ) (hn : n ≤ x.length) (r0 s0 : DenseMatrix R) (hr : r0.rows = nV)
    (hc : r0.cols = n) (hsr : s0.rows = nV) (hsc : s0.cols = n) :
    ∃ rs : DenseMatrix R × DenseMatrix R,
      forLoop n (fun i (rs : DenseMatrix R × DenseMatrix R) =>
          match x[i]? with
          | none => .error .outOfRange
          | some xi =>
            (rs.1.setCol i (ent.dNdL xi 0)).bind fun r =>
            (rs.2.setCol i (ent.dNdL xi 1)).map fun s => (r, s)) (r0, s0) = .ok rs ∧
      rs.1.rows = nV ∧ rs.1.cols = n ∧ rs.2.rows = nV ∧ rs.2.cols = n ∧
      ∀ i q, i < nV → q < n → rs.1.val i q = ent.dNdL (x.getD q d) 0 i ∧
        rs.2.val i q = ent.dNdL (x.getD q d) 1 i := by
  apply forLoop_inv
    (fun k (rs : DenseMatrix R × DenseMatrix R) => rs.1.rows = nV ∧ rs.1.cols = n ∧
      rs.2.rows = nV ∧ rs.2.cols = n ∧
      ∀ i q, i < nV → q < k → rs.1.val i q = ent.dNdL (x.getD q d) 0 i ∧
        rs.2.val i q = ent.dNdL (x.getD q d) 1 i)
  · exact ⟨hr, hc, hsr, hsc, fun i q _ hq => absurd hq (Nat.not_lt_zero q)⟩
  · intro k rs hk ⟨h1, h2, h3, h4, h5⟩
    have hx := getElem?_getD_of_lt x d (lt_of_lt_of_le hk hn)
    obtain ⟨r1, hset, hr1, hc1, hv1⟩ := DenseMatrix.setCol_ok rs.1 k
      (ent.dNdL (x.getD k d) 0) (by rw [h2]; exact hk)
    obtain ⟨s1, hset2, hr2, hc2, hv2⟩ := DenseMatrix.setCol_ok rs.2 k
      (ent.dNdL (x.getD k d) 1) (by rw [h4]; exact hk)
    refine ⟨(r1, s1), ?_, hr1.trans h1, hc1.trans h2, hr2.trans h3, hc2.trans h4, ?_⟩
    · simp only [hx]
      rw [hset, bind_ok, hset2, map_ok]
    · intro i q hi hq
      show r1.val i q = _ ∧ s1.val i q = _
      rw [hv1 i q (by rw [h1]; exact hi) (by rw [h2]; omega),
        hv2 i q (by rw [h3]; exact hi) (by rw [h4]; omega)]
      by_cases hqk : q = k
      · rw [if_pos hqk, if_pos hqk, hqk]
        exact ⟨rfl, rfl⟩
      · rw [if_neg hqk, if_neg hqk]
        exact h5 i q hi (by omega)

/-- The second loop of the legacy `ux2uy2`: row `i` of `dNdx_` and of `dNdy_`
holds the physical gradients of node `i`. -/
theorem ux2uy2_phys_loop (r s dx0 dy0 : DenseMatrix R) (a b c e : R) (nV n : ℕ)
    (hrr : r.rows = nV) (hsr : s.rows = nV)
    (hxr : dx0.rows = nV) (hxc : dx0.cols = n) (hyr : dy0.rows = nV) (hyc : dy0.cols = n) :
    ∃ dd : DenseMatrix R × DenseMatrix R,
      forLoop nV (fun i (d : DenseMatrix R × DenseMatrix R) =>
          (r.row i).bind fun rr => (s.row i).bind fun ss =>
          (d.1.setRow i (fun k => a * rr k + c * ss k)).bind fun dx =>
          (d.2.setRow i (fun k => b * rr k + e * ss k)).map fun dy => (dx, dy))
        (dx0, dy0) = .ok dd ∧
      dd.1.rows = nV ∧ dd.1.cols = n ∧ dd.2.rows = nV ∧ dd.2.cols = n ∧
      ∀ i q, i < nV → q < n → dd.1.val i q = a * r.val i q + c * s.val i q ∧
        dd.2.val i q = b * r.val i q + e * s.val i q := by
  obtain ⟨dd, hrun, h1, h2, h3, h4, h5⟩ := forLoop_inv
    (fun k (d : DenseMatrix R × DenseMatrix R) => d.1.rows = nV ∧ d.1.cols = n ∧
      d.2.rows = nV ∧ d.2.cols = n ∧
      ∀ i q, i < k → q < n → d.1.val i q = a * r.val i q + c * s.val i q ∧
        d.2.val i q = b * r.val i q + e * s.val i q)
    (fun i (d : DenseMatrix R × DenseMatrix R) =>
          (r.row i).bind fun rr => (s.row i).bind fun ss =>
          (d.1.setRow i (fun k => a * rr k + c * ss k)).bind fun dx =>
          (d.2.setRow i (fun k => b * rr k + e * ss k)).map fun dy => (dx, dy))
    nV (dx0, dy0)
    ⟨hxr, hxc, hyr, hyc, fun i q hi _ => absurd hi (Nat.not_lt_zero i)⟩
    (by
      intro k d hk ⟨h1, h2, h3, h4, h5⟩
      obtain ⟨X, hX, hXr, hXc, hXv, hXo⟩ := DenseMatrix.setRow_ok d.1 k
        (fun q => a * r.val k q + c * s.val k q) (by rw [h1]; exact hk)
      obtain ⟨Y, hY, hYr, hYc, hYv, hYo⟩ := DenseMatrix.setRow_ok d.2 k
        (fun q => b * r.val k q + e * s.val k q) (by rw [h3]; exact hk)
      refine ⟨(X, Y), ?_, hXr.trans h1, hXc.trans h2, hYr.trans h3, hYc.trans h4, ?_⟩
      · beta_reduce
        rw [DenseMatrix.row_ok r k (by rw [hrr]; exact hk), bind_ok,
          DenseMatrix.row_ok s k (by rw [hsr]; exact hk), bind_ok, hX, bind_ok, hY, map_ok]
      · intro i q hi hq
        show X.val i q = _ ∧ Y.val i q = _
        by_cases hik : i = k
        · rw [hik, hXv q (by rw [h2]; exact hq), hYv q (by rw [h4]; exact hq)]
          exact ⟨rfl, rfl⟩
        · rw [hXo i q hik (by rw [h2]; exact hq), hYo i q hik (by rw [h4]; exact hq)]
          exact h5 i q (by omega) hq)
  exact ⟨dd, hrun, h1, h2, h3, h4, fun i q hi hq => h5 i q hi hq⟩

/-- The closing double loop of the legacy `ux2uy2` for three nodes: entry
`(i, j)` is `A` times the weighted sum of the gradient products. -/
theorem ux2uy2_fill3 (w : List R) (dx dy M0 : DenseMatrix R) (A : R)
    (hxr : dx.rows = 3) (hxc : dx.cols = w.length) (hyr : dy.rows = 3)
    (hyc : dy.cols = w.length) (hMr : M0.rows = 3) (hMc : M0.cols = 3) :
    ∃ M, fillSym 3 (fun i j =>
        (dx.row i).bind fun xi => (dx.row j).bind fun xj =>
        (dy.row i).bind fun yi => (dy.row j).bind fun yj =>
        (vecSum w [dx.cols, dy.cols]
          (fun k => w.getD k 0 * (xi k * xj k + yi k * yj k))).map
          fun t => A * t) M0 = .ok M ∧
      M.rows = 3 ∧ M.cols = 3 ∧
      ∀ i j, i < 3 → j < 3 → M.val i j
        = A * ∑ k in Finset.range w.length,
            w.getD k 0 * (dx.val i k * dx.val j k + dy.val i k * dy.val j k) := by
  simp [fillSym, forLoop, DenseMatrix.row, vecSum, DenseMatrix.setVal, DenseMatrix.get,
    DenseMatrix.val, hxr, hxc, hyr, hyc, hMr, hMc, bind_ok, Except.bind, Except.map,
    Function.update_apply]
  intro i j hi hj
  interval_cases i <;> interval_cases j <;> simp <;>
    (left; exact Finset.sum_congr rfl (fun k _ => by ring))

/-- The legacy `ux2uy2(ent, w, x)` for three nodes on an operator with a 3 x 3
integrated matrix whose gradient cache is not sized for three nodes: entry
`(i, j)` is `domainSize` times the weighted sum of the products of the
physical gradients of the nodes `i` and `j`. -/
theorem ux2uy2_ok3 {K : Type} [Field K] (Q : ElementMatrix K (K × K))
    (ent : MeshEntity K (K × K)) (w : List K) (x : List (K × K))
    (hn : ent.nodeCount = 3) (hlen : w.length ≤ x.length)
    (hQr : Q.mat_.rows = 3) (hQc : Q.mat_.cols = 3) (hmiss : Q.dNdr_.rows ≠ 3) :
    ∃ Q1, Q.ux2uy2 ent w x = .ok Q1 ∧ Q1.mat_.rows = 3 ∧ Q1.mat_.cols = 3 ∧
      ∀ i j, i < 3 → j < 3 → Q1.mat_.val i j
        = ent.domainSize * ∑ k in Finset.range w.length, w.getD k 0 *
          ((ent.drstdxyz 0 0 * ent.dNdL (x.getD k (0, 0)) 0 i
              + ent.drstdxyz 1 0 * ent.dNdL (x.getD k (0, 0)) 1 i)
            * (ent.drstdxyz 0 0 * ent.dNdL (x.getD k (0, 0)) 0 j
              + ent.drstdxyz 1 0 * ent.dNdL (x.getD k (0, 0)) 1 j)
          + (ent.drstdxyz 0 1 * ent.dNdL (x.getD k (0, 0)) 0 i
              + ent.drstdxyz 1 1 * ent.dNdL (x.getD k (0, 0)) 1 i)
            * (ent.drstdxyz 0 1 * ent.dNdL (x.getD k (0, 0)) 0 j
              + ent.drstdxyz 1 1 * ent.dNdL (x.getD k (0, 0)) 1 j)) := by
  obtain ⟨rs, hrs, h1, h2, h3, h4, h5⟩ := ux2uy2_cols_loop ent x (0, 0) w.length 3 hlen
    (Q.dNdr_.resize 3 w.length) (Q.dNds_.resize 3 w.length)
    (DenseMatrix.resize_rows _ _ _) (DenseMatrix.resize_cols _ _ _)
    (DenseMatrix.resize_rows _ _ _) (DenseMatrix.resize_cols _ _ _)
  obtain ⟨dd, hdd, g1, g2, g3, g4, g5⟩ := ux2uy2_phys_loop rs.1 rs.2
    (Q.dNdx_.resize 3 w.length) (Q.dNdy_.resize 3 w.length)
    (ent.drstdxyz 0 0) (ent.drstdxyz 0 1) (ent.drstdxyz 1 0) (ent.drstdxyz 1 1) 3 w.length
    h1 h3 (DenseMatrix.resize_rows _ _ _) (DenseMatrix.resize_cols _ _ _)
    (DenseMatrix.resize_rows _ _ _) (DenseMatrix.resize_cols _ _ _)
  obtain ⟨M, hM, hMr, hMc, hMv⟩ := ux2uy2_fill3 w dd.1 dd.2 Q.mat_ ent.domainSize
    g1 g2 g3 g4 hQr hQc
  refine ⟨{ Q with
    dNdr_ := rs.1, dNds_ := rs.2, dNdx_ := dd.1, dNdy_ := dd.2, mat_ := M }, ?_, hMr, hMc, ?_⟩
  · simp only [ElementMatrix.ux2uy2, hn, hmiss, ne_eq, not_false_eq_true, if_true, hrs,
      map_ok, bind_ok, hdd, hM]
  · intro i j hi hj
    show M.val i j = _
    rw [hMv i j hi hj]
    congr 1
    apply Finset.sum_congr rfl
    intro k hk
    have hk1 := Finset.mem_range.mp hk
    rw [(g5 i k hi hk1).1, (g5 i k hi hk1).2, (g5 j k hj hk1).1, (g5 j k hj hk1).2,
      (h5 i k hi hk1).1, (h5 i k hi hk1).2, (h5 j k hj hk1).1, (h5 j k hj hk1).2]

/-- The closed-form triangle branch on a 3 x 3 matrix writes the nine entries
from the edge products `a`, `b`, `c`. -/
theorem triangleStiffness_entries (cell : MeshEntity R P) (M : DenseMatrix R) (a b c : R)
    (hr : M.rows = 3) (hc : M.cols = 3)
    (ha : a = ((cell.nodeX 2 - cell.nodeX 0) * (cell.nodeX 2 - cell.nodeX 0)
      + (cell.nodeY 2 - cell.nodeY 0) * (cell.nodeY 2 - cell.nodeY 0)) / (cell.size * 2))
    (hb : b = -((cell.nodeX 2 - cell.nodeX 0) * (cell.nodeX 1 - cell.nodeX 0)
      + (cell.nodeY 2 - cell.nodeY 0) * (cell.nodeY 1 - cell.nodeY 0)) / (cell.size * 2))
    (hcc : c = ((cell.nodeX 1 - cell.nodeX 0) * (cell.nodeX 1 - cell.nodeX 0)
      + (cell.nodeY 1 - cell.nodeY 0) * (cell.nodeY 1 - cell.nodeY 0)) / (cell.size * 2)) :
    ∃ M1, ElementMatrix.triangleStiffness cell M = .ok M1 ∧ M1.rows = 3 ∧ M1.cols = 3 ∧
      M1.val 0 0 = a * (1 / 2) + b + c * (1 / 2) ∧
      M1.val 0 1 = a * -(1 / 2) + b * -(1 / 2) ∧
      M1.val 0 2 = b * -(1 / 2) + c * -(1 / 2) ∧
      M1.val 1 0 = a * -(1 / 2) + b * -(1 / 2) ∧ M1.val 1 1 = a * (1 / 2) ∧
      M1.val 1 2 = b * (1 / 2) ∧
      M1.val 2 0 = b * -(1 / 2) + c * -(1 / 2) ∧ M1.val 2 1 = b * (1 / 2) ∧
      M1.val 2 2 = c * (1 / 2) := by
  subst ha hb hcc
  simp [ElementMatrix.triangleStiffness, DenseMatrix.setVal, DenseMatrix.get,
    DenseMatrix.val, hr, hc, bind_ok, Except.bind, Function.update_apply]

/-- The quadrature entry of the linear triangle in closed form: with the
inverse Jacobian entries `Y3 / D`, `-X3 / D`, `-Y2 / D`, `X2 / D` and the
measure `t / 2`, `t = |D|`, the factor `1 / D^2` and the measure combine to
`1 / (2 t)`. -/
theorem tri_quad_alg {K : Type} [Field K] (X2 X3 Y2 Y3 D t ri si rj sj : K) (hD : D ≠ 0)
    (ht : t = D ∨ t = -D) :
    t / 2 * ((Y3 / D * ri + -Y2 / D * si) * (Y3 / D * rj + -Y2 / D * sj)
        + (-X3 / D * ri + X2 / D * si) * (-X3 / D * rj + X2 / D * sj))
      = ((Y3 * ri - Y2 * si) * (Y3 * rj - Y2 * sj)
          + (X2 * si - X3 * ri) * (X2 * sj - X3 * rj)) / (2 * t) := by
  have htt : t * t = D * D := by
    rcases ht with rfl | rfl
    · rfl
    · ring
  have ht0 : t ≠ 0 := by
    rcases ht with rfl | rfl
    · exact hD
    · exact neg_ne_zero.mpr hD
  by_cases h : (2 : K) = 0
  · have e : ∀ a : K, a / 2 = 0 := fun a => by rw [h, div_zero]
    rw [e, zero_mul, h, zero_mul, div_zero]
  · have key : t / 2 * (1 / (D * D)) = 1 / (2 * t) := by
      rw [← htt]
      field_simp
      ring
    have e1 : (Y3 / D * ri + -Y2 / D * si) * (Y3 / D * rj + -Y2 / D * sj)
        + (-X3 / D * ri + X2 / D * si) * (-X3 / D * rj + X2 / D * sj)
        = ((Y3 * ri - Y2 * si) * (Y3 * rj - Y2 * sj)
          + (X2 * si - X3 * ri) * (X2 * sj - X3 * rj)) * (1 / (D * D)) := by
      field_simp
      ring
    rw [e1, ← mul_assoc, mul_comm (t / 2), mul_assoc, key]
    ring

/-- C34: for every non-degenerate linear triangle `cell` (three nodes, Jacobian
determinant `D` not zero, `shape.drstdxyz` the inverse Jacobian of the affine
map, the reference gradients of the linear basis `(1 - r - s, r, s)`, and the
measure `|D| / 2`) and every rule whose weights sum to 1 and that has a point
for every weight, `ux2uy2uz2(cell)` on a legacy operator (`_nDof = 0`) and
`ux2uy2(cell, w, x)` on an operator with a 3 x 3 integrated matrix and a
gradient cache not sized for three nodes both return, and the closed-form
stiffness matrix of the first equals the quadrature result of the second entry
by entry. -/
theorem triangle_closed_form_is_quadrature {K : Type} [LinearOrderedField K]
    (rules : IntegrationRules K (K × K)) (E Q : ElementMatrix K (K × K))
    (cell : MeshEntity K (K × K)) (w : List K) (x : List (K × K))
    (hcell : IsAffineTriangle cell)
    (hw : ∑ q in Finset.range w.length, w.getD q 0 = 1) (hlen : w.length ≤ x.length)
    (hdof : E._nDof = 0) (hfit : ∀ e, E._ent = some e → E._nCoeff * e.nodeCount ≤ 3)
    (hQr : Q.mat_.rows = 3) (hQc : Q.mat_.cols = 3) (hmiss : Q.dNdr_.rows ≠ 3) :
    ∃ Ec Eq, E.ux2uy2uz2Cell rules cell = .ok Ec ∧ Q.ux2uy2 cell w x = .ok Eq ∧
      Ec.mat_.rows = 3 ∧ Ec.mat_.cols = 3 ∧ Eq.mat_.rows = 3 ∧ Eq.mat_.cols = 3 ∧
      ∀ i j, i < 3 → j < 3 → Ec.mat_.val i j = Eq.mat_.val i j := by
  obtain ⟨hrtti, hn, hD, hJ00, hJ01, hJ10, hJ11, hgr, hgs, hsize, hdom⟩ := hcell
  obtain ⟨E1, hfill, hr, hc⟩ := ElementMatrix.fillIds_ok E cell hdof
    (fun e he => by rw [hn]; exact hfit e he)
  obtain ⟨M1, hM1, hM1r, hM1c, c00, c01, c02, c10, c11, c12, c20, c21, c22⟩ :=
    triangleStiffness_entries cell E1.mat_ _ _ _ (hr.trans hn) (hc.trans hn) rfl rfl rfl
  obtain ⟨Q1, hQ1, hQ1r, hQ1c, hQv⟩ := ux2uy2_ok3 Q cell w x hn hlen hQr hQc hmiss
  refine ⟨{ E1 with
    mat_ := M1 }, Q1, ?_, hQ1, hM1r, hM1c, hQ1r, hQ1c, ?_⟩
  · simp only [ElementMatrix.ux2uy2uz2Cell, hfill, bind_ok, hrtti, hM1, map_ok]
  · have ht : |triDet cell| ≠ 0 := abs_ne_zero.mpr hD
    have habs : |triDet cell| = triDet cell ∨ |triDet cell| = -triDet cell := by
      rcases lt_or_gt_of_ne hD with h | h
      · exact Or.inr (abs_of_neg h)
      · exact Or.inl (abs_of_pos h)
    have hsum : ∀ cst : K, ∑ k in Finset.range w.length, w.getD k 0 * cst = cst := by
      intro cst
      rw [← Finset.sum_mul, hw, one_mul]
    intro i j hi hj
    show M1.val i j = Q1.mat_.val i j
    rw [hQv i j hi hj, hdom, hJ00, hJ01, hJ10, hJ11]
    interval_cases i <;> interval_cases j <;>
      simp only [c00, c01, c02, c10, c11, c12, c20, c21, c22, (hgr _).1, (hgr _).2.1,
        (hgr _).2.2, (hgs _).1, (hgs _).2.1, (hgs _).2.2, hsum, hsize] <;>
      rw [tri_quad_alg _ _ _ _ _ _ _ _ _ _ hD habs] <;> field_simp <;> ring

theorem Sample.triSkew_affine : IsAffineTriangle Sample.triSkew := by
  have hdet : triDet Sample.triSkew = 6 := by norm_num [triDet, Sample.triSkew]
  refine ⟨rfl, rfl, by rw [hdet]; norm_num, ?_, ?_, ?_, ?_, ?_, ?_, ?_, ?_⟩
  · rw [hdet]; norm_num [Sample.triSkew]
  · rw [hdet]; norm_num [Sample.triSkew]
  · rw [hdet]; norm_num [Sample.triSkew]
  · rw [hdet]; norm_num [Sample.triSkew]
  · intro p; norm_num [Sample.triSkew]
  · intro p; norm_num [Sample.triSkew]
  · rw [hdet]; norm_num [Sample.triSkew]
  · rw [hdet]; norm_num [Sample.triSkew]

/-- Witness for C34: the triangle with nodes (0,0), (2,0), (1,3) under the
edge-midpoint rule, a freshly constructed operator for the closed form and the
3 x 3 legacy operator `legacyTri` for the quadrature. -/
theorem triangle_closed_form_is_quadrature_witness :
    ∃ Ec Eq, (ElementMatrix.blank : ElementMatrix ℚ (ℚ × ℚ)).ux2uy2uz2Cell Sample.midRules
        Sample.triSkew = .ok Ec ∧
      Sample.legacyTri.ux2uy2 Sample.triSkew [1/3, 1/3, 1/3]
        [(1/2, 0), (1/2, 1/2), (0, 1/2)] = .ok Eq ∧
      Ec.mat_.rows = 3 ∧ Ec.mat_.cols = 3 ∧ Eq.mat_.rows = 3 ∧ Eq.mat_.cols = 3 ∧
      ∀ i j, i < 3 → j < 3 → Ec.mat_.val i j = Eq.mat_.val i j :=
  triangle_closed_form_is_quadrature Sample.midRules ElementMatrix.blank Sample.legacyTri
    Sample.triSkew [1/3, 1/3, 1/3] [(1/2, 0), (1/2, 1/2), (0, 1/2)] Sample.triSkew_affine
    (by norm_num [Finset.sum_range_succ]) (by decide) rfl (fun e he => by cases he)
    (DenseMatrix.resize_rows _ _ _) (DenseMatrix.resize_cols _ _ _) (by decide)

end GIMLI
